import Mathlib

/-!
# bakuo: rectangle overlap, cell grid, explosion and position correction

A shallow embedding of `main.go`.  Go's `int` is embedded as `Int`.
`CollideRect64` is `CollideRect` with the wrapping 64-bit arithmetic of the
compiled code; the statements about `CollideRect` for arbitrary rectangles are
made on it.  The quantities of the running game (grid coordinates, pixel
positions, frame counters) stay far from the 64-bit range, where
`CollideRect64_eq` shows that the unbounded `CollideRect` computes the same.
A Go run-time panic (nil dereference, index out of range, division by zero)
is the outcome `crash`.
-/

namespace Bakuo

/-! ## Geometry -/

/-- `CollideRect` of main.go: the two named results are zero-initialised and
are assigned only when both signed gaps on the axis are negative. -/
def CollideRect (x1 y1 w1 h1 x2 y2 w2 h2 : Int) : Int × Int :=
  let dx1 := x1 - (x2 + w2)
  let dx2 := x2 - (x1 + w1)
  let dx : Int := if dx1 < 0 ∧ dx2 < 0 then (if dx1 > dx2 then -dx1 else dx2) else 0
  let dy1 := y1 - (y2 + h2)
  let dy2 := y2 - (y1 + h1)
  let dy : Int := if dy1 < 0 ∧ dy2 < 0 then (if dy1 > dy2 then -dy1 else dy2) else 0
  (dx, dy)

/-- Two's complement reading of an integer in 64 bits. -/
def wrap64 (a : Int) : Int := (a + 2 ^ 63) % 2 ^ 64 - 2 ^ 63

/-- `CollideRect` with every arithmetic operation wrapped to 64 bits, as the
Go compiler emits it on a 64-bit target. -/
def CollideRect64 (x1 y1 w1 h1 x2 y2 w2 h2 : Int) : Int × Int :=
  let dx1 := wrap64 (x1 - wrap64 (x2 + w2))
  let dx2 := wrap64 (x2 - wrap64 (x1 + w1))
  let dx : Int := if dx1 < 0 ∧ dx2 < 0 then (if dx1 > dx2 then wrap64 (-dx1) else dx2) else 0
  let dy1 := wrap64 (y1 - wrap64 (y2 + h2))
  let dy2 := wrap64 (y2 - wrap64 (y1 + h1))
  let dy : Int := if dy1 < 0 ∧ dy2 < 0 then (if dy1 > dy2 then wrap64 (-dy1) else dy2) else 0
  (dx, dy)

/-- `absInt` of main.go. -/
def absInt (x : Int) : Int := if x < 0 then -x else x

/-- A value that fits with room to spare in a 64-bit signed integer. -/
def Small (a : Int) : Prop := -(2 ^ 61) ≤ a ∧ a < 2 ^ 61

/-! ## Outcomes -/

/-- Result of running a piece of the program: it returns a value, it stops
with a Go run-time panic, or the embedding's recursion budget ran out. -/
inductive Outcome (α : Type) where
  | done (a : α) : Outcome α
  | crash : Outcome α
  | outOfFuel : Outcome α
deriving DecidableEq, Repr

/-- Sequencing: the continuation runs only after a normal return. -/
def Outcome.bind {α β : Type} (o : Outcome α) (k : α → Outcome β) : Outcome β :=
  match o with
  | Outcome.done a => k a
  | Outcome.crash => Outcome.crash
  | Outcome.outOfFuel => Outcome.outOfFuel

/-! ## Cells -/

/-- The constants `CellNone` .. `CellFlame` of main.go. -/
inductive CellType where
  | CellNone | CellWall | CellSoft | CellBomb | CellFlame
deriving DecidableEq, Repr

/-- Address of a `Character`; pointers to characters are only compared. -/
abbrev CharPtr := Nat

/-- `BombCell` of main.go; `putter` is a possibly nil `*Character`. -/
structure BombCell where
  framesToExplosion : Int
  power : Int
  putter : Option CharPtr
deriving DecidableEq, Repr

/-- `FlameCell` of main.go. -/
structure FlameCell where
  frames : Int
deriving DecidableEq, Repr

/-- A non-nil value of the interface `Cell`: one of the four implementing
struct types.  `WallCell` and `SoftCell` have no fields. -/
inductive Cell where
  | Wall : Cell
  | Soft : Cell
  | Bomb (c : BombCell) : Cell
  | Flame (c : FlameCell) : Cell
deriving DecidableEq, Repr

/-- `NewWallCell` of main.go. -/
def NewWallCell : Cell := Cell.Wall

/-- `NewSoftCell` of main.go. -/
def NewSoftCell : Cell := Cell.Soft

/-- `NewBombCell` of main.go. -/
def NewBombCell (c : CharPtr) : Cell :=
  Cell.Bomb { framesToExplosion := 180, power := 3, putter := some c }

/-- `NewFlameCell` of main.go. -/
def NewFlameCell : Cell := Cell.Flame { frames := 60 }

/-- The method `Type` of the four cell types. -/
def Cell.Type : Cell → CellType
  | Cell.Wall => CellType.CellWall
  | Cell.Soft => CellType.CellSoft
  | Cell.Bomb _ => CellType.CellBomb
  | Cell.Flame _ => CellType.CellFlame

/-- `BombCell.HasExpired` of main.go. -/
def BombCell.HasExpired (c : BombCell) : Bool := decide (c.framesToExplosion ≤ 0)

/-- `FlameCell.HasExpired` of main.go. -/
def FlameCell.HasExpired (c : FlameCell) : Bool := decide (c.frames < 0)

/-- The method `HasExpired` of the four cell types. -/
def Cell.HasExpired : Cell → Bool
  | Cell.Wall => false
  | Cell.Soft => false
  | Cell.Bomb c => c.HasExpired
  | Cell.Flame c => c.HasExpired

/-! ## The grid -/

/-- `Map` of main.go.  A slot of `Cells` holds an interface value: `none` is
the nil interface (an empty slot). -/
structure Map where
  CellLength : Int
  Width : Int
  Height : Int
  Cells : List (Option Cell)
deriving DecidableEq, Repr

/-- `Map.At` of main.go.  The result is a pointer into `Cells`, embedded as
the index it points at; `none` is the nil pointer.  (Taking the address of an
element outside the slice panics in Go; readers of the pointer below treat an
index outside `Cells` as a crash.) -/
def Map.At (m : Map) (x y : Int) : Option Nat :=
  if x < 0 ∨ m.Width ≤ x ∨ y < 0 ∨ m.Height ≤ y then none
  else some (x + y * m.Width).toNat

/-- `Map.AtPos` of main.go; Go's `/` truncates toward zero and panics on a
zero divisor. -/
def Map.AtPos (m : Map) (x y : Int) : Outcome (Option Nat) :=
  if m.CellLength = 0 then Outcome.crash
  else Outcome.done (m.At (x.tdiv m.CellLength) (y.tdiv m.CellLength))

/-- The assignment `*p = v` through a slot pointer `p`. -/
def Map.store (m : Map) (i : Nat) (v : Option Cell) : Map :=
  { m with Cells := m.Cells.set i v }

/-- What the slot at grid coordinate `(x, y)` holds: `none` when the
coordinate is outside the grid, `some none` for an empty slot. -/
def Map.slot (m : Map) (x y : Int) : Option (Option Cell) :=
  match m.At x y with
  | none => none
  | some i => m.Cells[i]?

/-- The slice has the length `make([]Cell, m.Width*m.Height)` gave it. -/
def Map.WF (m : Map) : Prop :=
  0 ≤ m.Width ∧ 0 ≤ m.Height ∧ (m.Cells.length : Int) = m.Width * m.Height

/-- The coordinates visited by `for x := 0; x < Width; x++ { for y := 0; y <
Height; y++ {..} }`, in visiting order. -/
def Map.coords (m : Map) : List (Int × Int) :=
  (List.range m.Width.toNat).flatMap fun (x : Nat) =>
    (List.range m.Height.toNat).map fun (y : Nat) => (Int.ofNat x, Int.ofNat y)

/-- `Map.ForEach` of main.go over the coordinates `cs`, for a callback that
owns a state `σ` in which the map lives (`get`): every slot is read when it
is visited, so the callback sees what earlier callbacks wrote.  The callback
also gets the slot's index, the address of the slot holding the visited cell. -/
def ForEach {σ : Type} (get : σ → Map) (fn : Int → Int → Nat → Cell → σ → Outcome σ) :
    List (Int × Int) → σ → Outcome σ
  | [], s => Outcome.done s
  | (x, y) :: cs, s =>
    match (get s).At x y with
    | none => Outcome.crash
    | some i =>
      match (get s).Cells[i]? with
      | none => Outcome.crash
      | some none => ForEach get fn cs s
      | some (some cell) => (fn x y i cell s).bind (ForEach get fn cs)

/-- The loop of `Map.Cleanup` over the coordinates `cs`. -/
def Map.cleanupLoop : List (Int × Int) → Map → Outcome Map
  | [], m => Outcome.done m
  | (x, y) :: cs, m =>
    match m.At x y with
    | none => Outcome.crash
    | some i =>
      match m.Cells[i]? with
      | none => Outcome.crash
      | some none => Map.cleanupLoop cs m
      | some (some cell) =>
        if cell.HasExpired then Map.cleanupLoop cs (m.store i none)
        else Map.cleanupLoop cs m

/-- `Map.Cleanup` of main.go. -/
def Map.Cleanup (m : Map) : Outcome Map := Map.cleanupLoop m.coords m

/-! ## Explosion -/

/-- The assignment `c.framesToExplosion = 0` that opens `Map.Explosion`.  The
bomb `c` is passed by pointer and both callers pass the occupant of slot
`(x, y)`, so the write lands in that slot. -/
def Map.markExpired (m : Map) (x y : Int) : Map :=
  match m.At x y with
  | none => m
  | some i =>
    match m.Cells[i]? with
    | some (some (Cell.Bomb b)) => m.store i (some (Cell.Bomb { b with framesToExplosion := 0 }))
    | _ => m

/-- The closure `f` of `Map.Explosion`; `rec` is the recursive call
`m.Explosion`.  Dereferencing the nil pointer that `At` returns outside the
grid is a crash. -/
def Explosion.f (rec : Map → BombCell → Int → Int → Outcome Map) (m : Map) (x y : Int) :
    Outcome (Map × Bool) :=
  match m.At x y with
  | none => Outcome.crash
  | some i =>
    match m.Cells[i]? with
    | none => Outcome.crash
    | some (some Cell.Wall) => Outcome.done (m, false)
    | some (some Cell.Soft) => Outcome.done (m.store i (some NewFlameCell), false)
    | some (some (Cell.Bomb bc)) =>
      if !bc.HasExpired then
        (rec m bc x y).bind fun m1 => Outcome.done (m1.store i (some NewFlameCell), true)
      else Outcome.done (m.store i (some NewFlameCell), true)
    | some _ => Outcome.done (m.store i (some NewFlameCell), true)

/-- One loop `for i := 0; i < c.power; i++ { if !f(..) { break } }` of
`Map.Explosion`, entered at step `i` with `n` iterations left; `coord i` is
the coordinate of step `i`. -/
def Explosion.walk (rec : Map → BombCell → Int → Int → Outcome Map) (coord : Int → Int × Int) :
    Nat → Int → Map → Outcome Map
  | 0, _, m => Outcome.done m
  | n + 1, i, m =>
    match Explosion.f rec m (coord i).1 (coord i).2 with
    | Outcome.done (m1, true) => Explosion.walk rec coord n (i + 1) m1
    | Outcome.done (m1, false) => Outcome.done m1
    | Outcome.crash => Outcome.crash
    | Outcome.outOfFuel => Outcome.outOfFuel

/-- The body of `Map.Explosion`, with `rec` for the recursive call: mark the
bomb expired, then the four loops in the order -x, +x, -y, +y. -/
def Explosion.body (rec : Map → BombCell → Int → Int → Outcome Map) (m : Map) (c : BombCell)
    (x y : Int) : Outcome Map :=
  (Explosion.walk rec (fun i => (x - i, y)) c.power.toNat 0 (m.markExpired x y)).bind fun m1 =>
  (Explosion.walk rec (fun i => (x + i, y)) c.power.toNat 0 m1).bind fun m2 =>
  (Explosion.walk rec (fun i => (x, y - i)) c.power.toNat 0 m2).bind fun m3 =>
  Explosion.walk rec (fun i => (x, y + i)) c.power.toNat 0 m3

/-- `Map.Explosion` with a bound on the depth of the recursion. -/
def Explosion.run : Nat → Map → BombCell → Int → Int → Outcome Map
  | 0 => fun _ _ _ _ => Outcome.outOfFuel
  | fuel + 1 => Explosion.body (Explosion.run fuel)

/-- Number of slots holding a bomb that has not expired. -/
def liveBombs : List (Option Cell) → Nat
  | [] => 0
  | some (Cell.Bomb b) :: cs => (if b.HasExpired then 0 else 1) + liveBombs cs
  | _ :: cs => liveBombs cs

/-- `Map.Explosion` of main.go.  The depth of the recursion is bounded by the
number of live bombs, which is the budget given here. -/
def Map.Explosion (m : Map) (c : BombCell) (x y : Int) : Outcome Map :=
  Explosion.run (liveBombs m.Cells + 1) m c x y

/-! ## Update -/

/-- The method `Update` of the four cell types, called on the cell held by
slot `i` at `(x, y)`; the decrements write through the cell pointer, so they
land in slot `i`. -/
def Cell.Update (cell : Cell) (x y : Int) (i : Nat) (m : Map) : Outcome Map :=
  match cell with
  | Cell.Wall => Outcome.done m
  | Cell.Soft => Outcome.done m
  | Cell.Bomb c =>
    let c1 : BombCell := { c with framesToExplosion := c.framesToExplosion - 1 }
    let m1 := m.store i (some (Cell.Bomb c1))
    if c1.framesToExplosion = 0 then m1.Explosion c1 x y else Outcome.done m1
  | Cell.Flame c => Outcome.done (m.store i (some (Cell.Flame { frames := c.frames - 1 })))

/-- The `ForEach` of `Map.Update` over the coordinates `cs`. -/
def Map.updateLoop (cs : List (Int × Int)) (m : Map) : Outcome Map :=
  ForEach (fun s => s) (fun x y i cell s => cell.Update x y i s) cs m

/-- `Map.Update` of main.go (its `*Game` argument is not used). -/
def Map.Update (m : Map) : Outcome Map :=
  (Map.updateLoop m.coords m).bind Map.Cleanup

/-- The map after `n` successive calls of `Map.Update`. -/
def Map.updateN : Nat → Map → Outcome Map
  | 0, m => Outcome.done m
  | n + 1, m => (Map.Update m).bind (Map.updateN n)

/-! ## Characters, position correction, bomb placement -/

/-- `Character` of main.go. -/
structure Character where
  X : Int
  Y : Int
  VX : Int
  VY : Int
  Length : Int
deriving DecidableEq, Repr

/-- The three locals `correctX`, `correctY`, `maxIntersection` of one pass of
`Map.PositionCorrection`, captured by its callback together with the map. -/
structure Pass where
  map : Map
  correctX : Int
  correctY : Int
  maxIntersection : Int
deriving DecidableEq, Repr

/-- The test `cell.Type() == CellBomb && cell.(*BombCell).putter == c` of
`Map.PositionCorrection`: the bomb, when the cell is one put by the character
at address `cp`. -/
def PositionCorrection.ownBomb (cp : CharPtr) : Cell → Option BombCell
  | Cell.Bomb b => if b.putter = some cp then some b else none
  | _ => none

/-- The callback that `Map.PositionCorrection` hands to `ForEach`, for the
character at address `cp` with value `c`. -/
def PositionCorrection.fn (cp : CharPtr) (c : Character) (x y : Int) (i : Nat) (cell : Cell)
    (s : Pass) : Outcome Pass :=
  if cell.Type ≠ CellType.CellWall ∧ cell.Type ≠ CellType.CellBomb ∧
      cell.Type ≠ CellType.CellSoft then Outcome.done s
  else
    let cx := x * s.map.CellLength
    let cy := y * s.map.CellLength
    let col := CollideRect c.X c.Y c.Length c.Length cx cy s.map.CellLength s.map.CellLength
    let collides : Bool := decide (col.1 ≠ 0 ∧ col.2 ≠ 0)
    match PositionCorrection.ownBomb cp cell with
    | some b =>
      if collides then Outcome.done s
      else Outcome.done { s with map := s.map.store i (some (Cell.Bomb { b with putter := none })) }
    | none =>
      if collides then
        if s.maxIntersection < absInt col.1 + absInt col.2 then
          if absInt col.1 < absInt col.2 then
            Outcome.done { s with maxIntersection := absInt col.1 + absInt col.2,
                                  correctX := col.1, correctY := 0 }
          else
            Outcome.done { s with maxIntersection := absInt col.1 + absInt col.2,
                                  correctX := 0, correctY := col.2 }
        else Outcome.done s
      else Outcome.done s

/-- The passes of `Map.PositionCorrection`, `n` of them left. -/
def PositionCorrection.passes (cp : CharPtr) : Nat → Map → Character → Outcome (Map × Character)
  | 0, m, c => Outcome.done (m, c)
  | n + 1, m, c =>
    match ForEach Pass.map (PositionCorrection.fn cp c) m.coords
        { map := m, correctX := 0, correctY := 0, maxIntersection := 0 } with
    | Outcome.done s =>
      let c1 : Character := { c with X := c.X + s.correctX, Y := c.Y + s.correctY }
      if s.maxIntersection = 0 then Outcome.done (s.map, c1)
      else PositionCorrection.passes cp n s.map c1
    | Outcome.crash => Outcome.crash
    | Outcome.outOfFuel => Outcome.outOfFuel

/-- `Map.PositionCorrection` of main.go for the character at address `cp`
with value `c`: at most five passes. -/
def Map.PositionCorrection (m : Map) (cp : CharPtr) (c : Character) : Outcome (Map × Character) :=
  PositionCorrection.passes cp 5 m c

/-- `Game` of main.go, reduced to what the grid operations read: the player's
embedded `Character` and the map. -/
structure Game where
  Player : Character
  Map : Map
deriving DecidableEq, Repr

/-- `Game.PutBomb` of main.go; the argument `p` enters only as the address
`&p.Character` stored in the new bomb. -/
def Game.PutBomb (g : Game) (p : CharPtr) : Outcome (Game × Bool) :=
  match g.Map.AtPos (g.Player.X + g.Player.Length.tdiv 2) (g.Player.Y + g.Player.Length.tdiv 2) with
  | Outcome.done (some i) =>
    match g.Map.Cells[i]? with
    | none => Outcome.crash
    | some none => Outcome.done ({ g with Map := g.Map.store i (some (NewBombCell p)) }, true)
    | some (some _) => Outcome.done (g, false)
  | Outcome.done none => Outcome.done (g, false)
  | Outcome.crash => Outcome.crash
  | Outcome.outOfFuel => Outcome.outOfFuel

/-! ## The same program, recording its detonations

To count the calls of `Map.Explosion`, the functions of `Map.Update` are
written a second time over a state that carries, next to the grid, the list of
the calls made so far: each call of `Map.Explosion` appends its coordinates and
the power of its bomb before doing anything else.  The record is never read;
`Map.UpdateT_erase` shows that dropping it gives `Map.Update` back. -/

/-- One call of `Map.Explosion`: its coordinates and the power of its bomb. -/
abbrev Detonation := Int × Int × Int

/-- A grid together with the calls of `Map.Explosion` made so far. -/
abbrev Traced := Map × List Detonation

/-- The image of a returned value. -/
def Outcome.map {α β : Type} (g : α → β) (o : Outcome α) : Outcome β :=
  match o with
  | Outcome.done a => Outcome.done (g a)
  | Outcome.crash => Outcome.crash
  | Outcome.outOfFuel => Outcome.outOfFuel

/-- The closure `f` of `Map.Explosion`, threading the record. -/
def Explosion.fT (rec : Traced → BombCell → Int → Int → Outcome Traced) (s : Traced)
    (x y : Int) : Outcome (Traced × Bool) :=
  match s.1.At x y with
  | none => Outcome.crash
  | some i =>
    match s.1.Cells[i]? with
    | none => Outcome.crash
    | some (some Cell.Wall) => Outcome.done (s, false)
    | some (some Cell.Soft) => Outcome.done ((s.1.store i (some NewFlameCell), s.2), false)
    | some (some (Cell.Bomb bc)) =>
      if !bc.HasExpired then
        (rec s bc x y).bind fun s1 =>
          Outcome.done ((s1.1.store i (some NewFlameCell), s1.2), true)
      else Outcome.done ((s.1.store i (some NewFlameCell), s.2), true)
    | some _ => Outcome.done ((s.1.store i (some NewFlameCell), s.2), true)

/-- One loop of `Map.Explosion`, threading the record. -/
def Explosion.walkT (rec : Traced → BombCell → Int → Int → Outcome Traced)
    (coord : Int → Int × Int) : Nat → Int → Traced → Outcome Traced
  | 0, _, s => Outcome.done s
  | n + 1, i, s =>
    match Explosion.fT rec s (coord i).1 (coord i).2 with
    | Outcome.done (s1, true) => Explosion.walkT rec coord n (i + 1) s1
    | Outcome.done (s1, false) => Outcome.done s1
    | Outcome.crash => Outcome.crash
    | Outcome.outOfFuel => Outcome.outOfFuel

/-- The body of `Map.Explosion`, which first records the call. -/
def Explosion.bodyT (rec : Traced → BombCell → Int → Int → Outcome Traced) (s : Traced)
    (c : BombCell) (x y : Int) : Outcome Traced :=
  (Explosion.walkT rec (fun i => (x - i, y)) c.power.toNat 0
    (s.1.markExpired x y, s.2 ++ [(x, y, c.power)])).bind fun s1 =>
  (Explosion.walkT rec (fun i => (x + i, y)) c.power.toNat 0 s1).bind fun s2 =>
  (Explosion.walkT rec (fun i => (x, y - i)) c.power.toNat 0 s2).bind fun s3 =>
  Explosion.walkT rec (fun i => (x, y + i)) c.power.toNat 0 s3

/-- `Map.Explosion` with a bound on the depth of the recursion, recording. -/
def Explosion.runT : Nat → Traced → BombCell → Int → Int → Outcome Traced
  | 0 => fun _ _ _ _ => Outcome.outOfFuel
  | fuel + 1 => Explosion.bodyT (Explosion.runT fuel)

/-- The method `Update` of the four cell types, recording. -/
def Cell.UpdateT (cell : Cell) (x y : Int) (i : Nat) (s : Traced) : Outcome Traced :=
  match cell with
  | Cell.Wall => Outcome.done s
  | Cell.Soft => Outcome.done s
  | Cell.Bomb c =>
    let c1 : BombCell := { c with framesToExplosion := c.framesToExplosion - 1 }
    let m1 := s.1.store i (some (Cell.Bomb c1))
    if c1.framesToExplosion = 0 then Explosion.runT (liveBombs m1.Cells + 1) (m1, s.2) c1 x y
    else Outcome.done (m1, s.2)
  | Cell.Flame c => Outcome.done (s.1.store i (some (Cell.Flame { frames := c.frames - 1 })), s.2)

/-- `Map.Update`, returning with the grid the calls of `Map.Explosion` it made,
in order. -/
def Map.UpdateT (m : Map) : Outcome Traced :=
  (ForEach (fun s : Traced => s.1) (fun x y i cell s => cell.UpdateT x y i s) m.coords
    (m, [])).bind fun s => (Map.Cleanup s.1).map fun m1 => (m1, s.2)

/-- The recorded calls of `Map.Explosion` rooted at `(x, y)`. -/
def hitsAt (x y : Int) (l : List Detonation) : List Detonation :=
  l.filter fun e => decide (e.1 = x ∧ e.2.1 = y)

/-! ## Vocabulary of the statements -/

/-- The four directions of the blast, in the order `Map.Explosion` walks them. -/
inductive Dir where
  | negX | posX | negY | posY
deriving DecidableEq, Repr

/-- The coordinate of step `i` from `(x, y)` in direction `d`: the argument
that the corresponding loop of `Map.Explosion` passes to `f`. -/
def Dir.coord (d : Dir) (x y : Int) : Int → Int × Int :=
  match d with
  | Dir.negX => fun i => (x - i, y)
  | Dir.posX => fun i => (x + i, y)
  | Dir.negY => fun i => (x, y - i)
  | Dir.posY => fun i => (x, y + i)

/-- The grids `m` and `n` have the same dimensions and number of slots. -/
def SameShape (m n : Map) : Prop :=
  n.CellLength = m.CellLength ∧ n.Width = m.Width ∧ n.Height = m.Height ∧
    n.Cells.length = m.Cells.length

/-- Same shape, and the same slots hold a Wall. -/
def Frame (m n : Map) : Prop :=
  SameShape m n ∧ ∀ i : Nat, m.Cells[i]? = some (some Cell.Wall) ↔ n.Cells[i]? = some (some Cell.Wall)

/-- The slot value is a bomb that has not expired. -/
def IsLiveBomb : Option Cell → Bool
  | some (Cell.Bomb b) => !b.HasExpired
  | _ => false

/-- The slot value is a Wall or a Soft cell: the walk stops on it. -/
def IsBlock : Option Cell → Bool
  | some Cell.Wall => true
  | some Cell.Soft => true
  | _ => false

/-- No slot of the grid holds a live bomb. -/
def NoLive (m : Map) : Prop := ∀ (i : Nat) (s : Option Cell), m.Cells[i]? = some s → IsLiveBomb s = false

/-- No slot of the grid holds a Wall or a Soft cell. -/
def NoBlock (m : Map) : Prop := ∀ (i : Nat) (s : Option Cell), m.Cells[i]? = some s → IsBlock s = false

/-- The coordinate `p` is inside the grid and its slot holds a Wall or a Soft
cell. -/
def Map.blockAt (m : Map) (p : Int × Int) : Bool :=
  match m.slot p.1 p.2 with
  | some s => IsBlock s
  | none => false

/-- Slot `k` lies on the ray `coord` at one of the `n` steps from step `i` on,
does not hold a Wall, and no earlier step from `i` on holds a Wall or a Soft
cell: a blast that chains no bomb reaches it. -/
def Reached (m : Map) (coord : Int → Int × Int) (i : Int) (n : Nat) (k : Nat) : Prop :=
  ∃ j : Nat, j < n ∧ m.At (coord (i + j)).1 (coord (i + j)).2 = some k ∧
    m.Cells[k]? ≠ some (some Cell.Wall) ∧
    ∀ j' : Nat, j' < j → m.blockAt (coord (i + j')) = false

/-- State `n` of an explosion at `(x, y)` of grid `m` that chains no bomb,
before the loop in direction `d` ran: the origin's slot holds neither a Wall
nor a Soft cell, and the steps from 1 on of the ray `d` are as in `m`. -/
def RayUntouched (m n : Map) (d : Dir) (x y : Int) : Prop :=
  NoLive n ∧ SameShape m n ∧ n.blockAt (x, y) = false ∧
    ∀ (j : Int) (k : Nat), 1 ≤ j → m.At (d.coord x y j).1 (d.coord x y j).2 = some k →
      n.Cells[k]? = m.Cells[k]?

/-- State `n` of an explosion at `(x, y)` of grid `m` that chains no bomb,
after the loop in direction `d` stopped at step `k`: the steps beyond `k` are
as in `m`, a Wall at step `k` is still there and a Soft cell at step `k` has
become a new Flame. -/
def StoppedAt (m n : Map) (d : Dir) (x y k : Int) : Prop :=
  NoLive n ∧ SameShape m n ∧
    (∀ (j : Int) (i : Nat), k < j → m.At (d.coord x y j).1 (d.coord x y j).2 = some i →
      n.Cells[i]? = m.Cells[i]?) ∧
    ∀ i : Nat, m.At (d.coord x y k).1 (d.coord x y k).2 = some i →
      (m.Cells[i]? = some (some Cell.Wall) → n.Cells[i]? = some (some Cell.Wall)) ∧
      (m.Cells[i]? = some (some Cell.Soft) → n.Cells[i]? = some (some NewFlameCell))

/-- Every step below `p` of the four rays from `(x, y)` holds a new Flame:
the full cross of a blast of power `p`. -/
def Cross (m : Map) (x y p : Int) : Prop :=
  ∀ (d : Dir) (j : Int), 0 ≤ j → j < p →
    m.slot (d.coord x y j).1 (d.coord x y j).2 = some (some NewFlameCell)

/-- The bomb `b` still lies untouched in slot `i`, or the full cross of its
blast from `(x, y)` is aflame. -/
def ChainedOrIntact (m : Map) (i : Nat) (b : BombCell) (x y : Int) : Prop :=
  m.Cells[i]? = some (some (Cell.Bomb b)) ∨ Cross m x y b.power

/-- The order in which the nested loops of `ForEach` and `Cleanup` visit
coordinates: `x` outer, `y` inner. -/
def Before (p q : Int × Int) : Prop := p.1 < q.1 ∨ (p.1 = q.1 ∧ p.2 < q.2)

/-- What the `Update` of a cell that does not explode leaves in its slot: the
counter of a bomb or of a Flame is one less. -/
def tickSlot : Option Cell → Option Cell
  | some (Cell.Bomb b) => some (Cell.Bomb { b with framesToExplosion := b.framesToExplosion - 1 })
  | some (Cell.Flame c) => some (Cell.Flame { frames := c.frames - 1 })
  | s => s

/-- What `Cleanup` leaves in a slot: an expired cell is removed. -/
def cleanSlot : Option Cell → Option Cell
  | some c => if c.HasExpired then none else some c
  | none => none

/-- The cell is not a bomb whose counter reaches 0 at this tick. -/
def Cell.Calm : Cell → Prop
  | Cell.Bomb b => b.framesToExplosion ≠ 1
  | _ => True

/-- The callback to which the loop of `Map.Cleanup` amounts. -/
def Map.cleanupFn (_x _y : Int) (i : Nat) (cell : Cell) (m : Map) : Outcome Map :=
  if cell.HasExpired then Outcome.done (m.store i none) else Outcome.done m

/-- What one `Map.Update` without explosion makes of a slot: the counter goes
down by one and the cell is removed when that made it expire. -/
def ageSlot (s : Option Cell) : Option Cell := cleanSlot (tickSlot s)

/-- No slot of the grid holds a bomb. -/
def NoBomb (m : Map) : Prop :=
  ∀ (i : Nat) (b : BombCell), m.Cells[i]? ≠ some (some (Cell.Bomb b))

/-- Grid `n` is grid `m` with some of its slots ticked once. -/
def Ticked (m n : Map) : Prop :=
  SameShape m n ∧
    ∀ k : Nat, n.Cells[k]? = m.Cells[k]? ∨ n.Cells[k]? = (m.Cells[k]?).map tickSlot

/-- Every slot on the border of the grid holds a Wall, as in the grid built by
`NewMap`. -/
def Map.Bordered (m : Map) : Prop :=
  ∀ (x y : Int) (i : Nat), m.At x y = some i →
    (x = 0 ∨ x = m.Width - 1 ∨ y = 0 ∨ y = m.Height - 1) →
    m.Cells[i]? = some (some Cell.Wall)

/-- Grid `n` has the dimensions and the number of slots of grid `m`, and every
slot that holds a Wall in `m` holds a Wall in `n`. -/
def KeepsWalls (m n : Map) : Prop :=
  n.Width = m.Width ∧ n.Height = m.Height ∧ n.Cells.length = m.Cells.length ∧
    ∀ i : Nat, m.Cells[i]? = some (some Cell.Wall) → n.Cells[i]? = some (some Cell.Wall)

/-- Slot `i` holds no live bomb. -/
def NotLiveAt (m : Map) (i : Nat) : Prop :=
  ∀ w : Option Cell, m.Cells[i]? = some w → IsLiveBomb w = false

/-- Slot `i` still holds the value `v`, or it holds no live bomb. -/
def StillOrNotLive (m : Map) (i : Nat) (v : Option Cell) : Prop :=
  m.Cells[i]? = some v ∨ NotLiveAt m i

/-- Slot `i` holds the value `v`, or the value `w`, or a new Flame. -/
def HeldOrAflame (m : Map) (i : Nat) (v w : Option Cell) : Prop :=
  m.Cells[i]? = some v ∨ m.Cells[i]? = some w ∨ m.Cells[i]? = some (some NewFlameCell)

/-- The bomb `b` lies untouched in slot `i` and no call of `Map.Explosion`
rooted at `(x, y)` has been recorded. -/
def Intact (x y : Int) (i : Nat) (b : BombCell) (s : Traced) : Prop :=
  s.1.Cells[i]? = some (some (Cell.Bomb b)) ∧ hitsAt x y s.2 = []

/-- Slot `i` holds no live bomb and exactly one call of `Map.Explosion` rooted
at `(x, y)` has been recorded, with the power of `b`. -/
def Fired (x y : Int) (i : Nat) (b : BombCell) (s : Traced) : Prop :=
  NotLiveAt s.1 i ∧ hitsAt x y s.2 = [(x, y, b.power)]

/-- What a function from traced grids to traced grids must satisfy to stand
for the recursive call of `Map.Explosion` in the count of the calls rooted at
`(x, y)`, the coordinate of slot `i`. -/
def CountsCalls (x y : Int) (i : Nat) (b : BombCell)
    (rec : Traced → BombCell → Int → Int → Outcome Traced) : Prop :=
  ∀ (s : Traced) (c : BombCell) (x' y' : Int) (s' : Traced),
    s.1.At x y = some i → rec s c x' y' = Outcome.done s' →
    s'.1.At x y = some i ∧
    ((x', y') = (x, y) → hitsAt x y s.2 = [] → c.power = b.power → Fired x y i b s') ∧
    ((x', y') ≠ (x, y) →
      ((Intact x y i b s ∨ Fired x y i b s) → (Intact x y i b s' ∨ Fired x y i b s')) ∧
      (Fired x y i b s → Fired x y i b s'))

/-! ## Example grids -/

/-- A wall slot, for writing grids down. -/
def Example.W : Option Cell := some Cell.Wall

/-- A 5 by 3 grid inside a border of walls, its middle row holding a bomb of
power 3 at (1,1), a live bomb of power 1 at (2,1) and a Soft cell at (3,1). -/
def Example.chainGrid : Map :=
  { CellLength := 16, Width := 5, Height := 3,
    Cells := [Example.W, Example.W, Example.W, Example.W, Example.W,
              Example.W, some (Cell.Bomb { framesToExplosion := 1, power := 3, putter := none }),
                some (Cell.Bomb { framesToExplosion := 5, power := 1, putter := none }),
                some Cell.Soft, Example.W,
              Example.W, Example.W, Example.W, Example.W, Example.W] }

/-- The grid `Example.chainGrid` after the bomb at (1,1) exploded. -/
def Example.chainGridAfter : Map :=
  { CellLength := 16, Width := 5, Height := 3,
    Cells := [Example.W, Example.W, Example.W, Example.W, Example.W,
              Example.W, some NewFlameCell, some NewFlameCell, some NewFlameCell, Example.W,
              Example.W, Example.W, Example.W, Example.W, Example.W] }

/-- A 5 by 3 grid inside a border of walls, its middle row holding a bomb of
power 3 about to explode at (1,1), an empty slot at (2,1) and a Soft cell at
(3,1). -/
def Example.soloGrid : Map :=
  { CellLength := 16, Width := 5, Height := 3,
    Cells := [Example.W, Example.W, Example.W, Example.W, Example.W,
              Example.W, some (Cell.Bomb { framesToExplosion := 0, power := 3, putter := none }),
                none, some Cell.Soft, Example.W,
              Example.W, Example.W, Example.W, Example.W, Example.W] }

/-- The grid `Example.soloGrid` after its bomb exploded. -/
def Example.soloGridAfter : Map :=
  { CellLength := 16, Width := 5, Height := 3,
    Cells := [Example.W, Example.W, Example.W, Example.W, Example.W,
              Example.W, some NewFlameCell, some NewFlameCell, some NewFlameCell, Example.W,
              Example.W, Example.W, Example.W, Example.W, Example.W] }

/-- A 4 by 3 grid without walls, empty except for a bomb of power 2 at (1,1)
and a live bomb of power 2 at (2,1). -/
def Example.pairGrid : Map :=
  { CellLength := 16, Width := 4, Height := 3,
    Cells := [none, none, none, none,
              none, some (Cell.Bomb { framesToExplosion := 0, power := 2, putter := none }),
                some (Cell.Bomb { framesToExplosion := 7, power := 2, putter := none }), none,
              none, none, none, none] }

/-- The grid `Example.pairGrid` after the bomb at (1,1) exploded. -/
def Example.pairGridAfter : Map :=
  { CellLength := 16, Width := 4, Height := 3,
    Cells := [none, some NewFlameCell, some NewFlameCell, none,
              some NewFlameCell, some NewFlameCell, some NewFlameCell, some NewFlameCell,
              none, some NewFlameCell, some NewFlameCell, none] }

/-- A 5 by 3 grid inside a border of walls, its middle row holding a bomb of
power 2 with one frame left at (1,1) and two empty slots. -/
def Example.tickGrid : Map :=
  { CellLength := 16, Width := 5, Height := 3,
    Cells := [Example.W, Example.W, Example.W, Example.W, Example.W,
              Example.W, some (Cell.Bomb { framesToExplosion := 1, power := 2, putter := none }),
                none, none, Example.W,
              Example.W, Example.W, Example.W, Example.W, Example.W] }

/-- The grid `Example.tickGrid` after one `Map.Update`, the one in which the
bomb explodes. -/
def Example.tickGridAfter1 : Map :=
  { CellLength := 16, Width := 5, Height := 3,
    Cells := [Example.W, Example.W, Example.W, Example.W, Example.W,
              Example.W, some (Cell.Flame { frames := 60 }), some (Cell.Flame { frames := 59 }),
                none, Example.W,
              Example.W, Example.W, Example.W, Example.W, Example.W] }

/-- The grid `Example.tickGrid` after 61 calls of `Map.Update`. -/
def Example.tickGridAfter61 : Map :=
  { CellLength := 16, Width := 5, Height := 3,
    Cells := [Example.W, Example.W, Example.W, Example.W, Example.W,
              Example.W, some (Cell.Flame { frames := 0 }), none, none, Example.W,
              Example.W, Example.W, Example.W, Example.W, Example.W] }

/-- A grid of 2 by 1 slots without walls: a bomb of power 2 in column 0 and an
empty slot. -/
def Example.edgeGrid : Map :=
  { CellLength := 16, Width := 2, Height := 1,
    Cells := [some (Cell.Bomb { framesToExplosion := 0, power := 2, putter := none }), none] }

/-- The grid coordinate that `Game.PutBomb` looks up: the player's centre
`(X + Length/2, Y + Length/2)` divided by the cell length, the divisions being
Go's, which truncate toward zero. -/
def Game.centre (g : Game) : Int × Int :=
  ((g.Player.X + g.Player.Length.tdiv 2).tdiv g.Map.CellLength,
    (g.Player.Y + g.Player.Length.tdiv 2).tdiv g.Map.CellLength)

/-- A player of length 12 at (36, 18) on `Example.tickGrid`: the centre
(42, 24) lies in the empty slot (2,1). -/
def Example.putGame : Game :=
  { Player := { X := 36, Y := 18, VX := 0, VY := 0, Length := 12 }, Map := Example.tickGrid }

/-- The game `Example.putGame` after the player at address 7 put a bomb. -/
def Example.putGameAfter : Game :=
  { Player := { X := 36, Y := 18, VX := 0, VY := 0, Length := 12 },
    Map :=
      { CellLength := 16, Width := 5, Height := 3,
        Cells := [Example.W, Example.W, Example.W, Example.W, Example.W,
                  Example.W,
                    some (Cell.Bomb { framesToExplosion := 1, power := 2, putter := none }),
                    some (Cell.Bomb { framesToExplosion := 180, power := 3, putter := some 7 }),
                    none, Example.W,
                  Example.W, Example.W, Example.W, Example.W, Example.W] } }

/-! ## Vocabulary of position correction -/

/-- The overlap vector of the character `c` against the cell at grid
coordinate `(x, y)`: the call of `CollideRect` in `Map.PositionCorrection`. -/
def Map.overlap (m : Map) (c : Character) (x y : Int) : Int × Int :=
  CollideRect c.X c.Y c.Length c.Length (x * m.CellLength) (y * m.CellLength)
    m.CellLength m.CellLength

/-- The character overlaps the cell at `(x, y)` on both axes. -/
def Map.overlaps (m : Map) (c : Character) (x y : Int) : Bool :=
  decide ((m.overlap c x y).1 ≠ 0 ∧ (m.overlap c x y).2 ≠ 0)

/-- The slot holds a cell that is solid for the character at address `cp`: a
Wall, a Soft cell, or a bomb whose putter is not `cp`. -/
def IsSolidFor (cp : CharPtr) : Option Cell → Bool
  | some Cell.Wall => true
  | some Cell.Soft => true
  | some (Cell.Bomb b) => decide (b.putter ≠ some cp)
  | _ => false

/-- The slot holds a bomb whose putter is the character at address `cp`. -/
def IsOwnBomb (cp : CharPtr) : Option Cell → Bool
  | some (Cell.Bomb b) => decide (b.putter = some cp)
  | _ => false

/-- What a pass of position correction leaves in a visited slot: a bomb put by
the character loses its putter when the character does not overlap it. -/
def settle (cp : CharPtr) (hit : Bool) : Option Cell → Option Cell
  | some (Cell.Bomb b) =>
    if b.putter = some cp ∧ hit = false then some (Cell.Bomb { b with putter := none })
    else some (Cell.Bomb b)
  | s => s

/-- Depth of an overlap: `|dx| + |dy|`. -/
def depth (v : Int × Int) : Int := absInt v.1 + absInt v.2

/-- The displacement that resolves an overlap: along x when `|dx| < |dy|`,
along y otherwise. -/
def push (v : Int × Int) : Int × Int := if absInt v.1 < absInt v.2 then (v.1, 0) else (0, v.2)

/-- The locals `correctX`, `correctY`, `maxIntersection` of a pass. -/
def Pass.locals (s : Pass) : Int × Int × Int := (s.correctX, s.correctY, s.maxIntersection)

/-- The update of the locals of a pass on an overlapping solid cell. -/
def choose (acc : Int × Int × Int) (v : Int × Int) : Int × Int × Int :=
  if acc.2.2 < depth v then ((push v).1, (push v).2, depth v) else acc

/-- The cell at coordinate `p` is solid for the character and overlaps it. -/
def Map.hit (m : Map) (cp : CharPtr) (c : Character) (p : Int × Int) : Bool :=
  match m.slot p.1 p.2 with
  | some s => IsSolidFor cp s && m.overlaps c p.1 p.2
  | none => false

/-- One pass of `Map.PositionCorrection`: the `ForEach` with fresh locals. -/
def PositionCorrection.pass (cp : CharPtr) (m : Map) (c : Character) : Outcome Pass :=
  ForEach Pass.map (PositionCorrection.fn cp c) m.coords
    { map := m, correctX := 0, correctY := 0, maxIntersection := 0 }

/-- The character moved by the correction of a pass. -/
def Character.moved (c : Character) (s : Pass) : Character :=
  { c with X := c.X + s.correctX, Y := c.Y + s.correctY }

/-- The character moved by the displacement `d`. -/
def Character.shift (c : Character) (d : Int × Int) : Character :=
  { c with X := c.X + d.1, Y := c.Y + d.2 }

/-- The only solid cells of the grid are the Wall or Soft cells at `p` and
`q`: every other slot is empty or holds a Flame. -/
def OnlyTwoSolid (m : Map) (p q : Int × Int) : Prop :=
  (m.slot p.1 p.2 = some (some Cell.Wall) ∨ m.slot p.1 p.2 = some (some Cell.Soft)) ∧
  (m.slot q.1 q.2 = some (some Cell.Wall) ∨ m.slot q.1 q.2 = some (some Cell.Soft)) ∧
  ∀ r : Int × Int, r ≠ p → r ≠ q → ∀ v, m.slot r.1 r.2 = some v →
    v = none ∨ ∃ f, v = some (Cell.Flame f)

/-- The character has no overlap on at least one axis against the cell at
`p`: `CollideRect` returns `dx = 0` or `dy = 0`. -/
def Map.clear (m : Map) (c : Character) (p : Int × Int) : Prop :=
  (m.overlap c p.1 p.2).1 = 0 ∨ (m.overlap c p.1 p.2).2 = 0

/-- A 4 by 3 grid, empty except for a Wall at (1,1) and a Soft cell at (2,1). -/
def Example.twoGrid : Map :=
  { CellLength := 16, Width := 4, Height := 3,
    Cells := [none, none, none, none,
              none, some Cell.Wall, some Cell.Soft, none,
              none, none, none, none] }

/-- A character of length 12 at (26, 18): its box lies inside the union of
the cells (1,1) and (2,1) of `Example.twoGrid`, across their common edge. -/
def Example.twoActor : Character := { X := 26, Y := 18, VX := 0, VY := 0, Length := 12 }

/-- A character of length 12 at (26, 6): it overlaps the cells (1,1) and (2,1)
of `Example.twoGrid` from above, 2 deep along y and 6 deep along x. -/
def Example.topActor : Character := { X := 26, Y := 6, VX := 0, VY := 0, Length := 12 }

/-- A 3 by 2 grid: a Wall at (0,0), a bomb put by the character at address 7
at (2,1), the other slots empty. -/
def Example.ownGrid : Map :=
  { CellLength := 16, Width := 3, Height := 2,
    Cells := [some Cell.Wall, none, none,
              none, none,
              some (Cell.Bomb { framesToExplosion := 180, power := 3, putter := some 7 })] }

/-- The grid `Example.ownGrid` once the bomb at (2,1) has lost its putter. -/
def Example.ownGridAfter : Map :=
  { CellLength := 16, Width := 3, Height := 2,
    Cells := [some Cell.Wall, none, none,
              none, none,
              some (Cell.Bomb { framesToExplosion := 180, power := 3, putter := none })] }

/-- A character of length 20 at (12, 0): it overlaps the cell (0,0) of
`Example.ownGrid` by 4 along x and touches the cell (2,1) without overlap. -/
def Example.bigActor : Character := { X := 12, Y := 0, VX := 0, VY := 0, Length := 20 }

/-- A 2 by 2 grid: a bomb put by the character at address 7 at (1,0), a Wall
at (1,1), the other slots empty. -/
def Example.stackGrid : Map :=
  { CellLength := 16, Width := 2, Height := 2,
    Cells := [none, some (Cell.Bomb { framesToExplosion := 180, power := 3, putter := some 7 }),
              none, some Cell.Wall] }

/-- The grid `Example.stackGrid` once the bomb at (1,0) has lost its putter. -/
def Example.stackGridAfter : Map :=
  { CellLength := 16, Width := 2, Height := 2,
    Cells := [none, some (Cell.Bomb { framesToExplosion := 180, power := 3, putter := none }),
              none, some Cell.Wall] }

/-- A character of length 16 at (16, 16): it covers the cell (1,1) of
`Example.stackGrid` exactly. -/
def Example.cellActor : Character := { X := 16, Y := 16, VX := 0, VY := 0, Length := 16 }

/-- A character of length 20 at (13, 13): it overlaps the cell (0,0) of
`Example.ownGrid` by 3 along both axes and the cell (2,1) by 1. -/
def Example.cornerActor : Character := { X := 13, Y := 13, VX := 0, VY := 0, Length := 20 }

/-- The positions of the character at the start of the passes that
`PositionCorrection.passes` runs, in order. -/
def PositionCorrection.starts (cp : CharPtr) : Nat → Map → Character → List Character
  | 0, _, _ => []
  | n + 1, m, c =>
    c :: match PositionCorrection.pass cp m c with
      | Outcome.done s =>
        if s.maxIntersection = 0 then [] else PositionCorrection.starts cp n s.map (c.moved s)
      | _ => []

/-! ## Construction of the grid -/

/-- The constant `ScreenWidth` of main.go. -/
def ScreenWidth : Int := 320

/-- The constant `ScreenHeight` of main.go. -/
def ScreenHeight : Int := 240

/-- The assignment `*m.At(x, y) = v`: dereferencing the nil pointer that `At`
returns outside the grid, or taking the address of an element outside the
slice, is a crash. -/
def Map.put (m : Map) (x y : Int) (v : Option Cell) : Outcome Map :=
  match m.At x y with
  | none => Outcome.crash
  | some i => if i < m.Cells.length then Outcome.done (m.store i v) else Outcome.crash

/-- The assignments `*m.At(x, y) = v` for the coordinates `cs` in order. -/
def Map.putAll : List (Int × Int) → Option Cell → Map → Outcome Map
  | [], _, m => Outcome.done m
  | (x, y) :: cs, v, m => (m.put x y v).bind (Map.putAll cs v)

/-- The values of `for k := 2; k < n; k += 2`. -/
def evensFrom2 (n : Int) : List Int :=
  ((List.range n.toNat).filter fun k => decide (2 ≤ k ∧ k % 2 = 0)).map Int.ofNat

/-- `NewMap` of main.go: the slice of `Width*Height` nil slots, then the five
groups of assignments in order. -/
def NewMap : Outcome Map :=
  let length : Int := 16
  let m0 : Map :=
    { CellLength := length, Width := ScreenWidth.tdiv length,
      Height := ScreenHeight.tdiv length,
      Cells := List.replicate (ScreenWidth.tdiv length * ScreenHeight.tdiv length).toNat none }
  (Map.putAll m0.coords (some NewSoftCell) m0).bind fun m1 =>
  (Map.putAll ((List.range m1.Width.toNat).flatMap fun (x : Nat) =>
      [(Int.ofNat x, 0), (Int.ofNat x, m1.Height - 1)]) (some NewWallCell) m1).bind fun m2 =>
  (Map.putAll ((List.range m2.Height.toNat).flatMap fun (y : Nat) =>
      [(0, Int.ofNat y), (m2.Width - 1, Int.ofNat y)]) (some NewWallCell) m2).bind fun m3 =>
  (Map.putAll ((evensFrom2 m3.Width).flatMap fun x => (evensFrom2 m3.Height).map fun y => (x, y))
      (some NewWallCell) m3).bind fun m4 =>
  (m4.put 1 1 none).bind fun m5 =>
  (m5.put 2 1 none).bind fun m6 =>
  m6.put 1 2 none

/-- What the slot `(x, y)` of the grid of the game holds, in words: a Wall on
the border and where both coordinates are even and at least 2, nothing at
(1,1), (2,1) and (1,2), a Soft cell elsewhere. -/
def NewMap.cell (x y : Nat) : Option Cell :=
  if x = 0 ∨ x = 19 ∨ y = 0 ∨ y = 14 ∨ (2 ≤ x ∧ x % 2 = 0 ∧ 2 ≤ y ∧ y % 2 = 0) then
    some Cell.Wall
  else if (x = 1 ∧ y = 1) ∨ (x = 2 ∧ y = 1) ∨ (x = 1 ∧ y = 2) then none
  else some Cell.Soft

/-- The grid of 20 by 15 slots that holds `NewMap.cell x y` at `(x, y)`. -/
def NewMap.grid : Map :=
  { CellLength := 16, Width := 20, Height := 15,
    Cells := (List.range 300).map fun k => NewMap.cell (k % 20) (k / 20) }

/-- Slot `k` lies on the cross of a blast of power `p` from `(x, y)`: it is
the slot of a step `j` with `0 ≤ j < p` of one of the four rays. -/
def OnCross (m : Map) (x y p : Int) (k : Nat) : Prop :=
  ∃ (d : Dir) (j : Int), 0 ≤ j ∧ j < p ∧ m.At (d.coord x y j).1 (d.coord x y j).2 = some k

/-- A 7 by 7 grid, empty except for a bomb of power 3 at its centre (3,3). -/
def Example.openGrid : Map :=
  { CellLength := 16, Width := 7, Height := 7,
    Cells := [none, none, none, none, none, none, none,
              none, none, none, none, none, none, none,
              none, none, none, none, none, none, none,
              none, none, none,
                some (Cell.Bomb { framesToExplosion := 0, power := 3, putter := none }),
                none, none, none,
              none, none, none, none, none, none, none,
              none, none, none, none, none, none, none,
              none, none, none, none, none, none, none] }

/-- The grid `Example.openGrid` after its bomb exploded: the flames reach two
cells from the centre. -/
def Example.openGridAfter : Map :=
  { CellLength := 16, Width := 7, Height := 7,
    Cells := [none, none, none, none, none, none, none,
              none, none, none, some NewFlameCell, none, none, none,
              none, none, none, some NewFlameCell, none, none, none,
              none, some NewFlameCell, some NewFlameCell, some NewFlameCell,
                some NewFlameCell, some NewFlameCell, none,
              none, none, none, some NewFlameCell, none, none, none,
              none, none, none, some NewFlameCell, none, none, none,
              none, none, none, none, none, none, none] }

/-- Number of slots holding a bomb, expired or not. -/
def bombs : List (Option Cell) → Nat
  | [] => 0
  | some (Cell.Bomb _) :: cs => 1 + bombs cs
  | _ :: cs => bombs cs

/-- The grids of a game: the one built by `NewMap`, and those that
`Map.Update`, `Game.PutBomb` and `Map.PositionCorrection`, the three
operations of `Game.Update` on the grid, return from such a grid. -/
inductive Reachable : Map → Prop where
  | init (m : Map) : NewMap = Outcome.done m → Reachable m
  | update (m m' : Map) : Reachable m → m.Update = Outcome.done m' → Reachable m'
  | putBomb (g g' : Game) (p : CharPtr) (b : Bool) :
      Reachable g.Map → g.PutBomb p = Outcome.done (g', b) → Reachable g'.Map
  | correct (m m' : Map) (cp : CharPtr) (c c' : Character) :
      Reachable m → m.PositionCorrection cp c = Outcome.done (m', c') → Reachable m'

/-! ## Vocabulary of the geometry claims -/

/-- A value of Go's `int` on a 64-bit target. -/
def IsInt64 (a : Int) : Prop := -(2 ^ 63) ≤ a ∧ a < 2 ^ 63

instance (a : Int) : Decidable (IsInt64 a) := by
  unfold IsInt64
  infer_instance

instance (a : Int) : Decidable (Small a) := by
  unfold Small
  infer_instance

/-- A value small enough that a rectangle moved by less than a component
returned by `CollideRect` still has `Small` coordinates. -/
def Modest (a : Int) : Prop := -(2 ^ 59) ≤ a ∧ a < 2 ^ 59

instance (a : Int) : Decidable (Modest a) := by
  unfold Modest
  infer_instance

/-- Area of the intersection of the rectangles A=(x1,y1,w1,h1) and
B=(x2,y2,w2,h2), in exact integers: the product of the lengths of the
intersections of the two projections (0 when a projection has no interior in
common).  The rectangles share interior area when this is positive. -/
def overlapArea (x1 y1 w1 h1 x2 y2 w2 h2 : Int) : Int :=
  max 0 (min (x1 + w1) (x2 + w2) - max x1 x2) * max 0 (min (y1 + h1) (y2 + h2) - max y1 y2)

/-- The ray `coord` leaves the grid at step `j`, and none of its steps
0 .. j-1 lies on a Wall or a Soft cell: a walk of more than `j` steps along it
looks up the coordinate of step `j`. -/
def LeavesGrid (coord : Int → Int × Int) (j : Int) (m : Map) : Prop :=
  (∀ j' : Int, 0 ≤ j' → j' < j → m.blockAt (coord j') = false) ∧
    m.At (coord j).1 (coord j).2 = none

/-- A row of three slots without walls: an empty slot, a live bomb of power 1
and the expired bomb of power 4 whose explosion is applied at (2,0). -/
def Example.rowGrid : Map :=
  { CellLength := 16, Width := 3, Height := 1,
    Cells := [none, some (Cell.Bomb { framesToExplosion := 5, power := 1, putter := none }),
      some (Cell.Bomb { framesToExplosion := 0, power := 4, putter := none })] }

/-! ## The same program, recording the Flames it writes

To tell which slots an explosion turned to Flame, and during the `Update` of
which cell, the functions of `Map.Update` are written once more over a state
that carries, next to the grid, the list of the Flames written so far: every
write `*c = NewFlameCell()` of the closure `f` appends the coordinate written,
together with the coordinate of the cell whose `Update` is running.  `f` makes
that write on every slot it is called on, unless the slot holds a Wall.  The
record is never read; `Map.UpdateS_erase` shows that dropping it gives
`Map.Update` back. -/

/-- One write of a new Flame by `f`: `visit` is the coordinate of the cell whose
`Update` is running, the bomb whose counter reached 0 and whose explosion made
the write itself or through the bombs it chained; `target` is the coordinate
written. -/
structure Scorch where
  visit : Int × Int
  target : Int × Int
deriving DecidableEq, Repr

/-- A grid together with the Flames written so far, in order. -/
abbrev Seen := Map × List Scorch

/-- The closure `f` of `Map.Explosion`, recording its writes; `u` is the
coordinate of the cell whose `Update` is running. -/
def Explosion.fS (u : Int × Int) (rec : Seen → BombCell → Int → Int → Outcome Seen) (s : Seen)
    (x y : Int) : Outcome (Seen × Bool) :=
  match s.1.At x y with
  | none => Outcome.crash
  | some i =>
    match s.1.Cells[i]? with
    | none => Outcome.crash
    | some (some Cell.Wall) => Outcome.done (s, false)
    | some (some Cell.Soft) =>
      Outcome.done ((s.1.store i (some NewFlameCell), s.2 ++ [⟨u, (x, y)⟩]), false)
    | some (some (Cell.Bomb bc)) =>
      if !bc.HasExpired then
        (rec s bc x y).bind fun s1 =>
          Outcome.done ((s1.1.store i (some NewFlameCell), s1.2 ++ [⟨u, (x, y)⟩]), true)
      else Outcome.done ((s.1.store i (some NewFlameCell), s.2 ++ [⟨u, (x, y)⟩]), true)
    | some _ => Outcome.done ((s.1.store i (some NewFlameCell), s.2 ++ [⟨u, (x, y)⟩]), true)

/-- One loop of `Map.Explosion`, recording the writes. -/
def Explosion.walkS (u : Int × Int) (rec : Seen → BombCell → Int → Int → Outcome Seen)
    (coord : Int → Int × Int) : Nat → Int → Seen → Outcome Seen
  | 0, _, s => Outcome.done s
  | n + 1, i, s =>
    match Explosion.fS u rec s (coord i).1 (coord i).2 with
    | Outcome.done (s1, true) => Explosion.walkS u rec coord n (i + 1) s1
    | Outcome.done (s1, false) => Outcome.done s1
    | Outcome.crash => Outcome.crash
    | Outcome.outOfFuel => Outcome.outOfFuel

/-- The body of `Map.Explosion`, recording the writes. -/
def Explosion.bodyS (u : Int × Int) (rec : Seen → BombCell → Int → Int → Outcome Seen) (s : Seen)
    (c : BombCell) (x y : Int) : Outcome Seen :=
  (Explosion.walkS u rec (fun i => (x - i, y)) c.power.toNat 0
    (s.1.markExpired x y, s.2)).bind fun s1 =>
  (Explosion.walkS u rec (fun i => (x + i, y)) c.power.toNat 0 s1).bind fun s2 =>
  (Explosion.walkS u rec (fun i => (x, y - i)) c.power.toNat 0 s2).bind fun s3 =>
  Explosion.walkS u rec (fun i => (x, y + i)) c.power.toNat 0 s3

/-- `Map.Explosion` with a bound on the depth of the recursion, recording the
writes. -/
def Explosion.runS (u : Int × Int) : Nat → Seen → BombCell → Int → Int → Outcome Seen
  | 0 => fun _ _ _ _ => Outcome.outOfFuel
  | fuel + 1 => Explosion.bodyS u (Explosion.runS u fuel)

/-- The method `Update` of the four cell types, recording the writes of the
explosion it starts. -/
def Cell.UpdateS (cell : Cell) (x y : Int) (i : Nat) (s : Seen) : Outcome Seen :=
  match cell with
  | Cell.Wall => Outcome.done s
  | Cell.Soft => Outcome.done s
  | Cell.Bomb c =>
    let c1 : BombCell := { c with framesToExplosion := c.framesToExplosion - 1 }
    let m1 := s.1.store i (some (Cell.Bomb c1))
    if c1.framesToExplosion = 0 then
      Explosion.runS (x, y) (liveBombs m1.Cells + 1) (m1, s.2) c1 x y
    else Outcome.done (m1, s.2)
  | Cell.Flame c => Outcome.done (s.1.store i (some (Cell.Flame { frames := c.frames - 1 })), s.2)

/-- The `ForEach` of `Map.Update` over the coordinates `cs`, recording. -/
def Map.updateLoopS (cs : List (Int × Int)) (s : Seen) : Outcome Seen :=
  ForEach (fun s : Seen => s.1) (fun x y i cell s => cell.UpdateS x y i s) cs s

/-- `Map.Update`, returning with the grid the Flames that its explosions
wrote, in order. -/
def Map.UpdateS (m : Map) : Outcome Seen :=
  (Map.updateLoopS m.coords (m, [])).bind fun s => (Map.Cleanup s.1).map fun m1 => (m1, s.2)

/-- The grid after `n` more calls of `Map.Update`, the Flames they wrote
appended to the record. -/
def Map.updateNS : Nat → Seen → Outcome Seen
  | 0, s => Outcome.done s
  | n + 1, s => (Map.UpdateS s.1).bind fun s1 => Map.updateNS n (s1.1, s.2 ++ s1.2)

/-- The recorded writes to the coordinate `p`. -/
def scorched (p : Int × Int) (l : List Scorch) : List Scorch :=
  l.filter fun e => decide (e.target = p)

instance (p q : Int × Int) : Decidable (Before p q) := by
  unfold Before
  infer_instance

/-- Slot `k`, of coordinate `p`, during an explosion started by the `Update`
of the cell at `u`: either no Flame has been written to `p` since the record
of its writes was `W`, and the slot holds what it held, `v`; or the last write
to `p` was made by this explosion and the slot holds the new Flame. -/
def Kept (p : Int × Int) (k : Nat) (u : Int × Int) (W : List Scorch) (v : Option Cell)
    (s : Seen) : Prop :=
  (scorched p s.2 = W ∧ s.1.Cells[k]? = some v) ∨
    ((scorched p s.2).getLast? = some ⟨u, p⟩ ∧ s.1.Cells[k]? = some (some NewFlameCell))

/-- What a function from recorded grids to recorded grids must satisfy to
stand for the recursive call of `Map.Explosion` in the account of slot `k`:
it keeps the shape of the grid and, rooted at another coordinate than `p`, it
keeps `Kept`. -/
def KeepsSlot (p : Int × Int) (k : Nat) (u : Int × Int) (W : List Scorch) (v : Option Cell)
    (rec : Seen → BombCell → Int → Int → Outcome Seen) : Prop :=
  ∀ (s : Seen) (c : BombCell) (x y : Int) (s' : Seen), rec s c x y = Outcome.done s' →
    SameShape s.1 s'.1 ∧
      ((x, y) ≠ p → s.1.At p.1 p.2 = some k → Kept p k u W v s → Kept p k u W v s')

/-- Slot `k`, of coordinate `p`, which held `v` in grid `m`, when the loop of
`Map.Update` has visited the coordinates `pre`: with no write of a Flame to
`p` recorded, the slot holds `v`, ticked once if `p` has been visited; else
the last such write was made during the visit of a coordinate of `pre`, and
the slot holds that Flame, ticked once (59 frames) if `p` has been visited
after that coordinate, untouched (60 frames) otherwise. -/
def SlotAfter (m : Map) (p : Int × Int) (k : Nat) (v : Option Cell) (pre : List (Int × Int))
    (s : Seen) : Prop :=
  SameShape m s.1 ∧
  (scorched p s.2 = [] →
    (p ∈ pre → s.1.Cells[k]? = some (tickSlot v)) ∧ (p ∉ pre → s.1.Cells[k]? = some v)) ∧
  (∀ e, (scorched p s.2).getLast? = some e → e.visit ∈ pre ∧
    ((Before e.visit p ∧ p ∈ pre) →
      s.1.Cells[k]? = some (some (Cell.Flame { frames := 59 }))) ∧
    (¬ (Before e.visit p ∧ p ∈ pre) →
      s.1.Cells[k]? = some (some (Cell.Flame { frames := 60 }))))

/-- A 5 by 3 grid inside a border of walls, its middle row holding a bomb of
power 2 with 5 frames left at (1,1), a bomb of power 2 with one frame left at
(2,1) and an empty slot at (3,1). -/
def Example.fuseGrid : Map :=
  { CellLength := 16, Width := 5, Height := 3,
    Cells := [Example.W, Example.W, Example.W, Example.W, Example.W,
              Example.W, some (Cell.Bomb { framesToExplosion := 5, power := 2, putter := none }),
                some (Cell.Bomb { framesToExplosion := 1, power := 2, putter := none }),
                none, Example.W,
              Example.W, Example.W, Example.W, Example.W, Example.W] }

/-- The grid `Example.fuseGrid` after one `Map.Update`, in which the bomb at
(2,1) explodes and chains the bomb at (1,1). -/
def Example.fuseGridAfter1 : Map :=
  { CellLength := 16, Width := 5, Height := 3,
    Cells := [Example.W, Example.W, Example.W, Example.W, Example.W,
              Example.W, some (Cell.Flame { frames := 60 }), some (Cell.Flame { frames := 60 }),
                some (Cell.Flame { frames := 59 }), Example.W,
              Example.W, Example.W, Example.W, Example.W, Example.W] }

/-- The grid `Example.fuseGridAfter1` after 60 more calls of `Map.Update`. -/
def Example.fuseGridAfter61 : Map :=
  { CellLength := 16, Width := 5, Height := 3,
    Cells := [Example.W, Example.W, Example.W, Example.W, Example.W,
              Example.W, some (Cell.Flame { frames := 0 }), some (Cell.Flame { frames := 0 }),
                none, Example.W,
              Example.W, Example.W, Example.W, Example.W, Example.W] }

/-- The Flames written during the `Map.Update` of `Example.fuseGrid`, all of
them by the explosion that the `Update` of the bomb at (2,1) started. -/
def Example.fuseLog : List Scorch :=
  [⟨(2, 1), (2, 1)⟩, ⟨(2, 1), (1, 1)⟩, ⟨(2, 1), (1, 1)⟩, ⟨(2, 1), (2, 1)⟩, ⟨(2, 1), (1, 1)⟩,
   ⟨(2, 1), (1, 1)⟩, ⟨(2, 1), (1, 1)⟩, ⟨(2, 1), (2, 1)⟩, ⟨(2, 1), (3, 1)⟩, ⟨(2, 1), (2, 1)⟩,
   ⟨(2, 1), (2, 1)⟩]

/-- A 5 by 3 grid inside a border of walls, its middle row holding a bomb of
power 3 with one frame left at (1,1), a Soft cell at (2,1) and a bomb with 5
frames left at (3,1), which the Soft cell shields from the blast. -/
def Example.shieldGrid : Map :=
  { CellLength := 16, Width := 5, Height := 3,
    Cells := [Example.W, Example.W, Example.W, Example.W, Example.W,
              Example.W, some (Cell.Bomb { framesToExplosion := 1, power := 3, putter := none }),
                some Cell.Soft,
                some (Cell.Bomb { framesToExplosion := 5, power := 1, putter := none }), Example.W,
              Example.W, Example.W, Example.W, Example.W, Example.W] }

/-- The grid `Example.shieldGrid` after one `Map.Update`. -/
def Example.shieldGridAfter1 : Map :=
  { CellLength := 16, Width := 5, Height := 3,
    Cells := [Example.W, Example.W, Example.W, Example.W, Example.W,
              Example.W, some (Cell.Flame { frames := 60 }), some (Cell.Flame { frames := 59 }),
                some (Cell.Bomb { framesToExplosion := 4, power := 1, putter := none }), Example.W,
              Example.W, Example.W, Example.W, Example.W, Example.W] }

/-- The Flames written during the `Map.Update` of `Example.shieldGrid`. -/
def Example.shieldLog : List Scorch :=
  [⟨(1, 1), (1, 1)⟩, ⟨(1, 1), (1, 1)⟩, ⟨(1, 1), (2, 1)⟩, ⟨(1, 1), (1, 1)⟩, ⟨(1, 1), (1, 1)⟩]

/-- The grid `Example.chainGrid` after one `Map.Update`. -/
def Example.chainGridAfter1 : Map :=
  { CellLength := 16, Width := 5, Height := 3,
    Cells := [Example.W, Example.W, Example.W, Example.W, Example.W,
              Example.W, some (Cell.Flame { frames := 60 }), some (Cell.Flame { frames := 59 }),
                some (Cell.Flame { frames := 59 }), Example.W,
              Example.W, Example.W, Example.W, Example.W, Example.W] }

/-- The Flames written during the `Map.Update` of `Example.chainGrid`. -/
def Example.chainLog : List Scorch :=
  [⟨(1, 1), (1, 1)⟩, ⟨(1, 1), (1, 1)⟩, ⟨(1, 1), (2, 1)⟩, ⟨(1, 1), (2, 1)⟩, ⟨(1, 1), (2, 1)⟩,
   ⟨(1, 1), (2, 1)⟩, ⟨(1, 1), (2, 1)⟩, ⟨(1, 1), (3, 1)⟩, ⟨(1, 1), (1, 1)⟩, ⟨(1, 1), (1, 1)⟩]

/-! ## Theorems on the geometry -/

theorem wrap64_of_range (a : Int) (h1 : -(2 ^ 63) ≤ a) (h2 : a < 2 ^ 63) : wrap64 a = a := by
  unfold wrap64
  omega

/-- Within the range `Small` no operation of `CollideRect` overflows, so the
wrapping version and the unbounded version agree. -/
theorem CollideRect64_eq (x1 y1 w1 h1 x2 y2 w2 h2 : Int)
    (hx1 : Small x1) (hy1 : Small y1) (hw1 : Small w1) (hh1 : Small h1)
    (hx2 : Small x2) (hy2 : Small y2) (hw2 : Small w2) (hh2 : Small h2) :
    CollideRect64 x1 y1 w1 h1 x2 y2 w2 h2 = CollideRect x1 y1 w1 h1 x2 y2 w2 h2 := by
  unfold Small at *
  have e1 : wrap64 (x2 + w2) = x2 + w2 := wrap64_of_range _ (by omega) (by omega)
  have e2 : wrap64 (x1 + w1) = x1 + w1 := wrap64_of_range _ (by omega) (by omega)
  have e3 : wrap64 (y2 + h2) = y2 + h2 := wrap64_of_range _ (by omega) (by omega)
  have e4 : wrap64 (y1 + h1) = y1 + h1 := wrap64_of_range _ (by omega) (by omega)
  have e5 : wrap64 (x1 - (x2 + w2)) = x1 - (x2 + w2) := wrap64_of_range _ (by omega) (by omega)
  have e6 : wrap64 (x2 - (x1 + w1)) = x2 - (x1 + w1) := wrap64_of_range _ (by omega) (by omega)
  have e7 : wrap64 (y1 - (y2 + h2)) = y1 - (y2 + h2) := wrap64_of_range _ (by omega) (by omega)
  have e8 : wrap64 (y2 - (y1 + h1)) = y2 - (y1 + h1) := wrap64_of_range _ (by omega) (by omega)
  have e9 : wrap64 (-(x1 - (x2 + w2))) = -(x1 - (x2 + w2)) :=
    wrap64_of_range _ (by omega) (by omega)
  have e10 : wrap64 (-(y1 - (y2 + h2))) = -(y1 - (y2 + h2)) :=
    wrap64_of_range _ (by omega) (by omega)
  simp only [CollideRect64, CollideRect, e1, e2, e3, e4, e5, e6, e7, e8, e9, e10]

theorem Modest.small {a : Int} (h : Modest a) : Small a := by
  unfold Modest at h
  unfold Small
  omega

theorem overlapArea_pos_iff (x1 y1 w1 h1 x2 y2 w2 h2 : Int) :
    0 < overlapArea x1 y1 w1 h1 x2 y2 w2 h2 ↔
      ((x1 < x2 + w2 ∧ x2 < x1 + w1) ∧ (y1 < y2 + h2 ∧ y2 < y1 + h1)) ∧
        (0 < w1 ∧ 0 < h1 ∧ 0 < w2 ∧ 0 < h2) := by
  unfold overlapArea
  constructor
  · intro h
    have hx : 0 < max 0 (min (x1 + w1) (x2 + w2) - max x1 x2) := by
      rcases lt_or_eq_of_le (le_max_left 0 (min (x1 + w1) (x2 + w2) - max x1 x2)) with h1 | h1
      · exact h1
      · rw [← h1] at h
        simp at h
    have hy : 0 < max 0 (min (y1 + h1) (y2 + h2) - max y1 y2) := by
      rcases lt_or_eq_of_le (le_max_left 0 (min (y1 + h1) (y2 + h2) - max y1 y2)) with h1 | h1
      · exact h1
      · rw [← h1] at h
        simp at h
    omega
  · intro h
    apply Int.mul_pos
    · omega
    · omega

/-- C1, counterexample.  With Go's wrapping 64-bit arithmetic the x component
does not follow the strict overlap of the x projections: for
A=(-10,0,MaxInt64,1), B=(MinInt64,0,MaxInt64,1), all of them values of `int`,
the projections strictly overlap and the component is 0 (`x2-(x1+w1)` wraps to
11); for A=(2^62,0,0,1), B=(-2^62,0,0,1) they do not overlap and the component
is MinInt64.  And without overflow: the zero-size rectangle A=(1,1,0,0) inside
B=(0,0,5,5) gets (-1,-1), both components non-zero, although the two share no
interior area. -/
theorem CollideRect_nonzero_iff_overlap_counterexample :
    (IsInt64 (-10) ∧ IsInt64 (2 ^ 63 - 1) ∧ IsInt64 (-(2 ^ 63)) ∧ IsInt64 0 ∧ IsInt64 1) ∧
    (((-10 : Int) < -(2 ^ 63) + (2 ^ 63 - 1) ∧ (-(2 ^ 63) : Int) < -10 + (2 ^ 63 - 1)) ∧
      CollideRect64 (-10) 0 (2 ^ 63 - 1) 1 (-(2 ^ 63)) 0 (2 ^ 63 - 1) 1 = (0, -1)) ∧
    ((IsInt64 (2 ^ 62) ∧ IsInt64 (-(2 ^ 62))) ∧ ¬ ((2 ^ 62 : Int) < -(2 ^ 62) + 0) ∧
      (CollideRect64 (2 ^ 62) 0 0 1 (-(2 ^ 62)) 0 0 1).1 = -(2 ^ 63)) ∧
    (CollideRect64 1 1 0 0 0 0 5 5 = (-1, -1) ∧ CollideRect 1 1 0 0 0 0 5 5 = (-1, -1) ∧
      overlapArea 1 1 0 0 0 0 5 5 = 0) := by
  refine ⟨by decide, ⟨by decide, by decide⟩, ⟨by decide, by decide, by decide⟩,
    by decide, by decide, by decide⟩

/-- C1, amended: for rectangles whose coordinates and sizes lie in
[-2^61, 2^61), where no operation of the wrapping 64-bit code overflows, the x
component returned by `CollideRect` is non-zero exactly when the x projections
strictly overlap, the y component exactly when the y projections do; a
rectangle that only touches the other at a boundary on an axis gets 0 on that
axis; and the rectangles share interior area exactly when both components are
non-zero and all four sizes are positive, so for rectangles of positive width
and height both components are non-zero exactly when they share interior
area. -/
theorem CollideRect_nonzero_iff_overlap (x1 y1 w1 h1 x2 y2 w2 h2 : Int)
    (hx1 : Small x1) (hy1 : Small y1) (hw1 : Small w1) (hh1 : Small h1)
    (hx2 : Small x2) (hy2 : Small y2) (hw2 : Small w2) (hh2 : Small h2) :
    ((CollideRect64 x1 y1 w1 h1 x2 y2 w2 h2).1 ≠ 0 ↔ (x1 < x2 + w2 ∧ x2 < x1 + w1)) ∧
    ((CollideRect64 x1 y1 w1 h1 x2 y2 w2 h2).2 ≠ 0 ↔ (y1 < y2 + h2 ∧ y2 < y1 + h1)) ∧
    ((x1 = x2 + w2 ∨ x1 + w1 = x2 → (CollideRect64 x1 y1 w1 h1 x2 y2 w2 h2).1 = 0) ∧
      (y1 = y2 + h2 ∨ y1 + h1 = y2 → (CollideRect64 x1 y1 w1 h1 x2 y2 w2 h2).2 = 0)) ∧
    (0 < overlapArea x1 y1 w1 h1 x2 y2 w2 h2 ↔
      ((CollideRect64 x1 y1 w1 h1 x2 y2 w2 h2).1 ≠ 0 ∧
        (CollideRect64 x1 y1 w1 h1 x2 y2 w2 h2).2 ≠ 0) ∧
        (0 < w1 ∧ 0 < h1 ∧ 0 < w2 ∧ 0 < h2)) ∧
    (0 < w1 → 0 < h1 → 0 < w2 → 0 < h2 →
      (((CollideRect64 x1 y1 w1 h1 x2 y2 w2 h2).1 ≠ 0 ∧
          (CollideRect64 x1 y1 w1 h1 x2 y2 w2 h2).2 ≠ 0) ↔
        0 < overlapArea x1 y1 w1 h1 x2 y2 w2 h2)) := by
  rw [CollideRect64_eq x1 y1 w1 h1 x2 y2 w2 h2 hx1 hy1 hw1 hh1 hx2 hy2 hw2 hh2]
  have hx : (CollideRect x1 y1 w1 h1 x2 y2 w2 h2).1 ≠ 0 ↔ (x1 < x2 + w2 ∧ x2 < x1 + w1) := by
    simp only [CollideRect]
    split_ifs <;> omega
  have hy : (CollideRect x1 y1 w1 h1 x2 y2 w2 h2).2 ≠ 0 ↔ (y1 < y2 + h2 ∧ y2 < y1 + h1) := by
    simp only [CollideRect]
    split_ifs <;> omega
  have ha := overlapArea_pos_iff x1 y1 w1 h1 x2 y2 w2 h2
  refine ⟨hx, hy, ⟨?_, ?_⟩, ?_, ?_⟩
  · intro h
    by_contra hne
    have := hx.1 hne
    omega
  · intro h
    by_contra hne
    have := hy.1 hne
    omega
  · rw [ha, hx, hy]
  · intro p1 p2 p3 p4
    rw [ha, hx, hy]
    constructor
    · intro h
      exact ⟨h, p1, p2, p3, p4⟩
    · intro h
      exact h.1

/-- Witness of C1 at the `collision x` rectangles of the test, which share
interior area, and at the spec's touching rectangles A=(0,0,5,5),
B=(5,0,5,5). -/
theorem CollideRect_nonzero_iff_overlap_witness :
    ((CollideRect64 0 0 5 5 4 0 5 5).1 ≠ 0 ↔ ((0 : Int) < 4 + 5 ∧ (4 : Int) < 0 + 5)) ∧
    (CollideRect64 0 0 5 5 5 0 5 5).1 = 0 ∧
    (((CollideRect64 0 0 5 5 4 0 5 5).1 ≠ 0 ∧ (CollideRect64 0 0 5 5 4 0 5 5).2 ≠ 0) ↔
      0 < overlapArea 0 0 5 5 4 0 5 5) :=
  ⟨(CollideRect_nonzero_iff_overlap 0 0 5 5 4 0 5 5 (by decide) (by decide) (by decide)
      (by decide) (by decide) (by decide) (by decide) (by decide)).1,
   (CollideRect_nonzero_iff_overlap 0 0 5 5 5 0 5 5 (by decide) (by decide) (by decide)
      (by decide) (by decide) (by decide) (by decide) (by decide)).2.2.1.1 (Or.inr (by decide)),
   (CollideRect_nonzero_iff_overlap 0 0 5 5 4 0 5 5 (by decide) (by decide) (by decide)
      (by decide) (by decide) (by decide) (by decide) (by decide)).2.2.2.2
      (by decide) (by decide) (by decide) (by decide)⟩

/-- C2, counterexample.  With Go's wrapping 64-bit arithmetic the component
on an axis whose projections strictly overlap need not be the stated push: for
A=(-10,0,MaxInt64,1), B=(MinInt64,0,MaxInt64,1), all of them values of `int`,
the x projections strictly overlap and the push to the right, 9, is the
shorter one, but the code returns 0 on x, because `x2-(x1+w1)` wraps to 11. -/
theorem CollideRect_direction_counterexample :
    (IsInt64 (-10) ∧ IsInt64 (2 ^ 63 - 1) ∧ IsInt64 (-(2 ^ 63)) ∧ IsInt64 0 ∧ IsInt64 1) ∧
    ((-10 : Int) < -(2 ^ 63) + (2 ^ 63 - 1) ∧ (-(2 ^ 63) : Int) < -10 + (2 ^ 63 - 1)) ∧
    (if (-(2 ^ 63) : Int) + (2 ^ 63 - 1) - (-10) < -10 + (2 ^ 63 - 1) - (-(2 ^ 63))
      then (-(2 ^ 63) : Int) + (2 ^ 63 - 1) - (-10)
      else -(-10 + (2 ^ 63 - 1) - (-(2 ^ 63)))) = 9 ∧
    wrap64 (-(2 ^ 63) - wrap64 (-10 + (2 ^ 63 - 1))) = 11 ∧
    (CollideRect64 (-10) 0 (2 ^ 63 - 1) 1 (-(2 ^ 63)) 0 (2 ^ 63 - 1) 1).1 = 0 := by
  refine ⟨by decide, ⟨by decide, by decide⟩, by decide, by decide, by decide⟩

/-- C2, amended: for rectangles whose coordinates and sizes lie in
[-2^61, 2^61), where no operation of the wrapping 64-bit code overflows, on an
axis whose projections strictly overlap the component is the push to the right
(resp. down) `x2+w2-x1` when that is strictly shorter than the push to the
left `x1+w1-x2`, and minus the push to the left otherwise, so a tie gives the
negative value; the six vectors of `TestCollisionRect` are instances. -/
theorem CollideRect_direction :
    (∀ x1 y1 w1 h1 x2 y2 w2 h2 : Int,
      Small x1 → Small y1 → Small w1 → Small h1 → Small x2 → Small y2 → Small w2 → Small h2 →
      x1 < x2 + w2 → x2 < x1 + w1 →
      (CollideRect64 x1 y1 w1 h1 x2 y2 w2 h2).1 =
        (if x2 + w2 - x1 < x1 + w1 - x2 then x2 + w2 - x1 else -(x1 + w1 - x2)) ∧
      (x2 + w2 - x1 = x1 + w1 - x2 → (CollideRect64 x1 y1 w1 h1 x2 y2 w2 h2).1 < 0)) ∧
    (∀ x1 y1 w1 h1 x2 y2 w2 h2 : Int,
      Small x1 → Small y1 → Small w1 → Small h1 → Small x2 → Small y2 → Small w2 → Small h2 →
      y1 < y2 + h2 → y2 < y1 + h1 →
      (CollideRect64 x1 y1 w1 h1 x2 y2 w2 h2).2 =
        (if y2 + h2 - y1 < y1 + h1 - y2 then y2 + h2 - y1 else -(y1 + h1 - y2)) ∧
      (y2 + h2 - y1 = y1 + h1 - y2 → (CollideRect64 x1 y1 w1 h1 x2 y2 w2 h2).2 < 0)) ∧
    CollideRect64 0 0 5 5 10 10 5 5 = (0, 0) ∧
    CollideRect64 0 0 5 5 4 0 5 5 = (-1, -5) ∧
    CollideRect64 0 0 5 5 (-4) 0 5 5 = (1, -5) ∧
    CollideRect64 0 0 5 5 0 4 5 5 = (-5, -1) ∧
    CollideRect64 0 0 5 5 0 (-4) 5 5 = (-5, 1) ∧
    CollideRect64 15 120 12 12 0 112 16 16 = (1, 8) := by
  refine ⟨?_, ?_, by decide, by decide, by decide, by decide, by decide, by decide⟩
  · intro x1 y1 w1 h1 x2 y2 w2 h2 hx1 hy1 hw1 hh1 hx2 hy2 hw2 hh2 ha hb
    rw [CollideRect64_eq x1 y1 w1 h1 x2 y2 w2 h2 hx1 hy1 hw1 hh1 hx2 hy2 hw2 hh2]
    simp only [CollideRect]
    constructor
    · split_ifs <;> omega
    · intro ht
      split_ifs <;> omega
  · intro x1 y1 w1 h1 x2 y2 w2 h2 hx1 hy1 hw1 hh1 hx2 hy2 hw2 hh2 ha hb
    rw [CollideRect64_eq x1 y1 w1 h1 x2 y2 w2 h2 hx1 hy1 hw1 hh1 hx2 hy2 hw2 hh2]
    simp only [CollideRect]
    constructor
    · split_ifs <;> omega
    · intro ht
      split_ifs <;> omega

/-- Witness of C2 at the `real case` rectangles of the test, whose x and y
projections both overlap, and at the `collision x` rectangles, whose y
projections tie. -/
theorem CollideRect_direction_witness :
    (CollideRect64 15 120 12 12 0 112 16 16).1 = 1 ∧
    (CollideRect64 15 120 12 12 0 112 16 16).2 = 8 ∧
    (CollideRect64 0 0 5 5 4 0 5 5).2 < 0 :=
  ⟨(CollideRect_direction.1 15 120 12 12 0 112 16 16 (by decide) (by decide) (by decide)
      (by decide) (by decide) (by decide) (by decide) (by decide) (by decide) (by decide)).1,
   (CollideRect_direction.2.1 15 120 12 12 0 112 16 16 (by decide) (by decide) (by decide)
      (by decide) (by decide) (by decide) (by decide) (by decide) (by decide) (by decide)).1,
   (CollideRect_direction.2.1 0 0 5 5 4 0 5 5 (by decide) (by decide) (by decide)
      (by decide) (by decide) (by decide) (by decide) (by decide) (by decide) (by decide)).2
      (by decide)⟩

/-- C3, counterexample.  With Go's wrapping 64-bit arithmetic the component is
not a minimal separating translation.  For A=(2^62,0,0,1), B=(-2^62,0,0,1),
all of them values of `int`, the x component is MinInt64 (both gaps wrap to
MinInt64), so t = 0 is shorter than it, yet A moved by 0 does not strictly
overlap B on x.  For A=(0,0,2^62-5,1), B=(-2^62,0,2^62+19,1) the x component
is 19 and t = 10 is shorter, A moved by 10 still strictly overlaps B on x, but
the code reports no overlap for it: it returns 0 on x. -/
theorem CollideRect_minimal_translation_counterexample :
    ((IsInt64 (2 ^ 62) ∧ IsInt64 (-(2 ^ 62)) ∧ IsInt64 0 ∧ IsInt64 1) ∧
      (CollideRect64 (2 ^ 62) 0 0 1 (-(2 ^ 62)) 0 0 1).1 = -(2 ^ 63) ∧
      |(0 : Int)| < |(CollideRect64 (2 ^ 62) 0 0 1 (-(2 ^ 62)) 0 0 1).1| ∧
      ¬ ((2 ^ 62 : Int) + 0 < -(2 ^ 62) + 0 ∧ (-(2 ^ 62) : Int) < 2 ^ 62 + 0 + 0)) ∧
    ((IsInt64 (2 ^ 62 - 5) ∧ IsInt64 (2 ^ 62 + 19) ∧ IsInt64 (0 + 10)) ∧
      (CollideRect64 0 0 (2 ^ 62 - 5) 1 (-(2 ^ 62)) 0 (2 ^ 62 + 19) 1).1 = 19 ∧
      |(10 : Int)| < |(CollideRect64 0 0 (2 ^ 62 - 5) 1 (-(2 ^ 62)) 0 (2 ^ 62 + 19) 1).1| ∧
      ((0 : Int) + 10 < -(2 ^ 62) + (2 ^ 62 + 19) ∧ (-(2 ^ 62) : Int) < 0 + 10 + (2 ^ 62 - 5)) ∧
      (CollideRect64 (0 + 10) 0 (2 ^ 62 - 5) 1 (-(2 ^ 62)) 0 (2 ^ 62 + 19) 1).1 = 0) := by
  have e1 : (CollideRect64 (2 ^ 62) 0 0 1 (-(2 ^ 62)) 0 0 1).1 = -(2 ^ 63) := by decide
  have e2 : (CollideRect64 0 0 (2 ^ 62 - 5) 1 (-(2 ^ 62)) 0 (2 ^ 62 + 19) 1).1 = 19 := by decide
  refine ⟨⟨by decide, e1, ?_, by decide⟩, by decide, e2, ?_, ⟨by decide, by decide⟩, by decide⟩
  · rw [e1]
    norm_num
  · rw [e2]
    norm_num

/-- C3, amended: for rectangles whose coordinates and sizes lie in
[-2^59, 2^59), where neither the wrapping 64-bit code nor the translations
below overflow, the component returned on an axis is a minimal separating
translation on that axis: after moving A by it the component is 0, and for
every strictly shorter translation the projections still strictly overlap and
the component returned for the moved A is non-zero. -/
theorem CollideRect_minimal_translation (x1 y1 w1 h1 x2 y2 w2 h2 : Int)
    (hx1 : Modest x1) (hy1 : Modest y1) (hw1 : Modest w1) (hh1 : Modest h1)
    (hx2 : Modest x2) (hy2 : Modest y2) (hw2 : Modest w2) (hh2 : Modest h2) :
    (CollideRect64 (x1 + (CollideRect64 x1 y1 w1 h1 x2 y2 w2 h2).1) y1 w1 h1 x2 y2 w2 h2).1 = 0 ∧
    (∀ t : Int, |t| < |(CollideRect64 x1 y1 w1 h1 x2 y2 w2 h2).1| →
      (x1 + t < x2 + w2 ∧ x2 < x1 + t + w1) ∧
      (CollideRect64 (x1 + t) y1 w1 h1 x2 y2 w2 h2).1 ≠ 0) ∧
    (CollideRect64 x1 (y1 + (CollideRect64 x1 y1 w1 h1 x2 y2 w2 h2).2) w1 h1 x2 y2 w2 h2).2 = 0 ∧
    (∀ t : Int, |t| < |(CollideRect64 x1 y1 w1 h1 x2 y2 w2 h2).2| →
      (y1 + t < y2 + h2 ∧ y2 < y1 + t + h1) ∧
      (CollideRect64 x1 (y1 + t) w1 h1 x2 y2 w2 h2).2 ≠ 0) := by
  rw [CollideRect64_eq x1 y1 w1 h1 x2 y2 w2 h2 hx1.small hy1.small hw1.small hh1.small
    hx2.small hy2.small hw2.small hh2.small]
  have bx : |(CollideRect x1 y1 w1 h1 x2 y2 w2 h2).1| < 2 ^ 60 + 2 ^ 59 := by
    unfold Modest at *
    rcases abs_cases (CollideRect x1 y1 w1 h1 x2 y2 w2 h2).1 with ⟨h, _⟩ | ⟨h, _⟩ <;>
      rw [h] <;> simp only [CollideRect] <;> split_ifs <;> omega
  have by1 : |(CollideRect x1 y1 w1 h1 x2 y2 w2 h2).2| < 2 ^ 60 + 2 ^ 59 := by
    unfold Modest at *
    rcases abs_cases (CollideRect x1 y1 w1 h1 x2 y2 w2 h2).2 with ⟨h, _⟩ | ⟨h, _⟩ <;>
      rw [h] <;> simp only [CollideRect] <;> split_ifs <;> omega
  have sx : ∀ t : Int, |t| ≤ |(CollideRect x1 y1 w1 h1 x2 y2 w2 h2).1| → Small (x1 + t) := by
    intro t ht
    have h1 := abs_le.1 (le_trans ht (le_of_lt bx))
    unfold Modest at hx1
    unfold Small
    omega
  have sy : ∀ t : Int, |t| ≤ |(CollideRect x1 y1 w1 h1 x2 y2 w2 h2).2| → Small (y1 + t) := by
    intro t ht
    have h1 := abs_le.1 (le_trans ht (le_of_lt by1))
    unfold Modest at hy1
    unfold Small
    omega
  refine ⟨?_, ?_, ?_, ?_⟩
  · rw [CollideRect64_eq _ y1 w1 h1 x2 y2 w2 h2 (sx _ (le_refl _)) hy1.small hw1.small hh1.small
      hx2.small hy2.small hw2.small hh2.small]
    simp only [CollideRect]
    split_ifs <;> omega
  · intro t
    intro ht
    rw [CollideRect64_eq _ y1 w1 h1 x2 y2 w2 h2 (sx t (le_of_lt ht)) hy1.small hw1.small hh1.small
      hx2.small hy2.small hw2.small hh2.small]
    rw [abs_lt] at ht
    rcases abs_cases (CollideRect x1 y1 w1 h1 x2 y2 w2 h2).1 with ⟨h, _⟩ | ⟨h, _⟩ <;>
      rw [h] at ht <;> simp only [CollideRect] at ht ⊢ <;> split_ifs at ht ⊢ <;> omega
  · rw [CollideRect64_eq x1 _ w1 h1 x2 y2 w2 h2 hx1.small (sy _ (le_refl _)) hw1.small hh1.small
      hx2.small hy2.small hw2.small hh2.small]
    simp only [CollideRect]
    split_ifs <;> omega
  · intro t
    intro ht
    rw [CollideRect64_eq x1 _ w1 h1 x2 y2 w2 h2 hx1.small (sy t (le_of_lt ht)) hw1.small hh1.small
      hx2.small hy2.small hw2.small hh2.small]
    rw [abs_lt] at ht
    rcases abs_cases (CollideRect x1 y1 w1 h1 x2 y2 w2 h2).2 with ⟨h, _⟩ | ⟨h, _⟩ <;>
      rw [h] at ht <;> simp only [CollideRect] at ht ⊢ <;> split_ifs at ht ⊢ <;> omega

/-- Witness of C3 at the `collision y` rectangles of the test shifted to
overlap by 3: the component is -3, moving A by it separates the rectangles,
and the shorter translations -2 and 2 leave the overlap. -/
theorem CollideRect_minimal_translation_witness :
    (CollideRect64 0 0 5 5 0 2 5 5).2 = -3 ∧
    (CollideRect64 0 (0 + (CollideRect64 0 0 5 5 0 2 5 5).2) 5 5 0 2 5 5).2 = 0 ∧
    (((0 : Int) + -2 < 2 + 5 ∧ (2 : Int) < 0 + -2 + 5) ∧
      (CollideRect64 0 (0 + -2) 5 5 0 2 5 5).2 ≠ 0) ∧
    (((0 : Int) + 2 < 2 + 5 ∧ (2 : Int) < 0 + 2 + 5) ∧
      (CollideRect64 0 (0 + 2) 5 5 0 2 5 5).2 ≠ 0) :=
  ⟨by decide,
   (CollideRect_minimal_translation 0 0 5 5 0 2 5 5 (by decide) (by decide) (by decide)
      (by decide) (by decide) (by decide) (by decide) (by decide)).2.2.1,
   (CollideRect_minimal_translation 0 0 5 5 0 2 5 5 (by decide) (by decide) (by decide)
      (by decide) (by decide) (by decide) (by decide) (by decide)).2.2.2 (-2)
      (by rw [show (CollideRect64 0 0 5 5 0 2 5 5).2 = -3 from by decide]; decide),
   (CollideRect_minimal_translation 0 0 5 5 0 2 5 5 (by decide) (by decide) (by decide)
      (by decide) (by decide) (by decide) (by decide) (by decide)).2.2.2 2
      (by rw [show (CollideRect64 0 0 5 5 0 2 5 5).2 = -3 from by decide]; decide)⟩

/-! ## Outcomes, slots and pointers -/

@[simp] theorem Outcome.bind_done {α β : Type} (a : α) (k : α → Outcome β) :
    (Outcome.done a).bind k = k a := rfl

@[simp] theorem Outcome.bind_crash {α β : Type} (k : α → Outcome β) :
    (Outcome.crash : Outcome α).bind k = Outcome.crash := rfl

@[simp] theorem Outcome.bind_outOfFuel {α β : Type} (k : α → Outcome β) :
    (Outcome.outOfFuel : Outcome α).bind k = Outcome.outOfFuel := rfl

theorem Outcome.bind_eq_done {α β : Type} {o : Outcome α} {k : α → Outcome β} {b : β} :
    o.bind k = Outcome.done b ↔ ∃ a, o = Outcome.done a ∧ k a = Outcome.done b := by
  cases o <;> simp

theorem Outcome.bind_eq_outOfFuel {α β : Type} {o : Outcome α} {k : α → Outcome β} :
    o.bind k = Outcome.outOfFuel ↔
      o = Outcome.outOfFuel ∨ ∃ a, o = Outcome.done a ∧ k a = Outcome.outOfFuel := by
  cases o <;> simp

@[simp] theorem Map.store_CellLength (m : Map) (i : Nat) (v : Option Cell) :
    (m.store i v).CellLength = m.CellLength := rfl

@[simp] theorem Map.store_Width (m : Map) (i : Nat) (v : Option Cell) :
    (m.store i v).Width = m.Width := rfl

@[simp] theorem Map.store_Height (m : Map) (i : Nat) (v : Option Cell) :
    (m.store i v).Height = m.Height := rfl

@[simp] theorem Map.store_length (m : Map) (i : Nat) (v : Option Cell) :
    (m.store i v).Cells.length = m.Cells.length := by
  simp [Map.store]

@[simp] theorem Map.At_store (m : Map) (i : Nat) (v : Option Cell) (x y : Int) :
    (m.store i v).At x y = m.At x y := rfl

theorem Map.store_getElem? (m : Map) (i j : Nat) (v : Option Cell) :
    (m.store i v).Cells[j]? = if i = j then (if i < m.Cells.length then some v else none)
      else m.Cells[j]? := by
  simp [Map.store, List.getElem?_set]

theorem Map.store_get_self (m : Map) (i : Nat) (v : Option Cell) (h : i < m.Cells.length) :
    (m.store i v).Cells[i]? = some v := by
  rw [Map.store_getElem?]
  simp [h]

theorem Map.store_get_self_of_some (m : Map) (i : Nat) (v s : Option Cell)
    (h : m.Cells[i]? = some s) : (m.store i v).Cells[i]? = some v := by
  apply Map.store_get_self
  by_contra hc
  rw [List.getElem?_eq_none (by omega)] at h
  cases h

theorem Map.store_get_other (m : Map) (i j : Nat) (v : Option Cell) (h : i ≠ j) :
    (m.store i v).Cells[j]? = m.Cells[j]? := by
  rw [Map.store_getElem?]
  simp [h]

theorem Map.At_eq_some {m : Map} {x y : Int} {i : Nat} :
    m.At x y = some i ↔
      (0 ≤ x ∧ x < m.Width ∧ 0 ≤ y ∧ y < m.Height ∧ i = (x + y * m.Width).toNat) := by
  unfold Map.At
  split_ifs with h
  · constructor
    · intro h'
      cases h'
    · intro h'
      omega
  · constructor
    · intro h'
      injection h' with h'
      refine ⟨by omega, by omega, by omega, by omega, h'.symm⟩
    · intro h'
      rw [h'.2.2.2.2]

theorem Map.At_eq_none {m : Map} {x y : Int} :
    m.At x y = none ↔ (x < 0 ∨ m.Width ≤ x ∨ y < 0 ∨ m.Height ≤ y) := by
  unfold Map.At
  split_ifs with h
  · simp [h]
  · simp [h]

/-- Two coordinates inside the grid that share a slot are equal. -/
theorem Map.At_inj {m : Map} {x y x' y' : Int} {i : Nat}
    (h : m.At x y = some i) (h' : m.At x' y' = some i) : x = x' ∧ y = y' := by
  rw [Map.At_eq_some] at h h'
  obtain ⟨hx0, hxw, hy0, -, hi⟩ := h
  obtain ⟨hx0', hxw', hy0', -, hi'⟩ := h'
  have hyw : 0 ≤ y * m.Width := Int.mul_nonneg hy0 (by omega)
  have hyw' : 0 ≤ y' * m.Width := Int.mul_nonneg hy0' (by omega)
  have e : x + y * m.Width = x' + y' * m.Width := by omega
  have ex : x = x' := by
    have h1 : (x + y * m.Width) % m.Width = x := by
      rw [Int.add_mul_emod_self]
      exact Int.emod_eq_of_lt hx0 hxw
    have h2 : (x' + y' * m.Width) % m.Width = x' := by
      rw [Int.add_mul_emod_self]
      exact Int.emod_eq_of_lt hx0' hxw'
    rw [← h1, ← h2, e]
  refine ⟨ex, ?_⟩
  subst ex
  have e2 : y * m.Width = y' * m.Width := by omega
  exact Int.eq_of_mul_eq_mul_right (by omega) e2

/-- In a well-formed grid `At` never points outside the slice. -/
theorem Map.At_lt_length {m : Map} (hwf : m.WF) {x y : Int} {i : Nat} (h : m.At x y = some i) :
    i < m.Cells.length := by
  rw [Map.At_eq_some] at h
  obtain ⟨hx0, hxw, hy0, hyh, hi⟩ := h
  obtain ⟨-, -, hlen⟩ := hwf
  have h1 : (y + 1) * m.Width ≤ m.Height * m.Width :=
    Int.mul_le_mul_of_nonneg_right (by omega) (by omega)
  have hyw : 0 ≤ y * m.Width := Int.mul_nonneg hy0 (by omega)
  have h2 : (y + 1) * m.Width = y * m.Width + m.Width := by ring
  have h3 : m.Height * m.Width = m.Width * m.Height := by ring
  have : ((x + y * m.Width).toNat : Int) = x + y * m.Width := Int.toNat_of_nonneg (by omega)
  omega

theorem Map.slot_eq_some {m : Map} {x y : Int} {s : Option Cell} :
    m.slot x y = some s ↔ ∃ i, m.At x y = some i ∧ m.Cells[i]? = some s := by
  unfold Map.slot
  cases h : m.At x y <;> simp

theorem SameShape.srefl (m : Map) : SameShape m m := ⟨rfl, rfl, rfl, rfl⟩

theorem SameShape.strans {a b c : Map} (h1 : SameShape a b) (h2 : SameShape b c) :
    SameShape a c := by
  obtain ⟨p1, p2, p3, p4⟩ := h1
  obtain ⟨q1, q2, q3, q4⟩ := h2
  exact ⟨q1.trans p1, q2.trans p2, q3.trans p3, q4.trans p4⟩

theorem SameShape.sstore (m : Map) (i : Nat) (v : Option Cell) : SameShape m (m.store i v) :=
  ⟨rfl, rfl, rfl, Map.store_length m i v⟩

theorem SameShape.At {m n : Map} (h : SameShape m n) (x y : Int) : n.At x y = m.At x y := by
  unfold Map.At
  rw [h.2.1, h.2.2.1]

theorem SameShape.WF {m n : Map} (h : SameShape m n) (hwf : m.WF) : n.WF := by
  obtain ⟨-, p2, p3, p4⟩ := h
  unfold Map.WF at *
  rw [p2, p3, p4]
  exact hwf

theorem SameShape.coords {m n : Map} (h : SameShape m n) : n.coords = m.coords := by
  unfold Map.coords
  rw [h.2.1, h.2.2.1]

theorem Frame.frefl (m : Map) : Frame m m := ⟨SameShape.srefl m, fun _ => Iff.rfl⟩

theorem Frame.ftrans {a b c : Map} (h1 : Frame a b) (h2 : Frame b c) : Frame a c :=
  ⟨h1.1.strans h2.1, fun i => (h1.2 i).trans (h2.2 i)⟩

/-- Overwriting a slot that does not hold a Wall with something that is not a
Wall keeps the frame. -/
theorem Frame.fstore (m : Map) (i : Nat) (v : Option Cell)
    (hold : m.Cells[i]? ≠ some (some Cell.Wall)) (hnew : v ≠ some Cell.Wall) :
    Frame m (m.store i v) := by
  refine ⟨SameShape.sstore m i v, fun j => ?_⟩
  rw [Map.store_getElem?]
  by_cases hij : i = j
  · subst hij
    simp only [if_true]
    constructor
    · intro h
      exact absurd h hold
    · intro h
      split_ifs at h with hl
      injection h with h
      exact absurd h hnew
  · simp [hij]

theorem Map.markExpired_cases (m : Map) (x y : Int) :
    m.markExpired x y = m ∨
      ∃ i b, m.At x y = some i ∧ m.Cells[i]? = some (some (Cell.Bomb b)) ∧
        m.markExpired x y = m.store i (some (Cell.Bomb { b with framesToExplosion := 0 })) := by
  unfold Map.markExpired
  cases h : m.At x y with
  | none => left; rfl
  | some i =>
    simp only
    cases h2 : m.Cells[i]? with
    | none => left; rfl
    | some s =>
      cases s with
      | none => left; rfl
      | some c =>
        cases c with
        | Bomb b => right; exact ⟨i, b, rfl, h2, rfl⟩
        | _ => left; rfl

theorem Frame.markExpired (m : Map) (x y : Int) : Frame m (m.markExpired x y) := by
  rcases Map.markExpired_cases m x y with h | ⟨i, b, -, h2, h3⟩
  · rw [h]
    exact Frame.frefl m
  · rw [h3]
    apply Frame.fstore
    · rw [h2]
      simp
    · simp

/-! ## The closure `f` and the loops of `Map.Explosion` -/

theorem Explosion.f_oob (rec : Map → BombCell → Int → Int → Outcome Map) (m : Map) (x y : Int)
    (h : m.At x y = none) : Explosion.f rec m x y = Outcome.crash := by
  unfold Explosion.f
  rw [h]

theorem Explosion.f_wall (rec : Map → BombCell → Int → Int → Outcome Map) (m : Map) (x y : Int)
    (i : Nat) (h : m.At x y = some i) (hs : m.Cells[i]? = some (some Cell.Wall)) :
    Explosion.f rec m x y = Outcome.done (m, false) := by
  unfold Explosion.f
  rw [h]
  simp only
  rw [hs]

theorem Explosion.f_soft (rec : Map → BombCell → Int → Int → Outcome Map) (m : Map) (x y : Int)
    (i : Nat) (h : m.At x y = some i) (hs : m.Cells[i]? = some (some Cell.Soft)) :
    Explosion.f rec m x y = Outcome.done (m.store i (some NewFlameCell), false) := by
  unfold Explosion.f
  rw [h]
  simp only
  rw [hs]

/-- On a live bomb `f` makes the recursive call, then overwrites the slot
with a new Flame and reports that the walk goes on. -/
theorem Explosion.f_live (rec : Map → BombCell → Int → Int → Outcome Map) (m : Map) (x y : Int)
    (i : Nat) (bc : BombCell) (h : m.At x y = some i)
    (hs : m.Cells[i]? = some (some (Cell.Bomb bc))) (hl : bc.HasExpired = false) :
    Explosion.f rec m x y =
      (rec m bc x y).bind fun m1 => Outcome.done (m1.store i (some NewFlameCell), true) := by
  unfold Explosion.f
  rw [h]
  simp only
  rw [hs]
  simp [hl]

/-- On an empty slot, a Flame or an expired bomb `f` writes a new Flame and
reports that the walk goes on; the recursive call is not made. -/
theorem Explosion.f_pass (rec : Map → BombCell → Int → Int → Outcome Map) (m : Map) (x y : Int)
    (i : Nat) (s : Option Cell) (h : m.At x y = some i) (hs : m.Cells[i]? = some s)
    (hb : IsBlock s = false) (hl : IsLiveBomb s = false) :
    Explosion.f rec m x y = Outcome.done (m.store i (some NewFlameCell), true) := by
  unfold Explosion.f
  rw [h]
  simp only
  rw [hs]
  cases s with
  | none => rfl
  | some c =>
    cases c with
    | Wall => simp [IsBlock] at hb
    | Soft => simp [IsBlock] at hb
    | Flame c => rfl
    | Bomb bc =>
      simp only [IsLiveBomb, Bool.not_eq_false'] at hl
      simp [hl]

/-- Every normal return of `f` is one of its four branches. -/
theorem Explosion.f_done {rec : Map → BombCell → Int → Int → Outcome Map} {m : Map} {x y : Int}
    {m' : Map} {b : Bool} (h : Explosion.f rec m x y = Outcome.done (m', b)) :
    ∃ i s, m.At x y = some i ∧ m.Cells[i]? = some s ∧
      ((s = some Cell.Wall ∧ m' = m ∧ b = false) ∨
       (s = some Cell.Soft ∧ m' = m.store i (some NewFlameCell) ∧ b = false) ∨
       (∃ bc m1, s = some (Cell.Bomb bc) ∧ bc.HasExpired = false ∧
          rec m bc x y = Outcome.done m1 ∧ m' = m1.store i (some NewFlameCell) ∧ b = true) ∨
       (IsBlock s = false ∧ IsLiveBomb s = false ∧
          m' = m.store i (some NewFlameCell) ∧ b = true)) := by
  cases hA : m.At x y with
  | none =>
    rw [Explosion.f_oob rec m x y hA] at h
    cases h
  | some i =>
    cases hC : m.Cells[i]? with
    | none =>
      unfold Explosion.f at h
      rw [hA] at h
      simp only at h
      rw [hC] at h
      cases h
    | some s =>
      refine ⟨i, s, rfl, hC, ?_⟩
      by_cases hb : IsBlock s = true
      · cases s with
        | none => simp [IsBlock] at hb
        | some c =>
          cases c with
          | Wall =>
            rw [Explosion.f_wall rec m x y i hA hC] at h
            injection h with h
            injection h with h1 h2
            exact Or.inl ⟨rfl, h1.symm, h2.symm⟩
          | Soft =>
            rw [Explosion.f_soft rec m x y i hA hC] at h
            injection h with h
            injection h with h1 h2
            exact Or.inr (Or.inl ⟨rfl, h1.symm, h2.symm⟩)
          | Flame c => simp [IsBlock] at hb
          | Bomb bc => simp [IsBlock] at hb
      · have hb' : IsBlock s = false := by simpa using hb
        by_cases hl : IsLiveBomb s = true
        · cases s with
          | none => simp [IsLiveBomb] at hl
          | some c =>
            cases c with
            | Wall => simp [IsLiveBomb] at hl
            | Soft => simp [IsLiveBomb] at hl
            | Flame c => simp [IsLiveBomb] at hl
            | Bomb bc =>
              have hl' : bc.HasExpired = false := by simpa [IsLiveBomb] using hl
              rw [Explosion.f_live rec m x y i bc hA hC hl', Outcome.bind_eq_done] at h
              obtain ⟨m1, hr, h⟩ := h
              injection h with h
              injection h with h1 h2
              exact Or.inr (Or.inr (Or.inl ⟨bc, m1, rfl, hl', hr, h1.symm, h2.symm⟩))
        · have hl' : IsLiveBomb s = false := by simpa using hl
          rw [Explosion.f_pass rec m x y i s hA hC hb' hl'] at h
          injection h with h
          injection h with h1 h2
          exact Or.inr (Or.inr (Or.inr ⟨hb', hl', h1.symm, h2.symm⟩))

theorem Explosion.walk_zero (rec : Map → BombCell → Int → Int → Outcome Map)
    (coord : Int → Int × Int) (i : Int) (m : Map) :
    Explosion.walk rec coord 0 i m = Outcome.done m := rfl

/-- A loop that returns either ran out of iterations, or made one call of `f`
and then stopped or went on. -/
theorem Explosion.walk_done {rec : Map → BombCell → Int → Int → Outcome Map}
    {coord : Int → Int × Int} {n : Nat} {i : Int} {m m' : Map}
    (h : Explosion.walk rec coord (n + 1) i m = Outcome.done m') :
    ∃ m1 b, Explosion.f rec m (coord i).1 (coord i).2 = Outcome.done (m1, b) ∧
      ((b = false ∧ m' = m1) ∨
       (b = true ∧ Explosion.walk rec coord n (i + 1) m1 = Outcome.done m')) := by
  unfold Explosion.walk at h
  cases hf : Explosion.f rec m (coord i).1 (coord i).2 with
  | crash => rw [hf] at h; cases h
  | outOfFuel => rw [hf] at h; cases h
  | done r =>
    obtain ⟨m1, b⟩ := r
    rw [hf] at h
    cases b with
    | false =>
      simp only at h
      injection h with h
      exact ⟨m1, false, rfl, Or.inl ⟨rfl, h.symm⟩⟩
    | true =>
      simp only at h
      exact ⟨m1, true, rfl, Or.inr ⟨rfl, h⟩⟩

theorem Explosion.walk_succ_true {rec : Map → BombCell → Int → Int → Outcome Map}
    {coord : Int → Int × Int} {n : Nat} {i : Int} {m m1 : Map}
    (h : Explosion.f rec m (coord i).1 (coord i).2 = Outcome.done (m1, true)) :
    Explosion.walk rec coord (n + 1) i m = Explosion.walk rec coord n (i + 1) m1 := by
  conv => lhs; unfold Explosion.walk
  rw [h]

theorem Explosion.walk_succ_false {rec : Map → BombCell → Int → Int → Outcome Map}
    {coord : Int → Int × Int} {n : Nat} {i : Int} {m m1 : Map}
    (h : Explosion.f rec m (coord i).1 (coord i).2 = Outcome.done (m1, false)) :
    Explosion.walk rec coord (n + 1) i m = Outcome.done m1 := by
  conv => lhs; unfold Explosion.walk
  rw [h]

theorem Explosion.walk_succ_crash {rec : Map → BombCell → Int → Int → Outcome Map}
    {coord : Int → Int × Int} {n : Nat} {i : Int} {m : Map}
    (h : Explosion.f rec m (coord i).1 (coord i).2 = Outcome.crash) :
    Explosion.walk rec coord (n + 1) i m = Outcome.crash := by
  conv => lhs; unfold Explosion.walk
  rw [h]

/-- A normal return of the body of `Map.Explosion` is a normal return of each
of its four loops in turn. -/
theorem Explosion.body_done {rec : Map → BombCell → Int → Int → Outcome Map} {m : Map}
    {c : BombCell} {x y : Int} {m' : Map} (h : Explosion.body rec m c x y = Outcome.done m') :
    ∃ m1 m2 m3,
      Explosion.walk rec (Dir.negX.coord x y) c.power.toNat 0 (m.markExpired x y) =
        Outcome.done m1 ∧
      Explosion.walk rec (Dir.posX.coord x y) c.power.toNat 0 m1 = Outcome.done m2 ∧
      Explosion.walk rec (Dir.negY.coord x y) c.power.toNat 0 m2 = Outcome.done m3 ∧
      Explosion.walk rec (Dir.posY.coord x y) c.power.toNat 0 m3 = Outcome.done m' := by
  unfold Explosion.body at h
  rw [Outcome.bind_eq_done] at h
  obtain ⟨m1, h1, h⟩ := h
  rw [Outcome.bind_eq_done] at h
  obtain ⟨m2, h2, h⟩ := h
  rw [Outcome.bind_eq_done] at h
  obtain ⟨m3, h3, h⟩ := h
  exact ⟨m1, m2, m3, h1, h2, h3, h⟩

/-! ## What every explosion keeps: shape and walls -/

theorem Explosion.f_frame {rec : Map → BombCell → Int → Int → Outcome Map}
    (hrec : ∀ m c x y m', rec m c x y = Outcome.done m' → Frame m m')
    {m : Map} {x y : Int} {m' : Map} {b : Bool}
    (h : Explosion.f rec m x y = Outcome.done (m', b)) : Frame m m' := by
  obtain ⟨i, s, -, hs, hc⟩ := Explosion.f_done h
  rcases hc with ⟨-, hm, -⟩ | ⟨rfl, rfl, -⟩ | ⟨bc, m1, rfl, -, hr, rfl, -⟩ | ⟨hb, -, rfl, -⟩
  · rw [hm]
    exact Frame.frefl m
  · exact Frame.fstore m i _ (by rw [hs]; simp) (by simp [NewFlameCell])
  · have h1 := hrec m bc x y m1 hr
    refine h1.ftrans (Frame.fstore m1 i _ ?_ (by simp [NewFlameCell]))
    intro hw
    rw [← h1.2 i, hs] at hw
    simp at hw
  · refine Frame.fstore m i _ ?_ (by simp [NewFlameCell])
    rw [hs]
    intro hw
    injection hw with hw
    rw [hw] at hb
    simp [IsBlock] at hb

theorem Explosion.walk_frame {rec : Map → BombCell → Int → Int → Outcome Map}
    (hrec : ∀ m c x y m', rec m c x y = Outcome.done m' → Frame m m')
    (coord : Int → Int × Int) (n : Nat) :
    ∀ (i : Int) (m m' : Map), Explosion.walk rec coord n i m = Outcome.done m' → Frame m m' := by
  induction n with
  | zero =>
    intro i m m' h
    rw [Explosion.walk_zero] at h
    injection h with h
    rw [h]
    exact Frame.frefl m'
  | succ n ih =>
    intro i m m' h
    obtain ⟨m1, b, hf, hc⟩ := Explosion.walk_done h
    have h1 := Explosion.f_frame hrec hf
    rcases hc with ⟨-, rfl⟩ | ⟨-, hw⟩
    · exact h1
    · exact h1.ftrans (ih _ _ _ hw)

theorem Explosion.body_frame {rec : Map → BombCell → Int → Int → Outcome Map}
    (hrec : ∀ m c x y m', rec m c x y = Outcome.done m' → Frame m m')
    {m : Map} {c : BombCell} {x y : Int} {m' : Map}
    (h : Explosion.body rec m c x y = Outcome.done m') : Frame m m' := by
  obtain ⟨m1, m2, m3, h1, h2, h3, h4⟩ := Explosion.body_done h
  exact (Frame.markExpired m x y).ftrans
    ((Explosion.walk_frame hrec _ _ _ _ _ h1).ftrans
      ((Explosion.walk_frame hrec _ _ _ _ _ h2).ftrans
        ((Explosion.walk_frame hrec _ _ _ _ _ h3).ftrans
          (Explosion.walk_frame hrec _ _ _ _ _ h4))))

/-- An explosion, whatever it chains, keeps the shape of the grid and leaves
exactly the same slots holding a Wall. -/
theorem Explosion.run_frame (fuel : Nat) :
    ∀ (m : Map) (c : BombCell) (x y : Int) (m' : Map),
      Explosion.run fuel m c x y = Outcome.done m' → Frame m m' := by
  induction fuel with
  | zero =>
    intro m c x y m' h
    cases h
  | succ fuel ih =>
    intro m c x y m' h
    exact Explosion.body_frame ih h

/-! ## Invariants of an explosion -/

/-- A property of grids kept by every write of a new Flame and by marking a
bomb expired is kept by `f`. -/
theorem Explosion.f_invariant (I : Map → Prop)
    (hstore : ∀ m i, I m → I (m.store i (some NewFlameCell)))
    {rec : Map → BombCell → Int → Int → Outcome Map}
    (hrec : ∀ m c x y m', I m → rec m c x y = Outcome.done m' → I m')
    {m : Map} {x y : Int} {m' : Map} {b : Bool} (hI : I m)
    (h : Explosion.f rec m x y = Outcome.done (m', b)) : I m' := by
  obtain ⟨i, s, -, -, hc⟩ := Explosion.f_done h
  rcases hc with ⟨-, hm, -⟩ | ⟨-, rfl, -⟩ | ⟨bc, m1, -, -, hr, rfl, -⟩ | ⟨-, -, rfl, -⟩
  · rw [hm]
    exact hI
  · exact hstore m i hI
  · exact hstore m1 i (hrec m bc x y m1 hI hr)
  · exact hstore m i hI

theorem Explosion.walk_invariant (I : Map → Prop)
    (hstore : ∀ m i, I m → I (m.store i (some NewFlameCell)))
    {rec : Map → BombCell → Int → Int → Outcome Map}
    (hrec : ∀ m c x y m', I m → rec m c x y = Outcome.done m' → I m')
    (coord : Int → Int × Int) (n : Nat) :
    ∀ (i : Int) (m m' : Map), I m → Explosion.walk rec coord n i m = Outcome.done m' → I m' := by
  induction n with
  | zero =>
    intro i m m' hI h
    rw [Explosion.walk_zero] at h
    injection h with h
    rw [← h]
    exact hI
  | succ n ih =>
    intro i m m' hI h
    obtain ⟨m1, b, hf, hc⟩ := Explosion.walk_done h
    have h1 := Explosion.f_invariant I hstore hrec hI hf
    rcases hc with ⟨-, rfl⟩ | ⟨-, hw⟩
    · exact h1
    · exact ih _ _ _ h1 hw

theorem Explosion.body_invariant (I : Map → Prop)
    (hstore : ∀ m i, I m → I (m.store i (some NewFlameCell)))
    (hmark : ∀ m x y, I m → I (m.markExpired x y))
    {rec : Map → BombCell → Int → Int → Outcome Map}
    (hrec : ∀ m c x y m', I m → rec m c x y = Outcome.done m' → I m')
    {m : Map} {c : BombCell} {x y : Int} {m' : Map} (hI : I m)
    (h : Explosion.body rec m c x y = Outcome.done m') : I m' := by
  obtain ⟨m1, m2, m3, h1, h2, h3, h4⟩ := Explosion.body_done h
  have i1 := Explosion.walk_invariant I hstore hrec _ _ _ _ _ (hmark m x y hI) h1
  have i2 := Explosion.walk_invariant I hstore hrec _ _ _ _ _ i1 h2
  have i3 := Explosion.walk_invariant I hstore hrec _ _ _ _ _ i2 h3
  exact Explosion.walk_invariant I hstore hrec _ _ _ _ _ i3 h4

/-- A property of grids kept by every write of a new Flame and by marking a
bomb expired is kept by an explosion, whatever it chains. -/
theorem Explosion.run_invariant (I : Map → Prop)
    (hstore : ∀ m i, I m → I (m.store i (some NewFlameCell)))
    (hmark : ∀ m x y, I m → I (m.markExpired x y)) (fuel : Nat) :
    ∀ (m : Map) (c : BombCell) (x y : Int) (m' : Map),
      I m → Explosion.run fuel m c x y = Outcome.done m' → I m' := by
  induction fuel with
  | zero =>
    intro m c x y m' _ h
    cases h
  | succ fuel ih =>
    intro m c x y m' hI h
    exact Explosion.body_invariant I hstore hmark ih hI h

/-! ## Live bombs and termination -/

theorem liveBombs_cons (s : Option Cell) (cs : List (Option Cell)) :
    liveBombs (s :: cs) = (if IsLiveBomb s = true then 1 else 0) + liveBombs cs := by
  cases s with
  | none => simp [liveBombs, IsLiveBomb]
  | some c =>
    cases c with
    | Wall => simp [liveBombs, IsLiveBomb]
    | Soft => simp [liveBombs, IsLiveBomb]
    | Flame c => simp [liveBombs, IsLiveBomb]
    | Bomb b =>
      cases hb : b.HasExpired <;> simp [liveBombs, IsLiveBomb, hb]

/-- Writing a slot changes the number of live bombs by what left and what
came. -/
theorem liveBombs_set (l : List (Option Cell)) :
    ∀ (i : Nat) (s v : Option Cell), l[i]? = some s →
      liveBombs (l.set i v) + (if IsLiveBomb s = true then 1 else 0) =
        liveBombs l + (if IsLiveBomb v = true then 1 else 0) := by
  induction l with
  | nil =>
    intro i s v h
    simp at h
  | cons a l ih =>
    intro i s v h
    cases i with
    | zero =>
      simp only [List.getElem?_cons_zero, Option.some.injEq] at h
      subst h
      simp only [List.set_cons_zero, liveBombs_cons]
      omega
    | succ i =>
      simp only [List.getElem?_cons_succ] at h
      have := ih i s v h
      simp only [List.set_cons_succ, liveBombs_cons]
      omega

theorem liveBombs_set_le (l : List (Option Cell)) (i : Nat) (v : Option Cell)
    (hv : IsLiveBomb v = false) : liveBombs (l.set i v) ≤ liveBombs l := by
  cases h : l[i]? with
  | none =>
    have hl : l.length ≤ i := by
      by_contra hc
      rw [List.getElem?_eq_getElem (by omega)] at h
      cases h
    rw [List.set_eq_of_length_le hl]
  | some s =>
    have := liveBombs_set l i s v h
    rw [hv] at this
    simp only [Bool.false_eq_true, if_false] at this
    omega

theorem liveBombs_set_live (l : List (Option Cell)) (i : Nat) (s v : Option Cell)
    (h : l[i]? = some s) (hs : IsLiveBomb s = true) (hv : IsLiveBomb v = false) :
    liveBombs (l.set i v) + 1 = liveBombs l := by
  have := liveBombs_set l i s v h
  rw [hv, hs] at this
  simp only [Bool.false_eq_true, if_false, if_true] at this
  omega

theorem liveBombs_store_flame_le (m : Map) (i : Nat) :
    liveBombs (m.store i (some NewFlameCell)).Cells ≤ liveBombs m.Cells :=
  liveBombs_set_le m.Cells i _ rfl

theorem liveBombs_markExpired_le (m : Map) (x y : Int) :
    liveBombs (m.markExpired x y).Cells ≤ liveBombs m.Cells := by
  rcases Map.markExpired_cases m x y with h | ⟨i, b, -, h2, h3⟩
  · rw [h]
  · rw [h3]
    exact liveBombs_set_le m.Cells i _ (by simp [IsLiveBomb, BombCell.HasExpired])

/-- Marking a live bomb expired takes one off the number of live bombs. -/
theorem liveBombs_markExpired_live (m : Map) (x y : Int) (i : Nat) (bc : BombCell)
    (hA : m.At x y = some i) (hs : m.Cells[i]? = some (some (Cell.Bomb bc)))
    (hl : bc.HasExpired = false) :
    liveBombs (m.markExpired x y).Cells + 1 = liveBombs m.Cells := by
  have e : m.markExpired x y =
      m.store i (some (Cell.Bomb { bc with framesToExplosion := 0 })) := by
    unfold Map.markExpired
    rw [hA]
    simp only
    rw [hs]
  rw [e]
  exact liveBombs_set_live m.Cells i _ _ hs (by simp [IsLiveBomb, hl])
    (by simp [IsLiveBomb, BombCell.HasExpired])

/-- An explosion never adds a live bomb. -/
theorem Explosion.run_liveBombs_le (fuel : Nat) (m : Map) (c : BombCell) (x y : Int) (m' : Map)
    (h : Explosion.run fuel m c x y = Outcome.done m') :
    liveBombs m'.Cells ≤ liveBombs m.Cells :=
  Explosion.run_invariant (fun n => liveBombs n.Cells ≤ liveBombs m.Cells)
    (fun n i hn => le_trans (liveBombs_store_flame_le n i) hn)
    (fun n x y hn => le_trans (liveBombs_markExpired_le n x y) hn)
    fuel m c x y m' (le_refl _) h

theorem Explosion.f_ne_outOfFuel {rec : Map → BombCell → Int → Int → Outcome Map} {K : Nat}
    (hrec : ∀ m c x y, liveBombs (m.markExpired x y).Cells + 1 ≤ K →
      rec m c x y ≠ Outcome.outOfFuel)
    (m : Map) (x y : Int) (hK : liveBombs m.Cells ≤ K) :
    Explosion.f rec m x y ≠ Outcome.outOfFuel := by
  cases hA : m.At x y with
  | none => rw [Explosion.f_oob rec m x y hA]; simp
  | some i =>
    cases hC : m.Cells[i]? with
    | none =>
      unfold Explosion.f
      rw [hA]
      simp only
      rw [hC]
      simp
    | some s =>
      by_cases hl : IsLiveBomb s = true
      · cases s with
        | none => simp [IsLiveBomb] at hl
        | some c =>
          cases c with
          | Wall => simp [IsLiveBomb] at hl
          | Soft => simp [IsLiveBomb] at hl
          | Flame c => simp [IsLiveBomb] at hl
          | Bomb bc =>
            have hl' : bc.HasExpired = false := by simpa [IsLiveBomb] using hl
            rw [Explosion.f_live rec m x y i bc hA hC hl']
            have h1 := liveBombs_markExpired_live m x y i bc hA hC hl'
            have h2 := hrec m bc x y (by omega)
            intro hc
            rw [Outcome.bind_eq_outOfFuel] at hc
            rcases hc with hc | ⟨a, -, hc⟩
            · exact h2 hc
            · cases hc
      · have hl' : IsLiveBomb s = false := by simpa using hl
        by_cases hb : IsBlock s = true
        · cases s with
          | none => simp [IsBlock] at hb
          | some c =>
            cases c with
            | Wall => rw [Explosion.f_wall rec m x y i hA hC]; simp
            | Soft => rw [Explosion.f_soft rec m x y i hA hC]; simp
            | Flame c => simp [IsBlock] at hb
            | Bomb bc => simp [IsBlock] at hb
        · have hb' : IsBlock s = false := by simpa using hb
          rw [Explosion.f_pass rec m x y i s hA hC hb' hl']
          simp

theorem Explosion.walk_ne_outOfFuel {rec : Map → BombCell → Int → Int → Outcome Map} {K : Nat}
    (hrec : ∀ m c x y, liveBombs (m.markExpired x y).Cells + 1 ≤ K →
      rec m c x y ≠ Outcome.outOfFuel)
    (hle : ∀ m c x y m', rec m c x y = Outcome.done m' → liveBombs m'.Cells ≤ liveBombs m.Cells)
    (coord : Int → Int × Int) (n : Nat) :
    ∀ (i : Int) (m : Map), liveBombs m.Cells ≤ K →
      Explosion.walk rec coord n i m ≠ Outcome.outOfFuel ∧
      ∀ m', Explosion.walk rec coord n i m = Outcome.done m' → liveBombs m'.Cells ≤ K := by
  induction n with
  | zero =>
    intro i m hK
    refine ⟨by simp [Explosion.walk_zero], ?_⟩
    intro m' h
    rw [Explosion.walk_zero] at h
    injection h with h
    rw [← h]
    exact hK
  | succ n ih =>
    intro i m hK
    have hf := Explosion.f_ne_outOfFuel hrec m (coord i).1 (coord i).2 hK
    have hinv : ∀ m1 b, Explosion.f rec m (coord i).1 (coord i).2 = Outcome.done (m1, b) →
        liveBombs m1.Cells ≤ K := by
      intro m1 b h
      exact Explosion.f_invariant (fun n => liveBombs n.Cells ≤ K)
        (fun n i hn => le_trans (liveBombs_store_flame_le n i) hn)
        (fun a c x y a' ha hr => le_trans (hle a c x y a' hr) ha) hK h
    cases hr : Explosion.f rec m (coord i).1 (coord i).2 with
    | crash =>
      rw [Explosion.walk_succ_crash hr]
      simp
    | outOfFuel => exact absurd hr hf
    | done r =>
      obtain ⟨m1, b⟩ := r
      cases b with
      | false =>
        rw [Explosion.walk_succ_false hr]
        refine ⟨by simp, ?_⟩
        intro m' h
        injection h with h
        rw [← h]
        exact hinv m1 false hr
      | true =>
        rw [Explosion.walk_succ_true hr]
        exact ih (i + 1) m1 (hinv m1 true hr)

theorem Explosion.body_ne_outOfFuel {rec : Map → BombCell → Int → Int → Outcome Map} {K : Nat}
    (hrec : ∀ m c x y, liveBombs (m.markExpired x y).Cells + 1 ≤ K →
      rec m c x y ≠ Outcome.outOfFuel)
    (hle : ∀ m c x y m', rec m c x y = Outcome.done m' → liveBombs m'.Cells ≤ liveBombs m.Cells)
    (m : Map) (c : BombCell) (x y : Int) (hK : liveBombs (m.markExpired x y).Cells ≤ K) :
    Explosion.body rec m c x y ≠ Outcome.outOfFuel := by
  unfold Explosion.body
  intro h
  rw [Outcome.bind_eq_outOfFuel] at h
  rcases h with h | ⟨m1, h1, h⟩
  · exact (Explosion.walk_ne_outOfFuel hrec hle _ _ _ _ hK).1 h
  have k1 := (Explosion.walk_ne_outOfFuel hrec hle _ _ _ _ hK).2 m1 h1
  rw [Outcome.bind_eq_outOfFuel] at h
  rcases h with h | ⟨m2, h2, h⟩
  · exact (Explosion.walk_ne_outOfFuel hrec hle _ _ _ _ k1).1 h
  have k2 := (Explosion.walk_ne_outOfFuel hrec hle _ _ _ _ k1).2 m2 h2
  rw [Outcome.bind_eq_outOfFuel] at h
  rcases h with h | ⟨m3, h3, h⟩
  · exact (Explosion.walk_ne_outOfFuel hrec hle _ _ _ _ k2).1 h
  have k3 := (Explosion.walk_ne_outOfFuel hrec hle _ _ _ _ k2).2 m3 h3
  exact (Explosion.walk_ne_outOfFuel hrec hle _ _ _ _ k3).1 h

/-- A budget above the number of live bombs left once the exploding bomb is
marked is never used up. -/
theorem Explosion.run_ne_outOfFuel (fuel : Nat) :
    ∀ (m : Map) (c : BombCell) (x y : Int), liveBombs (m.markExpired x y).Cells ≤ fuel →
      Explosion.run (fuel + 1) m c x y ≠ Outcome.outOfFuel := by
  induction fuel with
  | zero =>
    intro m c x y hK
    apply Explosion.body_ne_outOfFuel (K := 0) _ (Explosion.run_liveBombs_le 0) m c x y hK
    intro a c x y ha
    omega
  | succ fuel ih =>
    intro m c x y hK
    apply Explosion.body_ne_outOfFuel (K := fuel + 1) _ (Explosion.run_liveBombs_le (fuel + 1))
      m c x y hK
    intro a c x y ha
    exact ih a c x y (by omega)

/-- `Map.Explosion` always returns or crashes: its budget suffices. -/
theorem Map.Explosion_ne_outOfFuel (m : Map) (c : BombCell) (x y : Int) :
    m.Explosion c x y ≠ Outcome.outOfFuel :=
  Explosion.run_ne_outOfFuel _ m c x y (liveBombs_markExpired_le m x y)

/-! ## A new Flame stays -/

theorem Map.markExpired_get_of_not_bomb (m : Map) (x y : Int) (j : Nat)
    (h : ∀ b, m.Cells[j]? ≠ some (some (Cell.Bomb b))) :
    (m.markExpired x y).Cells[j]? = m.Cells[j]? := by
  rcases Map.markExpired_cases m x y with e | ⟨i, b, -, h2, h3⟩
  · rw [e]
  · rw [h3]
    apply Map.store_get_other
    intro hij
    subst hij
    exact h b h2

/-- A slot that holds a new Flame still holds one after an explosion. -/
theorem Explosion.run_keeps_flame (fuel : Nat) (m : Map) (c : BombCell) (x y : Int) (m' : Map)
    (j : Nat) (hj : m.Cells[j]? = some (some NewFlameCell))
    (h : Explosion.run fuel m c x y = Outcome.done m') :
    m'.Cells[j]? = some (some NewFlameCell) := by
  refine Explosion.run_invariant (fun n => n.Cells[j]? = some (some NewFlameCell)) ?_ ?_
    fuel m c x y m' hj h
  · intro n i hn
    by_cases hij : i = j
    · subst hij
      exact Map.store_get_self_of_some n i _ _ hn
    · rw [Map.store_get_other n i j _ hij]
      exact hn
  · intro n x y hn
    rw [Map.markExpired_get_of_not_bomb n x y j]
    · exact hn
    · intro b hb
      rw [hn] at hb
      simp [NewFlameCell] at hb

theorem Explosion.walk_keeps_flame (fuel : Nat) (coord : Int → Int × Int) (n : Nat) (i : Int)
    (m m' : Map) (j : Nat) (hj : m.Cells[j]? = some (some NewFlameCell))
    (h : Explosion.walk (Explosion.run fuel) coord n i m = Outcome.done m') :
    m'.Cells[j]? = some (some NewFlameCell) := by
  refine Explosion.walk_invariant (fun n => n.Cells[j]? = some (some NewFlameCell)) ?_ ?_
    coord n i m m' hj h
  · intro n i hn
    by_cases hij : i = j
    · subst hij
      exact Map.store_get_self_of_some n i _ _ hn
    · rw [Map.store_get_other n i j _ hij]
      exact hn
  · intro a c x y a' ha hr
    exact Explosion.run_keeps_flame fuel a c x y a' j ha hr

/-- After a call of `f` that returns, the slot it was called on holds a Wall
(left alone) or a new Flame. -/
theorem Explosion.f_leaves_wall_or_flame (fuel : Nat) {m : Map} {x y : Int} {m' : Map} {b : Bool}
    (h : Explosion.f (Explosion.run fuel) m x y = Outcome.done (m', b)) :
    m'.slot x y = some (some Cell.Wall) ∨ m'.slot x y = some (some NewFlameCell) := by
  have hfr := Explosion.f_frame (Explosion.run_frame fuel) h
  obtain ⟨i, s, hA, hs, hc⟩ := Explosion.f_done h
  have hA' : m'.At x y = some i := by rw [hfr.1.At, hA]
  rcases hc with ⟨rfl, hm, -⟩ | ⟨-, rfl, -⟩ | ⟨bc, m1, -, -, hr, rfl, -⟩ | ⟨-, -, rfl, -⟩
  · left
    rw [Map.slot_eq_some]
    exact ⟨i, hA', by rw [hm]; exact hs⟩
  · right
    rw [Map.slot_eq_some]
    exact ⟨i, hA', Map.store_get_self_of_some m i _ _ hs⟩
  · right
    rw [Map.slot_eq_some]
    refine ⟨i, hA', Map.store_get_self m1 i _ ?_⟩
    have hlen := (Explosion.run_frame fuel m bc x y m1 hr).1.2.2.2
    have : i < m.Cells.length := by
      by_contra hc
      rw [List.getElem?_eq_none (by omega)] at hs
      cases hs
    omega
  · right
    rw [Map.slot_eq_some]
    exact ⟨i, hA', Map.store_get_self_of_some m i _ _ hs⟩

/-! ## C4: the walk goes on past a chained bomb -/

/-- C4, as stated, fails: in `Example.chainGrid` the bomb at (1,1) has power 3,
the live bomb one step out at (2,1) has power 1, so its own blast does not
reach the Soft cell two steps out at (3,1); yet after the explosion of the
bomb at (1,1) that slot holds a Flame. -/
theorem Explosion_chain_stop_counterexample :
    Example.chainGrid.slot 1 1 =
        some (some (Cell.Bomb { framesToExplosion := 1, power := 3, putter := none })) ∧
      Example.chainGrid.slot 2 1 =
        some (some (Cell.Bomb { framesToExplosion := 5, power := 1, putter := none })) ∧
      Example.chainGrid.slot 3 1 = some (some Cell.Soft) ∧
      Example.chainGrid.Explosion { framesToExplosion := 1, power := 3, putter := none } 1 1 =
        Outcome.done Example.chainGridAfter ∧
      Example.chainGridAfter.slot 3 1 = some (some NewFlameCell) ∧
      Example.chainGridAfter.slot 3 1 ≠ Example.chainGrid.slot 3 1 := by
  refine ⟨by decide, by decide, by decide, by decide, by decide, by decide⟩

/-- C4, amended: when a loop of `Map.Explosion` steps onto a live bomb, that
bomb is detonated with its own coordinates, its slot is overwritten with a new
Flame, and the loop goes on with the next step (it does not stop); so, with
at least one more iteration left, when the loop returns the slot one step
beyond the chained bomb has been processed: it holds a Wall or a new Flame,
never the Soft cell it may have held. -/
theorem Explosion_walk_continues_past_chained_bomb (fuel : Nat) (coord : Int → Int × Int)
    (n : Nat) (i : Int) (m : Map) (j : Nat) (bc : BombCell)
    (hA : m.At (coord i).1 (coord i).2 = some j)
    (hs : m.Cells[j]? = some (some (Cell.Bomb bc))) (hl : bc.HasExpired = false) :
    Explosion.walk (Explosion.run fuel) coord (n + 1) i m =
        ((Explosion.run fuel m bc (coord i).1 (coord i).2).bind fun m1 =>
          Explosion.walk (Explosion.run fuel) coord n (i + 1)
            (m1.store j (some NewFlameCell))) ∧
      ∀ m', 1 ≤ n → Explosion.walk (Explosion.run fuel) coord (n + 1) i m = Outcome.done m' →
        (m'.slot (coord (i + 1)).1 (coord (i + 1)).2 = some (some Cell.Wall) ∨
          m'.slot (coord (i + 1)).1 (coord (i + 1)).2 = some (some NewFlameCell)) ∧
        m'.slot (coord (i + 1)).1 (coord (i + 1)).2 ≠ some (some Cell.Soft) := by
  have hf := Explosion.f_live (Explosion.run fuel) m (coord i).1 (coord i).2 j bc hA hs hl
  have heq : Explosion.walk (Explosion.run fuel) coord (n + 1) i m =
      ((Explosion.run fuel m bc (coord i).1 (coord i).2).bind fun m1 =>
        Explosion.walk (Explosion.run fuel) coord n (i + 1) (m1.store j (some NewFlameCell))) := by
    cases hr : Explosion.run fuel m bc (coord i).1 (coord i).2 with
    | crash =>
      rw [hr] at hf
      rw [Explosion.walk_succ_crash hf]
      rfl
    | outOfFuel =>
      rw [hr] at hf
      conv => lhs; unfold Explosion.walk
      rw [hf]
      rfl
    | done m1 =>
      rw [hr] at hf
      rw [Explosion.walk_succ_true hf]
      rfl
  refine ⟨heq, ?_⟩
  intro m' hn hw
  have key : m'.slot (coord (i + 1)).1 (coord (i + 1)).2 = some (some Cell.Wall) ∨
      m'.slot (coord (i + 1)).1 (coord (i + 1)).2 = some (some NewFlameCell) := by
    rw [heq, Outcome.bind_eq_done] at hw
    obtain ⟨m1, -, hw⟩ := hw
    obtain ⟨k, rfl⟩ : ∃ k, n = k + 1 := ⟨n - 1, by omega⟩
    obtain ⟨m2, b, hf2, hc⟩ := Explosion.walk_done hw
    have h2 := Explosion.f_leaves_wall_or_flame fuel hf2
    rcases hc with ⟨-, rfl⟩ | ⟨-, hw2⟩
    · exact h2
    · have hfr := Explosion.walk_frame (Explosion.run_frame fuel) coord k _ _ _ hw2
      rcases h2 with h2 | h2
      · left
        rw [Map.slot_eq_some] at h2 ⊢
        obtain ⟨a, ha, hc⟩ := h2
        exact ⟨a, by rw [hfr.1.At, ha], (hfr.2 a).1 hc⟩
      · right
        rw [Map.slot_eq_some] at h2 ⊢
        obtain ⟨a, ha, hc⟩ := h2
        exact ⟨a, by rw [hfr.1.At, ha], Explosion.walk_keeps_flame fuel coord k _ _ _ a hc hw2⟩
  refine ⟨key, ?_⟩
  rcases key with h | h <;> rw [h] <;> simp [NewFlameCell]

/-- Witness of the amended C4 in `Example.chainGrid`: the loop in direction +x
from (1,1), entered at step 1 where the live bomb lies, with two iterations
left, turns the Soft cell at step 2 into a Flame. -/
theorem Explosion_walk_continues_past_chained_bomb_witness :
    Example.chainGrid.At (Dir.posX.coord 1 1 1).1 (Dir.posX.coord 1 1 1).2 = some 7 ∧
      Example.chainGrid.slot 3 1 = some (some Cell.Soft) ∧
      Explosion.walk (Explosion.run 1) (Dir.posX.coord 1 1) 2 1 Example.chainGrid =
        Outcome.done ((Example.chainGrid.store 7 (some NewFlameCell)).store 8
          (some NewFlameCell)) ∧
      ((Example.chainGrid.store 7 (some NewFlameCell)).store 8 (some NewFlameCell)).slot
          (Dir.posX.coord 1 1 (1 + 1)).1 (Dir.posX.coord 1 1 (1 + 1)).2 ≠
        some (some Cell.Soft) :=
  ⟨by decide, by decide, by decide,
    ((Explosion_walk_continues_past_chained_bomb 1 (Dir.posX.coord 1 1) 1 1 Example.chainGrid 7
      { framesToExplosion := 5, power := 1, putter := none } (by decide) (by decide)
      (by decide)).2 _ (by decide) (by decide)).2⟩

/-! ## A loop that chains no bomb -/

theorem NoLive.nl_store_flame {m : Map} (h : NoLive m) (i : Nat) :
    NoLive (m.store i (some NewFlameCell)) := by
  intro j s hs
  rw [Map.store_getElem?] at hs
  split_ifs at hs with h1 h2
  · injection hs with hs
    rw [← hs]
    rfl
  · exact h j s hs

theorem Map.blockAt_true_of {m : Map} {p : Int × Int} {i : Nat} {s : Option Cell}
    (hA : m.At p.1 p.2 = some i) (hs : m.Cells[i]? = some s) : m.blockAt p = IsBlock s := by
  unfold Map.blockAt Map.slot
  rw [hA]
  simp only
  rw [hs]

/-- Writing a new Flame over a slot that holds no Wall and no Soft cell leaves
`blockAt` as it was. -/
theorem Map.blockAt_store_flame (m : Map) (i : Nat) (s : Option Cell)
    (hs : m.Cells[i]? = some s) (hb : IsBlock s = false) (p : Int × Int) :
    (m.store i (some NewFlameCell)).blockAt p = m.blockAt p := by
  unfold Map.blockAt Map.slot
  rw [Map.At_store]
  cases hA : m.At p.1 p.2 with
  | none => rfl
  | some k =>
    simp only
    by_cases hik : i = k
    · subst hik
      rw [Map.store_get_self_of_some m i _ s hs, hs]
      simp only
      rw [hb]
      rfl
    · rw [Map.store_get_other m i k _ hik]

/-- In a grid without live bombs `f` never makes the recursive call. -/
theorem Explosion.f_noLive {rec : Map → BombCell → Int → Int → Outcome Map} {m : Map}
    {x y : Int} {m' : Map} {b : Bool} (hn : NoLive m)
    (h : Explosion.f rec m x y = Outcome.done (m', b)) :
    ∃ i s, m.At x y = some i ∧ m.Cells[i]? = some s ∧
      ((s = some Cell.Wall ∧ m' = m ∧ b = false) ∨
       (s = some Cell.Soft ∧ m' = m.store i (some NewFlameCell) ∧ b = false) ∨
       (IsBlock s = false ∧ m' = m.store i (some NewFlameCell) ∧ b = true)) := by
  obtain ⟨i, s, hA, hs, hc⟩ := Explosion.f_done h
  refine ⟨i, s, hA, hs, ?_⟩
  rcases hc with hc | hc | ⟨bc, m1, rfl, hl, -⟩ | ⟨hb, -, hm, hbt⟩
  · exact Or.inl hc
  · exact Or.inr (Or.inl hc)
  · have := hn i _ hs
    simp [IsLiveBomb, hl] at this
  · exact Or.inr (Or.inr ⟨hb, hm, hbt⟩)

theorem Reached.zero_iff (m : Map) (coord : Int → Int × Int) (i : Int) (k : Nat) :
    ¬ Reached m coord i 0 k := by
  rintro ⟨j, hj, -⟩
  omega

/-- When the step `i` holds a Wall or a Soft cell, only that slot can be
reached from step `i` on. -/
theorem Reached.of_block {m : Map} {coord : Int → Int × Int} {i : Int} {n k i0 : Nat}
    {s : Option Cell} (hA : m.At (coord i).1 (coord i).2 = some i0) (hs : m.Cells[i0]? = some s)
    (hb : IsBlock s = true) (h : Reached m coord i n k) : k = i0 := by
  obtain ⟨j, -, hj, -, hprev⟩ := h
  cases j with
  | zero =>
    simp only [Nat.cast_zero, add_zero] at hj
    rw [hA] at hj
    injection hj with hj
    exact hj.symm
  | succ j =>
    have := hprev 0 (by omega)
    simp only [Nat.cast_zero, add_zero] at this
    rw [Map.blockAt_true_of hA hs, hb] at this
    cases this

/-- When the step `i` holds neither a Wall nor a Soft cell and a new Flame is
written there, the slots reached from step `i` on are that slot and those
reached from step `i + 1` on. -/
theorem Reached.succ_iff {m : Map} {coord : Int → Int × Int} {i : Int} {n k i0 : Nat}
    {s : Option Cell} (hA : m.At (coord i).1 (coord i).2 = some i0) (hs : m.Cells[i0]? = some s)
    (hb : IsBlock s = false) (hk : k ≠ i0) :
    Reached m coord i (n + 1) k ↔
      Reached (m.store i0 (some NewFlameCell)) coord (i + 1) n k := by
  have hne : i0 ≠ k := fun h => hk h.symm
  constructor
  · rintro ⟨j, hj, hAj, hw, hprev⟩
    cases j with
    | zero =>
      simp only [Nat.cast_zero, add_zero] at hAj
      rw [hA] at hAj
      injection hAj with hAj
      exact absurd hAj.symm hk
    | succ j =>
      refine ⟨j, by omega, ?_, ?_, ?_⟩
      · rw [Map.At_store]
        have e : i + 1 + (j : Int) = i + ((j + 1 : Nat) : Int) := by push_cast; ring
        rw [e]
        exact hAj
      · rw [Map.store_get_other m i0 k _ hne]
        exact hw
      · intro j' hj'
        rw [Map.blockAt_store_flame m i0 s hs hb]
        have e : i + 1 + (j' : Int) = i + ((j' + 1 : Nat) : Int) := by push_cast; ring
        rw [e]
        exact hprev (j' + 1) (by omega)
  · rintro ⟨j, hj, hAj, hw, hprev⟩
    refine ⟨j + 1, by omega, ?_, ?_, ?_⟩
    · rw [Map.At_store] at hAj
      have e : i + ((j + 1 : Nat) : Int) = i + 1 + (j : Int) := by push_cast; ring
      rw [e]
      exact hAj
    · rw [Map.store_get_other m i0 k _ hne] at hw
      exact hw
    · intro j' hj'
      cases j' with
      | zero =>
        simp only [Nat.cast_zero, add_zero]
        rw [Map.blockAt_true_of hA hs, hb]
      | succ j' =>
        have := hprev j' (by omega)
        rw [Map.blockAt_store_flame m i0 s hs hb] at this
        have e : i + ((j' + 1 : Nat) : Int) = i + 1 + (j' : Int) := by push_cast; ring
        rw [e]
        exact this

/-- A loop of `Map.Explosion` on a grid without live bombs: when it returns,
the grid has the same shape and no live bomb, every reached slot holds a new
Flame and every other slot is unchanged. -/
theorem Explosion.walk_noLive (rec : Map → BombCell → Int → Int → Outcome Map)
    (coord : Int → Int × Int) (n : Nat) :
    ∀ (i : Int) (m m' : Map), NoLive m → Explosion.walk rec coord n i m = Outcome.done m' →
      NoLive m' ∧ SameShape m m' ∧
      ∀ k : Nat, (Reached m coord i n k → m'.Cells[k]? = some (some NewFlameCell)) ∧
        (¬ Reached m coord i n k → m'.Cells[k]? = m.Cells[k]?) := by
  induction n with
  | zero =>
    intro i m m' hn h
    rw [Explosion.walk_zero] at h
    injection h with h
    subst h
    refine ⟨hn, SameShape.srefl m, fun k => ⟨fun hr => ?_, fun _ => rfl⟩⟩
    exact absurd hr (Reached.zero_iff m coord i k)
  | succ n ih =>
    intro i m m' hn h
    obtain ⟨m1, b, hf, hc⟩ := Explosion.walk_done h
    obtain ⟨i0, s, hA, hs, hcase⟩ := Explosion.f_noLive hn hf
    rcases hcase with ⟨rfl, hm, hb⟩ | ⟨rfl, hm, hb⟩ | ⟨hblk, hm, hb⟩
    · -- a Wall: the loop stops, nothing written
      subst hb
      rcases hc with ⟨-, hm'⟩ | ⟨hc, -⟩
      · rw [hm', hm]
        refine ⟨hn, SameShape.srefl m, fun k => ⟨fun hr => ?_, fun _ => rfl⟩⟩
        have hk := Reached.of_block hA hs rfl hr
        subst hk
        obtain ⟨j, -, -, hw, -⟩ := hr
        exact absurd hs hw
      · cases hc
    · -- a Soft cell: overwritten, the loop stops
      subst hb
      rcases hc with ⟨-, hm'⟩ | ⟨hc, -⟩
      · rw [hm', hm]
        refine ⟨hn.nl_store_flame i0, SameShape.sstore m i0 _, fun k => ⟨fun hr => ?_, fun hr => ?_⟩⟩
        · have hk := Reached.of_block hA hs rfl hr
          subst hk
          exact Map.store_get_self_of_some m k _ _ hs
        · apply Map.store_get_other
          intro hk
          subst hk
          apply hr
          refine ⟨0, by omega, ?_, ?_, ?_⟩
          · simpa using hA
          · rw [hs]
            simp
          · intro j' hj'
            omega
      · cases hc
    · -- an empty slot, a Flame or an expired bomb: overwritten, the loop goes on
      subst hb
      rcases hc with ⟨hc, -⟩ | ⟨-, hw⟩
      · cases hc
      · subst hm
        obtain ⟨hn', hsh, hk⟩ := ih (i + 1) _ m' (hn.nl_store_flame i0) hw
        refine ⟨hn', (SameShape.sstore m i0 _).strans hsh, fun k => ?_⟩
        by_cases hki : k = i0
        · subst hki
          have hF : m'.Cells[k]? = some (some NewFlameCell) := by
            by_cases hr : Reached (m.store k (some NewFlameCell)) coord (i + 1) n k
            · exact (hk k).1 hr
            · rw [(hk k).2 hr]
              exact Map.store_get_self_of_some m k _ _ hs
          refine ⟨fun _ => hF, fun hr => ?_⟩
          exfalso
          apply hr
          refine ⟨0, by omega, ?_, ?_, ?_⟩
          · simpa using hA
          · rw [hs]
            intro hw'
            injection hw' with hw'
            rw [hw'] at hblk
            simp [IsBlock] at hblk
          · intro j' hj'
            omega
        · rw [Reached.succ_iff hA hs hblk hki]
          refine ⟨(hk k).1, fun hr => ?_⟩
          rw [(hk k).2 hr]
          exact Map.store_get_other m i0 k _ (fun h => hki h.symm)

/-! ## The four rays -/

theorem Dir.coord_ne {d d' : Dir} (h : d' ≠ d) (x y j j' : Int) (hj : 1 ≤ j) (hj' : 0 ≤ j') :
    d'.coord x y j' ≠ d.coord x y j := by
  cases d <;> cases d' <;>
    first
      | exact absurd rfl h
      | (intro he
         simp only [Dir.coord, Prod.mk.injEq] at he
         omega)

theorem Dir.coord_inj (d : Dir) (x y j j' : Int) (h : d.coord x y j = d.coord x y j') :
    j = j' := by
  cases d <;> simp only [Dir.coord, Prod.mk.injEq] at h <;> omega

theorem Dir.coord_zero (d : Dir) (x y : Int) : d.coord x y 0 = (x, y) := by
  cases d <;> simp [Dir.coord]

/-- Two steps of one ray that share a slot are the same step. -/
theorem Map.At_ray_inj {m : Map} {d : Dir} {x y j j' : Int} {k : Nat}
    (h : m.At (d.coord x y j).1 (d.coord x y j).2 = some k)
    (h' : m.At (d.coord x y j').1 (d.coord x y j').2 = some k) : j = j' := by
  have := Map.At_inj h h'
  exact Dir.coord_inj d x y j j' (Prod.ext this.1 this.2)

/-- A step from 1 on of one ray shares no slot with another ray. -/
theorem Map.At_ray_ne {m : Map} {d d' : Dir} (hd : d' ≠ d) {x y j j' : Int} {k : Nat}
    (hj : 1 ≤ j) (hj' : 0 ≤ j')
    (h : m.At (d.coord x y j).1 (d.coord x y j).2 = some k)
    (h' : m.At (d'.coord x y j').1 (d'.coord x y j').2 = some k) : False := by
  have := Map.At_inj h' h
  exact Dir.coord_ne hd x y j j' hj hj' (Prod.ext this.1 this.2)

/-- A loop that chains no bomb leaves the steps from 1 on of the other rays
alone. -/
theorem Explosion.walk_noLive_off_ray (rec : Map → BombCell → Int → Int → Outcome Map)
    {d d' : Dir} (hd : d' ≠ d) (x y : Int) (n : Nat) {m m' : Map} (hn : NoLive m)
    (h : Explosion.walk rec (d'.coord x y) n 0 m = Outcome.done m') {j : Int} (hj : 1 ≤ j)
    {k : Nat} (hA : m.At (d.coord x y j).1 (d.coord x y j).2 = some k) :
    m'.Cells[k]? = m.Cells[k]? := by
  apply ((Explosion.walk_noLive rec _ n 0 m m' hn h).2.2 k).2
  rintro ⟨j', -, hA', -⟩
  exact Map.At_ray_ne hd hj (by omega) hA hA'

/-- A loop that chains no bomb leaves every slot as it was or holding a new
Flame. -/
theorem Explosion.walk_noLive_same_or_flame (rec : Map → BombCell → Int → Int → Outcome Map)
    (coord : Int → Int × Int) (n : Nat) (i : Int) {m m' : Map} (hn : NoLive m)
    (h : Explosion.walk rec coord n i m = Outcome.done m') (k : Nat) :
    m'.Cells[k]? = m.Cells[k]? ∨ m'.Cells[k]? = some (some NewFlameCell) := by
  by_cases hr : Reached m coord i n k
  · exact Or.inr (((Explosion.walk_noLive rec coord n i m m' hn h).2.2 k).1 hr)
  · exact Or.inl (((Explosion.walk_noLive rec coord n i m m' hn h).2.2 k).2 hr)

/-! ## C5: the blast stops at the first Wall or Soft cell -/

theorem Map.blockAt_congr {m n : Map} (hsh : SameShape m n) (p : Int × Int)
    (h : ∀ k : Nat, m.At p.1 p.2 = some k → n.Cells[k]? = m.Cells[k]?) :
    n.blockAt p = m.blockAt p := by
  unfold Map.blockAt Map.slot
  rw [hsh.At]
  cases hA : m.At p.1 p.2 with
  | none => rfl
  | some k =>
    simp only
    rw [h k hA]

theorem Map.blockAt_same_or_flame {m n : Map} (hsh : SameShape m n) (p : Int × Int)
    (h : ∀ k : Nat, n.Cells[k]? = m.Cells[k]? ∨ n.Cells[k]? = some (some NewFlameCell))
    (hb : m.blockAt p = false) : n.blockAt p = false := by
  unfold Map.blockAt Map.slot at *
  rw [hsh.At]
  cases hA : m.At p.1 p.2 with
  | none => rfl
  | some k =>
    rw [hA] at hb
    simp only at hb ⊢
    rcases h k with e | e
    · rw [e]
      exact hb
    · rw [e]
      rfl

theorem RayUntouched.pre_other {m ma mb : Map} {d : Dir} {x y : Int} (d' : Dir) (hd : d' ≠ d)
    (rec : Map → BombCell → Int → Int → Outcome Map) (n : Nat)
    (h : RayUntouched m ma d x y)
    (hw : Explosion.walk rec (d'.coord x y) n 0 ma = Outcome.done mb) :
    RayUntouched m mb d x y := by
  obtain ⟨hn, hsh, ho, hray⟩ := h
  obtain ⟨hn', hsh', -⟩ := Explosion.walk_noLive rec _ n 0 ma mb hn hw
  refine ⟨hn', hsh.strans hsh', ?_, ?_⟩
  · exact Map.blockAt_same_or_flame hsh' (x, y)
      (Explosion.walk_noLive_same_or_flame rec _ n 0 hn hw) ho
  · intro j k hj hA
    rw [← hray j k hj hA]
    exact Explosion.walk_noLive_off_ray rec hd x y n hn hw hj (by rw [hsh.At]; exact hA)

theorem RayUntouched.blockAt_eq {m ma : Map} {d : Dir} {x y : Int}
    (h : RayUntouched m ma d x y) (j : Int) (hj : 1 ≤ j) :
    ma.blockAt (d.coord x y j) = m.blockAt (d.coord x y j) :=
  Map.blockAt_congr h.2.1 _ (fun k hk => h.2.2.2 j k hj hk)

theorem RayUntouched.own {m ma mb : Map} {d : Dir} {x y k : Int}
    (rec : Map → BombCell → Int → Int → Outcome Map) (n : Nat)
    (h : RayUntouched m ma d x y) (hk1 : 1 ≤ k) (hkn : k < n)
    (hfree : ∀ j : Int, 1 ≤ j → j < k → m.blockAt (d.coord x y j) = false)
    (hblock : m.blockAt (d.coord x y k) = true)
    (hw : Explosion.walk rec (d.coord x y) n 0 ma = Outcome.done mb) :
    StoppedAt m mb d x y k := by
  obtain ⟨hn', hsh', hspec⟩ := Explosion.walk_noLive rec _ n 0 ma mb h.1 hw
  have hsh := h.2.1
  have hprevs : ∀ j' : Nat, (j' : Int) < k → ma.blockAt (d.coord x y (0 + (j' : Int))) = false := by
    intro j' hj'
    cases j' with
    | zero =>
      simp only [Nat.cast_zero, add_zero, Dir.coord_zero]
      exact h.2.2.1
    | succ j' =>
      rw [h.blockAt_eq _ (by push_cast; omega)]
      exact hfree _ (by push_cast; omega) (by simpa using hj')
  refine ⟨hn', hsh.strans hsh', ?_, ?_⟩
  · intro j i hj hA
    have hA' : ma.At (d.coord x y j).1 (d.coord x y j).2 = some i := by rw [hsh.At]; exact hA
    rw [← h.2.2.2 j i (by omega) hA]
    apply (hspec i).2
    rintro ⟨j'', -, hAt, -, hprev⟩
    have e := Map.At_ray_inj hAt hA'
    have hb := hprev k.toNat (by omega)
    have e2 : (0 : Int) + (k.toNat : Int) = k := by omega
    rw [e2, h.blockAt_eq k hk1, hblock] at hb
    cases hb
  · intro i hA
    have hA' : ma.At (d.coord x y k).1 (d.coord x y k).2 = some i := by rw [hsh.At]; exact hA
    have hsame := h.2.2.2 k i hk1 hA
    constructor
    · intro hwall
      rw [← hsame] at hwall
      rw [← hwall]
      apply (hspec i).2
      rintro ⟨j'', -, -, hnw, -⟩
      exact hnw hwall
    · intro hsoft
      apply (hspec i).1
      refine ⟨k.toNat, by omega, ?_, ?_, ?_⟩
      · have e2 : (0 : Int) + (k.toNat : Int) = k := by omega
        rw [e2]
        exact hA'
      · rw [hsame, hsoft]
        simp
      · intro j' hj'
        exact hprevs j' (by omega)

theorem StoppedAt.post_other {m ma mb : Map} {d : Dir} {x y k : Int} (d' : Dir) (hd : d' ≠ d)
    (rec : Map → BombCell → Int → Int → Outcome Map) (n : Nat) (hk1 : 1 ≤ k)
    (h : StoppedAt m ma d x y k)
    (hw : Explosion.walk rec (d'.coord x y) n 0 ma = Outcome.done mb) :
    StoppedAt m mb d x y k := by
  obtain ⟨hn, hsh, hbeyond, hat⟩ := h
  obtain ⟨hn', hsh', -⟩ := Explosion.walk_noLive rec _ n 0 ma mb hn hw
  have hoff : ∀ (j : Int) (i : Nat), 1 ≤ j → m.At (d.coord x y j).1 (d.coord x y j).2 = some i →
      mb.Cells[i]? = ma.Cells[i]? := fun j i hj hA =>
    Explosion.walk_noLive_off_ray rec hd x y n hn hw hj (by rw [hsh.At]; exact hA)
  refine ⟨hn', hsh.strans hsh', ?_, ?_⟩
  · intro j i hj hA
    rw [hoff j i (by omega) hA]
    exact hbeyond j i hj hA
  · intro i hA
    rw [hoff k i hk1 hA]
    exact hat i hA

/-- In a grid whose only bomb is the one at `(x, y)`, marking that bomb
expired leaves no live bomb, and its slot then holds the expired bomb. -/
theorem RayUntouched.start {m : Map} {c : BombCell} {x y : Int} (d : Dir)
    (horigin : m.slot x y = some (some (Cell.Bomb c)))
    (honly : ∀ (i : Nat) (b : BombCell), m.Cells[i]? = some (some (Cell.Bomb b)) →
      m.At x y = some i) :
    RayUntouched m (m.markExpired x y) d x y := by
  rw [Map.slot_eq_some] at horigin
  obtain ⟨i0, hA, hs⟩ := horigin
  have e : m.markExpired x y =
      m.store i0 (some (Cell.Bomb { c with framesToExplosion := 0 })) := by
    unfold Map.markExpired
    rw [hA]
    simp only
    rw [hs]
  rw [e]
  refine ⟨?_, SameShape.sstore m i0 _, ?_, ?_⟩
  · intro i s hi
    rw [Map.store_getElem?] at hi
    split_ifs at hi with h1 h2
    · injection hi with hi
      rw [← hi]
      simp [IsLiveBomb, BombCell.HasExpired]
    · cases s with
      | none => rfl
      | some cell =>
        cases cell with
        | Bomb b =>
          have := honly i b hi
          rw [hA] at this
          injection this with this
          exact absurd this h1
        | _ => rfl
  · rw [Map.blockAt_true_of (p := (x, y)) (by rw [Map.At_store]; exact hA)
      (Map.store_get_self_of_some m i0 _ _ hs)]
    rfl
  · intro j k hj hAk
    apply Map.store_get_other
    intro hik
    subst hik
    have := Map.At_inj hA hAk
    have h0 := Dir.coord_zero d x y
    have : d.coord x y j = d.coord x y 0 := by
      rw [h0]
      exact Prod.ext this.1.symm this.2.symm
    have := Dir.coord_inj d x y j 0 this
    omega

/-- The explosion of the only bomb of a grid stops, in each direction, at the
first Wall or Soft cell. -/
theorem Explosion.run_stoppedAt (fuel : Nat) (m : Map) (c : BombCell) (x y : Int) (d : Dir)
    (k : Int) (m' : Map)
    (horigin : m.slot x y = some (some (Cell.Bomb c)))
    (honly : ∀ (i : Nat) (b : BombCell), m.Cells[i]? = some (some (Cell.Bomb b)) →
      m.At x y = some i)
    (hk1 : 1 ≤ k) (hkp : k < c.power)
    (hfree : ∀ j : Int, 1 ≤ j → j < k → m.blockAt (d.coord x y j) = false)
    (hblock : m.blockAt (d.coord x y k) = true)
    (h : Explosion.run (fuel + 1) m c x y = Outcome.done m') :
    StoppedAt m m' d x y k := by
  obtain ⟨m1, m2, m3, h1, h2, h3, h4⟩ := Explosion.body_done h
  have hkn : k < (c.power.toNat : Int) := by omega
  have s0 := RayUntouched.start d horigin honly
  cases d with
  | negX =>
    have s1 := s0.own _ _ hk1 hkn hfree hblock h1
    have s2 := s1.post_other Dir.posX (by decide) _ _ hk1 h2
    have s3 := s2.post_other Dir.negY (by decide) _ _ hk1 h3
    exact s3.post_other Dir.posY (by decide) _ _ hk1 h4
  | posX =>
    have s1 := s0.pre_other Dir.negX (by decide) _ _ h1
    have s2 := s1.own _ _ hk1 hkn hfree hblock h2
    have s3 := s2.post_other Dir.negY (by decide) _ _ hk1 h3
    exact s3.post_other Dir.posY (by decide) _ _ hk1 h4
  | negY =>
    have s1 := s0.pre_other Dir.negX (by decide) _ _ h1
    have s2 := s1.pre_other Dir.posX (by decide) _ _ h2
    have s3 := s2.own _ _ hk1 hkn hfree hblock h3
    exact s3.post_other Dir.posY (by decide) _ _ hk1 h4
  | posY =>
    have s1 := s0.pre_other Dir.negX (by decide) _ _ h1
    have s2 := s1.pre_other Dir.posX (by decide) _ _ h2
    have s3 := s2.pre_other Dir.negY (by decide) _ _ h3
    exact s3.own _ _ hk1 hkn hfree hblock h4

theorem Map.blockAt_of_slot_pass {m : Map} {p : Int × Int}
    (h : m.slot p.1 p.2 = some none ∨ ∃ fl, m.slot p.1 p.2 = some (some (Cell.Flame fl))) :
    m.blockAt p = false := by
  unfold Map.blockAt
  rcases h with h | ⟨fl, h⟩ <;> rw [h] <;> rfl

theorem Map.blockAt_of_slot_block {m : Map} {p : Int × Int}
    (h : m.slot p.1 p.2 = some (some Cell.Wall) ∨ m.slot p.1 p.2 = some (some Cell.Soft)) :
    m.blockAt p = true := by
  unfold Map.blockAt
  rcases h with h | h <;> rw [h] <;> rfl

theorem Map.slot_congr {m n : Map} (hsh : SameShape m n) (x y : Int)
    (h : ∀ k : Nat, m.At x y = some k → n.Cells[k]? = m.Cells[k]?) :
    n.slot x y = m.slot x y := by
  unfold Map.slot
  rw [hsh.At]
  cases hA : m.At x y with
  | none => rfl
  | some k => exact h k hA

/-- C5: in a grid that holds no bomb other than the detonating one, when the
first Wall or Soft cell in a direction is at step `k` with `1 ≤ k < power`
(the steps before it empty or Flame), `Map.Explosion` does not run out of
budget and, when it returns, every slot beyond step `k` in that direction is
unchanged, a Wall at step `k` is unchanged and a Soft cell at step `k` has
become a new Flame with 60 frames. -/
theorem Explosion_stops_at_first_block (m : Map) (c : BombCell) (x y : Int) (d : Dir) (k : Int)
    (horigin : m.slot x y = some (some (Cell.Bomb c)))
    (honly : ∀ (i : Nat) (b : BombCell), m.Cells[i]? = some (some (Cell.Bomb b)) →
      m.At x y = some i)
    (hk1 : 1 ≤ k) (hkp : k < c.power)
    (hfree : ∀ j : Int, 1 ≤ j → j < k →
      m.slot (d.coord x y j).1 (d.coord x y j).2 = some none ∨
      ∃ fl, m.slot (d.coord x y j).1 (d.coord x y j).2 = some (some (Cell.Flame fl)))
    (hblock : m.slot (d.coord x y k).1 (d.coord x y k).2 = some (some Cell.Wall) ∨
      m.slot (d.coord x y k).1 (d.coord x y k).2 = some (some Cell.Soft)) :
    m.Explosion c x y ≠ Outcome.outOfFuel ∧
    ∀ m', m.Explosion c x y = Outcome.done m' →
      (∀ j : Int, k < j →
        m'.slot (d.coord x y j).1 (d.coord x y j).2 = m.slot (d.coord x y j).1 (d.coord x y j).2) ∧
      (m.slot (d.coord x y k).1 (d.coord x y k).2 = some (some Cell.Wall) →
        m'.slot (d.coord x y k).1 (d.coord x y k).2 = some (some Cell.Wall)) ∧
      (m.slot (d.coord x y k).1 (d.coord x y k).2 = some (some Cell.Soft) →
        m'.slot (d.coord x y k).1 (d.coord x y k).2 = some (some (Cell.Flame { frames := 60 }))) := by
  refine ⟨Map.Explosion_ne_outOfFuel m c x y, ?_⟩
  intro m' h
  obtain ⟨-, hsh, hbeyond, hat⟩ := Explosion.run_stoppedAt _ m c x y d k m' horigin honly hk1 hkp
    (fun j h1 h2 => Map.blockAt_of_slot_pass (hfree j h1 h2))
    (Map.blockAt_of_slot_block hblock) h
  refine ⟨?_, ?_, ?_⟩
  · intro j hj
    exact Map.slot_congr hsh _ _ (fun i hi => hbeyond j i hj hi)
  · intro hw
    rw [Map.slot_eq_some] at hw ⊢
    obtain ⟨i, hA, hc⟩ := hw
    exact ⟨i, by rw [hsh.At]; exact hA, (hat i hA).1 hc⟩
  · intro hs
    rw [Map.slot_eq_some] at hs ⊢
    obtain ⟨i, hA, hc⟩ := hs
    exact ⟨i, by rw [hsh.At]; exact hA, (hat i hA).2 hc⟩

/-- Witness of C5 in `Example.soloGrid`: in direction +x from the bomb at
(1,1) the first Soft cell is at step 2; it becomes a Flame and the Wall
behind it, at step 3, is unchanged. -/
theorem Explosion_stops_at_first_block_witness :
    Example.soloGrid.Explosion { framesToExplosion := 0, power := 3, putter := none } 1 1 =
        Outcome.done Example.soloGridAfter ∧
      Example.soloGrid.slot (Dir.posX.coord 1 1 2).1 (Dir.posX.coord 1 1 2).2 =
        some (some Cell.Soft) ∧
      Example.soloGridAfter.slot (Dir.posX.coord 1 1 2).1 (Dir.posX.coord 1 1 2).2 =
        some (some (Cell.Flame { frames := 60 })) ∧
      Example.soloGridAfter.slot (Dir.posX.coord 1 1 3).1 (Dir.posX.coord 1 1 3).2 =
        Example.soloGrid.slot (Dir.posX.coord 1 1 3).1 (Dir.posX.coord 1 1 3).2 := by
  have key := (Explosion_stops_at_first_block Example.soloGrid
    { framesToExplosion := 0, power := 3, putter := none } 1 1 Dir.posX 2 (by decide)
    (by
      intro i b h
      have hi : i < 15 := by
        by_contra hc
        rw [List.getElem?_eq_none (by simpa [Example.soloGrid] using hc)] at h
        cases h
      interval_cases i <;> first | rfl | (simp [Example.soloGrid, Example.W] at h))
    (by decide) (by decide)
    (by
      intro j h1 h2
      have : j = 1 := by omega
      subst this
      left
      decide)
    (by right; decide)).2 Example.soloGridAfter (by decide)
  exact ⟨by decide, by decide, key.2.2 (by decide), key.1 3 (by decide)⟩

/-! ## C6: walls and dimensions are kept by every grid operation -/

/-- A property of the callback's state kept by every call of the callback on
the cell of a visited slot is kept by `ForEach`. -/
theorem ForEach_invariant {σ : Type} (get : σ → Map)
    (fn : Int → Int → Nat → Cell → σ → Outcome σ) (R : σ → Prop)
    (hstep : ∀ x y i cell s s', R s → (get s).At x y = some i →
      (get s).Cells[i]? = some (some cell) → fn x y i cell s = Outcome.done s' → R s') :
    ∀ (cs : List (Int × Int)) (s s' : σ), R s → ForEach get fn cs s = Outcome.done s' → R s' := by
  intro cs
  induction cs with
  | nil =>
    intro s s' hR h
    unfold ForEach at h
    injection h with h
    rw [← h]
    exact hR
  | cons p cs ih =>
    intro s s' hR h
    obtain ⟨x, y⟩ := p
    unfold ForEach at h
    cases hA : (get s).At x y with
    | none => rw [hA] at h; cases h
    | some i =>
      rw [hA] at h
      simp only at h
      cases hC : (get s).Cells[i]? with
      | none => rw [hC] at h; cases h
      | some v =>
        rw [hC] at h
        cases v with
        | none => exact ih s s' hR h
        | some cell =>
          simp only at h
          rw [Outcome.bind_eq_done] at h
          obtain ⟨s1, h1, h2⟩ := h
          exact ih s1 s' (hstep x y i cell s s1 hR hA hC h1) h2

theorem Map.Explosion_frame (m : Map) (c : BombCell) (x y : Int) (m' : Map)
    (h : m.Explosion c x y = Outcome.done m') : Frame m m' :=
  Explosion.run_frame _ m c x y m' h

/-- The `Update` of the cell held by slot `i` keeps the frame. -/
theorem Cell.tick_frame (cell : Cell) (x y : Int) (i : Nat) (m m' : Map)
    (hs : m.Cells[i]? = some (some cell)) (h : cell.Update x y i m = Outcome.done m') :
    Frame m m' := by
  cases cell with
  | Wall =>
    simp only [Cell.Update] at h
    injection h with h
    rw [h]
    exact Frame.frefl m'
  | Soft =>
    simp only [Cell.Update] at h
    injection h with h
    rw [h]
    exact Frame.frefl m'
  | Flame c =>
    simp only [Cell.Update] at h
    injection h with h
    rw [← h]
    exact Frame.fstore m i _ (by rw [hs]; simp) (by simp)
  | Bomb c =>
    simp only [Cell.Update] at h
    have h1 : Frame m (m.store i (some (Cell.Bomb
        { c with framesToExplosion := c.framesToExplosion - 1 }))) :=
      Frame.fstore m i _ (by rw [hs]; simp) (by simp)
    split_ifs at h with h0
    · exact h1.ftrans (Map.Explosion_frame _ _ x y m' h)
    · injection h with h
      rw [← h]
      exact h1

theorem Map.updateLoop_frame (cs : List (Int × Int)) (m m' : Map)
    (h : Map.updateLoop cs m = Outcome.done m') : Frame m m' := by
  refine ForEach_invariant (fun s => s) _ (fun s => Frame m s) ?_ cs m m' (Frame.frefl m) h
  intro x y i cell s s' hR _ hC hf
  exact hR.ftrans (Cell.tick_frame cell x y i s s' hC hf)

theorem Map.cleanupLoop_frame (cs : List (Int × Int)) :
    ∀ (m m' : Map), Map.cleanupLoop cs m = Outcome.done m' → Frame m m' := by
  induction cs with
  | nil =>
    intro m m' h
    unfold Map.cleanupLoop at h
    injection h with h
    rw [h]
    exact Frame.frefl m'
  | cons p cs ih =>
    intro m m' h
    obtain ⟨x, y⟩ := p
    unfold Map.cleanupLoop at h
    cases hA : m.At x y with
    | none => rw [hA] at h; cases h
    | some i =>
      rw [hA] at h
      simp only at h
      cases hC : m.Cells[i]? with
      | none => rw [hC] at h; cases h
      | some v =>
        rw [hC] at h
        cases v with
        | none => exact ih m m' h
        | some cell =>
          simp only at h
          split_ifs at h with he
          · refine (Frame.fstore m i none ?_ (by simp)).ftrans (ih _ m' h)
            rw [hC]
            intro hw
            injection hw with hw
            injection hw with hw
            rw [hw] at he
            simp [Cell.HasExpired] at he
          · exact ih m m' h

theorem Map.Cleanup_frame (m m' : Map) (h : m.Cleanup = Outcome.done m') : Frame m m' :=
  Map.cleanupLoop_frame _ m m' h

theorem Map.Update_frame (m m' : Map) (h : m.Update = Outcome.done m') : Frame m m' := by
  unfold Map.Update at h
  rw [Outcome.bind_eq_done] at h
  obtain ⟨m1, h1, h2⟩ := h
  exact (Map.updateLoop_frame _ m m1 h1).ftrans (Map.Cleanup_frame m1 m' h2)

theorem PositionCorrection.ownBomb_eq_some {cp : CharPtr} {cell : Cell} {b : BombCell}
    (h : PositionCorrection.ownBomb cp cell = some b) :
    cell = Cell.Bomb b ∧ b.putter = some cp := by
  cases cell with
  | Bomb c =>
    simp only [PositionCorrection.ownBomb] at h
    split_ifs at h with hp
    injection h with h
    subst h
    exact ⟨rfl, hp⟩
  | _ => simp [PositionCorrection.ownBomb] at h

/-- The callback of `Map.PositionCorrection` writes the grid only to clear
the `putter` of a bomb. -/
theorem PositionCorrection.fn_map (cp : CharPtr) (c : Character) (x y : Int) (i : Nat)
    (cell : Cell) (s s' : Pass) (h : PositionCorrection.fn cp c x y i cell s = Outcome.done s') :
    s'.map = s.map ∨
      ∃ b, cell = Cell.Bomb b ∧ b.putter = some cp ∧
        s'.map = s.map.store i (some (Cell.Bomb { b with putter := none })) := by
  unfold PositionCorrection.fn at h
  split_ifs at h with h0
  · injection h with h
    rw [← h]
    exact Or.inl rfl
  · simp only at h
    cases ho : PositionCorrection.ownBomb cp cell with
    | some b =>
      rw [ho] at h
      simp only at h
      split_ifs at h
      · injection h with h
        rw [← h]
        exact Or.inl rfl
      · injection h with h
        rw [← h]
        obtain ⟨e1, e2⟩ := PositionCorrection.ownBomb_eq_some ho
        exact Or.inr ⟨b, e1, e2, rfl⟩
    | none =>
      rw [ho] at h
      simp only at h
      split_ifs at h <;> injection h with h <;> rw [← h] <;> exact Or.inl rfl

theorem PositionCorrection.pass_frame (cp : CharPtr) (c : Character) (cs : List (Int × Int))
    (s s' : Pass)
    (h : ForEach Pass.map (PositionCorrection.fn cp c) cs s = Outcome.done s') :
    Frame s.map s'.map := by
  refine ForEach_invariant Pass.map _ (fun t => Frame s.map t.map) ?_ cs s s'
    (Frame.frefl s.map) h
  intro x y i cell t t' hR _ hC hf
  rcases PositionCorrection.fn_map cp c x y i cell t t' hf with e | ⟨b, e1, -, e3⟩
  · rw [e]
    exact hR
  · rw [e3]
    exact hR.ftrans (Frame.fstore t.map i _ (by rw [hC, e1]; simp) (by simp))

theorem PositionCorrection.passes_frame (cp : CharPtr) (n : Nat) :
    ∀ (m : Map) (c : Character) (m' : Map) (c' : Character),
      PositionCorrection.passes cp n m c = Outcome.done (m', c') → Frame m m' := by
  induction n with
  | zero =>
    intro m c m' c' h
    unfold PositionCorrection.passes at h
    injection h with h
    injection h with h1 h2
    rw [h1]
    exact Frame.frefl m'
  | succ n ih =>
    intro m c m' c' h
    unfold PositionCorrection.passes at h
    cases hp : ForEach Pass.map (PositionCorrection.fn cp c) m.coords
        { map := m, correctX := 0, correctY := 0, maxIntersection := 0 } with
    | crash => rw [hp] at h; cases h
    | outOfFuel => rw [hp] at h; cases h
    | done s =>
      rw [hp] at h
      simp only at h
      have hf := PositionCorrection.pass_frame cp c _ _ _ hp
      split_ifs at h with h0
      · injection h with h
        injection h with h1 h2
        rw [← h1]
        exact hf
      · exact Frame.ftrans hf (ih _ _ _ _ h)

theorem Map.PositionCorrection_frame (m : Map) (cp : CharPtr) (c : Character) (m' : Map)
    (c' : Character) (h : m.PositionCorrection cp c = Outcome.done (m', c')) : Frame m m' :=
  PositionCorrection.passes_frame cp 5 m c m' c' h

/-- `Game.PutBomb` writes only into an empty slot, and only a new bomb. -/
theorem Game.PutBomb_cases (g : Game) (p : CharPtr) (g' : Game) (b : Bool)
    (h : g.PutBomb p = Outcome.done (g', b)) :
    (g' = g ∧ b = false) ∨
      ∃ i, g.Map.Cells[i]? = some none ∧ b = true ∧
        g' = { g with Map := g.Map.store i (some (NewBombCell p)) } := by
  unfold Game.PutBomb at h
  cases hA : g.Map.AtPos (g.Player.X + g.Player.Length.tdiv 2)
      (g.Player.Y + g.Player.Length.tdiv 2) with
  | crash => rw [hA] at h; cases h
  | outOfFuel => rw [hA] at h; cases h
  | done o =>
    rw [hA] at h
    cases o with
    | none =>
      simp only at h
      injection h with h
      injection h with h1 h2
      exact Or.inl ⟨h1.symm, h2.symm⟩
    | some i =>
      simp only at h
      cases hC : g.Map.Cells[i]? with
      | none => rw [hC] at h; cases h
      | some v =>
        rw [hC] at h
        cases v with
        | none =>
          simp only at h
          injection h with h
          injection h with h1 h2
          exact Or.inr ⟨i, hC, h2.symm, h1.symm⟩
        | some cell =>
          simp only at h
          injection h with h
          injection h with h1 h2
          exact Or.inl ⟨h1.symm, h2.symm⟩

theorem Game.PutBomb_frame (g : Game) (p : CharPtr) (g' : Game) (b : Bool)
    (h : g.PutBomb p = Outcome.done (g', b)) : Frame g.Map g'.Map := by
  rcases Game.PutBomb_cases g p g' b h with ⟨e, -⟩ | ⟨i, hC, -, e⟩
  · rw [e]
    exact Frame.frefl g.Map
  · rw [e]
    exact Frame.fstore g.Map i _ (by rw [hC]; simp) (by simp [NewBombCell])

/-! ## C7: chain detonation -/

theorem NoBlock.nb_store_flame {m : Map} (h : NoBlock m) (i : Nat) :
    NoBlock (m.store i (some NewFlameCell)) := by
  intro j s hs
  rw [Map.store_getElem?] at hs
  split_ifs at hs with h1 h2
  · injection hs with hs
    rw [← hs]
    rfl
  · exact h j s hs

theorem NoBlock.nb_markExpired {m : Map} (h : NoBlock m) (x y : Int) :
    NoBlock (m.markExpired x y) := by
  rcases Map.markExpired_cases m x y with e | ⟨i, b, -, -, e⟩
  · rw [e]
    exact h
  · rw [e]
    intro j s hs
    rw [Map.store_getElem?] at hs
    split_ifs at hs with h1 h2
    · injection hs with hs
      rw [← hs]
      rfl
    · exact h j s hs

theorem Explosion.run_noBlock (fuel : Nat) (m : Map) (c : BombCell) (x y : Int) (m' : Map)
    (hn : NoBlock m) (h : Explosion.run fuel m c x y = Outcome.done m') : NoBlock m' :=
  Explosion.run_invariant NoBlock (fun _ i hn => hn.nb_store_flame i)
    (fun _ x y hn => hn.nb_markExpired x y) fuel m c x y m' hn h

theorem Explosion.run_slot_keeps_flame (fuel : Nat) (m : Map) (c : BombCell) (x y : Int)
    (m' : Map) (h : Explosion.run fuel m c x y = Outcome.done m') (px py : Int)
    (hp : m.slot px py = some (some NewFlameCell)) :
    m'.slot px py = some (some NewFlameCell) := by
  rw [Map.slot_eq_some] at hp ⊢
  obtain ⟨i, hA, hs⟩ := hp
  exact ⟨i, by rw [(Explosion.run_frame fuel m c x y m' h).1.At]; exact hA,
    Explosion.run_keeps_flame fuel m c x y m' i hs h⟩

theorem Explosion.walk_slot_keeps_flame (fuel : Nat) (coord : Int → Int × Int) (n : Nat)
    (i : Int) (m m' : Map)
    (h : Explosion.walk (Explosion.run fuel) coord n i m = Outcome.done m') (px py : Int)
    (hp : m.slot px py = some (some NewFlameCell)) :
    m'.slot px py = some (some NewFlameCell) := by
  rw [Map.slot_eq_some] at hp ⊢
  obtain ⟨k, hA, hs⟩ := hp
  exact ⟨k, by rw [(Explosion.walk_frame (Explosion.run_frame fuel) coord n i m m' h).1.At]; exact hA,
    Explosion.walk_keeps_flame fuel coord n i m m' k hs h⟩

theorem Map.store_flame_slot_keeps_flame (m : Map) (i : Nat) (px py : Int)
    (hp : m.slot px py = some (some NewFlameCell)) :
    (m.store i (some NewFlameCell)).slot px py = some (some NewFlameCell) := by
  rw [Map.slot_eq_some] at hp ⊢
  obtain ⟨k, hA, hs⟩ := hp
  refine ⟨k, by rw [Map.At_store]; exact hA, ?_⟩
  by_cases hik : i = k
  · subst hik
    exact Map.store_get_self_of_some m i _ _ hs
  · rw [Map.store_get_other m i k _ hik]
    exact hs

theorem Map.markExpired_slot_keeps_flame (m : Map) (x y : Int) (px py : Int)
    (hp : m.slot px py = some (some NewFlameCell)) :
    (m.markExpired x y).slot px py = some (some NewFlameCell) := by
  rw [Map.slot_eq_some] at hp ⊢
  obtain ⟨k, hA, hs⟩ := hp
  refine ⟨k, by rw [(Frame.markExpired m x y).1.At]; exact hA, ?_⟩
  rw [Map.markExpired_get_of_not_bomb m x y k]
  · exact hs
  · intro b hb
    rw [hs] at hb
    simp [NewFlameCell] at hb

/-- In a grid without Wall and Soft cells a loop that returns ran all its
iterations, and every step it made holds a new Flame. -/
theorem Explosion.walk_noBlock (fuel : Nat) (coord : Int → Int × Int) (n : Nat) :
    ∀ (i : Int) (m m' : Map), NoBlock m →
      Explosion.walk (Explosion.run fuel) coord n i m = Outcome.done m' →
      NoBlock m' ∧ ∀ j : Nat, j < n →
        m'.slot (coord (i + j)).1 (coord (i + j)).2 = some (some NewFlameCell) := by
  induction n with
  | zero =>
    intro i m m' hn h
    rw [Explosion.walk_zero] at h
    injection h with h
    subst h
    exact ⟨hn, fun j hj => by omega⟩
  | succ n ih =>
    intro i m m' hn h
    obtain ⟨m1, b, hf, hc⟩ := Explosion.walk_done h
    have hn1 : NoBlock m1 :=
      Explosion.f_invariant NoBlock (fun _ i hn => hn.nb_store_flame i)
        (fun a c x y a' ha hr => Explosion.run_noBlock fuel a c x y a' ha hr) hn hf
    have hF : m1.slot (coord i).1 (coord i).2 = some (some NewFlameCell) := by
      rcases Explosion.f_leaves_wall_or_flame fuel hf with hw | hw
      · rw [Map.slot_eq_some] at hw
        obtain ⟨k, -, hk⟩ := hw
        have := hn1 k _ hk
        simp [IsBlock] at this
      · exact hw
    have hb : b = true := by
      obtain ⟨k, s, -, hs, hcase⟩ := Explosion.f_done hf
      rcases hcase with ⟨rfl, -, -⟩ | ⟨rfl, -, -⟩ | ⟨_, _, -, -, -, -, hb⟩ | ⟨-, -, -, hb⟩
      · have := hn k _ hs
        simp [IsBlock] at this
      · have := hn k _ hs
        simp [IsBlock] at this
      · exact hb
      · exact hb
    subst hb
    rcases hc with ⟨hc, -⟩ | ⟨-, hw⟩
    · cases hc
    · obtain ⟨hn', hrest⟩ := ih (i + 1) m1 m' hn1 hw
      refine ⟨hn', fun j hj => ?_⟩
      cases j with
      | zero =>
        simp only [Nat.cast_zero, add_zero]
        exact Explosion.walk_slot_keeps_flame fuel coord n (i + 1) m1 m' hw _ _ hF
      | succ j =>
        have e : i + ((j + 1 : Nat) : Int) = i + 1 + (j : Int) := by push_cast; ring
        rw [e]
        exact hrest j (by omega)

/-- In a grid without Wall and Soft cells an explosion that returns leaves the
full cross of its blast aflame, whatever it chained. -/
theorem Explosion.run_cross (fuel : Nat) (m : Map) (c : BombCell) (x y : Int) (m' : Map)
    (hn : NoBlock m) (h : Explosion.run fuel m c x y = Outcome.done m') :
    Cross m' x y c.power := by
  cases fuel with
  | zero => cases h
  | succ fuel =>
    obtain ⟨m1, m2, m3, h1, h2, h3, h4⟩ := Explosion.body_done h
    obtain ⟨n1, c1⟩ := Explosion.walk_noBlock fuel _ _ 0 _ m1 (hn.nb_markExpired x y) h1
    obtain ⟨n2, c2⟩ := Explosion.walk_noBlock fuel _ _ 0 _ m2 n1 h2
    obtain ⟨n3, c3⟩ := Explosion.walk_noBlock fuel _ _ 0 _ m3 n2 h3
    obtain ⟨-, c4⟩ := Explosion.walk_noBlock fuel _ _ 0 _ m' n3 h4
    intro d j hj0 hjp
    have e : (0 : Int) + (j.toNat : Int) = j := by omega
    have hlt : j.toNat < c.power.toNat := by omega
    cases d with
    | negX =>
      have := c1 j.toNat hlt
      rw [e] at this
      exact Explosion.walk_slot_keeps_flame fuel _ _ 0 m3 m' h4 _ _
        (Explosion.walk_slot_keeps_flame fuel _ _ 0 m2 m3 h3 _ _
          (Explosion.walk_slot_keeps_flame fuel _ _ 0 m1 m2 h2 _ _ this))
    | posX =>
      have := c2 j.toNat hlt
      rw [e] at this
      exact Explosion.walk_slot_keeps_flame fuel _ _ 0 m3 m' h4 _ _
        (Explosion.walk_slot_keeps_flame fuel _ _ 0 m2 m3 h3 _ _ this)
    | negY =>
      have := c3 j.toNat hlt
      rw [e] at this
      exact Explosion.walk_slot_keeps_flame fuel _ _ 0 m3 m' h4 _ _ this
    | posY =>
      have := c4 j.toNat hlt
      rw [e] at this
      exact this

theorem Cross.cross_store_flame {m : Map} {x y p : Int} (h : Cross m x y p) (i : Nat) :
    Cross (m.store i (some NewFlameCell)) x y p :=
  fun d j h0 hp => Map.store_flame_slot_keeps_flame m i _ _ (h d j h0 hp)

theorem Cross.cross_markExpired {m : Map} {x y p : Int} (h : Cross m x y p) (ox oy : Int) :
    Cross (m.markExpired ox oy) x y p :=
  fun d j h0 hp => Map.markExpired_slot_keeps_flame m ox oy _ _ (h d j h0 hp)

theorem Cross.run {m : Map} {x y p : Int} (h : Cross m x y p) (fuel : Nat) (c : BombCell)
    (ox oy : Int) (m' : Map) (hr : Explosion.run fuel m c ox oy = Outcome.done m') :
    Cross m' x y p :=
  fun d j h0 hp => Explosion.run_slot_keeps_flame fuel m c ox oy m' hr _ _ (h d j h0 hp)

theorem ChainedOrIntact.coi_store_flame {m : Map} {iB : Nat} {B : BombCell} {bx by' : Int}
    (h : ChainedOrIntact m iB B bx by') (i : Nat) (hi : i ≠ iB ∨ Cross m bx by' B.power) :
    ChainedOrIntact (m.store i (some NewFlameCell)) iB B bx by' := by
  rcases hi with hi | hi
  · rcases h with h | h
    · left
      rw [Map.store_get_other m i iB _ hi]
      exact h
    · exact Or.inr (h.cross_store_flame i)
  · exact Or.inr (hi.cross_store_flame i)

/-- One call of `f` keeps `ChainedOrIntact`: reaching the intact bomb detonates
it, which sets its full cross aflame. -/
theorem Explosion.f_chainedOrIntact (fuel : Nat) {iB : Nat} {B : BombCell} {bx by' : Int}
    (ih : ∀ m c x y m', NoBlock m → m.At bx by' = some iB → ChainedOrIntact m iB B bx by' →
      m.At x y ≠ some iB → Explosion.run fuel m c x y = Outcome.done m' →
      ChainedOrIntact m' iB B bx by')
    {m : Map} {x y : Int} {m' : Map} {b : Bool} (hn : NoBlock m) (hAB : m.At bx by' = some iB)
    (hlive : B.HasExpired = false) (hci : ChainedOrIntact m iB B bx by')
    (h : Explosion.f (Explosion.run fuel) m x y = Outcome.done (m', b)) :
    ChainedOrIntact m' iB B bx by' := by
  obtain ⟨i, s, hA, hs, hcase⟩ := Explosion.f_done h
  rcases hcase with ⟨-, hm, -⟩ | ⟨hsoft, -, -⟩ | ⟨bc, m1, hsb, hl, hr, hm, -⟩ | ⟨-, hl, hm, -⟩
  · rw [hm]
    exact hci
  · have := hn i _ hs
    rw [hsoft] at this
    simp [IsBlock] at this
  · rw [hm]
    by_cases hi : i = iB
    · subst hi
      right
      apply Cross.cross_store_flame
      rcases hci with hc | hc
      · rw [hs, hsb] at hc
        injection hc with hc
        injection hc with hc
        injection hc with hc
        subst hc
        obtain ⟨ex, ey⟩ := Map.At_inj hA hAB
        subst ex
        subst ey
        exact Explosion.run_cross fuel m bc x y m1 hn hr
      · exact hc.run fuel bc x y m1 hr
    · have h1 := ih m bc x y m1 hn hAB hci
        (by rw [hA]; intro he; injection he with he; exact hi he) hr
      exact h1.coi_store_flame i (Or.inl hi)
  · rw [hm]
    apply hci.coi_store_flame
    by_cases hi : i = iB
    · subst hi
      rcases hci with hc | hc
      · rw [hs] at hc
        injection hc with hc
        rw [hc] at hl
        simp [IsLiveBomb, hlive] at hl
      · exact Or.inr hc
    · exact Or.inl hi

theorem Explosion.walk_chainedOrIntact (fuel : Nat) {iB : Nat} {B : BombCell} {bx by' : Int}
    (ih : ∀ m c x y m', NoBlock m → m.At bx by' = some iB → ChainedOrIntact m iB B bx by' →
      m.At x y ≠ some iB → Explosion.run fuel m c x y = Outcome.done m' →
      ChainedOrIntact m' iB B bx by')
    (hlive : B.HasExpired = false) (coord : Int → Int × Int) (n : Nat) :
    ∀ (i : Int) (m m' : Map), NoBlock m → m.At bx by' = some iB →
      ChainedOrIntact m iB B bx by' →
      Explosion.walk (Explosion.run fuel) coord n i m = Outcome.done m' →
      ChainedOrIntact m' iB B bx by' := by
  induction n with
  | zero =>
    intro i m m' _ _ hci h
    rw [Explosion.walk_zero] at h
    injection h with h
    rw [← h]
    exact hci
  | succ n ihn =>
    intro i m m' hn hAB hci h
    obtain ⟨m1, b, hf, hc⟩ := Explosion.walk_done h
    have h1 := Explosion.f_chainedOrIntact fuel ih hn hAB hlive hci hf
    rcases hc with ⟨-, rfl⟩ | ⟨-, hw⟩
    · exact h1
    · have hn1 : NoBlock m1 :=
        Explosion.f_invariant NoBlock (fun _ i hn => hn.nb_store_flame i)
          (fun a c x y a' ha hr => Explosion.run_noBlock fuel a c x y a' ha hr) hn hf
      have hfr := Explosion.f_frame (Explosion.run_frame fuel) hf
      exact ihn (i + 1) m1 m' hn1 (by rw [hfr.1.At]; exact hAB) h1 hw

theorem Explosion.walk_noBlock_frame (fuel : Nat) (coord : Int → Int × Int) (n : Nat) (i : Int)
    (m m' : Map) (hn : NoBlock m)
    (h : Explosion.walk (Explosion.run fuel) coord n i m = Outcome.done m') :
    NoBlock m' ∧ Frame m m' :=
  ⟨(Explosion.walk_noBlock fuel coord n i m m' hn h).1,
    Explosion.walk_frame (Explosion.run_frame fuel) coord n i m m' h⟩

/-- An explosion rooted elsewhere than at the bomb `B` keeps `ChainedOrIntact`. -/
theorem Explosion.run_chainedOrIntact {iB : Nat} {B : BombCell} {bx by' : Int}
    (hlive : B.HasExpired = false) (fuel : Nat) :
    ∀ (m : Map) (c : BombCell) (x y : Int) (m' : Map), NoBlock m → m.At bx by' = some iB →
      ChainedOrIntact m iB B bx by' → m.At x y ≠ some iB →
      Explosion.run fuel m c x y = Outcome.done m' → ChainedOrIntact m' iB B bx by' := by
  induction fuel with
  | zero =>
    intro m c x y m' _ _ _ _ h
    cases h
  | succ fuel ih =>
    intro m c x y m' hn hAB hci hne h
    obtain ⟨m1, m2, m3, h1, h2, h3, h4⟩ := Explosion.body_done h
    have hm0 : ChainedOrIntact (m.markExpired x y) iB B bx by' := by
      rcases hci with hc | hc
      · left
        rcases Map.markExpired_cases m x y with e | ⟨i, b, hAi, -, e⟩
        · rw [e]
          exact hc
        · rw [e, Map.store_get_other m i iB _ (by intro he; subst he; exact hne hAi)]
          exact hc
      · exact Or.inr (hc.cross_markExpired x y)
    have hA0 : (m.markExpired x y).At bx by' = some iB := by
      rw [(Frame.markExpired m x y).1.At]
      exact hAB
    have w1 := Explosion.walk_chainedOrIntact fuel ih hlive _ _ 0 _ m1 (hn.nb_markExpired x y)
      hA0 hm0 h1
    obtain ⟨n1, f1⟩ := Explosion.walk_noBlock_frame fuel _ _ 0 _ m1 (hn.nb_markExpired x y) h1
    have hA1 : m1.At bx by' = some iB := by rw [f1.1.At]; exact hA0
    have w2 := Explosion.walk_chainedOrIntact fuel ih hlive _ _ 0 _ m2 n1 hA1 w1 h2
    obtain ⟨n2, f2⟩ := Explosion.walk_noBlock_frame fuel _ _ 0 _ m2 n1 h2
    have hA2 : m2.At bx by' = some iB := by rw [f2.1.At]; exact hA1
    have w3 := Explosion.walk_chainedOrIntact fuel ih hlive _ _ 0 _ m3 n2 hA2 w2 h3
    obtain ⟨n3, f3⟩ := Explosion.walk_noBlock_frame fuel _ _ 0 _ m3 n2 h3
    have hA3 : m3.At bx by' = some iB := by rw [f3.1.At]; exact hA2
    exact Explosion.walk_chainedOrIntact fuel ih hlive _ _ 0 _ m' n3 hA3 w3 h4

/-- C7: in a grid that is empty except for a bomb `A` at `(x, y)` and a live
bomb `B` at `(x+k, y)` with `0 < k < A.power`, the explosion of `A` does not
run out of budget and, when it returns, every slot `(x+k, y+j)` and
`(x+k, y-j)` with `0 ≤ j < B.power` holds a new Flame: `B` was detonated with
its own coordinates and power.  A bomb that is already expired when `f`
reaches it is only overwritten by a new Flame: the result of `f` does not
depend on the recursive call, which is not made. -/
theorem Explosion_chain_detonates_live_bomb :
    (∀ (m : Map) (A B : BombCell) (x y k : Int),
      m.slot x y = some (some (Cell.Bomb A)) →
      m.slot (x + k) y = some (some (Cell.Bomb B)) →
      (∀ (i : Nat) (s : Option Cell), m.Cells[i]? = some s →
        s = none ∨ m.At x y = some i ∨ m.At (x + k) y = some i) →
      0 < k → k < A.power → 0 < B.framesToExplosion →
      m.Explosion A x y ≠ Outcome.outOfFuel ∧
      ∀ m', m.Explosion A x y = Outcome.done m' →
        ∀ j : Int, 0 ≤ j → j < B.power →
          m'.slot (x + k) (y + j) = some (some NewFlameCell) ∧
          m'.slot (x + k) (y - j) = some (some NewFlameCell)) ∧
    (∀ (rec : Map → BombCell → Int → Int → Outcome Map) (m : Map) (x y : Int) (i : Nat)
      (bc : BombCell), m.At x y = some i → m.Cells[i]? = some (some (Cell.Bomb bc)) →
      bc.framesToExplosion ≤ 0 →
      Explosion.f rec m x y = Outcome.done (m.store i (some NewFlameCell), true)) := by
  constructor
  · intro m A B x y k hA hB hempty hk hkp hlive
    refine ⟨Map.Explosion_ne_outOfFuel m A x y, ?_⟩
    intro m' h
    rw [Map.slot_eq_some] at hA hB
    obtain ⟨iA, hAA, hsA⟩ := hA
    obtain ⟨iB, hAB, hsB⟩ := hB
    have hn : NoBlock m := by
      intro i s hs
      rcases hempty i s hs with e | e | e
      · rw [e]
        rfl
      · rw [hAA] at e
        injection e with e
        subst e
        rw [hsA] at hs
        injection hs with hs
        rw [← hs]
        rfl
      · rw [hAB] at e
        injection e with e
        subst e
        rw [hsB] at hs
        injection hs with hs
        rw [← hs]
        rfl
    have hBl : B.HasExpired = false := by
      simp only [BombCell.HasExpired, decide_eq_false_iff_not]
      omega
    have hne : m.At x y ≠ some iB := by
      intro he
      have := (Map.At_inj he hAB).1
      omega
    have hci := Explosion.run_chainedOrIntact hBl _ m A x y m' hn hAB (Or.inl hsB) hne h
    have hcross := Explosion.run_cross _ m A x y m' hn h Dir.posX k (by omega) hkp
    have hfr := Explosion.run_frame _ m A x y m' h
    have hB' : Cross m' (x + k) y B.power := by
      rcases hci with hc | hc
      · rw [Map.slot_eq_some] at hcross
        obtain ⟨i, hi, hF⟩ := hcross
        have e : (Dir.posX.coord x y k) = (x + k, y) := rfl
        rw [e, hfr.1.At, hAB] at hi
        injection hi with hi
        subst hi
        rw [hc] at hF
        simp [NewFlameCell] at hF
      · exact hc
    intro j hj0 hjp
    exact ⟨hB' Dir.posY j hj0 hjp, hB' Dir.negY j hj0 hjp⟩
  · intro rec m x y i bc hA hs hexp
    apply Explosion.f_pass rec m x y i _ hA hs rfl
    simp only [IsLiveBomb, BombCell.HasExpired, Bool.not_eq_false', decide_eq_true_eq]
    exact hexp

/-- Witness of C7 in `Example.pairGrid`: the bomb at (1,1) reaches the live
bomb at (2,1), whose blast of power 2 then sets (2,0) and (2,2) aflame. -/
theorem Explosion_chain_detonates_live_bomb_witness :
    Example.pairGrid.Explosion { framesToExplosion := 0, power := 2, putter := none } 1 1 =
        Outcome.done Example.pairGridAfter ∧
      Example.pairGridAfter.slot (1 + 1) (1 + 1) = some (some NewFlameCell) ∧
      Example.pairGridAfter.slot (1 + 1) (1 - 1) = some (some NewFlameCell) := by
  have key := (Explosion_chain_detonates_live_bomb.1 Example.pairGrid
    { framesToExplosion := 0, power := 2, putter := none }
    { framesToExplosion := 7, power := 2, putter := none } 1 1 1 (by decide) (by decide)
    (by
      intro i s h
      have hi : i < 12 := by
        by_contra hc
        rw [List.getElem?_eq_none (by simpa [Example.pairGrid] using hc)] at h
        cases h
      interval_cases i <;>
        first
          | (right; left; rfl)
          | (right; right; rfl)
          | (left; simpa [Example.pairGrid] using h.symm))
    (by decide) (by decide) (by decide)).2 Example.pairGridAfter (by decide) 1 (by decide)
      (by decide)
  exact ⟨by decide, key.1, key.2⟩

/-! ## Loops over the grid, slot by slot -/

theorem Map.mem_coords (m : Map) (p : Int × Int) :
    p ∈ m.coords ↔ 0 ≤ p.1 ∧ p.1 < m.Width ∧ 0 ≤ p.2 ∧ p.2 < m.Height := by
  unfold Map.coords
  simp only [List.mem_flatMap, List.mem_map, List.mem_range]
  constructor
  · rintro ⟨a, ha, b, hb, rfl⟩
    simp only [Int.ofNat_eq_coe]
    omega
  · rintro ⟨h1, h2, h3, h4⟩
    refine ⟨p.1.toNat, by omega, p.2.toNat, by omega, ?_⟩
    apply Prod.ext
    · simp only [Int.ofNat_eq_coe]
      omega
    · simp only [Int.ofNat_eq_coe]
      omega

/-- The loops visit the coordinates in increasing order, each once. -/
theorem Map.coords_pairwise (m : Map) : m.coords.Pairwise Before := by
  unfold Map.coords
  rw [List.pairwise_flatMap]
  constructor
  · intro a _
    rw [List.pairwise_map]
    refine (List.pairwise_lt_range _).imp ?_
    intro b c hbc
    right
    simp only [Int.ofNat_eq_coe, true_and]
    exact_mod_cast hbc
  · refine (List.pairwise_lt_range _).imp ?_
    intro a b hab p hp q hq
    simp only [List.mem_map, List.mem_range] at hp hq
    obtain ⟨_, _, rfl⟩ := hp
    obtain ⟨_, _, rfl⟩ := hq
    left
    simp only [Int.ofNat_eq_coe]
    exact_mod_cast hab

theorem Before.ne {p q : Int × Int} (h : Before p q) : p ≠ q := by
  rintro rfl
  rcases h with h | ⟨-, h⟩ <;> omega

theorem Before.asymm {p q : Int × Int} (h : Before p q) (h' : Before q p) : False := by
  rcases h with h | ⟨h1, h2⟩ <;> rcases h' with h' | ⟨h3, h4⟩ <;> omega

theorem Map.store_self (m : Map) (i : Nat) (v : Option Cell) (h : m.Cells[i]? = some v) :
    m.store i v = m := by
  cases m with
  | mk cl w hh cells =>
    simp only [Map.store, Map.mk.injEq, true_and]
    simp only at h
    apply List.ext_getElem?
    intro j
    rw [List.getElem?_set]
    split_ifs with h1 h2
    · subst h1
      exact h.symm
    · subst h1
      rw [List.getElem?_eq_none (by omega)]
    · rfl

theorem Map.get_of_At {m : Map} (hwf : m.WF) {x y : Int} {i : Nat} (h : m.At x y = some i) :
    ∃ v, m.Cells[i]? = some v := by
  have := Map.At_lt_length hwf h
  exact ⟨m.Cells[i], List.getElem?_eq_getElem this⟩

/-- A `ForEach` whose callback only rewrites the visited slot, by the function
`g` of what the slot holds, returns; it applies `g` to every visited slot and
leaves the others alone. -/
theorem ForEach_pointwise (fn : Int → Int → Nat → Cell → Map → Outcome Map)
    (g : Option Cell → Option Cell) (hg : g none = none) (Good : Cell → Prop)
    (hfn : ∀ (x y : Int) (i : Nat) (cell : Cell) (s : Map), Good cell →
      s.Cells[i]? = some (some cell) → fn x y i cell s = Outcome.done (s.store i (g (some cell))))
    (cs : List (Int × Int)) :
    ∀ m : Map, m.WF → cs.Pairwise Before → (∀ p ∈ cs, p ∈ m.coords) →
      (∀ p ∈ cs, ∀ (i : Nat) (cell : Cell), m.At p.1 p.2 = some i →
        m.Cells[i]? = some (some cell) → Good cell) →
      ∃ m', ForEach (fun s => s) fn cs m = Outcome.done m' ∧ SameShape m m' ∧
        ∀ k : Nat, ((∃ p ∈ cs, m.At p.1 p.2 = some k) → m'.Cells[k]? = (m.Cells[k]?).map g) ∧
          ((¬ ∃ p ∈ cs, m.At p.1 p.2 = some k) → m'.Cells[k]? = m.Cells[k]?) := by
  induction cs with
  | nil =>
    intro m _ _ _ _
    refine ⟨m, rfl, SameShape.srefl m, fun k => ⟨?_, fun _ => rfl⟩⟩
    rintro ⟨p, hp, -⟩
    cases hp
  | cons p cs ih =>
    intro m hwf hpw hin hgood
    obtain ⟨x, y⟩ := p
    rw [List.pairwise_cons] at hpw
    obtain ⟨hfirst, hpw⟩ := hpw
    have hxy := (Map.mem_coords m (x, y)).1 (hin (x, y) (List.mem_cons_self _ _))
    obtain ⟨i, hA⟩ : ∃ i, m.At x y = some i := by
      cases h : m.At x y with
      | none =>
        rw [Map.At_eq_none] at h
        simp only at hxy
        omega
      | some i => exact ⟨i, rfl⟩
    obtain ⟨v, hv⟩ := Map.get_of_At hwf hA
    -- the state after the visit of `(x, y)`
    obtain ⟨m1, hstep, hsh1, hm1⟩ : ∃ m1,
        ForEach (fun s => s) fn ((x, y) :: cs) m = ForEach (fun s => s) fn cs m1 ∧
        SameShape m m1 ∧ m1 = m.store i (g v) := by
      cases v with
      | none =>
        refine ⟨m, ?_, SameShape.srefl m, ?_⟩
        · conv => lhs; unfold ForEach
          simp only [hA, hv]
        · rw [hg, Map.store_self m i none hv]
      | some cell =>
        refine ⟨m.store i (g (some cell)), ?_, SameShape.sstore m i _, rfl⟩
        conv => lhs; unfold ForEach
        simp only [hA, hv]
        rw [hfn x y i cell m (hgood (x, y) (List.mem_cons_self _ _) i cell hA hv) hv]
        rfl
    have hother : ∀ q ∈ cs, ∀ k : Nat, m.At q.1 q.2 = some k → k ≠ i := by
      intro q hq k hk hki
      subst hki
      have := Map.At_inj hA hk
      exact (hfirst q hq).ne (Prod.ext this.1 this.2)
    have hget1 : ∀ k : Nat, k ≠ i → m1.Cells[k]? = m.Cells[k]? := by
      intro k hk
      rw [hm1]
      exact Map.store_get_other m i k _ (fun h => hk h.symm)
    obtain ⟨m', hrun, hsh, hspec⟩ := ih m1 (hsh1.WF hwf) hpw
      (fun q hq => by
        rw [hsh1.coords]
        exact hin q (List.mem_cons_of_mem _ hq))
      (fun q hq k cell hk hc => by
        rw [hsh1.At] at hk
        rw [hget1 k (hother q hq k hk)] at hc
        exact hgood q (List.mem_cons_of_mem _ hq) k cell hk hc)
    refine ⟨m', by rw [hstep]; exact hrun, hsh1.strans hsh, fun k => ⟨?_, ?_⟩⟩
    · rintro ⟨q, hq, hk⟩
      rcases List.mem_cons.1 hq with rfl | hq'
      · simp only at hk
        rw [hA] at hk
        injection hk with hk
        subst hk
        have hnot : ¬ ∃ q ∈ cs, m1.At q.1 q.2 = some i := by
          rintro ⟨q, hq, hk⟩
          rw [hsh1.At] at hk
          exact hother q hq i hk rfl
        rw [(hspec i).2 hnot, hm1, Map.store_get_self_of_some m i _ _ hv, hv]
        rfl
      · have hne := hother q hq' k hk
        rw [(hspec k).1 ⟨q, hq', by rw [hsh1.At]; exact hk⟩, hget1 k hne]
    · intro hnot
      have hne : k ≠ i := by
        intro hki
        subst hki
        exact hnot ⟨(x, y), List.mem_cons_self _ _, hA⟩
      have hnot' : ¬ ∃ q ∈ cs, m1.At q.1 q.2 = some k := by
        rintro ⟨q, hq, hk⟩
        rw [hsh1.At] at hk
        exact hnot ⟨q, List.mem_cons_of_mem _ hq, hk⟩
      rw [(hspec k).2 hnot', hget1 k hne]

/-- The `Update` of a cell that does not explode only rewrites its slot. -/
theorem Cell.tick_calm (x y : Int) (i : Nat) (cell : Cell) (s : Map) (hc : cell.Calm)
    (hs : s.Cells[i]? = some (some cell)) :
    cell.Update x y i s = Outcome.done (s.store i (tickSlot (some cell))) := by
  cases cell with
  | Wall => simp only [Cell.Update, tickSlot]; rw [Map.store_self s i _ hs]
  | Soft => simp only [Cell.Update, tickSlot]; rw [Map.store_self s i _ hs]
  | Flame c => rfl
  | Bomb b =>
    simp only [Cell.Calm] at hc
    simp only [Cell.Update, tickSlot]
    rw [if_neg (by omega)]

theorem Map.cleanupFn_eq (x y : Int) (i : Nat) (cell : Cell) (s : Map)
    (hs : s.Cells[i]? = some (some cell)) :
    Map.cleanupFn x y i cell s = Outcome.done (s.store i (cleanSlot (some cell))) := by
  by_cases h : cell.HasExpired = true
  · simp [Map.cleanupFn, cleanSlot, h]
  · simp only [Map.cleanupFn, cleanSlot, h, Bool.false_eq_true, if_false]
    rw [Map.store_self s i _ hs]

theorem Map.cleanupLoop_eq_ForEach (cs : List (Int × Int)) :
    ∀ m : Map, Map.cleanupLoop cs m = ForEach (fun s => s) Map.cleanupFn cs m := by
  induction cs with
  | nil => intro m; rfl
  | cons p cs ih =>
    intro m
    obtain ⟨x, y⟩ := p
    unfold Map.cleanupLoop ForEach
    cases hA : m.At x y with
    | none => rfl
    | some i =>
      simp only
      cases hC : m.Cells[i]? with
      | none => rfl
      | some v =>
        cases v with
        | none => exact ih m
        | some cell =>
          simp only [Map.cleanupFn]
          split_ifs with he
          · rw [ih]
            rfl
          · rw [ih]
            rfl

/-- `Map.Cleanup` on a well-formed grid returns; it removes the expired cell
of every slot and changes nothing else. -/
theorem Map.Cleanup_spec (m : Map) (hwf : m.WF) :
    ∃ m', m.Cleanup = Outcome.done m' ∧ SameShape m m' ∧
      ∀ (x y : Int) (k : Nat), m.At x y = some k →
        m'.Cells[k]? = (m.Cells[k]?).map cleanSlot := by
  obtain ⟨m', h1, h2, h3⟩ := ForEach_pointwise Map.cleanupFn cleanSlot rfl (fun _ => True)
    (fun x y i cell s _ hs => Map.cleanupFn_eq x y i cell s hs) m.coords m hwf
    m.coords_pairwise (fun p hp => hp) (fun _ _ _ _ _ _ => trivial)
  refine ⟨m', by unfold Map.Cleanup; rw [Map.cleanupLoop_eq_ForEach]; exact h1, h2, ?_⟩
  intro x y k hk
  apply (h3 k).1
  refine ⟨(x, y), ?_, hk⟩
  rw [Map.mem_coords]
  rw [Map.At_eq_some] at hk
  simp only
  omega

/-- In a well-formed grid every slot of the slice is the slot of a coordinate. -/
theorem Map.At_surj {m : Map} (hwf : m.WF) {k : Nat} (hk : k < m.Cells.length) :
    ∃ x y, m.At x y = some k := by
  obtain ⟨hw, hh, hlen⟩ := hwf
  obtain ⟨W, hW⟩ : ∃ W : Nat, m.Width = W := ⟨m.Width.toNat, by omega⟩
  obtain ⟨H, hH⟩ : ∃ H : Nat, m.Height = H := ⟨m.Height.toNat, by omega⟩
  have hlen' : m.Cells.length = W * H := by
    rw [hW, hH] at hlen
    exact_mod_cast hlen
  have hWpos : 0 < W := by
    rcases Nat.eq_zero_or_pos W with h | h
    · rw [h] at hlen'
      omega
    · exact h
  have hy : k / W < H := by
    apply Nat.div_lt_of_lt_mul
    rw [← hlen']
    exact hk
  have hx : k % W < W := Nat.mod_lt k hWpos
  have hsum : k % W + (k / W) * W = k := by
    rw [Nat.mul_comm]
    exact Nat.mod_add_div k W
  refine ⟨((k % W : Nat) : Int), ((k / W : Nat) : Int), ?_⟩
  rw [Map.At_eq_some, hW, hH]
  refine ⟨Int.ofNat_nonneg _, by exact_mod_cast hx, Int.ofNat_nonneg _, by exact_mod_cast hy, ?_⟩
  have : (((k % W : Nat) : Int) + ((k / W : Nat) : Int) * (W : Int)) = ((k : Nat) : Int) := by
    exact_mod_cast hsum
  rw [this]
  simp

theorem Map.mem_coords_of_At {m : Map} {x y : Int} {k : Nat} (h : m.At x y = some k) :
    (x, y) ∈ m.coords := by
  rw [Map.mem_coords]
  rw [Map.At_eq_some] at h
  simp only
  omega

/-- `Map.Update` on a well-formed grid where no bomb is about to explode
returns; every slot has aged by one tick. -/
theorem Map.Update_calm (m : Map) (hwf : m.WF)
    (hcalm : ∀ (i : Nat) (cell : Cell), m.Cells[i]? = some (some cell) → cell.Calm) :
    ∃ m', m.Update = Outcome.done m' ∧ SameShape m m' ∧
      ∀ k : Nat, m'.Cells[k]? = (m.Cells[k]?).map ageSlot := by
  obtain ⟨m1, h1, hsh1, hs1⟩ := ForEach_pointwise
    (fun x y i cell s => cell.Update x y i s) tickSlot rfl Cell.Calm
    (fun x y i cell s hc hs => Cell.tick_calm x y i cell s hc hs) m.coords m hwf
    m.coords_pairwise (fun p hp => hp) (fun _ _ i cell _ hc => hcalm i cell hc)
  obtain ⟨m', h2, hsh2, hs2⟩ := Map.Cleanup_spec m1 (hsh1.WF hwf)
  refine ⟨m', ?_, hsh1.strans hsh2, ?_⟩
  · unfold Map.Update Map.updateLoop
    rw [h1]
    exact h2
  · intro k
    by_cases hk : k < m.Cells.length
    · obtain ⟨x, y, hA⟩ := Map.At_surj hwf hk
      rw [hs2 x y k (by rw [hsh1.At]; exact hA),
        (hs1 k).1 ⟨(x, y), Map.mem_coords_of_At hA, hA⟩]
      simp only [Option.map_map]
      rfl
    · have hlen := (hsh1.strans hsh2).2.2.2
      have e1 : m'.Cells[k]? = none := List.getElem?_eq_none (by omega)
      have e2 : m.Cells[k]? = none := List.getElem?_eq_none (by omega)
      rw [e1, e2]
      rfl

theorem NoBomb.calm {m : Map} (h : NoBomb m) (i : Nat) (cell : Cell)
    (hc : m.Cells[i]? = some (some cell)) : cell.Calm := by
  cases cell with
  | Bomb b => exact absurd hc (h i b)
  | _ => trivial

theorem ageSlot_not_bomb (s : Option Cell) (h : ∀ b, s ≠ some (Cell.Bomb b)) (b : BombCell) :
    ageSlot s ≠ some (Cell.Bomb b) := by
  cases s with
  | none => simp [ageSlot, tickSlot, cleanSlot]
  | some c =>
    cases c with
    | Wall => simp [ageSlot, tickSlot, cleanSlot, Cell.HasExpired]
    | Soft => simp [ageSlot, tickSlot, cleanSlot, Cell.HasExpired]
    | Flame c =>
      simp only [ageSlot, tickSlot, cleanSlot]
      split_ifs <;> simp
    | Bomb c => exact absurd rfl (h c)

/-- `Map.Update` on a well-formed grid without bombs returns a well-formed
grid without bombs in which every slot has aged by one tick. -/
theorem Map.Update_noBomb (m : Map) (hwf : m.WF) (hnb : NoBomb m) :
    ∃ m', m.Update = Outcome.done m' ∧ m'.WF ∧ NoBomb m' ∧ SameShape m m' ∧
      ∀ k : Nat, m'.Cells[k]? = (m.Cells[k]?).map ageSlot := by
  obtain ⟨m', h1, hsh, hs⟩ := Map.Update_calm m hwf hnb.calm
  refine ⟨m', h1, hsh.WF hwf, ?_, hsh, hs⟩
  intro i b hb
  rw [hs i] at hb
  cases hm : m.Cells[i]? with
  | none => rw [hm] at hb; cases hb
  | some v =>
    rw [hm] at hb
    simp only [Option.map_some', Option.some.injEq] at hb
    exact ageSlot_not_bomb v (fun b hv => hnb i b (by rw [hm, hv])) b hb

/-- A Flame with `f ≥ 0` frames in a grid without bombs: after `n ≤ f` calls
of `Map.Update` it has `f - n` frames left, and the call after those `f` finds
it expired: the slot is empty after `f + 1` calls. -/
theorem Map.updateN_flame (n : Nat) :
    ∀ (m : Map) (k : Nat) (f : Int), m.WF → NoBomb m → 0 ≤ f →
      m.Cells[k]? = some (some (Cell.Flame { frames := f })) → (n : Int) ≤ f + 1 →
      ∃ m', m.updateN n = Outcome.done m' ∧ m'.WF ∧ NoBomb m' ∧ SameShape m m' ∧
        ((n : Int) ≤ f → m'.Cells[k]? = some (some (Cell.Flame { frames := f - n }))) ∧
        ((n : Int) = f + 1 → m'.Cells[k]? = some none) := by
  induction n with
  | zero =>
    intro m k f hwf hnb hf0 hk hn
    refine ⟨m, rfl, hwf, hnb, SameShape.srefl m, ?_, ?_⟩
    · intro _
      simpa using hk
    · intro h
      push_cast at h
      omega
  | succ n ih =>
    intro m k f hwf hnb hf0 hk hn
    obtain ⟨m1, h1, hwf1, hnb1, hsh1, hs1⟩ := Map.Update_noBomb m hwf hnb
    have hk1 : m1.Cells[k]? = some (if f - 1 < 0 then none
        else some (Cell.Flame { frames := f - 1 })) := by
      rw [hs1 k, hk]
      simp only [Option.map_some', ageSlot, tickSlot, cleanSlot, Cell.HasExpired,
        FlameCell.HasExpired, decide_eq_true_eq]
    by_cases hf : f = 0
    · -- the Flame expires in this call; it was the last one
      have hn0 : n = 0 := by push_cast at hn; omega
      subst hn0
      subst hf
      refine ⟨m1, ?_, hwf1, hnb1, hsh1, ?_, ?_⟩
      · unfold Map.updateN
        rw [h1]
        rfl
      · intro h
        simp at h
      · intro _
        rw [hk1]
        simp
    · have hk1' : m1.Cells[k]? = some (some (Cell.Flame { frames := f - 1 })) := by
        rw [hk1, if_neg (by omega)]
      obtain ⟨m', h2, hwf2, hnb2, hsh2, ha, hb⟩ := ih m1 k (f - 1) hwf1 hnb1 (by omega) hk1'
        (by push_cast at hn; omega)
      refine ⟨m', ?_, hwf2, hnb2, hsh1.strans hsh2, ?_, ?_⟩
      · unfold Map.updateN
        rw [h1]
        exact h2
      · intro h
        have e : f - 1 - (n : Int) = f - ((n + 1 : Nat) : Int) := by push_cast; omega
        rw [ha (by push_cast at h; omega), e]
      · intro h
        exact hb (by push_cast at h; omega)

/-! ## The `Map.Update` in which the only bomb explodes -/

theorem ForEach_append {σ : Type} (get : σ → Map) (fn : Int → Int → Nat → Cell → σ → Outcome σ)
    (l1 l2 : List (Int × Int)) :
    ∀ s : σ, ForEach get fn (l1 ++ l2) s = (ForEach get fn l1 s).bind (ForEach get fn l2) := by
  induction l1 with
  | nil => intro s; rfl
  | cons p l1 ih =>
    intro s
    obtain ⟨x, y⟩ := p
    simp only [List.cons_append]
    unfold ForEach
    cases hA : (get s).At x y with
    | none => rfl
    | some i =>
      simp only
      cases hC : (get s).Cells[i]? with
      | none => rfl
      | some v =>
        cases v with
        | none => exact ih s
        | some cell =>
          simp only
          cases hf : fn x y i cell s with
          | crash => rfl
          | outOfFuel => rfl
          | done s1 => exact ih s1

theorem ForEach_ne_outOfFuel {σ : Type} (get : σ → Map)
    (fn : Int → Int → Nat → Cell → σ → Outcome σ)
    (hfn : ∀ x y i cell s, fn x y i cell s ≠ Outcome.outOfFuel) (cs : List (Int × Int)) :
    ∀ s : σ, ForEach get fn cs s ≠ Outcome.outOfFuel := by
  induction cs with
  | nil => intro s; simp [ForEach]
  | cons p cs ih =>
    intro s
    obtain ⟨x, y⟩ := p
    unfold ForEach
    cases hA : (get s).At x y with
    | none => simp
    | some i =>
      simp only
      cases hC : (get s).Cells[i]? with
      | none => simp
      | some v =>
        cases v with
        | none => exact ih s
        | some cell =>
          simp only
          intro h
          rw [Outcome.bind_eq_outOfFuel] at h
          rcases h with h | ⟨s1, -, h⟩
          · exact hfn x y i cell s h
          · exact ih s1 h

theorem Cell.tick_ne_outOfFuel (cell : Cell) (x y : Int) (i : Nat) (m : Map) :
    cell.Update x y i m ≠ Outcome.outOfFuel := by
  cases cell with
  | Wall => simp [Cell.Update]
  | Soft => simp [Cell.Update]
  | Flame c => simp [Cell.Update]
  | Bomb c =>
    simp only [Cell.Update]
    split_ifs
    · exact Map.Explosion_ne_outOfFuel _ _ x y
    · simp

/-- `Map.Update` always returns or crashes: no explosion in it runs out of
budget. -/
theorem Map.Update_ne_outOfFuel (m : Map) : m.Update ≠ Outcome.outOfFuel := by
  unfold Map.Update
  intro h
  rw [Outcome.bind_eq_outOfFuel] at h
  rcases h with h | ⟨m1, -, h⟩
  · exact ForEach_ne_outOfFuel _ _ (fun x y i cell s => Cell.tick_ne_outOfFuel cell x y i s)
      _ m h
  · unfold Map.Cleanup at h
    rw [Map.cleanupLoop_eq_ForEach] at h
    refine ForEach_ne_outOfFuel _ _ ?_ _ m1 h
    intro x y i cell s
    unfold Map.cleanupFn
    split_ifs <;> simp

/-- An explosion puts no bomb into a slot that held none. -/
theorem Explosion.run_no_new_bomb (fuel : Nat) (m : Map) (c : BombCell) (x y : Int) (m' : Map)
    (k : Nat) (hk : ∀ b, m.Cells[k]? ≠ some (some (Cell.Bomb b)))
    (h : Explosion.run fuel m c x y = Outcome.done m') :
    ∀ b, m'.Cells[k]? ≠ some (some (Cell.Bomb b)) := by
  refine Explosion.run_invariant (fun n => ∀ b, n.Cells[k]? ≠ some (some (Cell.Bomb b))) ?_ ?_
    fuel m c x y m' hk h
  · intro n i hn b
    rw [Map.store_getElem?]
    split_ifs <;> simp [NewFlameCell, hn b]
  · intro n x y hn b
    rw [Map.markExpired_get_of_not_bomb n x y k hn]
    exact hn b

theorem tickSlot_isBlock (s : Option Cell) : IsBlock (tickSlot s) = IsBlock s := by
  cases s with
  | none => rfl
  | some c => cases c <;> rfl

theorem tickSlot_eq_wall (s : Option Cell) : tickSlot s = some Cell.Wall ↔ s = some Cell.Wall := by
  cases s with
  | none => simp [tickSlot]
  | some c => cases c <;> simp [tickSlot]

theorem tickSlot_eq_bomb (s : Option Cell) (b : BombCell) (h : tickSlot s = some (Cell.Bomb b)) :
    ∃ b', s = some (Cell.Bomb b') := by
  cases s with
  | none => simp [tickSlot] at h
  | some c =>
    cases c with
    | Bomb b' => exact ⟨b', rfl⟩
    | _ => simp [tickSlot] at h

/-- The `Map.Update` of a grid whose only bomb, at `(x, y)`, has one frame
left: the slots visited before the bomb are ticked, the bomb is decremented to
0 and explodes on that grid `mb`, giving `mexp`; the slots visited after the
bomb are ticked once more on top of what the explosion left, and `Cleanup`
ends the call. -/
theorem Map.Update_single (m : Map) (b : BombCell) (x y : Int) (i0 : Nat) (hwf : m.WF)
    (hA0 : m.At x y = some i0) (hs0 : m.Cells[i0]? = some (some (Cell.Bomb b)))
    (honly : ∀ (i : Nat) (c : BombCell), m.Cells[i]? = some (some (Cell.Bomb c)) → i = i0)
    (hframes : b.framesToExplosion = 1) (m1 : Map) (h : m.Update = Outcome.done m1) :
    ∃ mb mexp, Ticked m mb ∧
      mb.Cells[i0]? = some (some (Cell.Bomb { b with framesToExplosion := 0 })) ∧
      mb.Explosion { b with framesToExplosion := 0 } x y = Outcome.done mexp ∧
      SameShape mexp m1 ∧
      ∀ (p : Int × Int) (k : Nat), m.At p.1 p.2 = some k →
        ((Before p (x, y) ∨ p = (x, y)) → m1.Cells[k]? = (mexp.Cells[k]?).map cleanSlot) ∧
        (Before (x, y) p → m1.Cells[k]? = (mexp.Cells[k]?).map ageSlot) := by
  obtain ⟨pre, post, hsplit⟩ := List.append_of_mem (Map.mem_coords_of_At hA0)
  have hpw := m.coords_pairwise
  rw [hsplit, List.pairwise_append, List.pairwise_cons] at hpw
  obtain ⟨hpre, ⟨hafter, hpost⟩, hbefore⟩ := hpw
  have hin : ∀ q, q ∈ pre ∨ q = (x, y) ∨ q ∈ post → q ∈ m.coords := by
    intro q hq
    rw [hsplit, List.mem_append, List.mem_cons]
    exact hq
  unfold Map.Update at h
  rw [Outcome.bind_eq_done] at h
  obtain ⟨m2, hloop, hclean⟩ := h
  unfold Map.updateLoop at hloop
  rw [hsplit, ForEach_append, Outcome.bind_eq_done] at hloop
  obtain ⟨mpre, hl1, hl2⟩ := hloop
  -- the slots visited before the bomb
  obtain ⟨mpre', hp1, hshp, hspecp⟩ := ForEach_pointwise
    (fun x y i cell s => cell.Update x y i s) tickSlot rfl Cell.Calm
    (fun x y i cell s hc hs => Cell.tick_calm x y i cell s hc hs) pre m hwf hpre
    (fun q hq => hin q (Or.inl hq))
    (fun q hq i cell hi hc => by
      cases cell with
      | Bomb c =>
        have := honly i c hc
        subst this
        have e := Map.At_inj hi hA0
        exact absurd (Prod.ext e.1 e.2) (hbefore q hq (x, y) (List.mem_cons_self _ _)).ne
      | _ => trivial)
  rw [hl1] at hp1
  injection hp1 with hp1
  subst hp1
  have hi0pre : ¬ ∃ q ∈ pre, m.At q.1 q.2 = some i0 := by
    rintro ⟨q, hq, hi⟩
    have e := Map.At_inj hi hA0
    exact (hbefore q hq (x, y) (List.mem_cons_self _ _)).ne (Prod.ext e.1 e.2)
  have hpre0 : mpre.Cells[i0]? = some (some (Cell.Bomb b)) := by
    rw [(hspecp i0).2 hi0pre]
    exact hs0
  -- the visit of the bomb
  unfold ForEach at hl2
  rw [show (mpre).At x y = some i0 by rw [hshp.At]; exact hA0] at hl2
  simp only at hl2
  rw [hpre0] at hl2
  simp only at hl2
  rw [Outcome.bind_eq_done] at hl2
  obtain ⟨mexp, hexp, hl3⟩ := hl2
  have hb1 : ({ b with framesToExplosion := b.framesToExplosion - 1 } : BombCell) =
      { b with framesToExplosion := 0 } := by
    rw [hframes]
    rfl
  have hz : b.framesToExplosion - 1 = 0 := by omega
  simp only [Cell.Update, hz, eq_self_iff_true, if_true] at hexp
  have hshb : SameShape m (mpre.store i0 (some (Cell.Bomb { b with framesToExplosion := 0 }))) :=
    hshp.strans (SameShape.sstore mpre i0 _)
  have hticked : Ticked m (mpre.store i0 (some (Cell.Bomb { b with framesToExplosion := 0 }))) := by
    refine ⟨hshb, fun k => ?_⟩
    by_cases hk : k = i0
    · subst hk
      right
      rw [Map.store_get_self_of_some mpre k _ _ hpre0, hs0]
      simp only [Option.map_some', tickSlot, hb1]
    · rw [Map.store_get_other mpre i0 k _ (fun h => hk h.symm)]
      by_cases hkp : ∃ q ∈ pre, m.At q.1 q.2 = some k
      · exact Or.inr ((hspecp k).1 hkp)
      · exact Or.inl ((hspecp k).2 hkp)
  have hfr := Map.Explosion_frame _ _ x y mexp hexp
  have hshe : SameShape m mexp := hshb.strans hfr.1
  -- the slots visited after the bomb
  obtain ⟨m2', hp2, hsh2, hspec2⟩ := ForEach_pointwise
    (fun x y i cell s => cell.Update x y i s) tickSlot rfl Cell.Calm
    (fun x y i cell s hc hs => Cell.tick_calm x y i cell s hc hs) post mexp (hshe.WF hwf) hpost
    (fun q hq => by
      rw [hshe.coords]
      exact hin q (Or.inr (Or.inr hq)))
    (fun q hq i cell hi hc => by
      cases cell with
      | Bomb c =>
        exfalso
        rw [hshe.At] at hi
        have hne : i ≠ i0 := by
          intro he
          subst he
          have e := Map.At_inj hA0 hi
          exact (hafter q hq).ne (Prod.ext e.1 e.2)
        refine Explosion.run_no_new_bomb _ _ _ x y mexp i ?_ hexp c hc
        intro c' hc'
        rw [Map.store_get_other mpre i0 i _ (fun h => hne h.symm)] at hc'
        by_cases hkp : ∃ q ∈ pre, m.At q.1 q.2 = some i
        · rw [(hspecp i).1 hkp] at hc'
          cases hm : m.Cells[i]? with
          | none => rw [hm] at hc'; cases hc'
          | some v =>
            rw [hm] at hc'
            simp only [Option.map_some', Option.some.injEq] at hc'
            obtain ⟨c'', hv⟩ := tickSlot_eq_bomb v c' hc'
            exact hne (honly i c'' (by rw [hm, hv]))
        · rw [(hspecp i).2 hkp] at hc'
          exact hne (honly i c' hc')
      | _ => trivial)
  rw [hl3] at hp2
  injection hp2 with hp2
  subst hp2
  obtain ⟨m1', hc1, hsh1, hspec1⟩ := Map.Cleanup_spec m2 ((hshe.strans hsh2).WF hwf)
  rw [hclean] at hc1
  injection hc1 with hc1
  subst hc1
  refine ⟨_, mexp, hticked, Map.store_get_self_of_some mpre i0 _ _ hpre0, hexp,
    hsh2.strans hsh1, ?_⟩
  intro p k hk
  have hk2 : m2.At p.1 p.2 = some k := by rw [(hshe.strans hsh2).At]; exact hk
  rw [hspec1 p.1 p.2 k hk2]
  constructor
  · intro hp
    have hnot : ¬ ∃ q ∈ post, mexp.At q.1 q.2 = some k := by
      rintro ⟨q, hq, hi⟩
      rw [hshe.At] at hi
      have e := Map.At_inj hi hk
      have e' : q = p := Prod.ext e.1 e.2
      subst e'
      rcases hp with hp | hp
      · exact (hafter q hq).asymm hp
      · exact (hafter q hq).ne hp.symm
    rw [(hspec2 k).2 hnot]
  · intro hp
    have hmem : p ∈ post := by
      have := Map.mem_coords_of_At hk
      rw [hsplit, List.mem_append, List.mem_cons] at this
      rcases this with h1 | h1 | h1
      · exact absurd hp (fun hp => (hbefore p h1 (x, y) (List.mem_cons_self _ _)).asymm hp)
      · exact absurd h1.symm hp.ne
      · exact h1
    rw [(hspec2 k).1 ⟨p, hmem, by rw [hshe.At]; exact hk⟩]
    simp only [Option.map_map]
    rfl

/-! ## The slots a blast without chain sets aflame -/

/-- A loop that chains no bomb keeps a new Flame where it is. -/
theorem Explosion.walk_noLive_keeps_flame (rec : Map → BombCell → Int → Int → Outcome Map)
    (coord : Int → Int × Int) (n : Nat) (i : Int) {m m' : Map} {k : Nat}
    (h : NoLive m ∧ m.Cells[k]? = some (some NewFlameCell))
    (hw : Explosion.walk rec coord n i m = Outcome.done m') :
    NoLive m' ∧ m'.Cells[k]? = some (some NewFlameCell) := by
  refine ⟨(Explosion.walk_noLive rec coord n i m m' h.1 hw).1, ?_⟩
  rcases Explosion.walk_noLive_same_or_flame rec coord n i h.1 hw k with e | e
  · rw [e]
    exact h.2
  · exact e

/-- The loop in direction `d` sets aflame the slot at step `j ≥ 1` of its ray
when no earlier step holds a Wall or a Soft cell and the slot holds no Wall. -/
theorem RayUntouched.own_reach {m ma mb : Map} {d : Dir} {x y j : Int}
    (rec : Map → BombCell → Int → Int → Outcome Map) (n : Nat)
    (h : RayUntouched m ma d x y) (hj1 : 1 ≤ j) (hjn : j < n)
    (hfree : ∀ j' : Int, 1 ≤ j' → j' < j → m.blockAt (d.coord x y j') = false)
    {k : Nat} (hk : m.At (d.coord x y j).1 (d.coord x y j).2 = some k)
    (hnw : m.Cells[k]? ≠ some (some Cell.Wall))
    (hw : Explosion.walk rec (d.coord x y) n 0 ma = Outcome.done mb) :
    NoLive mb ∧ mb.Cells[k]? = some (some NewFlameCell) := by
  obtain ⟨hn', -, hspec⟩ := Explosion.walk_noLive rec _ n 0 ma mb h.1 hw
  refine ⟨hn', (hspec k).1 ⟨j.toNat, by omega, ?_, ?_, ?_⟩⟩
  · have e2 : (0 : Int) + (j.toNat : Int) = j := by omega
    rw [e2, h.2.1.At]
    exact hk
  · rw [h.2.2.2 j k hj1 hk]
    exact hnw
  · intro j' hj'
    cases j' with
    | zero =>
      simp only [Nat.cast_zero, add_zero, Dir.coord_zero]
      exact h.2.2.1
    | succ j' =>
      rw [h.blockAt_eq _ (by push_cast; omega)]
      exact hfree _ (by push_cast; omega) (by push_cast; omega)

/-- A loop of at least one iteration from the origin sets the origin's slot
aflame when that slot holds no Wall and no Soft cell. -/
theorem Explosion.walk_noLive_origin (rec : Map → BombCell → Int → Int → Outcome Map) (d : Dir)
    (x y : Int) (n : Nat) {m m' : Map} {i0 : Nat} (hn : NoLive m) (hpos : 0 < n)
    (hA : m.At x y = some i0) (hnw : m.Cells[i0]? ≠ some (some Cell.Wall))
    (hw : Explosion.walk rec (d.coord x y) n 0 m = Outcome.done m') :
    NoLive m' ∧ m'.Cells[i0]? = some (some NewFlameCell) := by
  obtain ⟨hn', -, hspec⟩ := Explosion.walk_noLive rec _ n 0 m m' hn hw
  refine ⟨hn', (hspec i0).1 ⟨0, hpos, ?_, hnw, fun j' hj' => by omega⟩⟩
  simp only [Nat.cast_zero, add_zero, Dir.coord_zero]
  exact hA

/-- The explosion of the only bomb of a grid sets aflame every slot at a step
`j` below its power on a ray on which no earlier step (from 1 on) holds a Wall
or a Soft cell, unless that slot holds a Wall. -/
theorem Explosion.run_reaches (fuel : Nat) (m : Map) (c : BombCell) (x y : Int) (d : Dir)
    (j : Int) (k : Nat) (m' : Map)
    (horigin : m.slot x y = some (some (Cell.Bomb c)))
    (honly : ∀ (i : Nat) (b : BombCell), m.Cells[i]? = some (some (Cell.Bomb b)) →
      m.At x y = some i)
    (hj0 : 0 ≤ j) (hjp : j < c.power)
    (hfree : ∀ j' : Int, 1 ≤ j' → j' < j → m.blockAt (d.coord x y j') = false)
    (hk : m.At (d.coord x y j).1 (d.coord x y j).2 = some k)
    (hnw : m.Cells[k]? ≠ some (some Cell.Wall))
    (h : Explosion.run (fuel + 1) m c x y = Outcome.done m') :
    m'.Cells[k]? = some (some NewFlameCell) := by
  obtain ⟨m1, m2, m3, h1, h2, h3, h4⟩ := Explosion.body_done h
  have hjn : j < (c.power.toNat : Int) := by omega
  have hpos : 0 < c.power.toNat := by omega
  by_cases hj : j = 0
  · subst hj
    rw [Dir.coord_zero] at hk
    simp only at hk
    have s0 := RayUntouched.start Dir.negX horigin honly
    have hA0 : (m.markExpired x y).At x y = some k := by
      rw [(Frame.markExpired m x y).1.At]
      exact hk
    have hnw0 : (m.markExpired x y).Cells[k]? ≠ some (some Cell.Wall) :=
      fun hw => hnw (((Frame.markExpired m x y).2 k).2 hw)
    have l1 := Explosion.walk_noLive_origin _ Dir.negX x y _ s0.1 hpos hA0 hnw0 h1
    have l2 := Explosion.walk_noLive_keeps_flame _ _ _ 0 l1 h2
    have l3 := Explosion.walk_noLive_keeps_flame _ _ _ 0 l2 h3
    exact (Explosion.walk_noLive_keeps_flame _ _ _ 0 l3 h4).2
  · have hj1 : 1 ≤ j := by omega
    have s0 := RayUntouched.start d horigin honly
    cases d with
    | negX =>
      have l1 := s0.own_reach _ _ hj1 hjn hfree hk hnw h1
      have l2 := Explosion.walk_noLive_keeps_flame _ _ _ 0 l1 h2
      have l3 := Explosion.walk_noLive_keeps_flame _ _ _ 0 l2 h3
      exact (Explosion.walk_noLive_keeps_flame _ _ _ 0 l3 h4).2
    | posX =>
      have s1 := s0.pre_other Dir.negX (by decide) _ _ h1
      have l2 := s1.own_reach _ _ hj1 hjn hfree hk hnw h2
      have l3 := Explosion.walk_noLive_keeps_flame _ _ _ 0 l2 h3
      exact (Explosion.walk_noLive_keeps_flame _ _ _ 0 l3 h4).2
    | negY =>
      have s1 := s0.pre_other Dir.negX (by decide) _ _ h1
      have s2 := s1.pre_other Dir.posX (by decide) _ _ h2
      have l3 := s2.own_reach _ _ hj1 hjn hfree hk hnw h3
      exact (Explosion.walk_noLive_keeps_flame _ _ _ 0 l3 h4).2
    | posY =>
      have s1 := s0.pre_other Dir.negX (by decide) _ _ h1
      have s2 := s1.pre_other Dir.posX (by decide) _ _ h2
      have s3 := s2.pre_other Dir.negY (by decide) _ _ h3
      exact (s3.own_reach _ _ hj1 hjn hfree hk hnw h4).2

/-! ## C9: how long a Flame lasts -/

theorem Ticked.ticked_blockAt {m n : Map} (h : Ticked m n) (p : Int × Int) :
    n.blockAt p = m.blockAt p := by
  unfold Map.blockAt Map.slot
  rw [h.1.At]
  cases hA : m.At p.1 p.2 with
  | none => rfl
  | some k =>
    simp only
    rcases h.2 k with e | e
    · rw [e]
    · rw [e]
      cases hm : m.Cells[k]? with
      | none => rfl
      | some v => exact tickSlot_isBlock v

theorem Ticked.not_wall {m n : Map} (h : Ticked m n) (k : Nat)
    (hk : m.Cells[k]? ≠ some (some Cell.Wall)) : n.Cells[k]? ≠ some (some Cell.Wall) := by
  rcases h.2 k with e | e
  · rw [e]
    exact hk
  · rw [e]
    cases hm : m.Cells[k]? with
    | none => simp
    | some v =>
      intro hw
      simp only [Option.map_some', Option.some.injEq] at hw
      rw [tickSlot_eq_wall] at hw
      rw [hm, hw] at hk
      exact hk rfl

theorem Ticked.bomb {m n : Map} (h : Ticked m n) (k : Nat) (c : BombCell)
    (hk : n.Cells[k]? = some (some (Cell.Bomb c))) :
    ∃ c', m.Cells[k]? = some (some (Cell.Bomb c')) := by
  rcases h.2 k with e | e
  · exact ⟨c, by rw [← e]; exact hk⟩
  · rw [e] at hk
    cases hm : m.Cells[k]? with
    | none => rw [hm] at hk; cases hk
    | some v =>
      rw [hm] at hk
      simp only [Option.map_some', Option.some.injEq] at hk
      obtain ⟨c', hv⟩ := tickSlot_eq_bomb v c hk
      exact ⟨c', by rw [hv]⟩

theorem cleanSlot_not_bomb (s : Option Cell) (h : ∀ b, s ≠ some (Cell.Bomb b)) (b : BombCell) :
    cleanSlot s ≠ some (Cell.Bomb b) := by
  cases s with
  | none => simp [cleanSlot]
  | some c =>
    cases c with
    | Bomb c => exact absurd rfl (h c)
    | Wall => simp [cleanSlot, Cell.HasExpired]
    | Soft => simp [cleanSlot, Cell.HasExpired]
    | Flame c =>
      simp only [cleanSlot]
      split_ifs <;> simp

/-- The `Map.Update` in which the only bomb of a grid explodes: every slot the
blast reaches holds a Flame afterwards, with 60 frames when the loop of
`Update` had visited the slot before the explosion and with 59 when it visits
the slot after it; and no bomb is left in the grid. -/
theorem Map.Update_single_blast (m : Map) (b : BombCell) (x y : Int) (d : Dir) (j : Int)
    (k : Nat) (hwf : m.WF)
    (horigin : m.slot x y = some (some (Cell.Bomb b)))
    (honly : ∀ (i : Nat) (c : BombCell), m.Cells[i]? = some (some (Cell.Bomb c)) →
      m.At x y = some i)
    (hframes : b.framesToExplosion = 1) (hj0 : 0 ≤ j) (hjp : j < b.power)
    (hfree : ∀ j' : Int, 1 ≤ j' → j' < j → m.blockAt (d.coord x y j') = false)
    (hk : m.At (d.coord x y j).1 (d.coord x y j).2 = some k)
    (hnw : m.Cells[k]? ≠ some (some Cell.Wall))
    (m1 : Map) (h : m.Update = Outcome.done m1) :
    m1.WF ∧ NoBomb m1 ∧ SameShape m m1 ∧
      ((Before (d.coord x y j) (x, y) ∨ d.coord x y j = (x, y)) →
        m1.Cells[k]? = some (some (Cell.Flame { frames := 60 }))) ∧
      (Before (x, y) (d.coord x y j) →
        m1.Cells[k]? = some (some (Cell.Flame { frames := 59 }))) := by
  rw [Map.slot_eq_some] at horigin
  obtain ⟨i0, hA0, hs0⟩ := horigin
  have honly' : ∀ (i : Nat) (c : BombCell), m.Cells[i]? = some (some (Cell.Bomb c)) → i = i0 := by
    intro i c hc
    have := honly i c hc
    rw [hA0] at this
    injection this with this
    exact this.symm
  obtain ⟨mb, mexp, htick, hb0, hexp, hshe, hspec⟩ :=
    Map.Update_single m b x y i0 hwf hA0 hs0 honly' hframes m1 h
  have hAb : mb.At x y = some i0 := by rw [htick.1.At]; exact hA0
  have horigb : mb.slot x y = some (some (Cell.Bomb { b with framesToExplosion := 0 })) := by
    rw [Map.slot_eq_some]
    exact ⟨i0, hAb, hb0⟩
  have honlyb : ∀ (i : Nat) (c : BombCell), mb.Cells[i]? = some (some (Cell.Bomb c)) →
      mb.At x y = some i := by
    intro i c hc
    obtain ⟨c', hc'⟩ := htick.bomb i c hc
    rw [honly' i c' hc']
    exact hAb
  have hfr := Map.Explosion_frame _ _ x y mexp hexp
  have hshm : SameShape m mexp := htick.1.strans hfr.1
  have hreach : ∀ (d' : Dir) (j' : Int) (k' : Nat), 0 ≤ j' → j' < b.power →
      (∀ t : Int, 1 ≤ t → t < j' → m.blockAt (d'.coord x y t) = false) →
      m.At (d'.coord x y j').1 (d'.coord x y j').2 = some k' →
      m.Cells[k']? ≠ some (some Cell.Wall) →
      mexp.Cells[k']? = some (some NewFlameCell) := by
    intro d' j' k' h0 hp hf hk' hnw'
    exact Explosion.run_reaches _ mb _ x y d' j' k' mexp horigb honlyb h0 hp
      (fun t h1 h2 => by rw [htick.ticked_blockAt]; exact hf t h1 h2)
      (by rw [htick.1.At]; exact hk') (htick.not_wall k' hnw') hexp
  have hk0 : mexp.Cells[i0]? = some (some NewFlameCell) := by
    refine hreach Dir.negX 0 i0 (le_refl 0) (by omega) (fun t h1 h2 => by omega) ?_ ?_
    · rw [Dir.coord_zero]
      exact hA0
    · rw [hs0]
      simp
  have hnbe : ∀ (i : Nat) (c : BombCell), mexp.Cells[i]? ≠ some (some (Cell.Bomb c)) := by
    intro i c
    by_cases hi : i = i0
    · subst hi
      rw [hk0]
      simp [NewFlameCell]
    · refine Explosion.run_no_new_bomb _ mb _ x y mexp i ?_ hexp c
      intro c' hc'
      obtain ⟨c'', hc''⟩ := htick.bomb i c' hc'
      exact hi (honly' i c'' hc'')
  have hsh1 : SameShape m m1 := hshm.strans hshe
  have hwf1 : m1.WF := hsh1.WF hwf
  refine ⟨hwf1, ?_, hsh1, ?_, ?_⟩
  · intro i c hc
    by_cases hil : i < m.Cells.length
    · obtain ⟨px, py, hp⟩ := Map.At_surj hwf hil
      have hcases : Before (px, py) (x, y) ∨ (px, py) = (x, y) ∨ Before (x, y) (px, py) := by
        unfold Before
        simp only [Prod.mk.injEq]
        omega
      cases hm : mexp.Cells[i]? with
      | none =>
        rcases hcases with h1 | h1 | h1
        · rw [(hspec (px, py) i hp).1 (Or.inl h1), hm] at hc
          cases hc
        · rw [(hspec (px, py) i hp).1 (Or.inr h1), hm] at hc
          cases hc
        · rw [(hspec (px, py) i hp).2 h1, hm] at hc
          cases hc
      | some v =>
        have hv : ∀ c', v ≠ some (Cell.Bomb c') := fun c' hv' => hnbe i c' (by rw [hm, hv'])
        rcases hcases with h1 | h1 | h1
        · rw [(hspec (px, py) i hp).1 (Or.inl h1), hm] at hc
          simp only [Option.map_some', Option.some.injEq] at hc
          exact cleanSlot_not_bomb v hv c hc
        · rw [(hspec (px, py) i hp).1 (Or.inr h1), hm] at hc
          simp only [Option.map_some', Option.some.injEq] at hc
          exact cleanSlot_not_bomb v hv c hc
        · rw [(hspec (px, py) i hp).2 h1, hm] at hc
          simp only [Option.map_some', Option.some.injEq] at hc
          exact ageSlot_not_bomb v hv c hc
    · rw [List.getElem?_eq_none (by rw [hsh1.2.2.2]; omega)] at hc
      cases hc
  · intro hp
    rw [(hspec _ k hk).1 hp, hreach d j k hj0 hjp hfree hk hnw]
    rfl
  · intro hp
    rw [(hspec _ k hk).2 hp, hreach d j k hj0 hjp hfree hk hnw]
    rfl

/-- C9, as stated, fails for a slot that the loop of `Map.Update` visits after
the exploding bomb: in `Example.tickGrid` the bomb at (1,1) explodes in the
first `Update` (tick T); the Flame it creates in the empty slot (2,1) is ticked
in that same `Update` and has 59 frames after it; nothing overwrites it, and
after 60 more calls (tick T+60) the slot is empty, while the Flame at (1,1) is
still there. -/
theorem Update_flame_lifetime_counterexample :
    Example.tickGrid.slot 2 1 = some none ∧
      Example.tickGrid.Update = Outcome.done Example.tickGridAfter1 ∧
      Example.tickGridAfter1.slot 2 1 = some (some (Cell.Flame { frames := 59 })) ∧
      Example.tickGridAfter1.updateN 60 = Outcome.done Example.tickGridAfter61 ∧
      Example.tickGridAfter61.slot 2 1 = some none ∧
      Example.tickGridAfter61.slot 1 1 = some (some (Cell.Flame { frames := 0 })) := by
  refine ⟨by decide, by decide, by decide, by decide, by decide, by decide⟩

theorem Map.slot_of_get {m n : Map} (hsh : SameShape m n) {x y : Int} {k : Nat}
    (hA : m.At x y = some k) {v : Option Cell} (hv : n.Cells[k]? = some v) :
    n.slot x y = some v := by
  rw [Map.slot_eq_some]
  exact ⟨k, by rw [hsh.At]; exact hA, hv⟩

/-! ## Inside a border of walls nothing crashes -/

theorem Frame.bordered {m n : Map} (h : Frame m n) (hb : m.Bordered) : n.Bordered := by
  intro x y i hA hxy
  rw [h.1.At] at hA
  rw [h.1.2.1, h.1.2.2.1] at hxy
  exact (h.2 i).1 (hb x y i hA hxy)

theorem Frame.keepsWalls {m n : Map} (h : Frame m n) : KeepsWalls m n :=
  ⟨h.1.2.1, h.1.2.2.1, h.1.2.2.2, fun i hi => (h.2 i).1 hi⟩

/-- From a coordinate inside the grid that is not on its border, the next step
of a ray is inside the grid. -/
theorem Dir.coord_succ_inside (d : Dir) (x y i : Int) (m : Map) (k : Nat)
    (hA : m.At (d.coord x y i).1 (d.coord x y i).2 = some k)
    (hin : ¬ ((d.coord x y i).1 = 0 ∨ (d.coord x y i).1 = m.Width - 1 ∨
      (d.coord x y i).2 = 0 ∨ (d.coord x y i).2 = m.Height - 1)) :
    ∃ k', m.At (d.coord x y (i + 1)).1 (d.coord x y (i + 1)).2 = some k' := by
  rw [Map.At_eq_some] at hA
  refine ⟨_, Map.At_eq_some.2 ⟨?_, ?_, ?_, ?_, rfl⟩⟩ <;>
    cases d <;> simp only [Dir.coord] at hA hin ⊢ <;> omega

theorem Explosion.f_ne_crash (rec : Map → BombCell → Int → Int → Outcome Map) {m : Map}
    (hwf : m.WF) {x y : Int} {k : Nat} (hA : m.At x y = some k)
    (hrec : ∀ c, rec m c x y ≠ Outcome.crash) :
    Explosion.f rec m x y ≠ Outcome.crash := by
  obtain ⟨s, hs⟩ := Map.get_of_At hwf hA
  by_cases hl : IsLiveBomb s = true
  · cases s with
    | none => simp [IsLiveBomb] at hl
    | some c =>
      cases c with
      | Wall => simp [IsLiveBomb] at hl
      | Soft => simp [IsLiveBomb] at hl
      | Flame c => simp [IsLiveBomb] at hl
      | Bomb bc =>
        have hl' : bc.HasExpired = false := by simpa [IsLiveBomb] using hl
        rw [Explosion.f_live rec m x y k bc hA hs hl']
        cases hr : rec m bc x y with
        | crash => exact absurd hr (hrec bc)
        | outOfFuel => simp
        | done m1 => simp
  · have hl' : IsLiveBomb s = false := by simpa using hl
    by_cases hb : IsBlock s = true
    · cases s with
      | none => simp [IsBlock] at hb
      | some c =>
        cases c with
        | Wall => rw [Explosion.f_wall rec m x y k hA hs]; simp
        | Soft => rw [Explosion.f_soft rec m x y k hA hs]; simp
        | Flame c => simp [IsBlock] at hb
        | Bomb bc => simp [IsBlock] at hb
    · have hb' : IsBlock s = false := by simpa using hb
      rw [Explosion.f_pass rec m x y k s hA hs hb' hl']
      simp

/-- A loop of `Map.Explosion` entered at a step inside a wall-bordered grid
does not crash: it stops at a Wall before it could leave the grid. -/
theorem Explosion.walk_ne_crash {rec : Map → BombCell → Int → Int → Outcome Map}
    (hrec : ∀ (m : Map) (c : BombCell) (x y : Int) (k : Nat), m.WF → m.Bordered →
      m.At x y = some k → rec m c x y ≠ Outcome.crash)
    (hfr : ∀ m c x y m', rec m c x y = Outcome.done m' → Frame m m')
    (d : Dir) (x y : Int) (n : Nat) :
    ∀ (i : Int) (m : Map) (k : Nat), m.WF → m.Bordered →
      m.At (d.coord x y i).1 (d.coord x y i).2 = some k →
      Explosion.walk rec (d.coord x y) n i m ≠ Outcome.crash := by
  induction n with
  | zero =>
    intro i m k _ _ _
    simp [Explosion.walk_zero]
  | succ n ih =>
    intro i m k hwf hb hA
    have hf := Explosion.f_ne_crash rec hwf hA (fun c => hrec m c _ _ k hwf hb hA)
    cases hr : Explosion.f rec m (d.coord x y i).1 (d.coord x y i).2 with
    | crash => exact absurd hr hf
    | outOfFuel =>
      unfold Explosion.walk
      rw [hr]
      simp
    | done r =>
      obtain ⟨m1, b⟩ := r
      cases b with
      | false =>
        rw [Explosion.walk_succ_false hr]
        simp
      | true =>
        rw [Explosion.walk_succ_true hr]
        have hframe := Explosion.f_frame hfr hr
        obtain ⟨k0, s, hA0, hs, hcase⟩ := Explosion.f_done hr
        have hnotwall : m.Cells[k0]? ≠ some (some Cell.Wall) := by
          rcases hcase with ⟨-, -, hb'⟩ | ⟨-, -, hb'⟩ | ⟨bc, _, hsb, -, -, -, -⟩ | ⟨hblk, -, -, -⟩
          · cases hb'
          · cases hb'
          · rw [hs, hsb]
            simp
          · rw [hs]
            intro hw
            injection hw with hw
            rw [hw] at hblk
            simp [IsBlock] at hblk
        have hin : ¬ ((d.coord x y i).1 = 0 ∨ (d.coord x y i).1 = m.Width - 1 ∨
            (d.coord x y i).2 = 0 ∨ (d.coord x y i).2 = m.Height - 1) :=
          fun hborder => hnotwall (hb _ _ k0 hA0 hborder)
        obtain ⟨k', hk'⟩ := Dir.coord_succ_inside d x y i m k hA hin
        exact ih (i + 1) m1 k' (hframe.1.WF hwf) (hframe.bordered hb)
          (by rw [hframe.1.At]; exact hk')

theorem Explosion.body_ne_crash {rec : Map → BombCell → Int → Int → Outcome Map}
    (hrec : ∀ (m : Map) (c : BombCell) (x y : Int) (k : Nat), m.WF → m.Bordered →
      m.At x y = some k → rec m c x y ≠ Outcome.crash)
    (hfr : ∀ m c x y m', rec m c x y = Outcome.done m' → Frame m m')
    (m : Map) (c : BombCell) (x y : Int) (k : Nat) (hwf : m.WF) (hb : m.Bordered)
    (hA : m.At x y = some k) : Explosion.body rec m c x y ≠ Outcome.crash := by
  have h0 := Frame.markExpired m x y
  have start : ∀ (d : Dir) (n : Map), Frame m n →
      n.WF ∧ n.Bordered ∧ n.At (d.coord x y 0).1 (d.coord x y 0).2 = some k := by
    intro d n hn
    refine ⟨hn.1.WF hwf, hn.bordered hb, ?_⟩
    rw [Dir.coord_zero, hn.1.At]
    exact hA
  have step : ∀ (d : Dir) (n : Map), Frame m n →
      Explosion.walk rec (d.coord x y) c.power.toNat 0 n ≠ Outcome.crash := by
    intro d n hn
    obtain ⟨a, b, e⟩ := start d n hn
    exact Explosion.walk_ne_crash hrec hfr d x y _ 0 n k a b e
  unfold Explosion.body
  cases h1 : Explosion.walk rec (fun i => (x - i, y)) c.power.toNat 0 (m.markExpired x y) with
  | crash => exact absurd h1 (step Dir.negX _ h0)
  | outOfFuel => simp
  | done m1 =>
    have f1 := h0.ftrans (Explosion.walk_frame hfr _ _ _ _ _ h1)
    simp only [Outcome.bind_done]
    cases h2 : Explosion.walk rec (fun i => (x + i, y)) c.power.toNat 0 m1 with
    | crash => exact absurd h2 (step Dir.posX _ f1)
    | outOfFuel => simp
    | done m2 =>
      have f2 := f1.ftrans (Explosion.walk_frame hfr _ _ _ _ _ h2)
      simp only [Outcome.bind_done]
      cases h3 : Explosion.walk rec (fun i => (x, y - i)) c.power.toNat 0 m2 with
      | crash => exact absurd h3 (step Dir.negY _ f2)
      | outOfFuel => simp
      | done m3 =>
        have f3 := f2.ftrans (Explosion.walk_frame hfr _ _ _ _ _ h3)
        simp only [Outcome.bind_done]
        exact step Dir.posY _ f3

/-- An explosion rooted inside a well-formed wall-bordered grid never crashes. -/
theorem Explosion.run_ne_crash (fuel : Nat) :
    ∀ (m : Map) (c : BombCell) (x y : Int) (k : Nat), m.WF → m.Bordered →
      m.At x y = some k → Explosion.run fuel m c x y ≠ Outcome.crash := by
  induction fuel with
  | zero =>
    intro m c x y k _ _ _
    simp [Explosion.run]
  | succ fuel ih =>
    intro m c x y k hwf hb hA
    exact Explosion.body_ne_crash ih (Explosion.run_frame fuel) m c x y k hwf hb hA

/-- `Map.Explosion` rooted inside a well-formed wall-bordered grid returns. -/
theorem Map.Explosion_total (m : Map) (c : BombCell) (x y : Int) (k : Nat) (hwf : m.WF)
    (hb : m.Bordered) (hA : m.At x y = some k) :
    ∃ m', m.Explosion c x y = Outcome.done m' := by
  cases h : m.Explosion c x y with
  | done m' => exact ⟨m', rfl⟩
  | crash => exact absurd h (Explosion.run_ne_crash _ m c x y k hwf hb hA)
  | outOfFuel => exact absurd h (Map.Explosion_ne_outOfFuel m c x y)

/-- A `ForEach` over coordinates of the grid returns when every call of the
callback returns and keeps the property `R`, which fixes the shape of the
grid. -/
theorem ForEach_total {σ : Type} (get : σ → Map) (fn : Int → Int → Nat → Cell → σ → Outcome σ)
    (R : σ → Prop) (m : Map) (hwf : m.WF) (hR : ∀ s, R s → SameShape m (get s))
    (hstep : ∀ x y i cell s, R s → (get s).At x y = some i →
      (get s).Cells[i]? = some (some cell) → ∃ s', fn x y i cell s = Outcome.done s' ∧ R s')
    (cs : List (Int × Int)) (hcs : ∀ p ∈ cs, p ∈ m.coords) :
    ∀ s : σ, R s → ∃ s', ForEach get fn cs s = Outcome.done s' ∧ R s' := by
  induction cs with
  | nil =>
    intro s hs
    exact ⟨s, rfl, hs⟩
  | cons p cs ih =>
    intro s hs
    obtain ⟨x, y⟩ := p
    have hsh := hR s hs
    have hxy := (Map.mem_coords m (x, y)).1 (hcs (x, y) (List.mem_cons_self _ _))
    obtain ⟨i, hA⟩ : ∃ i, (get s).At x y = some i := by
      rw [hsh.At]
      cases h : m.At x y with
      | none =>
        rw [Map.At_eq_none] at h
        simp only at hxy
        omega
      | some i => exact ⟨i, rfl⟩
    obtain ⟨v, hv⟩ := Map.get_of_At (hsh.WF hwf) hA
    unfold ForEach
    rw [hA]
    simp only
    rw [hv]
    cases v with
    | none => exact ih (fun q hq => hcs q (List.mem_cons_of_mem _ hq)) s hs
    | some cell =>
      simp only
      obtain ⟨s1, h1, hs1⟩ := hstep x y i cell s hs hA hv
      rw [h1]
      exact ih (fun q hq => hcs q (List.mem_cons_of_mem _ hq)) s1 hs1

/-- The `Update` of the cell of a slot inside a well-formed wall-bordered grid
returns. -/
theorem Cell.tick_total (cell : Cell) (x y : Int) (i : Nat) (m : Map) (hwf : m.WF)
    (hb : m.Bordered) (hA : m.At x y = some i) (hs : m.Cells[i]? = some (some cell)) :
    ∃ m', cell.Update x y i m = Outcome.done m' ∧ Frame m m' := by
  cases h : cell.Update x y i m with
  | done m' => exact ⟨m', rfl, Cell.tick_frame cell x y i m m' hs h⟩
  | outOfFuel => exact absurd h (Cell.tick_ne_outOfFuel cell x y i m)
  | crash =>
    exfalso
    cases cell with
    | Wall => simp [Cell.Update] at h
    | Soft => simp [Cell.Update] at h
    | Flame c => simp [Cell.Update] at h
    | Bomb c =>
      simp only [Cell.Update] at h
      split_ifs at h
      have hf : Frame m (m.store i (some (Cell.Bomb
          { c with framesToExplosion := c.framesToExplosion - 1 }))) :=
        Frame.fstore m i _ (by rw [hs]; simp) (by simp)
      exact Explosion.run_ne_crash _ _ _ x y i (hf.1.WF hwf) (hf.bordered hb)
        (by rw [hf.1.At]; exact hA) h

/-- `Map.Update` on a well-formed wall-bordered grid returns, with the same
frame. -/
theorem Map.Update_total (m : Map) (hwf : m.WF) (hb : m.Bordered) :
    ∃ m', m.Update = Outcome.done m' ∧ Frame m m' := by
  obtain ⟨m1, h1, hf1⟩ := ForEach_total (fun s => s) (fun x y i cell s => cell.Update x y i s)
    (fun s => Frame m s) m hwf (fun s hs => hs.1)
    (fun x y i cell s hs hA hc => by
      obtain ⟨s', e, hf⟩ := Cell.tick_total cell x y i s (hs.1.WF hwf) (hs.bordered hb) hA hc
      exact ⟨s', e, hs.ftrans hf⟩)
    m.coords (fun p hp => hp) m (Frame.frefl m)
  obtain ⟨m', h2, -, -⟩ := Map.Cleanup_spec m1 (hf1.1.WF hwf)
  refine ⟨m', ?_, hf1.ftrans (Map.Cleanup_frame m1 m' h2)⟩
  unfold Map.Update Map.updateLoop
  rw [h1]
  exact h2

theorem PositionCorrection.fn_total (cp : CharPtr) (c : Character) (x y : Int) (i : Nat)
    (cell : Cell) (s : Pass) : ∃ s', PositionCorrection.fn cp c x y i cell s = Outcome.done s' := by
  unfold PositionCorrection.fn
  split_ifs
  · exact ⟨_, rfl⟩
  · simp only
    cases PositionCorrection.ownBomb cp cell with
    | some b =>
      simp only
      split_ifs <;> exact ⟨_, rfl⟩
    | none =>
      simp only
      split_ifs <;> exact ⟨_, rfl⟩

theorem PositionCorrection.pass_total (cp : CharPtr) (c : Character) (s : Pass)
    (hwf : s.map.WF) :
    ∃ s', ForEach Pass.map (PositionCorrection.fn cp c) s.map.coords s = Outcome.done s' ∧
      Frame s.map s'.map := by
  obtain ⟨s', h1, -⟩ := ForEach_total Pass.map (PositionCorrection.fn cp c)
    (fun t => Frame s.map t.map) s.map hwf (fun t ht => ht.1)
    (fun x y i cell t ht hA hc => by
      obtain ⟨t', e⟩ := PositionCorrection.fn_total cp c x y i cell t
      refine ⟨t', e, ht.ftrans ?_⟩
      rcases PositionCorrection.fn_map cp c x y i cell t t' e with e1 | ⟨b, e1, -, e3⟩
      · rw [e1]
        exact Frame.frefl t.map
      · rw [e3]
        exact Frame.fstore t.map i _ (by rw [hc, e1]; simp) (by simp))
    s.map.coords (fun p hp => hp) s (Frame.frefl s.map)
  exact ⟨s', h1, PositionCorrection.pass_frame cp c _ s s' h1⟩

theorem PositionCorrection.passes_total (cp : CharPtr) (n : Nat) :
    ∀ (m : Map) (c : Character), m.WF →
      ∃ r, PositionCorrection.passes cp n m c = Outcome.done r := by
  induction n with
  | zero =>
    intro m c _
    exact ⟨(m, c), rfl⟩
  | succ n ih =>
    intro m c hwf
    obtain ⟨s, hs, hf⟩ := PositionCorrection.pass_total cp c
      { map := m, correctX := 0, correctY := 0, maxIntersection := 0 } hwf
    unfold PositionCorrection.passes
    simp only at hs
    rw [hs]
    simp only
    split_ifs
    · exact ⟨_, rfl⟩
    · exact ih _ _ (hf.1.WF hwf)

theorem Game.PutBomb_total (g : Game) (p : CharPtr) (hwf : g.Map.WF)
    (hlen : g.Map.CellLength ≠ 0) : ∃ r, g.PutBomb p = Outcome.done r := by
  unfold Game.PutBomb Map.AtPos
  rw [if_neg hlen]
  cases hA : g.Map.At ((g.Player.X + g.Player.Length.tdiv 2).tdiv g.Map.CellLength)
      ((g.Player.Y + g.Player.Length.tdiv 2).tdiv g.Map.CellLength) with
  | none => exact ⟨_, rfl⟩
  | some i =>
    simp only
    obtain ⟨v, hv⟩ := Map.get_of_At hwf hA
    rw [hv]
    cases v with
    | none => exact ⟨_, rfl⟩
    | some cell => exact ⟨_, rfl⟩

/-- C6: every grid operation keeps the Walls and the dimensions.  When
`Map.Explosion` (from any origin, with any chain), `Map.Update`,
`Map.Cleanup`, `Game.PutBomb` or `Map.PositionCorrection` returns, the grid
has the same Width, Height and number of slots and every slot that held a Wall
still holds a Wall; `Explosion` and `Update` never run out of budget; on a
well-formed grid `Cleanup` and `PositionCorrection` return, so does `PutBomb`
when the cell length is not 0, and inside a border of walls so do `Update` and
every `Explosion` rooted in the grid. -/
theorem walls_and_dimensions_kept :
    (∀ (m : Map) (c : BombCell) (x y : Int),
      m.Explosion c x y ≠ Outcome.outOfFuel ∧
      (∀ m', m.Explosion c x y = Outcome.done m' → KeepsWalls m m') ∧
      (∀ k : Nat, m.WF → m.Bordered → m.At x y = some k →
        ∃ m', m.Explosion c x y = Outcome.done m')) ∧
    (∀ m : Map, m.Update ≠ Outcome.outOfFuel ∧
      (∀ m', m.Update = Outcome.done m' → KeepsWalls m m') ∧
      (m.WF → m.Bordered → ∃ m', m.Update = Outcome.done m')) ∧
    (∀ m : Map, (∀ m', m.Cleanup = Outcome.done m' → KeepsWalls m m') ∧
      (m.WF → ∃ m', m.Cleanup = Outcome.done m')) ∧
    (∀ (g : Game) (p : CharPtr),
      (∀ g' b, g.PutBomb p = Outcome.done (g', b) → KeepsWalls g.Map g'.Map) ∧
      (g.Map.WF → g.Map.CellLength ≠ 0 → ∃ r, g.PutBomb p = Outcome.done r)) ∧
    (∀ (m : Map) (cp : CharPtr) (c : Character),
      (∀ m' c', m.PositionCorrection cp c = Outcome.done (m', c') → KeepsWalls m m') ∧
      (m.WF → ∃ r, m.PositionCorrection cp c = Outcome.done r)) := by
  refine ⟨?_, ?_, ?_, ?_, ?_⟩
  · intro m c x y
    exact ⟨Map.Explosion_ne_outOfFuel m c x y,
      fun m' h => (Map.Explosion_frame m c x y m' h).keepsWalls,
      fun k hwf hb hA => Map.Explosion_total m c x y k hwf hb hA⟩
  · intro m
    refine ⟨Map.Update_ne_outOfFuel m, fun m' h => (Map.Update_frame m m' h).keepsWalls, ?_⟩
    intro hwf hb
    obtain ⟨m', h, -⟩ := Map.Update_total m hwf hb
    exact ⟨m', h⟩
  · intro m
    refine ⟨fun m' h => (Map.Cleanup_frame m m' h).keepsWalls, ?_⟩
    intro hwf
    obtain ⟨m', h, -⟩ := Map.Cleanup_spec m hwf
    exact ⟨m', h⟩
  · intro g p
    exact ⟨fun g' b h => (Game.PutBomb_frame g p g' b h).keepsWalls,
      fun hwf hlen => Game.PutBomb_total g p hwf hlen⟩
  · intro m cp c
    exact ⟨fun m' c' h => (Map.PositionCorrection_frame m cp c m' c' h).keepsWalls,
      fun hwf => PositionCorrection.passes_total cp 5 m c hwf⟩

/-- Witness of C6 in `Example.chainGrid`: the chained explosion of the bomb at
(1,1) returns `Example.chainGridAfter`, of the same dimensions and with the
Wall of slot 0 still in place. -/
theorem walls_and_dimensions_kept_witness :
    Example.chainGrid.Explosion { framesToExplosion := 1, power := 3, putter := none } 1 1 =
        Outcome.done Example.chainGridAfter ∧
      Example.chainGrid.Cells[0]? = some (some Cell.Wall) ∧
      Example.chainGridAfter.Cells[0]? = some (some Cell.Wall) ∧
      Example.chainGridAfter.Width = Example.chainGrid.Width :=
  ⟨by decide, by decide,
    ((walls_and_dimensions_kept.1 Example.chainGrid
      { framesToExplosion := 1, power := 3, putter := none } 1 1).2.1
        Example.chainGridAfter (by decide)).2.2.2 0 (by decide),
    ((walls_and_dimensions_kept.1 Example.chainGrid
      { framesToExplosion := 1, power := 3, putter := none } 1 1).2.1
        Example.chainGridAfter (by decide)).1⟩

/-! ## C8: a walk that leaves the grid -/

/-- A loop of `Map.Explosion` that steps to a coordinate outside the grid
crashes: `f` dereferences the nil pointer that `Map.At` returned. -/
theorem Explosion.walk_oob (rec : Map → BombCell → Int → Int → Outcome Map)
    (coord : Int → Int × Int) (n : Nat) (i : Int) (m : Map)
    (h : m.At (coord i).1 (coord i).2 = none) :
    Explosion.walk rec coord (n + 1) i m = Outcome.crash :=
  Explosion.walk_succ_crash (Explosion.f_oob rec m _ _ h)

/-- C8, counterexample.  In `Example.edgeGrid` the bomb of power 2 lies in
column 0 of a grid without a wall border, so step 1 of the walk in direction
-x is the coordinate (-1, 0), outside the grid, for which `Map.At` returns
nil; `Map.Explosion` crashes there instead of stopping that direction and
going on with the others. -/
theorem Explosion_out_of_bounds_crashes :
    Example.edgeGrid.slot 0 0 =
        some (some (Cell.Bomb { framesToExplosion := 0, power := 2, putter := none })) ∧
      Example.edgeGrid.At (Dir.negX.coord 0 0 1).1 (Dir.negX.coord 0 0 1).2 = none ∧
      Example.edgeGrid.Explosion { framesToExplosion := 0, power := 2, putter := none } 0 0 =
        Outcome.crash := by
  refine ⟨by decide, by decide, by decide⟩

/-! ## C10: the bomb whose counter reaches 0 -/

theorem NotLiveAt.of_store {m : Map} {i : Nat} (v : Option Cell) (hv : IsLiveBomb v = false) :
    NotLiveAt (m.store i v) i := by
  intro w hw
  rw [Map.store_getElem?] at hw
  simp only [if_true] at hw
  split_ifs at hw
  injection hw with hw
  rw [← hw]
  exact hv

theorem StillOrNotLive.store_flame_at {m : Map} {i : Nat} {v : Option Cell}
    (h : StillOrNotLive m i v) (k : Nat) : StillOrNotLive (m.store k (some NewFlameCell)) i v := by
  by_cases hk : k = i
  · subst hk
    exact Or.inr (NotLiveAt.of_store _ rfl)
  · rcases h with h | h
    · left
      rw [Map.store_get_other m k i _ hk]
      exact h
    · right
      intro w hw
      rw [Map.store_get_other m k i _ hk] at hw
      exact h w hw

theorem StillOrNotLive.mark {m : Map} {i : Nat} {v : Option Cell}
    (h : StillOrNotLive m i v) (x y : Int) : StillOrNotLive (m.markExpired x y) i v := by
  rcases Map.markExpired_cases m x y with e | ⟨k, b, -, -, e⟩
  · rw [e]
    exact h
  · rw [e]
    by_cases hk : k = i
    · subst hk
      exact Or.inr (NotLiveAt.of_store _ (by simp [IsLiveBomb, BombCell.HasExpired]))
    · rcases h with h | h
      · left
        rw [Map.store_get_other m k i _ hk]
        exact h
      · right
        intro w hw
        rw [Map.store_get_other m k i _ hk] at hw
        exact h w hw

/-- An explosion leaves a slot as it was or without a live bomb. -/
theorem Explosion.run_stillOrNotLive (fuel : Nat) (m : Map) (c : BombCell) (x y : Int)
    (m' : Map) (i : Nat) (v : Option Cell) (h : StillOrNotLive m i v)
    (hr : Explosion.run fuel m c x y = Outcome.done m') : StillOrNotLive m' i v :=
  Explosion.run_invariant (fun n => StillOrNotLive n i v)
    (fun _ k hn => hn.store_flame_at k) (fun _ x y hn => hn.mark x y) fuel m c x y m' h hr

theorem StillOrNotLive.snl_store_other {m : Map} {i : Nat} {v : Option Cell}
    (h : StillOrNotLive m i v) (k : Nat) (hk : k ≠ i) (w : Option Cell) :
    StillOrNotLive (m.store k w) i v := by
  rcases h with h | h
  · left
    rw [Map.store_get_other m k i _ hk]
    exact h
  · right
    intro u hu
    rw [Map.store_get_other m k i _ hk] at hu
    exact h u hu

/-- The `Update` of the cell of another slot leaves slot `i` as it was or
without a live bomb. -/
theorem Cell.tick_stillOrNotLive (cell : Cell) (x y : Int) (k : Nat) (m m' : Map) (i : Nat)
    (v : Option Cell) (hk : k ≠ i) (h : StillOrNotLive m i v)
    (hu : cell.Update x y k m = Outcome.done m') : StillOrNotLive m' i v := by
  cases cell with
  | Wall =>
    simp only [Cell.Update] at hu
    injection hu with hu
    rw [← hu]
    exact h
  | Soft =>
    simp only [Cell.Update] at hu
    injection hu with hu
    rw [← hu]
    exact h
  | Flame c =>
    simp only [Cell.Update] at hu
    injection hu with hu
    rw [← hu]
    exact h.snl_store_other k hk _
  | Bomb c =>
    simp only [Cell.Update] at hu
    split_ifs at hu
    · exact Explosion.run_stillOrNotLive _ _ _ x y m' i v (h.snl_store_other k hk _) hu
    · injection hu with hu
      rw [← hu]
      exact h.snl_store_other k hk _

/-- The `Update` of a cell that is not a live bomb leaves its slot without a
live bomb. -/
theorem Cell.tick_notLive (cell : Cell) (x y : Int) (i : Nat) (m m' : Map)
    (hs : m.Cells[i]? = some (some cell)) (hl : IsLiveBomb (some cell) = false)
    (hu : cell.Update x y i m = Outcome.done m') : NotLiveAt m' i := by
  cases cell with
  | Wall =>
    simp only [Cell.Update] at hu
    injection hu with hu
    rw [← hu]
    intro w hw
    rw [hs] at hw
    injection hw with hw
    rw [← hw]
    rfl
  | Soft =>
    simp only [Cell.Update] at hu
    injection hu with hu
    rw [← hu]
    intro w hw
    rw [hs] at hw
    injection hw with hw
    rw [← hw]
    rfl
  | Flame c =>
    simp only [Cell.Update] at hu
    injection hu with hu
    rw [← hu]
    exact NotLiveAt.of_store _ rfl
  | Bomb c =>
    have hc : c.framesToExplosion ≤ 0 := by
      simpa [IsLiveBomb, BombCell.HasExpired] using hl
    simp only [Cell.Update] at hu
    rw [if_neg (by omega)] at hu
    injection hu with hu
    rw [← hu]
    apply NotLiveAt.of_store
    simp only [IsLiveBomb, BombCell.HasExpired, Bool.not_eq_false', decide_eq_true_eq]
    omega

/-- A property of the callback's state kept by every call of the callback on
the cell of a visited slot at a coordinate of the list is kept by `ForEach`. -/
theorem ForEach_invariant_mem {σ : Type} (get : σ → Map)
    (fn : Int → Int → Nat → Cell → σ → Outcome σ) (R : σ → Prop) (cs : List (Int × Int)) :
    (∀ x y i cell s s', (x, y) ∈ cs → R s → (get s).At x y = some i →
      (get s).Cells[i]? = some (some cell) → fn x y i cell s = Outcome.done s' → R s') →
    ∀ (s s' : σ), R s → ForEach get fn cs s = Outcome.done s' → R s' := by
  induction cs with
  | nil =>
    intro _ s s' hR h
    unfold ForEach at h
    injection h with h
    rw [← h]
    exact hR
  | cons p cs ih =>
    intro hstep s s' hR h
    obtain ⟨x, y⟩ := p
    have ih' := ih (fun x y i cell s s' hm => hstep x y i cell s s' (List.mem_cons_of_mem _ hm))
    unfold ForEach at h
    cases hA : (get s).At x y with
    | none => rw [hA] at h; cases h
    | some i =>
      rw [hA] at h
      simp only at h
      cases hC : (get s).Cells[i]? with
      | none => rw [hC] at h; cases h
      | some v =>
        rw [hC] at h
        cases v with
        | none => exact ih' s s' hR h
        | some cell =>
          simp only at h
          rw [Outcome.bind_eq_done] at h
          obtain ⟨s1, h1, h2⟩ := h
          exact ih' s1 s' (hstep x y i cell s s1 (List.mem_cons_self _ _) hR hA hC h1) h2

/-- The loop of `Map.Update` over coordinates other than `(x, y)` leaves the
slot of `(x, y)` as it was or without a live bomb. -/
theorem Map.updateLoop_stillOrNotLive (m : Map) (x y : Int) (i0 : Nat) (v : Option Cell)
    (hA : m.At x y = some i0) (cs : List (Int × Int)) (hcs : ∀ p ∈ cs, p ≠ (x, y)) (s s' : Map)
    (hf : Frame m s) (h : StillOrNotLive s i0 v) (hl : Map.updateLoop cs s = Outcome.done s') :
    Frame m s' ∧ StillOrNotLive s' i0 v := by
  refine ForEach_invariant_mem (fun t => t) (fun x y i cell t => cell.Update x y i t)
    (fun t => Frame m t ∧ StillOrNotLive t i0 v) cs ?_ s s' ⟨hf, h⟩ hl
  intro px py i cell t t' hmem ht hAt hC hu
  obtain ⟨htf, hts⟩ := ht
  refine ⟨htf.ftrans (Cell.tick_frame cell px py i t t' hC hu), ?_⟩
  have hi : i ≠ i0 := by
    intro hi
    subst hi
    rw [htf.1.At] at hAt
    have e := Map.At_inj hAt hA
    exact hcs (px, py) hmem (Prod.ext e.1 e.2)
  exact Cell.tick_stillOrNotLive cell px py i t t' i0 v hi hts hu

theorem cleanSlot_of_notLive (w : Option Cell) (hw : IsLiveBomb w = false) (c : BombCell) :
    cleanSlot w ≠ some (Cell.Bomb c) := by
  cases w with
  | none => simp [cleanSlot]
  | some cell =>
    cases cell with
    | Bomb c' =>
      have : c'.HasExpired = true := by simpa [IsLiveBomb] using hw
      simp [cleanSlot, Cell.HasExpired, this]
    | Wall => simp [cleanSlot, Cell.HasExpired]
    | Soft => simp [cleanSlot, Cell.HasExpired]
    | Flame f =>
      simp only [cleanSlot]
      split_ifs <;> simp

/-- What `Map.Update` leaves in the slot of a bomb `b`: when it returns, the
slot holds the bomb with its counter one less, still live, or it holds no
bomb at all; the first is excluded when the counter was 1. -/
theorem Map.Update_bomb_slot (m : Map) (b : BombCell) (x y : Int) (i0 : Nat) (hwf : m.WF)
    (hA0 : m.At x y = some i0) (hs0 : m.Cells[i0]? = some (some (Cell.Bomb b)))
    (m1 : Map) (h : m.Update = Outcome.done m1) :
    (1 < b.framesToExplosion ∧
        m1.Cells[i0]? = some (some (Cell.Bomb
          { b with framesToExplosion := b.framesToExplosion - 1 }))) ∨
      ∀ c, m1.Cells[i0]? ≠ some (some (Cell.Bomb c)) := by
  obtain ⟨pre, post, hsplit⟩ := List.append_of_mem (Map.mem_coords_of_At hA0)
  have hpw := m.coords_pairwise
  rw [hsplit, List.pairwise_append, List.pairwise_cons] at hpw
  obtain ⟨-, ⟨hafter, -⟩, hbefore⟩ := hpw
  unfold Map.Update at h
  rw [Outcome.bind_eq_done] at h
  obtain ⟨m2, hloop, hclean⟩ := h
  unfold Map.updateLoop at hloop
  rw [hsplit, ForEach_append, Outcome.bind_eq_done] at hloop
  obtain ⟨mpre, hl1, hl2⟩ := hloop
  obtain ⟨hfpre, hspre⟩ := Map.updateLoop_stillOrNotLive m x y i0 (some (Cell.Bomb b)) hA0 pre
    (fun p hp => (hbefore p hp (x, y) (List.mem_cons_self _ _)).ne) m mpre (Frame.frefl m)
    (Or.inl hs0) hl1
  -- the visit of the bomb's slot
  have hvisit : ∃ mv, Frame m mv ∧
      StillOrNotLive mv i0 (some (Cell.Bomb
        { b with framesToExplosion := b.framesToExplosion - 1 })) ∧
      ForEach (fun s => s) (fun x y i cell s => cell.Update x y i s) post mv =
        Outcome.done m2 := by
    unfold ForEach at hl2
    rw [show mpre.At x y = some i0 by rw [hfpre.1.At]; exact hA0] at hl2
    simp only at hl2
    obtain ⟨w, hw⟩ := Map.get_of_At (hfpre.1.WF hwf)
      (show mpre.At x y = some i0 by rw [hfpre.1.At]; exact hA0)
    rw [hw] at hl2
    cases w with
    | none =>
      simp only at hl2
      refine ⟨mpre, hfpre, Or.inr ?_, hl2⟩
      intro u hu
      rw [hw] at hu
      injection hu with hu
      rw [← hu]
      rfl
    | some cell =>
      simp only at hl2
      rw [Outcome.bind_eq_done] at hl2
      obtain ⟨mv, hu, hl3⟩ := hl2
      refine ⟨mv, hfpre.ftrans (Cell.tick_frame cell x y i0 mpre mv hw hu), ?_, hl3⟩
      by_cases hlive : IsLiveBomb (some cell) = true
      · rcases hspre with hsp | hsp
        · rw [hw] at hsp
          injection hsp with hsp
          injection hsp with hsp
          subst hsp
          simp only [Cell.Update] at hu
          split_ifs at hu with h0
          · refine Explosion.run_stillOrNotLive _ _ _ x y mv i0 _ (Or.inr ?_) hu
            apply NotLiveAt.of_store
            simp only [IsLiveBomb, BombCell.HasExpired, Bool.not_eq_false', decide_eq_true_eq]
            omega
          · injection hu with hu
            rw [← hu]
            exact Or.inl (Map.store_get_self_of_some mpre i0 _ _ hw)
        · rw [hsp _ hw] at hlive
          cases hlive
      · exact Or.inr (Cell.tick_notLive cell x y i0 mpre mv hw (by simpa using hlive) hu)
  obtain ⟨mv, hfv, hsv, hl3⟩ := hvisit
  obtain ⟨hf2, hs2⟩ := Map.updateLoop_stillOrNotLive m x y i0 _ hA0 post
    (fun p hp => (hafter p hp).ne.symm) mv m2 hfv hsv hl3
  obtain ⟨m1', hc1, -, hspec1⟩ := Map.Cleanup_spec m2 (hf2.1.WF hwf)
  rw [hclean] at hc1
  injection hc1 with hc1
  subst hc1
  have hget := hspec1 x y i0 (by rw [hf2.1.At]; exact hA0)
  rcases hs2 with hs2 | hs2
  · rw [hs2] at hget
    by_cases h1 : 1 < b.framesToExplosion
    · left
      refine ⟨h1, ?_⟩
      rw [hget]
      simp only [Option.map_some', cleanSlot, Cell.HasExpired, BombCell.HasExpired,
        decide_eq_true_eq]
      rw [if_neg (by omega)]
    · right
      intro c
      rw [hget]
      simp only [Option.map_some', cleanSlot, Cell.HasExpired, BombCell.HasExpired,
        decide_eq_true_eq]
      rw [if_pos (by omega)]
      simp
  · right
    intro c hc
    rw [hget] at hc
    cases hm : m2.Cells[i0]? with
    | none => rw [hm] at hc; cases hc
    | some w =>
      rw [hm] at hc
      simp only [Option.map_some', Option.some.injEq] at hc
      exact cleanSlot_of_notLive w (hs2 w hm) c hc

/-! ## A bomb that is not due stays, or an explosion sets its slot aflame -/

theorem HeldOrAflame.hoa_store_other {m : Map} {i : Nat} {v w : Option Cell}
    (h : HeldOrAflame m i v w) (k : Nat) (hk : k ≠ i) (u : Option Cell) :
    HeldOrAflame (m.store k u) i v w := by
  unfold HeldOrAflame
  rw [Map.store_get_other m k i _ hk]
  exact h

theorem HeldOrAflame.in_range {m : Map} {i : Nat} {v w : Option Cell}
    (h : HeldOrAflame m i v w) : ∃ s, m.Cells[i]? = some s := by
  rcases h with h | h | h
  · exact ⟨_, h⟩
  · exact ⟨_, h⟩
  · exact ⟨_, h⟩

theorem HeldOrAflame.hoa_store_flame {m : Map} {i : Nat} {v w : Option Cell}
    (h : HeldOrAflame m i v w) (k : Nat) :
    HeldOrAflame (m.store k (some NewFlameCell)) i v w := by
  by_cases hk : k = i
  · subst hk
    obtain ⟨s, hs⟩ := h.in_range
    exact Or.inr (Or.inr (Map.store_get_self_of_some m k _ s hs))
  · exact h.hoa_store_other k hk _

theorem Explosion.f_heldOrAflame {rec : Map → BombCell → Int → Int → Outcome Map}
    (i : Nat) (v w : Option Cell)
    (hfr : ∀ m c x y m', rec m c x y = Outcome.done m' → Frame m m')
    (hrec : ∀ m c x y m', HeldOrAflame m i v w → m.At x y ≠ some i →
      rec m c x y = Outcome.done m' → HeldOrAflame m' i v w)
    {m : Map} {x y : Int} {m' : Map} {b : Bool} (hI : HeldOrAflame m i v w)
    (h : Explosion.f rec m x y = Outcome.done (m', b)) : HeldOrAflame m' i v w := by
  obtain ⟨k, s, hA, hs, hc⟩ := Explosion.f_done h
  rcases hc with ⟨-, hm, -⟩ | ⟨-, rfl, -⟩ | ⟨bc, m1, -, -, hr, rfl, -⟩ | ⟨-, -, rfl, -⟩
  · rw [hm]
    exact hI
  · exact hI.hoa_store_flame k
  · by_cases hk : k = i
    · subst hk
      have hlen := (hfr m bc x y m1 hr).1.2.2.2
      have hlt : k < m.Cells.length := by
        by_contra hc
        rw [List.getElem?_eq_none (by omega)] at hs
        cases hs
      exact Or.inr (Or.inr (Map.store_get_self m1 k _ (by omega)))
    · refine (hrec m bc x y m1 hI ?_ hr).hoa_store_flame k
      rw [hA]
      intro e
      injection e with e
      exact hk e
  · exact hI.hoa_store_flame k

theorem Explosion.walk_heldOrAflame {rec : Map → BombCell → Int → Int → Outcome Map}
    (i : Nat) (v w : Option Cell)
    (hfr : ∀ m c x y m', rec m c x y = Outcome.done m' → Frame m m')
    (hrec : ∀ m c x y m', HeldOrAflame m i v w → m.At x y ≠ some i →
      rec m c x y = Outcome.done m' → HeldOrAflame m' i v w)
    (coord : Int → Int × Int) (n : Nat) :
    ∀ (j : Int) (m m' : Map), HeldOrAflame m i v w →
      Explosion.walk rec coord n j m = Outcome.done m' → HeldOrAflame m' i v w := by
  induction n with
  | zero =>
    intro j m m' hI h
    rw [Explosion.walk_zero] at h
    injection h with h
    rw [← h]
    exact hI
  | succ n ih =>
    intro j m m' hI h
    obtain ⟨m1, b, hf, hc⟩ := Explosion.walk_done h
    have h1 := Explosion.f_heldOrAflame i v w hfr hrec hI hf
    rcases hc with ⟨-, rfl⟩ | ⟨-, hw⟩
    · exact h1
    · exact ih _ _ _ h1 hw

theorem Explosion.body_heldOrAflame {rec : Map → BombCell → Int → Int → Outcome Map}
    (i : Nat) (v w : Option Cell)
    (hfr : ∀ m c x y m', rec m c x y = Outcome.done m' → Frame m m')
    (hrec : ∀ m c x y m', HeldOrAflame m i v w → m.At x y ≠ some i →
      rec m c x y = Outcome.done m' → HeldOrAflame m' i v w)
    {m : Map} {c : BombCell} {x y : Int} {m' : Map} (hI : HeldOrAflame m i v w)
    (hne : m.At x y ≠ some i) (h : Explosion.body rec m c x y = Outcome.done m') :
    HeldOrAflame m' i v w := by
  obtain ⟨m1, m2, m3, h1, h2, h3, h4⟩ := Explosion.body_done h
  have h0 : HeldOrAflame (m.markExpired x y) i v w := by
    rcases Map.markExpired_cases m x y with e | ⟨k, b, hk, -, e⟩
    · rw [e]
      exact hI
    · rw [e]
      refine hI.hoa_store_other k ?_ _
      intro hki
      rw [hk, hki] at hne
      exact hne rfl
  have i1 := Explosion.walk_heldOrAflame i v w hfr hrec _ _ _ _ _ h0 h1
  have i2 := Explosion.walk_heldOrAflame i v w hfr hrec _ _ _ _ _ i1 h2
  have i3 := Explosion.walk_heldOrAflame i v w hfr hrec _ _ _ _ _ i2 h3
  exact Explosion.walk_heldOrAflame i v w hfr hrec _ _ _ _ _ i3 h4

/-- An explosion rooted at another slot leaves in slot `i` what it held, or a
new Flame. -/
theorem Explosion.run_heldOrAflame (i : Nat) (v w : Option Cell) (fuel : Nat) :
    ∀ (m : Map) (c : BombCell) (x y : Int) (m' : Map), HeldOrAflame m i v w →
      m.At x y ≠ some i → Explosion.run fuel m c x y = Outcome.done m' →
      HeldOrAflame m' i v w := by
  induction fuel with
  | zero =>
    intro m c x y m' _ _ h
    cases h
  | succ fuel ih =>
    intro m c x y m' hI hne h
    exact Explosion.body_heldOrAflame i v w (Explosion.run_frame fuel) ih hI hne h

/-- The `Update` of the cell of another slot leaves in slot `i` what it held,
or a new Flame. -/
theorem Cell.tick_heldOrAflame (cell : Cell) (x y : Int) (k : Nat) (m m' : Map) (i : Nat)
    (v w : Option Cell) (hA : m.At x y = some k) (hk : k ≠ i) (h : HeldOrAflame m i v w)
    (hu : cell.Update x y k m = Outcome.done m') : HeldOrAflame m' i v w := by
  cases cell with
  | Wall =>
    simp only [Cell.Update] at hu
    injection hu with hu
    rw [← hu]
    exact h
  | Soft =>
    simp only [Cell.Update] at hu
    injection hu with hu
    rw [← hu]
    exact h
  | Flame c =>
    simp only [Cell.Update] at hu
    injection hu with hu
    rw [← hu]
    exact h.hoa_store_other k hk _
  | Bomb c =>
    simp only [Cell.Update] at hu
    split_ifs at hu
    · refine Explosion.run_heldOrAflame i v w _ _ _ x y m' (h.hoa_store_other k hk _) ?_ hu
      rw [Map.At_store, hA]
      intro e
      injection e with e
      exact hk e
    · injection hu with hu
      rw [← hu]
      exact h.hoa_store_other k hk _

theorem Map.updateLoop_heldOrAflame (m : Map) (x y : Int) (i0 : Nat) (v w : Option Cell)
    (hA : m.At x y = some i0) (cs : List (Int × Int)) (hcs : ∀ p ∈ cs, p ≠ (x, y)) (s s' : Map)
    (hf : Frame m s) (h : HeldOrAflame s i0 v w) (hl : Map.updateLoop cs s = Outcome.done s') :
    Frame m s' ∧ HeldOrAflame s' i0 v w := by
  refine ForEach_invariant_mem (fun t => t) (fun x y i cell t => cell.Update x y i t)
    (fun t => Frame m t ∧ HeldOrAflame t i0 v w) cs ?_ s s' ⟨hf, h⟩ hl
  intro px py i cell t t' hmem ht hAt hC hu
  obtain ⟨htf, hts⟩ := ht
  refine ⟨htf.ftrans (Cell.tick_frame cell px py i t t' hC hu), ?_⟩
  have hi : i ≠ i0 := by
    intro hi
    subst hi
    have hAt' := hAt
    rw [htf.1.At] at hAt'
    have e := Map.At_inj hAt' hA
    exact hcs (px, py) hmem (Prod.ext e.1 e.2)
  exact Cell.tick_heldOrAflame cell px py i t t' i0 v w hAt hi hts hu

/-- What `Map.Update` leaves in the slot of a bomb `b` with more than one
frame left: the bomb with its counter one less, or a Flame written by an
explosion of this `Update` (60 frames, or 59 when it was written before the
slot was visited). -/
theorem Map.Update_bomb_kept (m : Map) (b : BombCell) (x y : Int) (i0 : Nat) (hwf : m.WF)
    (hA0 : m.At x y = some i0) (hs0 : m.Cells[i0]? = some (some (Cell.Bomb b)))
    (hb : 1 < b.framesToExplosion) (m1 : Map) (h : m.Update = Outcome.done m1) :
    m1.Cells[i0]? = some (some (Cell.Bomb
        { b with framesToExplosion := b.framesToExplosion - 1 })) ∨
      m1.Cells[i0]? = some (some (Cell.Flame { frames := 59 })) ∨
      m1.Cells[i0]? = some (some (Cell.Flame { frames := 60 })) := by
  obtain ⟨pre, post, hsplit⟩ := List.append_of_mem (Map.mem_coords_of_At hA0)
  have hpw := m.coords_pairwise
  rw [hsplit, List.pairwise_append, List.pairwise_cons] at hpw
  obtain ⟨-, ⟨hafter, -⟩, hbefore⟩ := hpw
  unfold Map.Update at h
  rw [Outcome.bind_eq_done] at h
  obtain ⟨m2, hloop, hclean⟩ := h
  unfold Map.updateLoop at hloop
  rw [hsplit, ForEach_append, Outcome.bind_eq_done] at hloop
  obtain ⟨mpre, hl1, hl2⟩ := hloop
  obtain ⟨hfpre, hspre⟩ := Map.updateLoop_heldOrAflame m x y i0 (some (Cell.Bomb b))
    (some (Cell.Bomb b)) hA0 pre
    (fun p hp => (hbefore p hp (x, y) (List.mem_cons_self _ _)).ne) m mpre (Frame.frefl m)
    (Or.inl hs0) hl1
  have hApre : mpre.At x y = some i0 := by rw [hfpre.1.At]; exact hA0
  -- the visit of the bomb's slot
  have hvisit : ∃ mv, Frame m mv ∧
      HeldOrAflame mv i0 (some (Cell.Bomb
        { b with framesToExplosion := b.framesToExplosion - 1 }))
        (some (Cell.Flame { frames := 59 })) ∧
      ForEach (fun s => s) (fun x y i cell s => cell.Update x y i s) post mv =
        Outcome.done m2 := by
    unfold ForEach at hl2
    rw [hApre] at hl2
    simp only at hl2
    have hcell : mpre.Cells[i0]? = some (some (Cell.Bomb b)) ∨
        mpre.Cells[i0]? = some (some NewFlameCell) := by
      rcases hspre with h | h | h
      · exact Or.inl h
      · exact Or.inl h
      · exact Or.inr h
    rcases hcell with hw | hw
    · rw [hw] at hl2
      simp only at hl2
      rw [Outcome.bind_eq_done] at hl2
      obtain ⟨mv, hu, hl3⟩ := hl2
      refine ⟨mv, hfpre.ftrans (Cell.tick_frame _ x y i0 mpre mv hw hu), ?_, hl3⟩
      simp only [Cell.Update] at hu
      rw [if_neg (by omega)] at hu
      injection hu with hu
      rw [← hu]
      exact Or.inl (Map.store_get_self_of_some mpre i0 _ _ hw)
    · rw [hw] at hl2
      simp only [NewFlameCell] at hl2
      rw [Outcome.bind_eq_done] at hl2
      obtain ⟨mv, hu, hl3⟩ := hl2
      refine ⟨mv, hfpre.ftrans (Cell.tick_frame _ x y i0 mpre mv hw hu), ?_, hl3⟩
      simp only [Cell.Update] at hu
      injection hu with hu
      rw [← hu]
      exact Or.inr (Or.inl (Map.store_get_self_of_some mpre i0 _ _ hw))
  obtain ⟨mv, hfv, hsv, hl3⟩ := hvisit
  obtain ⟨hf2, hs2⟩ := Map.updateLoop_heldOrAflame m x y i0 _ _ hA0 post
    (fun p hp => (hafter p hp).ne.symm) mv m2 hfv hsv hl3
  obtain ⟨m1', hc1, -, hspec1⟩ := Map.Cleanup_spec m2 (hf2.1.WF hwf)
  rw [hclean] at hc1
  injection hc1 with hc1
  subst hc1
  have hget := hspec1 x y i0 (by rw [hf2.1.At]; exact hA0)
  rcases hs2 with hs2 | hs2 | hs2
  · left
    rw [hget, hs2]
    simp only [Option.map_some', cleanSlot, Cell.HasExpired, BombCell.HasExpired,
      decide_eq_true_eq]
    rw [if_neg (by omega)]
  · right
    left
    rw [hget, hs2]
    rfl
  · right
    right
    rw [hget, hs2]
    rfl

/-! ## Dropping the record gives the program back -/

@[simp] theorem Outcome.map_done {α β : Type} (g : α → β) (a : α) :
    (Outcome.done a).map g = Outcome.done (g a) := rfl

@[simp] theorem Outcome.map_crash {α β : Type} (g : α → β) :
    (Outcome.crash : Outcome α).map g = Outcome.crash := rfl

@[simp] theorem Outcome.map_outOfFuel {α β : Type} (g : α → β) :
    (Outcome.outOfFuel : Outcome α).map g = Outcome.outOfFuel := rfl

theorem Outcome.map_eq_done {α β : Type} {g : α → β} {o : Outcome α} {b : β} :
    o.map g = Outcome.done b ↔ ∃ a, o = Outcome.done a ∧ g a = b := by
  cases o <;> simp

theorem Outcome.map_bind {α β γ : Type} (o : Outcome α) (k : α → Outcome β) (g : β → γ) :
    (o.bind k).map g = o.bind fun a => (k a).map g := by
  cases o <;> rfl

theorem Explosion.fT_erase {recT : Traced → BombCell → Int → Int → Outcome Traced}
    {rec : Map → BombCell → Int → Int → Outcome Map}
    (hrec : ∀ s c x y, (recT s c x y).map Prod.fst = rec s.1 c x y) (s : Traced) (x y : Int) :
    (Explosion.fT recT s x y).map (fun r => (r.1.1, r.2)) = Explosion.f rec s.1 x y := by
  unfold Explosion.fT Explosion.f
  cases hA : s.1.At x y with
  | none => rfl
  | some i =>
    simp only
    cases hC : s.1.Cells[i]? with
    | none => rfl
    | some v =>
      cases v with
      | none => rfl
      | some cell =>
        cases cell with
        | Wall => rfl
        | Soft => rfl
        | Flame c => rfl
        | Bomb bc =>
          simp only
          split_ifs with hl
          · rw [← hrec s bc x y]
            cases recT s bc x y <;> rfl
          · rfl

theorem Explosion.walkT_erase {recT : Traced → BombCell → Int → Int → Outcome Traced}
    {rec : Map → BombCell → Int → Int → Outcome Map}
    (hrec : ∀ s c x y, (recT s c x y).map Prod.fst = rec s.1 c x y)
    (coord : Int → Int × Int) (n : Nat) :
    ∀ (i : Int) (s : Traced),
      (Explosion.walkT recT coord n i s).map Prod.fst = Explosion.walk rec coord n i s.1 := by
  induction n with
  | zero => intro i s; rfl
  | succ n ih =>
    intro i s
    have hf := Explosion.fT_erase hrec s (coord i).1 (coord i).2
    unfold Explosion.walkT Explosion.walk
    rw [← hf]
    cases hr : Explosion.fT recT s (coord i).1 (coord i).2 with
    | crash => rfl
    | outOfFuel => rfl
    | done r =>
      obtain ⟨s1, b⟩ := r
      cases b with
      | false => rfl
      | true => exact ih (i + 1) s1

theorem Explosion.bodyT_erase {recT : Traced → BombCell → Int → Int → Outcome Traced}
    {rec : Map → BombCell → Int → Int → Outcome Map}
    (hrec : ∀ s c x y, (recT s c x y).map Prod.fst = rec s.1 c x y) (s : Traced) (c : BombCell)
    (x y : Int) :
    (Explosion.bodyT recT s c x y).map Prod.fst = Explosion.body rec s.1 c x y := by
  unfold Explosion.bodyT Explosion.body
  rw [Outcome.map_bind, ← Explosion.walkT_erase hrec _ _ 0 (s.1.markExpired x y, _)]
  cases Explosion.walkT recT (fun i => (x - i, y)) c.power.toNat 0
      (s.1.markExpired x y, s.2 ++ [(x, y, c.power)]) with
  | crash => rfl
  | outOfFuel => rfl
  | done s1 =>
    simp only [Outcome.bind_done, Outcome.map_done]
    rw [Outcome.map_bind, ← Explosion.walkT_erase hrec _ _ 0 s1]
    cases Explosion.walkT recT (fun i => (x + i, y)) c.power.toNat 0 s1 with
    | crash => rfl
    | outOfFuel => rfl
    | done s2 =>
      simp only [Outcome.bind_done, Outcome.map_done]
      rw [Outcome.map_bind, ← Explosion.walkT_erase hrec _ _ 0 s2]
      cases Explosion.walkT recT (fun i => (x, y - i)) c.power.toNat 0 s2 with
      | crash => rfl
      | outOfFuel => rfl
      | done s3 =>
        simp only [Outcome.bind_done, Outcome.map_done]
        exact Explosion.walkT_erase hrec _ _ 0 s3

/-- The grid that the recording explosion returns is the grid that the
explosion returns. -/
theorem Explosion.runT_erase (fuel : Nat) :
    ∀ (s : Traced) (c : BombCell) (x y : Int),
      (Explosion.runT fuel s c x y).map Prod.fst = Explosion.run fuel s.1 c x y := by
  induction fuel with
  | zero => intro s c x y; rfl
  | succ fuel ih =>
    intro s c x y
    exact Explosion.bodyT_erase ih s c x y

theorem Cell.tickT_erase (cell : Cell) (x y : Int) (i : Nat) (s : Traced) :
    (cell.UpdateT x y i s).map Prod.fst = cell.Update x y i s.1 := by
  cases cell with
  | Wall => rfl
  | Soft => rfl
  | Flame c => rfl
  | Bomb c =>
    simp only [Cell.UpdateT, Cell.Update]
    split_ifs
    · exact Explosion.runT_erase _ _ _ x y
    · rfl

theorem ForEach_erase (fnT : Int → Int → Nat → Cell → Traced → Outcome Traced)
    (fn : Int → Int → Nat → Cell → Map → Outcome Map)
    (hfn : ∀ x y i cell s, (fnT x y i cell s).map Prod.fst = fn x y i cell s.1)
    (cs : List (Int × Int)) :
    ∀ s : Traced, (ForEach (fun s : Traced => s.1) fnT cs s).map Prod.fst =
      ForEach (fun s => s) fn cs s.1 := by
  induction cs with
  | nil => intro s; rfl
  | cons p cs ih =>
    intro s
    obtain ⟨x, y⟩ := p
    unfold ForEach
    cases hA : s.1.At x y with
    | none => rfl
    | some i =>
      simp only
      cases hC : s.1.Cells[i]? with
      | none => rfl
      | some v =>
        cases v with
        | none => exact ih s
        | some cell =>
          simp only
          rw [Outcome.map_bind, ← hfn x y i cell s]
          cases fnT x y i cell s with
          | crash => rfl
          | outOfFuel => rfl
          | done s1 => exact ih s1

/-- Dropping the record from `Map.UpdateT` gives `Map.Update`. -/
theorem Map.UpdateT_erase (m : Map) : m.UpdateT.map Prod.fst = m.Update := by
  unfold Map.UpdateT Map.Update Map.updateLoop
  rw [Outcome.map_bind, ← ForEach_erase (fun x y i cell s => cell.UpdateT x y i s)
    (fun x y i cell s => cell.Update x y i s)
    (fun x y i cell s => Cell.tickT_erase cell x y i s) m.coords (m, [])]
  cases ForEach (fun s : Traced => s.1) (fun x y i cell s => cell.UpdateT x y i s) m.coords
      (m, []) with
  | crash => rfl
  | outOfFuel => rfl
  | done s =>
    simp only [Outcome.bind_done, Outcome.map_done]
    cases Map.Cleanup s.1 <;> rfl

/-! ## Counting the calls of `Map.Explosion` rooted at one coordinate -/

theorem hitsAt_append_self (x y p : Int) (l : List Detonation) :
    hitsAt x y (l ++ [(x, y, p)]) = hitsAt x y l ++ [(x, y, p)] := by
  simp [hitsAt, List.filter_append]

theorem hitsAt_append_other (x y x' y' p : Int) (l : List Detonation)
    (h : (x', y') ≠ (x, y)) : hitsAt x y (l ++ [(x', y', p)]) = hitsAt x y l := by
  have : ¬ (x' = x ∧ y' = y) := fun hc => h (Prod.ext hc.1 hc.2)
  simp [hitsAt, List.filter_append, this]

/-- Every normal return of the recording `f` is one of its four branches. -/
theorem Explosion.fT_done {rec : Traced → BombCell → Int → Int → Outcome Traced} {s : Traced}
    {x y : Int} {s' : Traced} {b : Bool} (h : Explosion.fT rec s x y = Outcome.done (s', b)) :
    ∃ i w, s.1.At x y = some i ∧ s.1.Cells[i]? = some w ∧
      ((w = some Cell.Wall ∧ s' = s ∧ b = false) ∨
       (w = some Cell.Soft ∧ s' = (s.1.store i (some NewFlameCell), s.2) ∧ b = false) ∨
       (∃ bc s1, w = some (Cell.Bomb bc) ∧ bc.HasExpired = false ∧
          rec s bc x y = Outcome.done s1 ∧
          s' = (s1.1.store i (some NewFlameCell), s1.2) ∧ b = true) ∨
       (IsBlock w = false ∧ IsLiveBomb w = false ∧
          s' = (s.1.store i (some NewFlameCell), s.2) ∧ b = true)) := by
  unfold Explosion.fT at h
  cases hA : s.1.At x y with
  | none => rw [hA] at h; cases h
  | some i =>
    rw [hA] at h
    simp only at h
    cases hC : s.1.Cells[i]? with
    | none => rw [hC] at h; cases h
    | some w =>
      rw [hC] at h
      refine ⟨i, w, rfl, hC, ?_⟩
      cases w with
      | none =>
        simp only at h
        injection h with h
        injection h with h1 h2
        exact Or.inr (Or.inr (Or.inr ⟨rfl, rfl, h1.symm, h2.symm⟩))
      | some cell =>
        cases cell with
        | Wall =>
          simp only at h
          injection h with h
          injection h with h1 h2
          exact Or.inl ⟨rfl, h1.symm, h2.symm⟩
        | Soft =>
          simp only at h
          injection h with h
          injection h with h1 h2
          exact Or.inr (Or.inl ⟨rfl, h1.symm, h2.symm⟩)
        | Flame c =>
          simp only at h
          injection h with h
          injection h with h1 h2
          exact Or.inr (Or.inr (Or.inr ⟨rfl, rfl, h1.symm, h2.symm⟩))
        | Bomb bc =>
          simp only at h
          split_ifs at h with hl
          · rw [Outcome.bind_eq_done] at h
            obtain ⟨s1, hr, h⟩ := h
            injection h with h
            injection h with h1 h2
            exact Or.inr (Or.inr (Or.inl
              ⟨bc, s1, rfl, by simpa using hl, hr, h1.symm, h2.symm⟩))
          · injection h with h
            injection h with h1 h2
            refine Or.inr (Or.inr (Or.inr ⟨rfl, ?_, h1.symm, h2.symm⟩))
            simpa [IsLiveBomb] using hl

theorem Explosion.walkT_done {rec : Traced → BombCell → Int → Int → Outcome Traced}
    {coord : Int → Int × Int} {n : Nat} {i : Int} {s s' : Traced}
    (h : Explosion.walkT rec coord (n + 1) i s = Outcome.done s') :
    ∃ s1 b, Explosion.fT rec s (coord i).1 (coord i).2 = Outcome.done (s1, b) ∧
      ((b = false ∧ s' = s1) ∨
       (b = true ∧ Explosion.walkT rec coord n (i + 1) s1 = Outcome.done s')) := by
  unfold Explosion.walkT at h
  cases hf : Explosion.fT rec s (coord i).1 (coord i).2 with
  | crash => rw [hf] at h; cases h
  | outOfFuel => rw [hf] at h; cases h
  | done r =>
    obtain ⟨s1, b⟩ := r
    rw [hf] at h
    cases b with
    | false =>
      simp only at h
      injection h with h
      exact ⟨s1, false, rfl, Or.inl ⟨rfl, h.symm⟩⟩
    | true =>
      simp only at h
      exact ⟨s1, true, rfl, Or.inr ⟨rfl, h⟩⟩

theorem NotLiveAt.nla_store_flame_any {m : Map} {i : Nat} (h : NotLiveAt m i) (k : Nat) :
    NotLiveAt (m.store k (some NewFlameCell)) i := by
  by_cases hk : k = i
  · subst hk
    exact NotLiveAt.of_store _ rfl
  · intro w hw
    rw [Map.store_get_other m k i _ hk] at hw
    exact h w hw

theorem Fired.fired_store_flame_any {x y : Int} {i : Nat} {b : BombCell} {s : Traced}
    (h : Fired x y i b s) (k : Nat) : Fired x y i b (s.1.store k (some NewFlameCell), s.2) :=
  ⟨h.1.nla_store_flame_any k, h.2⟩

theorem Intact.intact_store_other {x y : Int} {i : Nat} {b : BombCell} {s : Traced}
    (h : Intact x y i b s) (k : Nat) (hk : k ≠ i) (v : Option Cell) :
    Intact x y i b (s.1.store k v, s.2) := by
  refine ⟨?_, h.2⟩
  simp only
  rw [Map.store_get_other s.1 k i _ hk]
  exact h.1

/-- One call of the recording `f` keeps the count of the calls rooted at
`(x, y)`: none while the bomb lies intact, one once it has fired. -/
theorem Explosion.fT_counts {x y : Int} {i0 : Nat} {b : BombCell}
    (hlive : b.HasExpired = false)
    {rec : Traced → BombCell → Int → Int → Outcome Traced} (hrec : CountsCalls x y i0 b rec)
    {s : Traced} {fx fy : Int} {s' : Traced} {bb : Bool} (hA : s.1.At x y = some i0)
    (h : Explosion.fT rec s fx fy = Outcome.done (s', bb)) :
    s'.1.At x y = some i0 ∧
      ((Intact x y i0 b s ∨ Fired x y i0 b s) → (Intact x y i0 b s' ∨ Fired x y i0 b s')) ∧
      (Fired x y i0 b s → Fired x y i0 b s') := by
  obtain ⟨i, w, hAi, hw, hcase⟩ := Explosion.fT_done h
  rcases hcase with ⟨-, hs', -⟩ | ⟨hsoft, hs', -⟩ | ⟨bc, s1, hwb, hl, hr, hs', -⟩ |
    ⟨-, hnl, hs', -⟩
  · rw [hs']
    exact ⟨hA, fun h => h, fun h => h⟩
  · rw [hs']
    refine ⟨hA, ?_, fun hf => hf.fired_store_flame_any i⟩
    rintro (hi | hf)
    · left
      apply hi.intact_store_other
      intro hii
      subst hii
      rw [hi.1, hsoft] at hw
      simp at hw
    · exact Or.inr (hf.fired_store_flame_any i)
  · obtain ⟨hA1, hsame, hother⟩ := hrec s bc fx fy s1 hA hr
    rw [hs']
    refine ⟨hA1, ?_, ?_⟩
    · rintro (hi | hf)
      · by_cases hii : i = i0
        · subst hii
          have e := Map.At_inj hAi hA
          have hbc : bc = b := by
            have := hi.1
            rw [hw, hwb] at this
            injection this with this
            injection this with this
            injection this with this
          subst hbc
          exact Or.inr ((hsame (Prod.ext e.1 e.2) hi.2 rfl).fired_store_flame_any i)
        · have hne : (fx, fy) ≠ (x, y) := by
            intro he
            injection he with e1 e2
            subst e1
            subst e2
            rw [hA] at hAi
            injection hAi with hAi
            exact hii hAi.symm
          rcases (hother hne).1 (Or.inl hi) with h1 | h1
          · exact Or.inl (h1.intact_store_other i hii _)
          · exact Or.inr (h1.fired_store_flame_any i)
      · by_cases hii : i = i0
        · subst hii
          have := hf.1 _ hw
          rw [hwb] at this
          simp [IsLiveBomb, hl] at this
        · have hne : (fx, fy) ≠ (x, y) := by
            intro he
            injection he with e1 e2
            subst e1
            subst e2
            rw [hA] at hAi
            injection hAi with hAi
            exact hii hAi.symm
          exact Or.inr (((hother hne).2 hf).fired_store_flame_any i)
    · intro hf
      by_cases hii : i = i0
      · subst hii
        have := hf.1 _ hw
        rw [hwb] at this
        simp [IsLiveBomb, hl] at this
      · have hne : (fx, fy) ≠ (x, y) := by
          intro he
          injection he with e1 e2
          subst e1
          subst e2
          rw [hA] at hAi
          injection hAi with hAi
          exact hii hAi.symm
        exact ((hother hne).2 hf).fired_store_flame_any i
  · rw [hs']
    refine ⟨hA, ?_, fun hf => hf.fired_store_flame_any i⟩
    rintro (hi | hf)
    · left
      apply hi.intact_store_other
      intro hii
      subst hii
      have := hi.1
      rw [hw] at this
      injection this with this
      rw [this] at hnl
      simp [IsLiveBomb, hlive] at hnl
    · exact Or.inr (hf.fired_store_flame_any i)

theorem Explosion.walkT_counts {x y : Int} {i0 : Nat} {b : BombCell}
    (hlive : b.HasExpired = false)
    {rec : Traced → BombCell → Int → Int → Outcome Traced} (hrec : CountsCalls x y i0 b rec)
    (coord : Int → Int × Int) (n : Nat) :
    ∀ (i : Int) (s s' : Traced), s.1.At x y = some i0 →
      Explosion.walkT rec coord n i s = Outcome.done s' →
      s'.1.At x y = some i0 ∧
        ((Intact x y i0 b s ∨ Fired x y i0 b s) → (Intact x y i0 b s' ∨ Fired x y i0 b s')) ∧
        (Fired x y i0 b s → Fired x y i0 b s') := by
  induction n with
  | zero =>
    intro i s s' hA h
    unfold Explosion.walkT at h
    injection h with h
    rw [← h]
    exact ⟨hA, fun h => h, fun h => h⟩
  | succ n ih =>
    intro i s s' hA h
    obtain ⟨s1, bb, hf, hc⟩ := Explosion.walkT_done h
    obtain ⟨hA1, h1, h2⟩ := Explosion.fT_counts hlive hrec hA hf
    rcases hc with ⟨-, rfl⟩ | ⟨-, hw⟩
    · exact ⟨hA1, h1, h2⟩
    · obtain ⟨hA2, h3, h4⟩ := ih (i + 1) s1 s' hA1 hw
      exact ⟨hA2, fun h => h3 (h1 h), fun h => h4 (h2 h)⟩

theorem NotLiveAt.markExpired_at {m : Map} {x y : Int} {i : Nat} (hA : m.At x y = some i) :
    NotLiveAt (m.markExpired x y) i := by
  unfold Map.markExpired
  rw [hA]
  simp only
  cases hC : m.Cells[i]? with
  | none =>
    intro w hw
    rw [hC] at hw
    cases hw
  | some v =>
    cases v with
    | none =>
      intro w hw
      simp only at hw
      rw [hC] at hw
      injection hw with hw
      rw [← hw]
      rfl
    | some cell =>
      cases cell with
      | Bomb c => exact NotLiveAt.of_store _ (by simp [IsLiveBomb, BombCell.HasExpired])
      | Wall =>
        intro w hw
        simp only at hw
        rw [hC] at hw
        injection hw with hw
        rw [← hw]
        rfl
      | Soft =>
        intro w hw
        simp only at hw
        rw [hC] at hw
        injection hw with hw
        rw [← hw]
        rfl
      | Flame f =>
        intro w hw
        simp only at hw
        rw [hC] at hw
        injection hw with hw
        rw [← hw]
        rfl

theorem NotLiveAt.markExpired_any {m : Map} {i : Nat} (h : NotLiveAt m i) (x y : Int) :
    NotLiveAt (m.markExpired x y) i := by
  rcases Map.markExpired_cases m x y with e | ⟨k, c, -, -, e⟩
  · rw [e]
    exact h
  · rw [e]
    by_cases hk : k = i
    · subst hk
      exact NotLiveAt.of_store _ (by simp [IsLiveBomb, BombCell.HasExpired])
    · intro w hw
      rw [Map.store_get_other m k i _ hk] at hw
      exact h w hw

/-- The body of the recording `Map.Explosion` counts the calls rooted at
`(x, y)` when its recursive call does. -/
theorem Explosion.bodyT_counts {x y : Int} {i0 : Nat} {b : BombCell}
    (hlive : b.HasExpired = false)
    {rec : Traced → BombCell → Int → Int → Outcome Traced} (hrec : CountsCalls x y i0 b rec) :
    CountsCalls x y i0 b (Explosion.bodyT rec) := by
  intro s c x' y' s' hA h
  unfold Explosion.bodyT at h
  rw [Outcome.bind_eq_done] at h
  obtain ⟨s1, h1, h⟩ := h
  rw [Outcome.bind_eq_done] at h
  obtain ⟨s2, h2, h⟩ := h
  rw [Outcome.bind_eq_done] at h
  obtain ⟨s3, h3, h4⟩ := h
  have hA0 : (s.1.markExpired x' y', s.2 ++ [(x', y', c.power)]).1.At x y = some i0 := by
    simp only
    rw [(Frame.markExpired s.1 x' y').1.At]
    exact hA
  obtain ⟨a1, p1, q1⟩ := Explosion.walkT_counts hlive hrec _ _ 0 _ s1 hA0 h1
  obtain ⟨a2, p2, q2⟩ := Explosion.walkT_counts hlive hrec _ _ 0 _ s2 a1 h2
  obtain ⟨a3, p3, q3⟩ := Explosion.walkT_counts hlive hrec _ _ 0 _ s3 a2 h3
  obtain ⟨a4, p4, q4⟩ := Explosion.walkT_counts hlive hrec _ _ 0 _ s' a3 h4
  refine ⟨a4, ?_, ?_⟩
  · intro he hh hp
    injection he with e1 e2
    subst e1
    subst e2
    apply q4
    apply q3
    apply q2
    apply q1
    refine ⟨NotLiveAt.markExpired_at hA, ?_⟩
    simp only
    rw [hitsAt_append_self, hh, hp]
    rfl
  · intro hne
    have hmark : ∀ k c', s.1.At x' y' = some k → s.1.Cells[k]? = some (some (Cell.Bomb c')) →
        k ≠ i0 := by
      intro k c' hk _ hki
      subst hki
      have e := Map.At_inj hk hA
      exact hne (Prod.ext e.1 e.2)
    have hfired : Fired x y i0 b s →
        Fired x y i0 b (s.1.markExpired x' y', s.2 ++ [(x', y', c.power)]) := by
      intro hf
      refine ⟨hf.1.markExpired_any x' y', ?_⟩
      simp only
      rw [hitsAt_append_other x y x' y' c.power s.2 hne]
      exact hf.2
    constructor
    · intro hs
      apply p4
      apply p3
      apply p2
      apply p1
      rcases hs with hi | hf
      · left
        refine ⟨?_, ?_⟩
        · simp only
          rcases Map.markExpired_cases s.1 x' y' with e | ⟨k, c', hk, hkc, e⟩
          · rw [e]
            exact hi.1
          · rw [e, Map.store_get_other s.1 k i0 _ (hmark k c' hk hkc)]
            exact hi.1
        · simp only
          rw [hitsAt_append_other x y x' y' c.power s.2 hne]
          exact hi.2
      · exact Or.inr (hfired hf)
    · intro hf
      exact q4 (q3 (q2 (q1 (hfired hf))))

/-- The recording `Map.Explosion` counts the calls rooted at `(x, y)`: the
call rooted there leaves exactly one record, with the bomb's power, and the
calls rooted elsewhere add one exactly when they reach the intact bomb. -/
theorem Explosion.runT_counts {x y : Int} {i0 : Nat} {b : BombCell}
    (hlive : b.HasExpired = false) (fuel : Nat) : CountsCalls x y i0 b (Explosion.runT fuel) := by
  induction fuel with
  | zero =>
    intro s c x' y' s' _ h
    cases h
  | succ fuel ih => exact Explosion.bodyT_counts hlive ih

theorem Fired.fired_store_other {x y : Int} {i : Nat} {b : BombCell} {s : Traced}
    (h : Fired x y i b s) (k : Nat) (hk : k ≠ i) (v : Option Cell) :
    Fired x y i b (s.1.store k v, s.2) := by
  refine ⟨?_, h.2⟩
  intro w hw
  simp only at hw
  rw [Map.store_get_other s.1 k i _ hk] at hw
  exact h.1 w hw

theorem Fired.store_notLive {x y : Int} {i : Nat} {b : BombCell} {s : Traced}
    (h : Fired x y i b s) (k : Nat) (v : Option Cell) (hv : IsLiveBomb v = false) :
    Fired x y i b (s.1.store k v, s.2) := by
  by_cases hk : k = i
  · subst hk
    exact ⟨NotLiveAt.of_store v hv, h.2⟩
  · exact h.fired_store_other k hk v

/-- The recording `Update` of the cell of a slot keeps the count of the calls
rooted at `(x, y)`; the `Update` of the intact bomb with one frame left makes
the one call. -/
theorem Cell.tickT_counts {x y : Int} {i0 : Nat} {b : BombCell}
    (hlive : b.HasExpired = false) (cell : Cell) (px py : Int) (i : Nat) (s s' : Traced)
    (hA : s.1.At x y = some i0) (hAi : s.1.At px py = some i)
    (hC : s.1.Cells[i]? = some (some cell)) (h : cell.UpdateT px py i s = Outcome.done s') :
    s'.1.At x y = some i0 ∧
      (Fired x y i0 b s → Fired x y i0 b s') ∧
      (i ≠ i0 → (Intact x y i0 b s ∨ Fired x y i0 b s) →
        (Intact x y i0 b s' ∨ Fired x y i0 b s')) ∧
      (i = i0 → b.framesToExplosion = 1 → (Intact x y i0 b s ∨ Fired x y i0 b s) →
        Fired x y i0 b s') := by
  have hsame : ∀ k, i = k → k = i0 → (px, py) = (x, y) := by
    intro k h1 h2
    subst h1
    subst h2
    have e := Map.At_inj hAi hA
    exact Prod.ext e.1 e.2
  have hdiff : i ≠ i0 → (px, py) ≠ (x, y) := by
    intro hne he
    injection he with e1 e2
    subst e1
    subst e2
    rw [hA] at hAi
    injection hAi with hAi
    exact hne hAi.symm
  cases cell with
  | Wall =>
    simp only [Cell.UpdateT] at h
    injection h with h
    subst h
    refine ⟨hA, fun h => h, fun _ h => h, ?_⟩
    rintro hi - (hint | hf)
    · subst hi
      have := hint.1
      rw [hC] at this
      simp at this
    · exact hf
  | Soft =>
    simp only [Cell.UpdateT] at h
    injection h with h
    subst h
    refine ⟨hA, fun h => h, fun _ h => h, ?_⟩
    rintro hi - (hint | hf)
    · subst hi
      have := hint.1
      rw [hC] at this
      simp at this
    · exact hf
  | Flame f =>
    simp only [Cell.UpdateT] at h
    injection h with h
    subst h
    refine ⟨hA, fun hf => hf.store_notLive i _ rfl, ?_, ?_⟩
    · rintro hi (hint | hf)
      · exact Or.inl (hint.intact_store_other i hi _)
      · exact Or.inr (hf.store_notLive i _ rfl)
    · rintro hi - (hint | hf)
      · subst hi
        have := hint.1
        rw [hC] at this
        simp at this
      · exact hf.store_notLive i _ rfl
  | Bomb c =>
    simp only [Cell.UpdateT] at h
    have hexp : ∀ (hf : Fired x y i0 b s), i = i0 → c.framesToExplosion ≤ 0 := by
      intro hf hi
      subst hi
      have := hf.1 _ hC
      simpa [IsLiveBomb, BombCell.HasExpired] using this
    split_ifs at h with h0
    · -- the counter reached 0: the bomb explodes
      have hA' : (s.1.store i (some (Cell.Bomb
          { c with framesToExplosion := c.framesToExplosion - 1 })), s.2).1.At x y = some i0 := hA
      obtain ⟨hA1, hat, hoff⟩ := Explosion.runT_counts hlive _ _ _ px py s' hA' h
      refine ⟨hA1, ?_, ?_, ?_⟩
      · intro hf
        by_cases hi : i = i0
        · have := hexp hf hi
          omega
        · exact (hoff (hdiff hi)).2 (hf.fired_store_other i hi _)
      · rintro hi (hint | hf)
        · exact (hoff (hdiff hi)).1 (Or.inl (hint.intact_store_other i hi _))
        · exact (hoff (hdiff hi)).1 (Or.inr (hf.fired_store_other i hi _))
      · rintro hi - (hint | hf)
        · have hcb : c = b := by
            subst hi
            have := hint.1
            rw [hC] at this
            injection this with this
            injection this with this
            injection this with this
          subst hcb
          exact hat (hsame i rfl hi) hint.2 rfl
        · have := hexp hf hi
          omega
    · injection h with h
      subst h
      refine ⟨hA, ?_, ?_, ?_⟩
      · intro hf
        by_cases hi : i = i0
        · have := hexp hf hi
          apply hf.store_notLive
          simp only [IsLiveBomb, BombCell.HasExpired, Bool.not_eq_false', decide_eq_true_eq]
          omega
        · exact hf.fired_store_other i hi _
      · rintro hi (hint | hf)
        · exact Or.inl (hint.intact_store_other i hi _)
        · exact Or.inr (hf.fired_store_other i hi _)
      · rintro hi hb1 (hint | hf)
        · have hcb : c = b := by
            subst hi
            have := hint.1
            rw [hC] at this
            injection this with this
            injection this with this
            injection this with this
          subst hcb
          omega
        · have := hexp hf hi
          apply hf.store_notLive
          simp only [IsLiveBomb, BombCell.HasExpired, Bool.not_eq_false', decide_eq_true_eq]
          omega

/-- The loop of the recording `Map.Update` over a grid in which the bomb `b`
at `(x, y)` has one frame left records exactly one call of `Map.Explosion`
rooted at `(x, y)`, with the power of `b`. -/
theorem Map.UpdateT_counts (m : Map) (b : BombCell) (x y : Int) (i0 : Nat)
    (hA0 : m.At x y = some i0) (hs0 : m.Cells[i0]? = some (some (Cell.Bomb b)))
    (hframes : b.framesToExplosion = 1) (s' : Traced)
    (h : ForEach (fun s : Traced => s.1) (fun x y i cell s => cell.UpdateT x y i s) m.coords
      (m, []) = Outcome.done s') :
    hitsAt x y s'.2 = [(x, y, b.power)] := by
  have hlive : b.HasExpired = false := by
    simp only [BombCell.HasExpired, decide_eq_false_iff_not]
    omega
  obtain ⟨pre, post, hsplit⟩ := List.append_of_mem (Map.mem_coords_of_At hA0)
  have hpw := m.coords_pairwise
  rw [hsplit, List.pairwise_append, List.pairwise_cons] at hpw
  obtain ⟨-, ⟨hafter, -⟩, hbefore⟩ := hpw
  rw [hsplit, ForEach_append, Outcome.bind_eq_done] at h
  obtain ⟨spre, hl1, hl2⟩ := h
  -- before the bomb's slot is visited
  obtain ⟨hApre, hpre⟩ := ForEach_invariant_mem (fun s : Traced => s.1)
    (fun x y i cell s => cell.UpdateT x y i s)
    (fun t => t.1.At x y = some i0 ∧ (Intact x y i0 b t ∨ Fired x y i0 b t)) pre
    (fun px py i cell t t' hmem ht hAt hC hu => by
      have hi : i ≠ i0 := by
        intro hi
        subst hi
        have e := Map.At_inj hAt ht.1
        exact (hbefore (px, py) hmem (x, y) (List.mem_cons_self _ _)).ne (Prod.ext e.1 e.2)
      obtain ⟨a, -, c, -⟩ := Cell.tickT_counts hlive cell px py i t t' ht.1 hAt hC hu
      exact ⟨a, c hi ht.2⟩)
    (m, []) spre ⟨hA0, Or.inl ⟨hs0, rfl⟩⟩ hl1
  -- the visit of the bomb's slot
  have hvisit : ∃ sv : Traced, sv.1.At x y = some i0 ∧ Fired x y i0 b sv ∧
      ForEach (fun s : Traced => s.1) (fun x y i cell s => cell.UpdateT x y i s) post sv =
        Outcome.done s' := by
    unfold ForEach at hl2
    rw [hApre] at hl2
    simp only at hl2
    cases hC : spre.1.Cells[i0]? with
    | none => rw [hC] at hl2; cases hl2
    | some w =>
      rw [hC] at hl2
      cases w with
      | none =>
        simp only at hl2
        refine ⟨spre, hApre, ?_, hl2⟩
        rcases hpre with hint | hf
        · have := hint.1
          rw [hC] at this
          simp at this
        · exact hf
      | some cell =>
        simp only at hl2
        rw [Outcome.bind_eq_done] at hl2
        obtain ⟨sv, hu, hl3⟩ := hl2
        obtain ⟨a, -, -, d⟩ := Cell.tickT_counts hlive cell x y i0 spre sv hApre hApre hC hu
        exact ⟨sv, a, d rfl hframes hpre, hl3⟩
  obtain ⟨sv, hAv, hfv, hl3⟩ := hvisit
  -- after it
  obtain ⟨-, hpost⟩ := ForEach_invariant (fun s : Traced => s.1)
    (fun x y i cell s => cell.UpdateT x y i s)
    (fun t => t.1.At x y = some i0 ∧ Fired x y i0 b t)
    (fun px py i cell t t' ht hAt hC hu => by
      obtain ⟨a, c, -, -⟩ := Cell.tickT_counts hlive cell px py i t t' ht.1 hAt hC hu
      exact ⟨a, c ht.2⟩)
    post sv s' ⟨hAv, hfv⟩ hl3
  exact hpost.2

/-- The well-formed grid `Example.tickGrid` has a border of walls. -/
theorem Example.tickGrid_bordered : Example.tickGrid.WF ∧ Example.tickGrid.Bordered := by
  refine ⟨⟨by decide, by decide, by decide⟩, ?_⟩
  intro x y i hA hb
  rw [Map.At_eq_some] at hA
  obtain ⟨h1, h2, h3, h4, rfl⟩ := hA
  simp only [Example.tickGrid] at h2 h4 hb ⊢
  interval_cases x <;> interval_cases y <;> first | omega | rfl

/-- The well-formed grid `Example.chainGrid` has a border of walls. -/
theorem Example.chainGrid_bordered : Example.chainGrid.WF ∧ Example.chainGrid.Bordered := by
  refine ⟨⟨by decide, by decide, by decide⟩, ?_⟩
  intro x y i hA hb
  rw [Map.At_eq_some] at hA
  obtain ⟨h1, h2, h3, h4, rfl⟩ := hA
  simp only [Example.chainGrid] at h2 h4 hb ⊢
  interval_cases x <;> interval_cases y <;> first | omega | rfl

/-! ## C11: placing a bomb -/

/-- What `Game.PutBomb` does on a well-formed grid with a non-zero cell
length. -/
theorem Game.PutBomb_spec (g : Game) (p : CharPtr) (hwf : g.Map.WF)
    (hlen : g.Map.CellLength ≠ 0) :
    ∃ g' b, g.PutBomb p = Outcome.done (g', b) ∧
      (b = true ↔ g.Map.slot g.centre.1 g.centre.2 = some none) ∧
      (b = true →
        g'.Player = g.Player ∧ SameShape g.Map g'.Map ∧
        g'.Map.slot g.centre.1 g.centre.2 = some (some (Cell.Bomb
          { framesToExplosion := 180, power := 3, putter := some p })) ∧
        ∀ k : Nat, g.Map.At g.centre.1 g.centre.2 ≠ some k →
          g'.Map.Cells[k]? = g.Map.Cells[k]?) ∧
      (b = false → g' = g) := by
  unfold Game.PutBomb Map.AtPos
  rw [if_neg hlen]
  simp only [Game.centre, Map.slot]
  cases hA : g.Map.At ((g.Player.X + g.Player.Length.tdiv 2).tdiv g.Map.CellLength)
      ((g.Player.Y + g.Player.Length.tdiv 2).tdiv g.Map.CellLength) with
  | none =>
    refine ⟨g, false, rfl, ?_, ?_, fun _ => rfl⟩
    · simp
    · intro h
      cases h
  | some i =>
    simp only
    obtain ⟨v, hv⟩ := Map.get_of_At hwf hA
    rw [hv]
    cases v with
    | none =>
      refine ⟨_, true, rfl, ?_, ?_, ?_⟩
      · simp
      · intro _
        refine ⟨rfl, SameShape.sstore _ _ _, ?_, ?_⟩
        · simp only [Map.At_store, hA]
          exact Map.store_get_self_of_some g.Map i _ _ hv
        · intro k hk
          apply Map.store_get_other
          intro e
          exact hk (by rw [e])
      · intro h
        cases h
    | some cell =>
      refine ⟨g, false, rfl, ?_, ?_, fun _ => rfl⟩
      · simp
      · intro h
        cases h

/-- Go's division by a positive cell length maps a non-negative pixel
coordinate to the cell whose span contains it. -/
theorem tdiv_cell_contains (a L : Int) (ha : 0 ≤ a) (hL : 0 < L) :
    a.tdiv L * L ≤ a ∧ a < (a.tdiv L + 1) * L := by
  rw [Int.tdiv_eq_ediv ha (le_of_lt hL)]
  constructor
  · exact Int.ediv_mul_le a (ne_of_gt hL)
  · exact Int.lt_ediv_add_one_mul_self a hL

/-- C11: on a well-formed grid with a non-zero cell length `Game.PutBomb`
returns; it returns true exactly when the slot at the player's centre
(`X + Length/2`, `Y + Length/2`, each divided by `CellLength`) exists and is
empty.  When it returns true that slot holds a bomb with 180 frames, power 3
and the given owner, the player, the shape of the grid and every other slot
are unchanged; when it returns false the game is unchanged.  For a centre with
non-negative coordinates and a positive cell length the slot looked up is the
one whose span contains the centre. -/
theorem PutBomb_iff_centre_slot_empty (g : Game) (p : CharPtr) (hwf : g.Map.WF)
    (hlen : g.Map.CellLength ≠ 0) :
    (∃ g' b, g.PutBomb p = Outcome.done (g', b) ∧
      (b = true ↔ g.Map.slot g.centre.1 g.centre.2 = some none) ∧
      (b = true →
        g'.Player = g.Player ∧ SameShape g.Map g'.Map ∧
        g'.Map.slot g.centre.1 g.centre.2 = some (some (Cell.Bomb
          { framesToExplosion := 180, power := 3, putter := some p })) ∧
        ∀ k : Nat, g.Map.At g.centre.1 g.centre.2 ≠ some k →
          g'.Map.Cells[k]? = g.Map.Cells[k]?) ∧
      (b = false → g' = g)) ∧
    (0 < g.Map.CellLength → 0 ≤ g.Player.X + g.Player.Length.tdiv 2 →
      0 ≤ g.Player.Y + g.Player.Length.tdiv 2 →
      (g.centre.1 * g.Map.CellLength ≤ g.Player.X + g.Player.Length.tdiv 2 ∧
        g.Player.X + g.Player.Length.tdiv 2 < (g.centre.1 + 1) * g.Map.CellLength) ∧
      (g.centre.2 * g.Map.CellLength ≤ g.Player.Y + g.Player.Length.tdiv 2 ∧
        g.Player.Y + g.Player.Length.tdiv 2 < (g.centre.2 + 1) * g.Map.CellLength)) :=
  ⟨Game.PutBomb_spec g p hwf hlen, fun hL hx hy =>
    ⟨tdiv_cell_contains _ _ hx hL, tdiv_cell_contains _ _ hy hL⟩⟩

/-- Witness of C11: in `Example.putGame` the centre is in the empty slot (2,1)
and `PutBomb` returns true with the new bomb there; called again on the
result, it returns false and changes nothing. -/
theorem PutBomb_iff_centre_slot_empty_witness :
    Example.putGame.centre = (2, 1) ∧
      Example.putGame.PutBomb 7 = Outcome.done (Example.putGameAfter, true) ∧
      Example.putGameAfter.PutBomb 7 = Outcome.done (Example.putGameAfter, false) ∧
      ∃ g' b, Example.putGame.PutBomb 7 = Outcome.done (g', b) ∧
        (b = true ↔
          Example.putGame.Map.slot Example.putGame.centre.1 Example.putGame.centre.2 =
            some none) ∧
        (b = true →
          g'.Player = Example.putGame.Player ∧ SameShape Example.putGame.Map g'.Map ∧
          g'.Map.slot Example.putGame.centre.1 Example.putGame.centre.2 =
            some (some (Cell.Bomb
              { framesToExplosion := 180, power := 3, putter := some 7 })) ∧
          ∀ k : Nat,
            Example.putGame.Map.At Example.putGame.centre.1 Example.putGame.centre.2 ≠
              some k →
            g'.Map.Cells[k]? = Example.putGame.Map.Cells[k]?) ∧
        (b = false → g' = Example.putGame) :=
  ⟨by decide, by decide, by decide,
    (PutBomb_iff_centre_slot_empty Example.putGame 7 Example.tickGrid_bordered.1
      (by decide)).1⟩

/-! ## One pass of position correction -/

theorem Pass.ext_locals {s t : Pass} (hm : s.map = t.map) (hl : s.locals = t.locals) :
    s = t := by
  cases s
  cases t
  simp only [Pass.locals, Prod.mk.injEq] at hl
  simp only at hm
  obtain ⟨h1, h2, h3⟩ := hl
  subst hm h1 h2 h3
  rfl

/-- The callback of `Map.PositionCorrection` on the cell of slot `i`: it
settles the slot, and on a solid overlapping cell it updates the locals. -/
theorem PositionCorrection.fn_eq (cp : CharPtr) (c : Character) (x y : Int) (i : Nat)
    (cell : Cell) (s : Pass) (hs : s.map.Cells[i]? = some (some cell)) :
    ∃ s', PositionCorrection.fn cp c x y i cell s = Outcome.done s' ∧
      s'.map = s.map.store i (settle cp (s.map.overlaps c x y) (some cell)) ∧
      s'.locals = if (IsSolidFor cp (some cell) && s.map.overlaps c x y) = true
        then choose s.locals (s.map.overlap c x y) else s.locals := by
  obtain ⟨s', h⟩ := PositionCorrection.fn_total cp c x y i cell s
  refine ⟨s', h, ?_⟩
  cases cell with
  | Flame f =>
    simp only [PositionCorrection.fn, Cell.Type] at h
    simp only [ne_eq, not_false_eq_true, and_self, if_true, reduceCtorEq] at h
    injection h with h
    subst h
    constructor
    · simp only [settle]
      rw [Map.store_self _ _ _ hs]
    · simp [IsSolidFor]
  | Wall =>
    simp only [PositionCorrection.fn, Cell.Type, PositionCorrection.ownBomb, ne_eq,
      not_true_eq_false, false_and, and_false, if_false, reduceCtorEq, not_false_eq_true,
      decide_eq_true_eq] at h
    simp only [Map.overlaps, Map.overlap, settle, IsSolidFor, choose, depth, push, Pass.locals,
      Bool.true_and, decide_eq_true_eq]
    rw [Map.store_self _ _ _ hs]
    generalize CollideRect c.X c.Y c.Length c.Length (x * s.map.CellLength)
      (y * s.map.CellLength) s.map.CellLength s.map.CellLength = v at h ⊢
    split_ifs at h with h1 h2 h3 <;> injection h with h <;> subst h <;> simp [*]
  | Soft =>
    simp only [PositionCorrection.fn, Cell.Type, PositionCorrection.ownBomb, ne_eq,
      not_true_eq_false, false_and, and_false, if_false, reduceCtorEq, not_false_eq_true,
      decide_eq_true_eq] at h
    simp only [Map.overlaps, Map.overlap, settle, IsSolidFor, choose, depth, push, Pass.locals,
      Bool.true_and, decide_eq_true_eq]
    rw [Map.store_self _ _ _ hs]
    generalize CollideRect c.X c.Y c.Length c.Length (x * s.map.CellLength)
      (y * s.map.CellLength) s.map.CellLength s.map.CellLength = v at h ⊢
    split_ifs at h with h1 h2 h3 <;> injection h with h <;> subst h <;> simp [*]
  | Bomb b =>
    simp only [PositionCorrection.fn, Cell.Type, PositionCorrection.ownBomb, ne_eq,
      not_true_eq_false, false_and, and_false, if_false, reduceCtorEq, not_false_eq_true,
      decide_eq_true_eq] at h
    simp only [Map.overlaps, Map.overlap, settle, IsSolidFor, choose, depth, push, Pass.locals,
      decide_eq_true_eq, decide_eq_false_iff_not, Bool.and_eq_true, ne_eq]
    by_cases hp : b.putter = some cp
    · simp only [hp, if_true] at h
      generalize CollideRect c.X c.Y c.Length c.Length (x * s.map.CellLength)
        (y * s.map.CellLength) s.map.CellLength s.map.CellLength = v at h ⊢
      split_ifs at h with h1 <;> injection h with h <;> subst h
      · simp only [hp, h1, not_true_eq_false, and_false, if_false, false_and]
        rw [if_neg (by simp), Map.store_self _ _ _ hs]
        simp
      · simp [hp, h1]
    · simp only [hp, if_false] at h
      generalize CollideRect c.X c.Y c.Length c.Length (x * s.map.CellLength)
        (y * s.map.CellLength) s.map.CellLength s.map.CellLength = v at h ⊢
      simp only [hp, false_and, if_false, not_false_eq_true, true_and]
      rw [Map.store_self _ _ _ hs]
      split_ifs at h with h2 h3 h4 <;> injection h with h <;> subst h <;> simp [*]

theorem SameShape.overlap {m n : Map} (h : SameShape m n) (c : Character) (x y : Int) :
    n.overlap c x y = m.overlap c x y := by
  unfold Map.overlap
  rw [h.1]

theorem SameShape.overlaps {m n : Map} (h : SameShape m n) (c : Character) (x y : Int) :
    n.overlaps c x y = m.overlaps c x y := by
  unfold Map.overlaps
  rw [h.overlap]

theorem Map.hit_of_get {m : Map} {x y : Int} {i : Nat} {v : Option Cell} (cp : CharPtr)
    (c : Character) (hA : m.At x y = some i) (hv : m.Cells[i]? = some v) :
    m.hit cp c (x, y) = (IsSolidFor cp v && m.overlaps c x y) := by
  simp only [Map.hit, Map.slot, hA, hv]

/-- The loop of one pass over the coordinates `cs`, from a state whose grid
agrees with `m` on the slots still to visit: it returns, the locals are
updated with the overlapping solid cells of `cs` in order, every visited slot
is settled and the others are left alone. -/
theorem PositionCorrection.loop_spec (cp : CharPtr) (c : Character) (m : Map) (hwf : m.WF)
    (cs : List (Int × Int)) :
    cs.Pairwise Before → (∀ p ∈ cs, p ∈ m.coords) → ∀ s : Pass, SameShape m s.map →
      (∀ p ∈ cs, ∀ k : Nat, m.At p.1 p.2 = some k → s.map.Cells[k]? = m.Cells[k]?) →
      ∃ s', ForEach Pass.map (PositionCorrection.fn cp c) cs s = Outcome.done s' ∧
        SameShape m s'.map ∧
        s'.locals = (cs.filter (m.hit cp c)).foldl
          (fun acc p => choose acc (m.overlap c p.1 p.2)) s.locals ∧
        (∀ p ∈ cs, ∀ k : Nat, m.At p.1 p.2 = some k →
          s'.map.Cells[k]? = (m.Cells[k]?).map (settle cp (m.overlaps c p.1 p.2))) ∧
        (∀ k : Nat, (¬ ∃ p ∈ cs, m.At p.1 p.2 = some k) → s'.map.Cells[k]? = s.map.Cells[k]?) := by
  induction cs with
  | nil =>
    intro _ _ s hsh _
    refine ⟨s, rfl, hsh, rfl, ?_, fun _ _ => rfl⟩
    intro p hp
    cases hp
  | cons p cs ih =>
    intro hpw hin s hsh hagree
    obtain ⟨x, y⟩ := p
    rw [List.pairwise_cons] at hpw
    obtain ⟨hfirst, hpw⟩ := hpw
    have hxy := (Map.mem_coords m (x, y)).1 (hin (x, y) (List.mem_cons_self _ _))
    obtain ⟨i, hA⟩ : ∃ i, m.At x y = some i := by
      cases h : m.At x y with
      | none =>
        rw [Map.At_eq_none] at h
        simp only at hxy
        omega
      | some i => exact ⟨i, rfl⟩
    obtain ⟨v, hv⟩ := Map.get_of_At hwf hA
    have hAs : s.map.At x y = some i := by rw [hsh.At]; exact hA
    have hvs : s.map.Cells[i]? = some v := by
      rw [hagree (x, y) (List.mem_cons_self _ _) i hA]
      exact hv
    have hother : ∀ q ∈ cs, ∀ k : Nat, m.At q.1 q.2 = some k → k ≠ i := by
      intro q hq k hk hki
      subst hki
      have := Map.At_inj hA hk
      exact (hfirst q hq).ne (Prod.ext this.1 this.2)
    -- the state after the visit of `(x, y)`
    obtain ⟨s1, hstep, hmap1, hloc1⟩ : ∃ s1,
        ForEach Pass.map (PositionCorrection.fn cp c) ((x, y) :: cs) s =
          ForEach Pass.map (PositionCorrection.fn cp c) cs s1 ∧
        s1.map = s.map.store i (settle cp (m.overlaps c x y) v) ∧
        s1.locals = if m.hit cp c (x, y) = true then choose s.locals (m.overlap c x y)
          else s.locals := by
      cases v with
      | none =>
        refine ⟨s, ?_, ?_, ?_⟩
        · conv => lhs; unfold ForEach
          simp only [hAs, hvs]
        · simp only [settle]
          rw [Map.store_self _ _ _ hvs]
        · rw [Map.hit_of_get cp c hA hv]
          simp [IsSolidFor]
      | some cell =>
        obtain ⟨s1, h1, h2, h3⟩ := PositionCorrection.fn_eq cp c x y i cell s hvs
        refine ⟨s1, ?_, ?_, ?_⟩
        · conv => lhs; unfold ForEach
          simp only [hAs, hvs]
          rw [h1]
          rfl
        · rw [h2, hsh.overlaps]
        · rw [h3, hsh.overlaps, hsh.overlap, Map.hit_of_get cp c hA hv]
    have hsh1 : SameShape m s1.map := by
      rw [hmap1]
      exact hsh.strans (SameShape.sstore _ _ _)
    have hget1 : ∀ k : Nat, k ≠ i → s1.map.Cells[k]? = s.map.Cells[k]? := by
      intro k hk
      rw [hmap1]
      exact Map.store_get_other _ i k _ (fun h => hk h.symm)
    obtain ⟨s', hrun, hsh', hloc, hvis, hrest⟩ := ih hpw
      (fun q hq => hin q (List.mem_cons_of_mem _ hq)) s1 hsh1
      (fun q hq k hk => by
        rw [hget1 k (hother q hq k hk)]
        exact hagree q (List.mem_cons_of_mem _ hq) k hk)
    refine ⟨s', by rw [hstep]; exact hrun, hsh', ?_, ?_, ?_⟩
    · rw [hloc, hloc1, List.filter_cons]
      by_cases hh : m.hit cp c (x, y) = true
      · simp only [hh, if_true, List.foldl_cons]
      · simp only [hh, if_false, Bool.false_eq_true]
    · intro q hq k hk
      rcases List.mem_cons.1 hq with rfl | hq'
      · simp only at hk
        rw [hA] at hk
        injection hk with hk
        subst hk
        have hnot : ¬ ∃ q ∈ cs, m.At q.1 q.2 = some i := by
          rintro ⟨q, hq, hk⟩
          exact hother q hq i hk rfl
        rw [hrest i hnot, hmap1, Map.store_get_self_of_some _ i _ _ hvs, hv]
        rfl
      · exact hvis q hq' k hk
    · intro k hnot
      have hne : k ≠ i := by
        intro hki
        subst hki
        exact hnot ⟨(x, y), List.mem_cons_self _ _, hA⟩
      have hnot' : ¬ ∃ q ∈ cs, m.At q.1 q.2 = some k := by
        rintro ⟨q, hq, hk⟩
        exact hnot ⟨q, List.mem_cons_of_mem _ hq, hk⟩
      rw [hrest k hnot', hget1 k hne]

theorem PositionCorrection.passes_succ (cp : CharPtr) (n : Nat) (m : Map) (c : Character) :
    PositionCorrection.passes cp (n + 1) m c =
      (PositionCorrection.pass cp m c).bind fun s =>
        if s.maxIntersection = 0 then Outcome.done (s.map, c.moved s)
        else PositionCorrection.passes cp n s.map (c.moved s) := by
  conv => lhs; unfold PositionCorrection.passes
  unfold PositionCorrection.pass
  cases ForEach Pass.map (PositionCorrection.fn cp c) m.coords
      { map := m, correctX := 0, correctY := 0, maxIntersection := 0 } <;> rfl

/-- One pass on a well-formed grid returns: its locals are those of the
overlapping solid cells in visiting order, and every slot is settled. -/
theorem PositionCorrection.pass_spec (cp : CharPtr) (c : Character) (m : Map) (hwf : m.WF) :
    ∃ s, PositionCorrection.pass cp m c = Outcome.done s ∧ SameShape m s.map ∧
      s.locals = (m.coords.filter (m.hit cp c)).foldl
        (fun acc p => choose acc (m.overlap c p.1 p.2)) (0, 0, 0) ∧
      ∀ (x y : Int) (k : Nat), m.At x y = some k →
        s.map.Cells[k]? = (m.Cells[k]?).map (settle cp (m.overlaps c x y)) := by
  obtain ⟨s, h1, h2, h3, h4, -⟩ := PositionCorrection.loop_spec cp c m hwf m.coords
    m.coords_pairwise (fun p hp => hp)
    { map := m, correctX := 0, correctY := 0, maxIntersection := 0 } (SameShape.srefl m)
    (fun _ _ _ _ => rfl)
  exact ⟨s, h1, h2, h3, fun x y k hk => h4 (x, y) (Map.mem_coords_of_At hk) k hk⟩

theorem absInt_pos {a : Int} (h : a ≠ 0) : 0 < absInt a := by
  unfold absInt
  split_ifs <;> omega

theorem absInt_nonneg (a : Int) : 0 ≤ absInt a := by
  unfold absInt
  split_ifs <;> omega

/-- The locals after a run of updates with overlaps of positive depth: those
of the first deepest one. -/
theorem choose_foldl {α : Type} (f : α → Int × Int) (l : List α)
    (hpos : ∀ a ∈ l, 0 < depth (f a)) :
    (l = [] ∧ l.foldl (fun acc a => choose acc (f a)) (0, 0, 0) = (0, 0, 0)) ∨
      ∃ l1 a l2, l = l1 ++ a :: l2 ∧
        l.foldl (fun acc a => choose acc (f a)) (0, 0, 0) =
          ((push (f a)).1, (push (f a)).2, depth (f a)) ∧
        (∀ b ∈ l1, depth (f b) < depth (f a)) ∧ ∀ b ∈ l2, depth (f b) ≤ depth (f a) := by
  induction l using List.reverseRecOn with
  | nil => exact Or.inl ⟨rfl, rfl⟩
  | append_singleton l a ih =>
    right
    rw [List.foldl_append]
    simp only [List.foldl_cons, List.foldl_nil]
    have ha := hpos a (by simp)
    rcases ih (fun b hb => hpos b (by simp [hb])) with ⟨rfl, h0⟩ | ⟨l1, a0, l2, rfl, hacc, h1, h2⟩
    · refine ⟨[], a, [], rfl, ?_, by simp, by simp⟩
      rw [h0]
      simp only [choose]
      rw [if_pos ha]
    · rw [hacc]
      by_cases hlt : depth (f a0) < depth (f a)
      · refine ⟨l1 ++ a0 :: l2, a, [], by simp, ?_, ?_, by simp⟩
        · simp only [choose]
          rw [if_pos hlt]
        · intro b hb
          rcases List.mem_append.1 hb with hb | hb
          · exact lt_trans (h1 b hb) hlt
          · rcases List.mem_cons.1 hb with rfl | hb
            · exact hlt
            · exact lt_of_le_of_lt (h2 b hb) hlt
      · refine ⟨l1, a0, l2 ++ [a], by simp, ?_, h1, ?_⟩
        · simp only [choose]
          rw [if_neg hlt]
        · intro b hb
          rcases List.mem_append.1 hb with hb | hb
          · exact h2 b hb
          · simp only [List.mem_singleton] at hb
            subst hb
            omega

theorem Map.depth_pos_of_overlaps {m : Map} {c : Character} {x y : Int}
    (h : m.overlaps c x y = true) : 0 < depth (m.overlap c x y) := by
  simp only [Map.overlaps, decide_eq_true_eq] at h
  unfold depth
  have h1 := absInt_pos h.1
  have h2 := absInt_pos h.2
  omega

theorem Map.overlaps_of_hit {m : Map} {cp : CharPtr} {c : Character} {p : Int × Int}
    (h : m.hit cp c p = true) : m.overlaps c p.1 p.2 = true := by
  unfold Map.hit at h
  cases hs : m.slot p.1 p.2 with
  | none => rw [hs] at h; cases h
  | some v =>
    rw [hs] at h
    simp only [Bool.and_eq_true] at h
    exact h.2

/-- What one pass selects.  On a well-formed grid the pass returns.  When no
solid cell overlaps the character the locals are still 0; otherwise they are
the push and the depth of an overlapping solid cell that is as deep as any
other, and deeper than every one visited before it. -/
theorem PositionCorrection.pass_selects (cp : CharPtr) (c : Character) (m : Map) (hwf : m.WF) :
    ∃ s, PositionCorrection.pass cp m c = Outcome.done s ∧ SameShape m s.map ∧
      (∀ (x y : Int) (k : Nat), m.At x y = some k →
        s.map.Cells[k]? = (m.Cells[k]?).map (settle cp (m.overlaps c x y))) ∧
      ((∀ p ∈ m.coords, m.hit cp c p = false) → s.locals = (0, 0, 0)) ∧
      ((∃ p ∈ m.coords, m.hit cp c p = true) →
        ∃ p ∈ m.coords, m.hit cp c p = true ∧
          s.locals = ((push (m.overlap c p.1 p.2)).1, (push (m.overlap c p.1 p.2)).2,
            depth (m.overlap c p.1 p.2)) ∧
          ∀ q ∈ m.coords, m.hit cp c q = true →
            depth (m.overlap c q.1 q.2) ≤ depth (m.overlap c p.1 p.2) ∧
            (depth (m.overlap c q.1 q.2) = depth (m.overlap c p.1 p.2) →
              q = p ∨ Before p q)) := by
  obtain ⟨s, h1, h2, h3, h4⟩ := PositionCorrection.pass_spec cp c m hwf
  refine ⟨s, h1, h2, h4, ?_, ?_⟩
  · intro hno
    rw [h3]
    have : m.coords.filter (m.hit cp c) = [] := by
      rw [List.filter_eq_nil_iff]
      intro p hp
      rw [hno p hp]
      simp
    rw [this]
    rfl
  · rintro ⟨p0, hp0, hh0⟩
    have hpos : ∀ a ∈ m.coords.filter (m.hit cp c), 0 < depth (m.overlap c a.1 a.2) := by
      intro a ha
      exact Map.depth_pos_of_overlaps (Map.overlaps_of_hit (List.mem_filter.1 ha).2)
    rcases choose_foldl (fun p : Int × Int => m.overlap c p.1 p.2) _ hpos with
      ⟨hnil, -⟩ | ⟨l1, p, l2, hsplit, hacc, hl1, hl2⟩
    · have : p0 ∈ m.coords.filter (m.hit cp c) := List.mem_filter.2 ⟨hp0, hh0⟩
      rw [hnil] at this
      cases this
    · have hp : p ∈ m.coords.filter (m.hit cp c) := by
        rw [hsplit]
        simp
      have hpw : (m.coords.filter (m.hit cp c)).Pairwise Before :=
        m.coords_pairwise.sublist (List.filter_sublist _)
      rw [hsplit, List.pairwise_append, List.pairwise_cons] at hpw
      obtain ⟨-, ⟨hafter, -⟩, -⟩ := hpw
      refine ⟨p, (List.mem_filter.1 hp).1, (List.mem_filter.1 hp).2, ?_, ?_⟩
      · rw [h3]
        exact hacc
      · intro q hq hhq
        have hqm : q ∈ m.coords.filter (m.hit cp c) := List.mem_filter.2 ⟨hq, hhq⟩
        rw [hsplit] at hqm
        rcases List.mem_append.1 hqm with hq1 | hq2
        · have := hl1 q hq1
          exact ⟨le_of_lt this, fun e => by omega⟩
        · rcases List.mem_cons.1 hq2 with rfl | hq2
          · exact ⟨le_refl _, fun _ => Or.inl rfl⟩
          · exact ⟨hl2 q hq2, fun _ => Or.inr (hafter q hq2)⟩

/-! ## Overlap after a push -/

theorem Map.ext_cells {m n : Map} (h : SameShape m n)
    (hc : ∀ k : Nat, n.Cells[k]? = m.Cells[k]?) : n = m := by
  obtain ⟨h1, h2, h3, -⟩ := h
  cases m
  cases n
  simp only at h1 h2 h3 hc
  subst h1 h2 h3
  simp only [Map.mk.injEq, true_and]
  exact List.ext_getElem? hc

theorem Character.moved_eq_shift (c : Character) (s : Pass) :
    c.moved s = c.shift (s.correctX, s.correctY) := rfl

theorem Character.shift_zero (c : Character) : c.shift (0, 0) = c := by
  cases c
  simp [Character.shift]

/-- The x component of an overlap depends on the column only. -/
theorem Map.overlap_fst_row (m : Map) (c : Character) (x y y' : Int) :
    (m.overlap c x y).1 = (m.overlap c x y').1 := rfl

/-- The y component of an overlap depends on the row only. -/
theorem Map.overlap_snd_col (m : Map) (c : Character) (x x' y : Int) :
    (m.overlap c x y).2 = (m.overlap c x' y).2 := rfl

/-- After the push along x that an overlap asks for, the x component of the
overlap against the same cell is 0. -/
theorem Map.overlap_shift_fst (m : Map) (c : Character) (x y : Int) (b : Int) :
    (m.overlap (c.shift ((m.overlap c x y).1, b)) x y).1 = 0 := by
  simp only [Map.overlap, Character.shift, CollideRect]
  generalize x * m.CellLength = cx
  split_ifs <;> omega

/-- After the push along y that an overlap asks for, the y component of the
overlap against the same cell is 0. -/
theorem Map.overlap_shift_snd (m : Map) (c : Character) (x y : Int) (a : Int) :
    (m.overlap (c.shift (a, (m.overlap c x y).2)) x y).2 = 0 := by
  simp only [Map.overlap, Character.shift, CollideRect]
  generalize y * m.CellLength = cy
  split_ifs <;> omega

/-- A push along x leaves the y components of all overlaps as they were. -/
theorem Map.overlap_shift_x_snd (m : Map) (c : Character) (a : Int) (x y : Int) :
    (m.overlap (c.shift (a, 0)) x y).2 = (m.overlap c x y).2 := by
  simp [Map.overlap, Character.shift, CollideRect]

/-- A push along y leaves the x components of all overlaps as they were. -/
theorem Map.overlap_shift_y_fst (m : Map) (c : Character) (b : Int) (x y : Int) :
    (m.overlap (c.shift (0, b)) x y).1 = (m.overlap c x y).1 := by
  simp [Map.overlap, Character.shift, CollideRect]

/-- After the push that an overlap asks for, the character has no overlap on
the axis of the push against the same cell. -/
theorem Map.overlap_shift_push (m : Map) (c : Character) (x y : Int) :
    (m.overlap (c.shift (push (m.overlap c x y))) x y).1 = 0 ∨
      (m.overlap (c.shift (push (m.overlap c x y))) x y).2 = 0 := by
  unfold push
  split_ifs
  · exact Or.inl (Map.overlap_shift_fst m c x y 0)
  · exact Or.inr (Map.overlap_shift_snd m c x y 0)

theorem Map.overlaps_eq_false {m : Map} {c : Character} {x y : Int} :
    m.overlaps c x y = false ↔ (m.overlap c x y).1 = 0 ∨ (m.overlap c x y).2 = 0 := by
  simp only [Map.overlaps, decide_eq_false_iff_not, ne_eq, not_and_or, not_not]

theorem push_ne_zero {v : Int × Int} (h1 : v.1 ≠ 0) (h2 : v.2 ≠ 0) : push v ≠ (0, 0) := by
  unfold push
  split_ifs
  · intro h
    injection h with h _
    exact h1 h
  · intro h
    injection h with _ h
    exact h2 h

/-! ## One step of the passes -/

/-- One pass and what follows it.  On a well-formed grid the pass returns and
settles every slot.  When no solid cell overlaps the character, the locals
stay 0 and the passes end there, the character not moved.  Otherwise the
correction is the push of an overlapping solid cell that is as deep as any
other and deeper than every one visited before it, and the remaining passes
go on from the moved character. -/
theorem PositionCorrection.passes_step (cp : CharPtr) (c : Character) (m : Map) (hwf : m.WF)
    (n : Nat) :
    ∃ s, PositionCorrection.pass cp m c = Outcome.done s ∧ SameShape m s.map ∧
      (∀ (x y : Int) (k : Nat), m.At x y = some k →
        s.map.Cells[k]? = (m.Cells[k]?).map (settle cp (m.overlaps c x y))) ∧
      ((∀ p ∈ m.coords, m.hit cp c p = false) →
        s.locals = (0, 0, 0) ∧
        PositionCorrection.passes cp (n + 1) m c = Outcome.done (s.map, c)) ∧
      ((∃ p ∈ m.coords, m.hit cp c p = true) →
        ∃ p ∈ m.coords, m.hit cp c p = true ∧
          (s.correctX, s.correctY) = push (m.overlap c p.1 p.2) ∧
          s.maxIntersection = depth (m.overlap c p.1 p.2) ∧
          (∀ q ∈ m.coords, m.hit cp c q = true →
            depth (m.overlap c q.1 q.2) ≤ depth (m.overlap c p.1 p.2) ∧
            (depth (m.overlap c q.1 q.2) = depth (m.overlap c p.1 p.2) →
              q = p ∨ Before p q)) ∧
          PositionCorrection.passes cp (n + 1) m c =
            PositionCorrection.passes cp n s.map (c.shift (push (m.overlap c p.1 p.2)))) := by
  obtain ⟨s, h1, h2, h3, h4, h5⟩ := PositionCorrection.pass_selects cp c m hwf
  refine ⟨s, h1, h2, h3, ?_, ?_⟩
  · intro hno
    have hl := h4 hno
    refine ⟨hl, ?_⟩
    simp only [Pass.locals, Prod.mk.injEq] at hl
    rw [PositionCorrection.passes_succ, h1]
    simp only [Outcome.bind]
    rw [if_pos hl.2.2, Character.moved_eq_shift, hl.1, hl.2.1, Character.shift_zero]
  · intro hsome
    obtain ⟨p, hp, hh, hl, hmax⟩ := h5 hsome
    simp only [Pass.locals, Prod.mk.injEq] at hl
    refine ⟨p, hp, hh, ?_, hl.2.2, hmax, ?_⟩
    · rw [hl.1, hl.2.1]
    · have hpos := Map.depth_pos_of_overlaps (Map.overlaps_of_hit hh)
      rw [PositionCorrection.passes_succ, h1]
      simp only [Outcome.bind]
      rw [if_neg (by rw [hl.2.2]; omega), Character.moved_eq_shift, hl.1, hl.2.1]

theorem settle_of_not_bomb (cp : CharPtr) (hit : Bool) (v : Option Cell)
    (h : ∀ b, v ≠ some (Cell.Bomb b)) : settle cp hit v = v := by
  cases v with
  | none => rfl
  | some cell =>
    cases cell with
    | Bomb b => exact absurd rfl (h b)
    | _ => rfl

theorem settle_of_not_own (cp : CharPtr) (hit : Bool) (v : Option Cell)
    (h : IsOwnBomb cp v = false) : settle cp hit v = v := by
  cases v with
  | none => rfl
  | some cell =>
    cases cell with
    | Bomb b =>
      simp only [IsOwnBomb, decide_eq_false_iff_not] at h
      simp only [settle]
      rw [if_neg (fun hh => h hh.1)]
    | _ => rfl

theorem settle_of_hit (cp : CharPtr) (v : Option Cell) : settle cp true v = v := by
  cases v with
  | none => rfl
  | some cell =>
    cases cell with
    | Bomb b => simp [settle]
    | _ => rfl

theorem settle_own_off (cp : CharPtr) (b : BombCell) (h : b.putter = some cp) :
    settle cp false (some (Cell.Bomb b)) = some (Cell.Bomb { b with putter := none }) := by
  simp [settle, h]

/-- A pass that settles nothing leaves the grid as it was. -/
theorem PositionCorrection.pass_map_eq {cp : CharPtr} {c : Character} {m : Map} (hwf : m.WF)
    {s : Pass} (hsh : SameShape m s.map)
    (hset : ∀ (x y : Int) (k : Nat), m.At x y = some k →
      s.map.Cells[k]? = (m.Cells[k]?).map (settle cp (m.overlaps c x y)))
    (hid : ∀ (x y : Int) (k : Nat) (v : Option Cell), m.At x y = some k →
      m.Cells[k]? = some v → settle cp (m.overlaps c x y) v = v) : s.map = m := by
  apply Map.ext_cells hsh
  intro k
  by_cases hk : k < m.Cells.length
  · obtain ⟨x, y, hA⟩ := Map.At_surj hwf hk
    rw [hset x y k hA]
    obtain ⟨v, hv⟩ := Map.get_of_At hwf hA
    rw [hv]
    simp only [Option.map_some']
    rw [hid x y k v hA hv]
  · have hlen := hsh.2.2.2
    rw [List.getElem?_eq_none (by omega), List.getElem?_eq_none (by omega)]

/-! ## C12: two adjacent solid cells -/

theorem OnlyTwoSolid.noBomb {m : Map} {p q : Int × Int} (h : OnlyTwoSolid m p q) (hwf : m.WF) :
    NoBomb m := by
  intro k b hk
  have hlt : k < m.Cells.length := by
    by_contra hc
    rw [List.getElem?_eq_none (by omega)] at hk
    cases hk
  obtain ⟨x, y, hA⟩ := Map.At_surj hwf hlt
  have hs : m.slot x y = some (some (Cell.Bomb b)) := Map.slot_eq_some.2 ⟨k, hA, hk⟩
  by_cases hp : (x, y) = p
  · subst hp
    rcases h.1 with h1 | h1 <;> rw [hs] at h1 <;> simp at h1
  · by_cases hq : (x, y) = q
    · subst hq
      rcases h.2.1 with h1 | h1 <;> rw [hs] at h1 <;> simp at h1
    · rcases h.2.2 (x, y) hp hq _ hs with h1 | ⟨f, h1⟩ <;> simp at h1

theorem OnlyTwoSolid.hit_cases {m : Map} {p q : Int × Int} (h : OnlyTwoSolid m p q)
    (cp : CharPtr) (c : Character) (r : Int × Int) (hr : m.hit cp c r = true) :
    r = p ∨ r = q := by
  by_contra hne
  rw [not_or] at hne
  unfold Map.hit at hr
  cases hs : m.slot r.1 r.2 with
  | none => rw [hs] at hr; cases hr
  | some v =>
    rw [hs] at hr
    simp only [Bool.and_eq_true] at hr
    rcases h.2.2 r hne.1 hne.2 v hs with rfl | ⟨f, rfl⟩
    · simp [IsSolidFor] at hr
    · simp [IsSolidFor] at hr

theorem OnlyTwoSolid.mem_left {m : Map} {p q : Int × Int} (h : OnlyTwoSolid m p q) :
    p ∈ m.coords := by
  have : ∃ v, m.slot p.1 p.2 = some v := by
    rcases h.1 with h1 | h1 <;> exact ⟨_, h1⟩
  obtain ⟨v, hv⟩ := this
  obtain ⟨k, hk, -⟩ := Map.slot_eq_some.1 hv
  exact Map.mem_coords_of_At hk

theorem OnlyTwoSolid.mem_right {m : Map} {p q : Int × Int} (h : OnlyTwoSolid m p q) :
    q ∈ m.coords := by
  have : ∃ v, m.slot q.1 q.2 = some v := by
    rcases h.2.1 with h1 | h1 <;> exact ⟨_, h1⟩
  obtain ⟨v, hv⟩ := this
  obtain ⟨k, hk, -⟩ := Map.slot_eq_some.1 hv
  exact Map.mem_coords_of_At hk

theorem OnlyTwoSolid.hit_left {m : Map} {p q : Int × Int} (h : OnlyTwoSolid m p q)
    (cp : CharPtr) (c : Character) : m.hit cp c p = m.overlaps c p.1 p.2 := by
  unfold Map.hit
  rcases h.1 with h1 | h1 <;> rw [h1] <;> simp [IsSolidFor]

theorem OnlyTwoSolid.hit_right {m : Map} {p q : Int × Int} (h : OnlyTwoSolid m p q)
    (cp : CharPtr) (c : Character) : m.hit cp c q = m.overlaps c q.1 q.2 := by
  unfold Map.hit
  rcases h.2.1 with h1 | h1 <;> rw [h1] <;> simp [IsSolidFor]

/-- In a grid without bombs a pass leaves the grid as it was. -/
theorem PositionCorrection.pass_map_noBomb {cp : CharPtr} {c : Character} {m : Map}
    (hwf : m.WF) (hnb : NoBomb m) {s : Pass} (hsh : SameShape m s.map)
    (hset : ∀ (x y : Int) (k : Nat), m.At x y = some k →
      s.map.Cells[k]? = (m.Cells[k]?).map (settle cp (m.overlaps c x y))) : s.map = m :=
  PositionCorrection.pass_map_eq hwf hsh hset (fun x y k v _ hv =>
    settle_of_not_bomb cp _ v (fun b hb => hnb k b (by rw [hv, hb])))

/-- With two solid cells only, passes that are at least one end with the
character clear of one of the two. -/
theorem PositionCorrection.passes_two_clear (cp : CharPtr) (m : Map) (hwf : m.WF)
    (p q : Int × Int) (h : OnlyTwoSolid m p q) (n : Nat) :
    ∀ c : Character, ∃ c', PositionCorrection.passes cp (n + 1) m c = Outcome.done (m, c') ∧
      (m.clear c' p ∨ m.clear c' q) := by
  induction n with
  | zero =>
    intro c
    obtain ⟨s, -, hsh, hset, hno, hsome⟩ := PositionCorrection.passes_step cp c m hwf 0
    have hmap := PositionCorrection.pass_map_noBomb hwf (h.noBomb hwf) hsh hset
    by_cases hh : ∃ r ∈ m.coords, m.hit cp c r = true
    · obtain ⟨r, -, hr, -, -, -, hrun⟩ := hsome hh
      rw [hmap] at hrun
      refine ⟨_, by rw [hrun]; rfl, ?_⟩
      rcases h.hit_cases cp c r hr with rfl | rfl
      · exact Or.inl (Map.overlap_shift_push m c _ _)
      · exact Or.inr (Map.overlap_shift_push m c _ _)
    · have hno' : ∀ r ∈ m.coords, m.hit cp c r = false := by
        intro r hr
        by_contra hc
        exact hh ⟨r, hr, by simpa using hc⟩
      obtain ⟨-, hrun⟩ := hno hno'
      rw [hmap] at hrun
      refine ⟨c, hrun, Or.inl ?_⟩
      have := hno' p h.mem_left
      rw [h.hit_left cp c] at this
      exact Map.overlaps_eq_false.1 this
  | succ n ih =>
    intro c
    obtain ⟨s, -, hsh, hset, hno, hsome⟩ := PositionCorrection.passes_step cp c m hwf (n + 1)
    have hmap := PositionCorrection.pass_map_noBomb hwf (h.noBomb hwf) hsh hset
    by_cases hh : ∃ r ∈ m.coords, m.hit cp c r = true
    · obtain ⟨r, -, hr, -, -, -, hrun⟩ := hsome hh
      rw [hmap] at hrun
      obtain ⟨c', hc', hcl⟩ := ih (c.shift (push (m.overlap c r.1 r.2)))
      exact ⟨c', by rw [hrun]; exact hc', hcl⟩
    · have hno' : ∀ r ∈ m.coords, m.hit cp c r = false := by
        intro r hr
        by_contra hc
        exact hh ⟨r, hr, by simpa using hc⟩
      obtain ⟨-, hrun⟩ := hno hno'
      rw [hmap] at hrun
      refine ⟨c, hrun, Or.inl ?_⟩
      have := hno' p h.mem_left
      rw [h.hit_left cp c] at this
      exact Map.overlaps_eq_false.1 this

theorem OnlyTwoSolid.no_hit {m : Map} {p q : Int × Int} (h : OnlyTwoSolid m p q)
    (cp : CharPtr) (c : Character) (hp : m.clear c p) (hq : m.clear c q) :
    ∀ r ∈ m.coords, m.hit cp c r = false := by
  intro r _
  by_contra hc
  have hr : m.hit cp c r = true := by simpa using hc
  rcases h.hit_cases cp c r hr with rfl | rfl
  · rw [h.hit_left cp c, Map.overlaps_eq_false.2 hp] at hr
    cases hr
  · rw [h.hit_right cp c, Map.overlaps_eq_false.2 hq] at hr
    cases hr

/-- With two solid cells only, a character clear of both is left where it is. -/
theorem PositionCorrection.passes_two_rest (cp : CharPtr) (m : Map) (hwf : m.WF)
    (p q : Int × Int) (h : OnlyTwoSolid m p q) (n : Nat) (c : Character)
    (hp : m.clear c p) (hq : m.clear c q) :
    PositionCorrection.passes cp (n + 1) m c = Outcome.done (m, c) := by
  obtain ⟨s, -, hsh, hset, hno, -⟩ := PositionCorrection.passes_step cp c m hwf n
  have hmap := PositionCorrection.pass_map_noBomb hwf (h.noBomb hwf) hsh hset
  obtain ⟨-, hrun⟩ := hno (h.no_hit cp c hp hq)
  rw [hmap] at hrun
  exact hrun

/-- Two solid cells in the same row: when the overlap of the character with
each of them that it overlaps is not shallower along x, two passes leave it
clear of both. -/
theorem PositionCorrection.passes_two_row (cp : CharPtr) (m : Map) (hwf : m.WF)
    (p q : Int × Int) (h : OnlyTwoSolid m p q) (hrow : q.2 = p.2) (n : Nat) (c : Character)
    (hpush : ∀ r : Int × Int, r = p ∨ r = q → m.overlaps c r.1 r.2 = true →
      ¬ absInt (m.overlap c r.1 r.2).1 < absInt (m.overlap c r.1 r.2).2) :
    ∃ c', PositionCorrection.passes cp (n + 2) m c = Outcome.done (m, c') ∧
      m.clear c' p ∧ m.clear c' q := by
  obtain ⟨s, -, hsh, hset, hno, hsome⟩ := PositionCorrection.passes_step cp c m hwf (n + 1)
  have hmap := PositionCorrection.pass_map_noBomb hwf (h.noBomb hwf) hsh hset
  by_cases hh : ∃ r ∈ m.coords, m.hit cp c r = true
  · obtain ⟨r, -, hr, -, -, -, hrun⟩ := hsome hh
    rw [hmap] at hrun
    have hrpq := h.hit_cases cp c r hr
    have hnlt := hpush r hrpq (Map.overlaps_of_hit hr)
    have hpu : push (m.overlap c r.1 r.2) = (0, (m.overlap c r.1 r.2).2) := by
      unfold push
      rw [if_neg hnlt]
    rw [hpu] at hrun
    have hz := Map.overlap_shift_snd m c r.1 r.2 0
    have hr2 : r.2 = p.2 := by
      rcases hrpq with rfl | rfl
      · rfl
      · exact hrow
    have hcp : m.clear (c.shift (0, (m.overlap c r.1 r.2).2)) p := by
      right
      rw [Map.overlap_snd_col m _ p.1 r.1 p.2, ← hr2]
      exact hz
    have hcq : m.clear (c.shift (0, (m.overlap c r.1 r.2).2)) q := by
      right
      rw [Map.overlap_snd_col m _ q.1 r.1 q.2, hrow, ← hr2]
      exact hz
    refine ⟨_, ?_, hcp, hcq⟩
    rw [hrun]
    exact PositionCorrection.passes_two_rest cp m hwf p q h n _ hcp hcq
  · have hno' : ∀ r ∈ m.coords, m.hit cp c r = false := by
      intro r hr
      by_contra hc
      exact hh ⟨r, hr, by simpa using hc⟩
    obtain ⟨-, hrun⟩ := hno hno'
    rw [hmap] at hrun
    refine ⟨c, hrun, ?_, ?_⟩
    · have := hno' p h.mem_left
      rw [h.hit_left cp c] at this
      exact Map.overlaps_eq_false.1 this
    · have := hno' q h.mem_right
      rw [h.hit_right cp c] at this
      exact Map.overlaps_eq_false.1 this

/-- Two solid cells in the same column: when the overlap of the character
with each of them that it overlaps is shallower along x, two passes leave it
clear of both. -/
theorem PositionCorrection.passes_two_col (cp : CharPtr) (m : Map) (hwf : m.WF)
    (p q : Int × Int) (h : OnlyTwoSolid m p q) (hcol : q.1 = p.1) (n : Nat) (c : Character)
    (hpush : ∀ r : Int × Int, r = p ∨ r = q → m.overlaps c r.1 r.2 = true →
      absInt (m.overlap c r.1 r.2).1 < absInt (m.overlap c r.1 r.2).2) :
    ∃ c', PositionCorrection.passes cp (n + 2) m c = Outcome.done (m, c') ∧
      m.clear c' p ∧ m.clear c' q := by
  obtain ⟨s, -, hsh, hset, hno, hsome⟩ := PositionCorrection.passes_step cp c m hwf (n + 1)
  have hmap := PositionCorrection.pass_map_noBomb hwf (h.noBomb hwf) hsh hset
  by_cases hh : ∃ r ∈ m.coords, m.hit cp c r = true
  · obtain ⟨r, -, hr, -, -, -, hrun⟩ := hsome hh
    rw [hmap] at hrun
    have hrpq := h.hit_cases cp c r hr
    have hlt := hpush r hrpq (Map.overlaps_of_hit hr)
    have hpu : push (m.overlap c r.1 r.2) = ((m.overlap c r.1 r.2).1, 0) := by
      unfold push
      rw [if_pos hlt]
    rw [hpu] at hrun
    have hz := Map.overlap_shift_fst m c r.1 r.2 0
    have hr1 : r.1 = p.1 := by
      rcases hrpq with rfl | rfl
      · rfl
      · exact hcol
    have hcp : m.clear (c.shift ((m.overlap c r.1 r.2).1, 0)) p := by
      left
      rw [Map.overlap_fst_row m _ p.1 p.2 r.2, ← hr1]
      exact hz
    have hcq : m.clear (c.shift ((m.overlap c r.1 r.2).1, 0)) q := by
      left
      rw [Map.overlap_fst_row m _ q.1 q.2 r.2, hcol, ← hr1]
      exact hz
    refine ⟨_, ?_, hcp, hcq⟩
    rw [hrun]
    exact PositionCorrection.passes_two_rest cp m hwf p q h n _ hcp hcq
  · have hno' : ∀ r ∈ m.coords, m.hit cp c r = false := by
      intro r hr
      by_contra hc
      exact hh ⟨r, hr, by simpa using hc⟩
    obtain ⟨-, hrun⟩ := hno hno'
    rw [hmap] at hrun
    refine ⟨c, hrun, ?_, ?_⟩
    · have := hno' p h.mem_left
      rw [h.hit_left cp c] at this
      exact Map.overlaps_eq_false.1 this
    · have := hno' q h.mem_right
      rw [h.hit_right cp c] at this
      exact Map.overlaps_eq_false.1 this

theorem Example.twoGrid_only : Example.twoGrid.WF ∧ OnlyTwoSolid Example.twoGrid (1, 1) (2, 1) := by
  refine ⟨⟨by decide, by decide, by decide⟩, Or.inl (by decide), Or.inr (by decide), ?_⟩
  intro r hp hq v hv
  obtain ⟨x, y⟩ := r
  obtain ⟨k, hA, hk⟩ := Map.slot_eq_some.1 hv
  rw [Map.At_eq_some] at hA
  obtain ⟨h1, h2, h3, h4, rfl⟩ := hA
  simp only [Example.twoGrid] at h2 h4 hk
  interval_cases x <;> interval_cases y <;>
    first
      | exact absurd rfl hp
      | exact absurd rfl hq
      | (left; simpa using hk.symm)

/-- C12, as stated, fails.  In `Example.twoGrid` the only solid cells are the
Wall at (1,1) and the Soft cell at (2,1), which share an edge; the character
`Example.twoActor` has length 12, not above the cell length 16, and its box
(26..38, 18..30) lies inside the union (16..48, 16..32) of the two cells.
The five passes of `Map.PositionCorrection` push it right by 6, left by 12,
right by 12, left by 12 and right by 12: it ends at (32, 18), where its
overlap against the cell (2,1) is (-12, -14), non-zero on both axes. -/
theorem PositionCorrection_two_cells_counterexample :
    OnlyTwoSolid Example.twoGrid (1, 1) (2, 1) ∧
      Example.twoActor.Length ≤ Example.twoGrid.CellLength ∧
      (1 * Example.twoGrid.CellLength ≤ Example.twoActor.X ∧
        Example.twoActor.X + Example.twoActor.Length ≤ 3 * Example.twoGrid.CellLength ∧
        1 * Example.twoGrid.CellLength ≤ Example.twoActor.Y ∧
        Example.twoActor.Y + Example.twoActor.Length ≤ 2 * Example.twoGrid.CellLength) ∧
      PositionCorrection.passes 0 1 Example.twoGrid Example.twoActor =
        Outcome.done (Example.twoGrid, { Example.twoActor with X := 32 }) ∧
      PositionCorrection.passes 0 2 Example.twoGrid Example.twoActor =
        Outcome.done (Example.twoGrid, { Example.twoActor with X := 20 }) ∧
      PositionCorrection.passes 0 3 Example.twoGrid Example.twoActor =
        Outcome.done (Example.twoGrid, { Example.twoActor with X := 32 }) ∧
      PositionCorrection.passes 0 4 Example.twoGrid Example.twoActor =
        Outcome.done (Example.twoGrid, { Example.twoActor with X := 20 }) ∧
      Example.twoGrid.PositionCorrection 0 Example.twoActor =
        Outcome.done (Example.twoGrid, { Example.twoActor with X := 32 }) ∧
      CollideRect 32 18 12 12 (2 * 16) (1 * 16) 16 16 = (-12, -14) ∧
      ¬ Example.twoGrid.clear { Example.twoActor with X := 32 } (2, 1) := by
  refine ⟨Example.twoGrid_only.2, by decide, by decide, by decide, by decide, by decide,
    by decide, by decide, by decide, ?_⟩
  unfold Map.clear
  decide

/-- C12, amended.  In a well-formed grid whose only solid cells are two Wall
or Soft cells, for every character `Map.PositionCorrection` returns, the grid
unchanged, and the character is then clear (no overlap on at least one axis)
of at least one of the two cells.  It is clear of both when the two cells are
in the same row and the overlap with each of them that it overlaps at the
start is not shallower along x, or when they are in the same column and the
overlap with each of them that it overlaps at the start is shallower along x:
the first pass then pushes it out of the row or the column of both. -/
theorem PositionCorrection_two_solid_cells (cp : CharPtr) (m : Map) (hwf : m.WF)
    (p q : Int × Int) (h : OnlyTwoSolid m p q) (c : Character) :
    ∃ c', m.PositionCorrection cp c = Outcome.done (m, c') ∧
      (m.clear c' p ∨ m.clear c' q) ∧
      (q.2 = p.2 →
        (∀ r : Int × Int, r = p ∨ r = q → m.overlaps c r.1 r.2 = true →
          ¬ absInt (m.overlap c r.1 r.2).1 < absInt (m.overlap c r.1 r.2).2) →
        m.clear c' p ∧ m.clear c' q) ∧
      (q.1 = p.1 →
        (∀ r : Int × Int, r = p ∨ r = q → m.overlaps c r.1 r.2 = true →
          absInt (m.overlap c r.1 r.2).1 < absInt (m.overlap c r.1 r.2).2) →
        m.clear c' p ∧ m.clear c' q) := by
  obtain ⟨c', hrun, hcl⟩ := PositionCorrection.passes_two_clear cp m hwf p q h 4 c
  refine ⟨c', hrun, hcl, ?_, ?_⟩
  · intro hrow hpush
    obtain ⟨c'', hrun', hboth⟩ := PositionCorrection.passes_two_row cp m hwf p q h hrow 3 c hpush
    rw [hrun] at hrun'
    injection hrun' with e
    injection e with _ e
    rw [e]
    exact hboth
  · intro hcol hpush
    obtain ⟨c'', hrun', hboth⟩ := PositionCorrection.passes_two_col cp m hwf p q h hcol 3 c hpush
    rw [hrun] at hrun'
    injection hrun' with e
    injection e with _ e
    rw [e]
    exact hboth

/-- Witness of the amended C12 in `Example.twoGrid`: the character
`Example.twoActor` ends clear of the cell (1,1); the character
`Example.topActor`, which overlaps both cells from above, is pushed up by 2
and ends clear of both. -/
theorem PositionCorrection_two_solid_cells_witness :
    Example.twoGrid.WF ∧ OnlyTwoSolid Example.twoGrid (1, 1) (2, 1) ∧
      Example.twoGrid.PositionCorrection 0 Example.topActor =
        Outcome.done (Example.twoGrid, { Example.topActor with Y := 4 }) ∧
      (∃ c', Example.twoGrid.PositionCorrection 0 Example.twoActor =
          Outcome.done (Example.twoGrid, c') ∧
        (Example.twoGrid.clear c' (1, 1) ∨ Example.twoGrid.clear c' (2, 1))) ∧
      ∃ c', Example.twoGrid.PositionCorrection 0 Example.topActor =
          Outcome.done (Example.twoGrid, c') ∧
        Example.twoGrid.clear c' (1, 1) ∧ Example.twoGrid.clear c' (2, 1) := by
  refine ⟨Example.twoGrid_only.1, Example.twoGrid_only.2, by decide, ?_, ?_⟩
  · obtain ⟨c', h1, h2, -⟩ := PositionCorrection_two_solid_cells 0 Example.twoGrid
      Example.twoGrid_only.1 (1, 1) (2, 1) Example.twoGrid_only.2 Example.twoActor
    exact ⟨c', h1, h2⟩
  · obtain ⟨c', h1, -, h3, -⟩ := PositionCorrection_two_solid_cells 0 Example.twoGrid
      Example.twoGrid_only.1 (1, 1) (2, 1) Example.twoGrid_only.2 Example.topActor
    refine ⟨c', h1, h3 rfl ?_⟩
    intro r hr _
    rcases hr with rfl | rfl <;> decide

/-! ## C13: one solid cell -/

theorem Map.hit_of_slot {m : Map} {p : Int × Int} {v : Option Cell} (cp : CharPtr)
    (c : Character) (h : m.slot p.1 p.2 = some v) :
    m.hit cp c p = (IsSolidFor cp v && m.overlaps c p.1 p.2) := by
  simp only [Map.hit, h]

theorem Map.slot_of_hit {m : Map} {cp : CharPtr} {c : Character} {p : Int × Int}
    (h : m.hit cp c p = true) :
    ∃ v, m.slot p.1 p.2 = some v ∧ IsSolidFor cp v = true ∧ m.overlaps c p.1 p.2 = true := by
  unfold Map.hit at h
  cases hs : m.slot p.1 p.2 with
  | none => rw [hs] at h; cases h
  | some v =>
    rw [hs] at h
    simp only [Bool.and_eq_true] at h
    exact ⟨v, rfl, h.1, h.2⟩

theorem Map.mem_coords_of_slot {m : Map} {p : Int × Int} {v : Option Cell}
    (h : m.slot p.1 p.2 = some v) : p ∈ m.coords := by
  obtain ⟨k, hk, -⟩ := Map.slot_eq_some.1 h
  exact Map.mem_coords_of_At hk

/-- One solid cell, overlapped; every bomb that the character put overlaps it.
Then `passes` with at least two passes pushes the character once, out of the
cell, and the second pass only settles the grid. -/
theorem PositionCorrection.passes_single (cp : CharPtr) (m : Map) (hwf : m.WF) (p : Int × Int)
    (c : Character) (n : Nat)
    (hsolid : ∃ v, m.slot p.1 p.2 = some v ∧ IsSolidFor cp v = true)
    (honly : ∀ r : Int × Int, r ≠ p → ∀ v, m.slot r.1 r.2 = some v → IsSolidFor cp v = false)
    (hown : ∀ (r : Int × Int) (v : Option Cell), m.slot r.1 r.2 = some v →
      IsOwnBomb cp v = true → m.overlaps c r.1 r.2 = true)
    (hov : m.overlaps c p.1 p.2 = true) :
    ∃ m', PositionCorrection.passes cp (n + 2) m c =
        Outcome.done (m', c.shift (push (m.overlap c p.1 p.2))) ∧
      m.clear (c.shift (push (m.overlap c p.1 p.2))) p ∧ SameShape m m' ∧
      ∀ (x y : Int) (k : Nat), m.At x y = some k →
        m'.Cells[k]? = (m.Cells[k]?).map
          (settle cp (m.overlaps (c.shift (push (m.overlap c p.1 p.2))) x y)) := by
  obtain ⟨v, hv, hsv⟩ := hsolid
  have hpc := Map.mem_coords_of_slot hv
  have hhit : m.hit cp c p = true := by
    rw [Map.hit_of_slot cp c hv, hsv, hov]
    rfl
  have hother : ∀ (c' : Character) (r : Int × Int), r ≠ p → m.hit cp c' r = false := by
    intro c' r hr
    by_contra hc
    obtain ⟨w, hw, hsw, -⟩ := Map.slot_of_hit (by simpa using hc : m.hit cp c' r = true)
    rw [honly r hr w hw] at hsw
    cases hsw
  -- the first pass
  obtain ⟨s, -, hsh, hset, -, hsome⟩ := PositionCorrection.passes_step cp c m hwf (n + 1)
  obtain ⟨r, -, hr, -, -, -, hrun⟩ := hsome ⟨p, hpc, hhit⟩
  have hrp : r = p := by
    by_contra hne
    rw [hother c r hne] at hr
    cases hr
  subst hrp
  have hmap : s.map = m := by
    refine PositionCorrection.pass_map_eq hwf hsh hset ?_
    intro x y k w hA hw
    by_cases ho : IsOwnBomb cp w = true
    · rw [hown (x, y) w (Map.slot_eq_some.2 ⟨k, hA, hw⟩) ho]
      exact settle_of_hit cp w
    · exact settle_of_not_own cp _ w (by simpa using ho)
  rw [hmap] at hrun
  -- the second pass
  have hclear := Map.overlap_shift_push m c r.1 r.2
  obtain ⟨s2, -, hsh2, hset2, hno2, -⟩ :=
    PositionCorrection.passes_step cp (c.shift (push (m.overlap c r.1 r.2))) m hwf n
  have hnone : ∀ q ∈ m.coords, m.hit cp (c.shift (push (m.overlap c r.1 r.2))) q = false := by
    intro q _
    by_cases hq : q = r
    · subst hq
      rw [Map.hit_of_slot cp _ hv, Map.overlaps_eq_false.2 hclear]
      simp
    · exact hother _ q hq
  obtain ⟨-, hrun2⟩ := hno2 hnone
  exact ⟨s2.map, by rw [hrun, hrun2], hclear, hsh2, hset2⟩

/-- C13, as stated, fails when the grid also holds a bomb put by the actor
that the actor does not overlap: such a bomb is not solid for the actor, but
the first pass takes its putter away and from the second pass on it is.  In
`Example.ownGrid` the only solid cell for the character at address 7 is the
Wall at (0,0); `Example.bigActor` overlaps it with (dx, dy) = (4, 16), so the
claimed displacement is (4, 0), to (16, 0); `Map.PositionCorrection` moves it
by (4, -4), to (16, -4).  In `Example.stackGrid` the only solid cell is the
Wall at (1,1); `Example.cellActor`, no longer than a cell, overlaps it with
(-16, -16), so the claimed displacement is (0, -16), to (16, 0); it is moved
by (0, -32), to (16, -16). -/
theorem PositionCorrection_single_cell_counterexample :
    (Example.ownGrid.Cells.map (IsSolidFor 7) = [true, false, false, false, false, false] ∧
      Example.ownGrid.slot 0 0 = some (some Cell.Wall) ∧
      Example.ownGrid.overlap Example.bigActor 0 0 = (4, 16) ∧
      push (Example.ownGrid.overlap Example.bigActor 0 0) = (4, 0) ∧
      Example.ownGrid.PositionCorrection 7 Example.bigActor =
        Outcome.done (Example.ownGridAfter, { Example.bigActor with X := 16, Y := -4 })) ∧
    (Example.stackGrid.Cells.map (IsSolidFor 7) = [false, false, false, true] ∧
      Example.stackGrid.slot 1 1 = some (some Cell.Wall) ∧
      Example.cellActor.Length ≤ Example.stackGrid.CellLength ∧
      Example.stackGrid.overlap Example.cellActor 1 1 = (-16, -16) ∧
      push (Example.stackGrid.overlap Example.cellActor 1 1) = (0, -16) ∧
      Example.stackGrid.PositionCorrection 7 Example.cellActor =
        Outcome.done (Example.stackGridAfter, { Example.cellActor with X := 16, Y := -16 })) := by
  refine ⟨⟨by decide, by decide, by decide, by decide, by decide⟩,
    ⟨by decide, by decide, by decide, by decide, by decide, by decide⟩⟩

/-- C13, amended: in a well-formed grid take a slot `p` holding a cell that is
solid for the actor (Wall, Soft, or bomb not put by it), no other slot holding
one, and an actor that overlaps that cell with overlap vector `(dx, dy)`; let
every bomb put by the actor overlap it.  Then `Map.PositionCorrection`
returns; the actor is moved by exactly `(dx, 0)` if `|dx| < |dy|` and by
`(0, dy)` otherwise; it then has no overlap on the axis of the move against
the cell; the grid has the same shape, each slot holding what it held, except
that a bomb put by the actor that the moved actor does not overlap has lost
its putter. -/
theorem PositionCorrection_single_solid_cell (cp : CharPtr) (m : Map) (hwf : m.WF)
    (p : Int × Int) (c : Character)
    (hsolid : ∃ v, m.slot p.1 p.2 = some v ∧ IsSolidFor cp v = true)
    (honly : ∀ r : Int × Int, r ≠ p → ∀ v, m.slot r.1 r.2 = some v → IsSolidFor cp v = false)
    (hown : ∀ (r : Int × Int) (v : Option Cell), m.slot r.1 r.2 = some v →
      IsOwnBomb cp v = true → m.overlaps c r.1 r.2 = true)
    (hov : (m.overlap c p.1 p.2).1 ≠ 0 ∧ (m.overlap c p.1 p.2).2 ≠ 0) :
    ∃ m' c', m.PositionCorrection cp c = Outcome.done (m', c') ∧
      (c'.X, c'.Y) =
        (if absInt (m.overlap c p.1 p.2).1 < absInt (m.overlap c p.1 p.2).2
          then (c.X + (m.overlap c p.1 p.2).1, c.Y)
          else (c.X, c.Y + (m.overlap c p.1 p.2).2)) ∧
      c'.Length = c.Length ∧
      (if absInt (m.overlap c p.1 p.2).1 < absInt (m.overlap c p.1 p.2).2
        then (m.overlap c' p.1 p.2).1 = 0 else (m.overlap c' p.1 p.2).2 = 0) ∧
      m.overlaps c' p.1 p.2 = false ∧
      SameShape m m' ∧
      ∀ (x y : Int) (k : Nat), m.At x y = some k →
        m'.Cells[k]? = (m.Cells[k]?).map (settle cp (m.overlaps c' x y)) := by
  have hov' : m.overlaps c p.1 p.2 = true := by
    simp only [Map.overlaps, decide_eq_true_eq]
    exact hov
  obtain ⟨m', hrun, hclear, hsh, hset⟩ :=
    PositionCorrection.passes_single cp m hwf p c 3 hsolid honly hown hov'
  refine ⟨m', _, hrun, ?_, rfl, ?_, Map.overlaps_eq_false.2 hclear, hsh, hset⟩
  · unfold push Character.shift
    split_ifs <;> simp
  · unfold push
    split_ifs
    · exact Map.overlap_shift_fst m c p.1 p.2 0
    · exact Map.overlap_shift_snd m c p.1 p.2 0

theorem Example.ownGrid_single :
    Example.ownGrid.WF ∧
      (∀ r : Int × Int, r ≠ (0, 0) → ∀ v, Example.ownGrid.slot r.1 r.2 = some v →
        IsSolidFor 7 v = false) ∧
      ∀ (r : Int × Int) (v : Option Cell), Example.ownGrid.slot r.1 r.2 = some v →
        IsOwnBomb 7 v = true → Example.ownGrid.overlaps Example.cornerActor r.1 r.2 = true := by
  refine ⟨⟨by decide, by decide, by decide⟩, ?_, ?_⟩
  · intro r hp v hv
    obtain ⟨x, y⟩ := r
    obtain ⟨k, hA, hk⟩ := Map.slot_eq_some.1 hv
    rw [Map.At_eq_some] at hA
    obtain ⟨h1, h2, h3, h4, rfl⟩ := hA
    simp only [Example.ownGrid] at h2 h4 hk
    interval_cases x <;> interval_cases y <;>
      first
        | exact absurd rfl hp
        | (simp at hk; subst hk; rfl)
  · intro r v hv ho
    obtain ⟨x, y⟩ := r
    obtain ⟨k, hA, hk⟩ := Map.slot_eq_some.1 hv
    rw [Map.At_eq_some] at hA
    obtain ⟨h1, h2, h3, h4, rfl⟩ := hA
    simp only [Example.ownGrid] at h2 h4 hk
    interval_cases x <;> interval_cases y <;>
      first
        | (simp at hk; subst hk; simp [IsOwnBomb] at ho; done)
        | decide

/-- Witness of the amended C13 in `Example.ownGrid`, for the character at
address 7: `Example.cornerActor` overlaps the Wall at (0,0) with (3, 3) and
the bomb it put at (2,1); it is moved by (0, 3), to (13, 16), where it still
overlaps the bomb, which keeps its putter. -/
theorem PositionCorrection_single_solid_cell_witness :
    Example.ownGrid.overlap Example.cornerActor 0 0 = (3, 3) ∧
      Example.ownGrid.PositionCorrection 7 Example.cornerActor =
        Outcome.done (Example.ownGrid, { Example.cornerActor with Y := 16 }) ∧
      ∃ m' c', Example.ownGrid.PositionCorrection 7 Example.cornerActor =
          Outcome.done (m', c') ∧
        (c'.X, c'.Y) = (13, 16) ∧ Example.ownGrid.overlaps c' 0 0 = false := by
  refine ⟨by decide, by decide, ?_⟩
  obtain ⟨m', c', h1, h2, -, -, h5, -⟩ := PositionCorrection_single_solid_cell 7 Example.ownGrid
    Example.ownGrid_single.1 (0, 0) Example.cornerActor ⟨some Cell.Wall, by decide, by decide⟩
    Example.ownGrid_single.2.1 Example.ownGrid_single.2.2 (by decide)
  exact ⟨m', c', h1, h2, h5⟩

/-! ## C14: the putter of a bomb -/

/-- The passes leave alone a slot that holds no bomb put by the character. -/
theorem PositionCorrection.passes_keeps_not_own (cp : CharPtr) (n : Nat) :
    ∀ (m : Map) (c : Character) (m' : Map) (c' : Character), m.WF →
      PositionCorrection.passes cp n m c = Outcome.done (m', c') →
      ∀ (x y : Int) (k : Nat) (v : Option Cell), m.At x y = some k → m.Cells[k]? = some v →
        IsOwnBomb cp v = false → m'.Cells[k]? = some v := by
  induction n with
  | zero =>
    intro m c m' c' _ h x y k v _ hv _
    unfold PositionCorrection.passes at h
    injection h with h
    injection h with h _
    rw [← h]
    exact hv
  | succ n ih =>
    intro m c m' c' hwf h x y k v hA hv hno
    obtain ⟨s, hs, hsh, hset, -, -⟩ := PositionCorrection.pass_selects cp c m hwf
    have hk : s.map.Cells[k]? = some v := by
      rw [hset x y k hA, hv]
      simp only [Option.map_some']
      rw [settle_of_not_own cp _ v hno]
    rw [PositionCorrection.passes_succ, hs] at h
    simp only [Outcome.bind] at h
    split_ifs at h
    · injection h with h
      injection h with h _
      rw [← h]
      exact hk
    · exact ih s.map _ m' c' (hsh.WF hwf) h x y k v (by rw [hsh.At]; exact hA) hk hno

/-- A bomb put by the character that the character overlaps at the start of
every pass keeps its putter. -/
theorem PositionCorrection.passes_keeps_own (cp : CharPtr) (n : Nat) :
    ∀ (m : Map) (c : Character) (m' : Map) (c' : Character), m.WF →
      PositionCorrection.passes cp n m c = Outcome.done (m', c') →
      ∀ (x y : Int) (k : Nat) (v : Option Cell), m.At x y = some k → m.Cells[k]? = some v →
        (∀ c1 ∈ PositionCorrection.starts cp n m c, m.overlaps c1 x y = true) →
        m'.Cells[k]? = some v := by
  induction n with
  | zero =>
    intro m c m' c' _ h x y k v _ hv _
    unfold PositionCorrection.passes at h
    injection h with h
    injection h with h _
    rw [← h]
    exact hv
  | succ n ih =>
    intro m c m' c' hwf h x y k v hA hv hst
    obtain ⟨s, hs, hsh, hset, -, -⟩ := PositionCorrection.pass_selects cp c m hwf
    have hk : s.map.Cells[k]? = some v := by
      rw [hset x y k hA, hv]
      simp only [Option.map_some']
      rw [hst c (by simp [PositionCorrection.starts]), settle_of_hit]
    rw [PositionCorrection.passes_succ, hs] at h
    simp only [Outcome.bind] at h
    split_ifs at h with h0
    · injection h with h
      injection h with h _
      rw [← h]
      exact hk
    · refine ih s.map _ m' c' (hsh.WF hwf) h x y k v (by rw [hsh.At]; exact hA) hk ?_
      intro c1 hc1
      rw [hsh.overlaps]
      apply hst
      simp only [PositionCorrection.starts, hs, h0, if_false, List.mem_cons]
      exact Or.inr hc1

/-- A bomb put by the character that the character does not overlap when the
passes start has lost its putter when they end. -/
theorem PositionCorrection.passes_clears_own (cp : CharPtr) (n : Nat) (m : Map)
    (c : Character) (hwf : m.WF) (x y : Int) (k : Nat) (b : BombCell)
    (hA : m.At x y = some k) (hv : m.Cells[k]? = some (some (Cell.Bomb b)))
    (hb : b.putter = some cp) (hoff : m.overlaps c x y = false) :
    ∃ m' c', PositionCorrection.passes cp (n + 1) m c = Outcome.done (m', c') ∧
      m'.Cells[k]? = some (some (Cell.Bomb { b with putter := none })) := by
  obtain ⟨⟨m', c'⟩, h⟩ := PositionCorrection.passes_total cp (n + 1) m c hwf
  refine ⟨m', c', h, ?_⟩
  obtain ⟨s, hs, hsh, hset, -, -⟩ := PositionCorrection.pass_selects cp c m hwf
  have hk : s.map.Cells[k]? = some (some (Cell.Bomb { b with putter := none })) := by
    rw [hset x y k hA, hv, hoff]
    simp only [Option.map_some']
    rw [settle_own_off cp b hb]
  rw [PositionCorrection.passes_succ, hs] at h
  simp only [Outcome.bind] at h
  split_ifs at h
  · injection h with h
    injection h with h _
    rw [← h]
    exact hk
  · exact PositionCorrection.passes_keeps_not_own cp n s.map _ m' c' (hsh.WF hwf) h x y k _
      (by rw [hsh.At]; exact hA) hk (by simp [IsOwnBomb])

/-- C14.  For the character at address `cp` and a bomb `b` in the slot of
`(x, y)` of a well-formed grid:
(1) if `b` was put by the character and the character does not overlap it when
`Map.PositionCorrection` is called, the call returns and the slot then holds
`b` without putter;
(2) if `b` was not put by the character (so after (1)), it counts as a solid
cell: when the character overlaps it, the first pass of a call selects an
overlapping solid cell at least as deep, that very bomb when no other solid
cell overlaps the character, and moves the character by the push of that cell,
which is not (0, 0); the bomb stays as it is;
(3) if `b` was put by the character and the character overlaps it at the start
of every pass of the call, the call returns and the slot still holds `b`, with
its putter. -/
theorem PositionCorrection_owner (cp : CharPtr) (m : Map) (c : Character) (hwf : m.WF)
    (x y : Int) (k : Nat) (b : BombCell) (hA : m.At x y = some k)
    (hv : m.Cells[k]? = some (some (Cell.Bomb b))) :
    (b.putter = some cp → m.overlaps c x y = false →
      ∃ m' c', m.PositionCorrection cp c = Outcome.done (m', c') ∧
        m'.Cells[k]? = some (some (Cell.Bomb { b with putter := none }))) ∧
    (b.putter ≠ some cp → m.overlaps c x y = true →
      m.hit cp c (x, y) = true ∧
      ∃ s p, PositionCorrection.pass cp m c = Outcome.done s ∧ p ∈ m.coords ∧
        m.hit cp c p = true ∧
        depth (m.overlap c x y) ≤ depth (m.overlap c p.1 p.2) ∧
        ((∀ q ∈ m.coords, m.hit cp c q = true → q = (x, y)) → p = (x, y)) ∧
        (s.correctX, s.correctY) = push (m.overlap c p.1 p.2) ∧
        push (m.overlap c p.1 p.2) ≠ (0, 0) ∧
        s.map.Cells[k]? = some (some (Cell.Bomb b)) ∧
        ∀ n : Nat, PositionCorrection.passes cp (n + 1) m c =
          PositionCorrection.passes cp n s.map (c.shift (push (m.overlap c p.1 p.2)))) ∧
    (b.putter = some cp →
      (∀ c1 ∈ PositionCorrection.starts cp 5 m c, m.overlaps c1 x y = true) →
      ∃ m' c', m.PositionCorrection cp c = Outcome.done (m', c') ∧
        m'.Cells[k]? = some (some (Cell.Bomb b))) := by
  refine ⟨?_, ?_, ?_⟩
  · intro hb hoff
    exact PositionCorrection.passes_clears_own cp 4 m c hwf x y k b hA hv hb hoff
  · intro hb hon
    have hxy : (x, y) ∈ m.coords := Map.mem_coords_of_At hA
    have hhit : m.hit cp c (x, y) = true := by
      rw [Map.hit_of_get cp c hA hv, hon]
      simp [IsSolidFor, hb]
    refine ⟨hhit, ?_⟩
    obtain ⟨s, hs, hsh, hset, -, hsome⟩ := PositionCorrection.passes_step cp c m hwf 0
    obtain ⟨p, hp, hhp, hpush, -, hmax, -⟩ := hsome ⟨(x, y), hxy, hhit⟩
    have hov := Map.overlaps_of_hit hhp
    simp only [Map.overlaps, decide_eq_true_eq] at hov
    refine ⟨s, p, hs, hp, hhp, (hmax (x, y) hxy hhit).1, fun honly => honly p hp hhp, hpush,
      push_ne_zero hov.1 hov.2, ?_, ?_⟩
    · rw [hset x y k hA, hv]
      simp only [Option.map_some']
      rw [settle_of_not_own cp _ _ (by simp [IsOwnBomb, hb])]
    · intro n
      obtain ⟨s', hs', -, -, -, hsome'⟩ := PositionCorrection.passes_step cp c m hwf n
      rw [hs] at hs'
      injection hs' with hs'
      subst hs'
      obtain ⟨p', -, -, hpush', -, -, hrun⟩ := hsome' ⟨(x, y), hxy, hhit⟩
      rw [hrun, ← hpush', hpush]
  · intro hb hst
    obtain ⟨⟨m', c'⟩, h⟩ := PositionCorrection.passes_total cp 5 m c hwf
    exact ⟨m', c', h, PositionCorrection.passes_keeps_own cp 5 m c m' c' hwf h x y k _ hA hv hst⟩

/-- Witness of C14 in `Example.ownGrid`, whose bomb at (2,1), slot 5, was put
by the character at address 7.  `Example.bigActor` does not overlap it: after
the call the bomb has no putter.  On the resulting grid the character at
(16, 0) overlaps the bomb and no other cell: the first pass pushes it by
(0, -4).  `Example.cornerActor` overlaps the bomb at the start of both passes
of its call, at (13, 13) and at (13, 16): the bomb keeps its putter. -/
theorem PositionCorrection_owner_witness :
    (∃ m' c', Example.ownGrid.PositionCorrection 7 Example.bigActor = Outcome.done (m', c') ∧
      m'.Cells[5]? = some (some (Cell.Bomb
        { framesToExplosion := 180, power := 3, putter := none }))) ∧
    (Example.ownGridAfter.hit 7 { Example.bigActor with X := 16 } (2, 1) = true ∧
      PositionCorrection.passes 7 1 Example.ownGridAfter { Example.bigActor with X := 16 } =
        Outcome.done (Example.ownGridAfter, { Example.bigActor with X := 16, Y := -4 })) ∧
    (PositionCorrection.starts 7 5 Example.ownGrid Example.cornerActor =
        [Example.cornerActor, { Example.cornerActor with Y := 16 }] ∧
      ∃ m' c', Example.ownGrid.PositionCorrection 7 Example.cornerActor =
          Outcome.done (m', c') ∧
        m'.Cells[5]? = some (some (Cell.Bomb
          { framesToExplosion := 180, power := 3, putter := some 7 }))) :=
  ⟨(PositionCorrection_owner 7 Example.ownGrid Example.bigActor Example.ownGrid_single.1 2 1 5
      { framesToExplosion := 180, power := 3, putter := some 7 } (by decide) (by decide)).1
      rfl (by decide),
    ⟨((PositionCorrection_owner 7 Example.ownGridAfter { Example.bigActor with X := 16 }
      ⟨by decide, by decide, by decide⟩ 2 1 5
      { framesToExplosion := 180, power := 3, putter := none } (by decide) (by decide)).2.1
      (by decide) (by decide)).1, by decide⟩,
    ⟨by decide,
      (PositionCorrection_owner 7 Example.ownGrid Example.cornerActor Example.ownGrid_single.1
        2 1 5 { framesToExplosion := 180, power := 3, putter := some 7 } (by decide)
        (by decide)).2.2 rfl (by decide)⟩⟩

/-! ## C15: the grid of the game -/

set_option maxRecDepth 1000000 in
theorem NewMap_eq_grid : NewMap = Outcome.done NewMap.grid := by
  decide

theorem NewMap.grid_Width : NewMap.grid.Width = 20 := rfl

theorem NewMap.grid_Height : NewMap.grid.Height = 15 := rfl

theorem NewMap.grid_length : NewMap.grid.Cells.length = 300 := by
  simp only [NewMap.grid, List.length_map, List.length_range]

theorem NewMap.grid_WF : NewMap.grid.WF := by
  refine ⟨?_, ?_, ?_⟩
  · rw [NewMap.grid_Width]
    decide
  · rw [NewMap.grid_Height]
    decide
  · rw [NewMap.grid_Width, NewMap.grid_Height, NewMap.grid_length]
    decide

/-- The slot `(x, y)` of `NewMap.grid` holds `NewMap.cell x y`. -/
theorem NewMap.grid_get (x y : Int) (hx0 : 0 ≤ x) (hx : x < 20) (hy0 : 0 ≤ y) (hy : y < 15) :
    NewMap.grid.At x y = some (x + y * 20).toNat ∧
      NewMap.grid.Cells[(x + y * 20).toNat]? = some (NewMap.cell x.toNat y.toNat) := by
  constructor
  · simp only [Map.At, NewMap.grid_Width, NewMap.grid_Height]
    rw [if_neg (by omega)]
  · have hk : (x + y * 20).toNat < 300 := by omega
    simp only [NewMap.grid, List.getElem?_map]
    rw [List.getElem?_range hk]
    simp only [Option.map_some']
    have h1 : (x + y * 20).toNat % 20 = x.toNat := by omega
    have h2 : (x + y * 20).toNat / 20 = y.toNat := by omega
    rw [h1, h2]

theorem NewMap.grid_bordered : NewMap.grid.Bordered := by
  intro x y i hA hb
  have hA' := hA
  rw [Map.At_eq_some] at hA'
  obtain ⟨h1, h2, h3, h4, -⟩ := hA'
  rw [NewMap.grid_Width] at h2 hb
  rw [NewMap.grid_Height] at h4 hb
  obtain ⟨hAt, hget⟩ := NewMap.grid_get x y h1 h2 h3 h4
  have hi : i = (x + y * 20).toNat := by
    rw [hAt] at hA
    exact (Option.some.inj hA).symm
  rw [hi, hget]
  simp only [NewMap.cell]
  rw [if_pos (by omega)]

/-- C15: `NewMap` returns a grid of 20 by 15 = 300 slots with cell length 16
in which the slot `(x, y)` holds a Wall exactly when it is on the border or
both `x` and `y` are even and at least 2, is empty exactly when it is one of
(1,1), (2,1), (1,2), and holds a Soft cell exactly when it is neither. -/
theorem NewMap_layout :
    ∃ m, NewMap = Outcome.done m ∧ m.CellLength = 16 ∧ m.Width = 20 ∧ m.Height = 15 ∧
      m.Cells.length = 300 ∧
      ∀ x y : Int, 0 ≤ x → x < 20 → 0 ≤ y → y < 15 →
        (m.slot x y = some (some Cell.Wall) ↔
          (x = 0 ∨ x = 19 ∨ y = 0 ∨ y = 14 ∨ (2 ≤ x ∧ x % 2 = 0 ∧ 2 ≤ y ∧ y % 2 = 0))) ∧
        (m.slot x y = some none ↔ ((x = 1 ∧ y = 1) ∨ (x = 2 ∧ y = 1) ∨ (x = 1 ∧ y = 2))) ∧
        (m.slot x y = some (some Cell.Soft) ↔
          (¬ (x = 0 ∨ x = 19 ∨ y = 0 ∨ y = 14 ∨ (2 ≤ x ∧ x % 2 = 0 ∧ 2 ≤ y ∧ y % 2 = 0)) ∧
            ¬ ((x = 1 ∧ y = 1) ∨ (x = 2 ∧ y = 1) ∨ (x = 1 ∧ y = 2)))) := by
  refine ⟨NewMap.grid, NewMap_eq_grid, rfl, rfl, rfl, NewMap.grid_length, ?_⟩
  intro x y hx0 hx hy0 hy
  obtain ⟨hAt, hget⟩ := NewMap.grid_get x y hx0 hx hy0 hy
  have hslot : NewMap.grid.slot x y = some (NewMap.cell x.toNat y.toNat) :=
    Map.slot_eq_some.2 ⟨_, hAt, hget⟩
  rw [hslot]
  simp only [NewMap.cell]
  by_cases hw : x = 0 ∨ x = 19 ∨ y = 0 ∨ y = 14 ∨ (2 ≤ x ∧ x % 2 = 0 ∧ 2 ≤ y ∧ y % 2 = 0)
  · rw [if_pos (by omega)]
    refine ⟨⟨fun _ => hw, fun _ => rfl⟩, ⟨fun h => by simp at h, fun h => by omega⟩,
      ⟨fun h => by simp at h, fun h => absurd hw h.1⟩⟩
  · rw [if_neg (by omega)]
    by_cases he : (x = 1 ∧ y = 1) ∨ (x = 2 ∧ y = 1) ∨ (x = 1 ∧ y = 2)
    · rw [if_pos (by omega)]
      refine ⟨⟨fun h => by simp at h, fun h => absurd h hw⟩, ⟨fun _ => he, fun _ => rfl⟩,
        ⟨fun h => by simp at h, fun h => absurd he h.2⟩⟩
    · rw [if_neg (by omega)]
      refine ⟨⟨fun h => by simp at h, fun h => absurd h hw⟩,
        ⟨fun h => by simp at h, fun h => absurd h he⟩, ⟨fun _ => ⟨hw, he⟩, fun _ => rfl⟩⟩

/-- Witness of C15: the slots (0,7), on the border, and (4,6), a pillar, hold
a Wall; (1,1) is empty; (3,4) and (1,3) hold a Soft cell. -/
theorem NewMap_layout_witness :
    ∃ m, NewMap = Outcome.done m ∧ m.slot 0 7 = some (some Cell.Wall) ∧
      m.slot 4 6 = some (some Cell.Wall) ∧ m.slot 1 1 = some none ∧
      m.slot 3 4 = some (some Cell.Soft) ∧ m.slot 1 3 = some (some Cell.Soft) := by
  obtain ⟨m, h, -, -, -, -, hs⟩ := NewMap_layout
  exact ⟨m, h, (hs 0 7 (by decide) (by decide) (by decide) (by decide)).1.2 (by decide),
    (hs 4 6 (by decide) (by decide) (by decide) (by decide)).1.2 (by decide),
    (hs 1 1 (by decide) (by decide) (by decide) (by decide)).2.1.2 (by decide),
    (hs 3 4 (by decide) (by decide) (by decide) (by decide)).2.2.2 (by decide),
    (hs 1 3 (by decide) (by decide) (by decide) (by decide)).2.2.2 (by decide)⟩

/-! ## C16: what a pass selects -/

/-- C16.  A pass of `Map.PositionCorrection` on a well-formed grid returns.
If at least one cell that is solid for the actor (Wall, Soft, or bomb not put
by it) overlaps the actor on both axes, the correction of the pass is
`(dx, 0)` if `|dx| < |dy|` and `(0, dy)` otherwise, for the overlap vector
`(dx, dy)` of an overlapping solid cell `p` such that no overlapping solid
cell has a larger `|dx| + |dy|` and every one with the same `|dx| + |dy|` is
`p` or is visited after `p`; the remaining passes go on from the actor moved
by that correction.  If none overlaps, the correction is (0, 0) and no further
pass runs: the call returns the actor where it was. -/
theorem PositionCorrection_pass_selects_deepest (cp : CharPtr) (c : Character) (m : Map)
    (hwf : m.WF) (n : Nat) :
    ∃ s, PositionCorrection.pass cp m c = Outcome.done s ∧
      ((∃ p ∈ m.coords, m.hit cp c p = true) →
        ∃ p ∈ m.coords, m.hit cp c p = true ∧
          (s.correctX, s.correctY) =
            (if absInt (m.overlap c p.1 p.2).1 < absInt (m.overlap c p.1 p.2).2
              then ((m.overlap c p.1 p.2).1, 0) else (0, (m.overlap c p.1 p.2).2)) ∧
          (∀ q ∈ m.coords, m.hit cp c q = true →
            absInt (m.overlap c q.1 q.2).1 + absInt (m.overlap c q.1 q.2).2 ≤
              absInt (m.overlap c p.1 p.2).1 + absInt (m.overlap c p.1 p.2).2) ∧
          (∀ q ∈ m.coords, m.hit cp c q = true →
            absInt (m.overlap c q.1 q.2).1 + absInt (m.overlap c q.1 q.2).2 =
              absInt (m.overlap c p.1 p.2).1 + absInt (m.overlap c p.1 p.2).2 →
            q = p ∨ Before p q) ∧
          PositionCorrection.passes cp (n + 1) m c =
            PositionCorrection.passes cp n s.map
              { c with X := c.X + s.correctX, Y := c.Y + s.correctY }) ∧
      ((∀ p ∈ m.coords, m.hit cp c p = false) →
        s.correctX = 0 ∧ s.correctY = 0 ∧
        PositionCorrection.passes cp (n + 1) m c = Outcome.done (s.map, c)) := by
  obtain ⟨s, hs, -, -, hno, hsome⟩ := PositionCorrection.passes_step cp c m hwf n
  refine ⟨s, hs, ?_, ?_⟩
  · intro hh
    obtain ⟨p, hp, hhp, hpush, -, hmax, hrun⟩ := hsome hh
    refine ⟨p, hp, hhp, hpush, fun q hq hhq => (hmax q hq hhq).1,
      fun q hq hhq => (hmax q hq hhq).2, ?_⟩
    rw [hrun, ← hpush]
    rfl
  · intro hh
    obtain ⟨hl, hrun⟩ := hno hh
    simp only [Pass.locals, Prod.mk.injEq] at hl
    exact ⟨hl.1, hl.2.1, hrun⟩

/-- Witness of C16 in `Example.twoGrid`: `Example.twoActor` overlaps the cells
(1,1) and (2,1) with (6, -14) and (-6, -14), both of depth 20; the pass
corrects by (6, 0), the push of the first, and the next pass starts from
(32, 18).  A character at (0, 0) overlaps no solid cell: the correction is
(0, 0) and the call returns at once. -/
theorem PositionCorrection_pass_selects_deepest_witness :
    Example.twoGrid.overlap Example.twoActor 1 1 = (6, -14) ∧
      Example.twoGrid.overlap Example.twoActor 2 1 = (-6, -14) ∧
      PositionCorrection.pass 0 Example.twoGrid Example.twoActor =
        Outcome.done
          { map := Example.twoGrid, correctX := 6, correctY := 0, maxIntersection := 20 } ∧
      (∃ s, PositionCorrection.pass 0 Example.twoGrid Example.twoActor = Outcome.done s ∧
        ∃ p ∈ Example.twoGrid.coords, Example.twoGrid.hit 0 Example.twoActor p = true ∧
          ∀ q ∈ Example.twoGrid.coords, Example.twoGrid.hit 0 Example.twoActor q = true →
            absInt (Example.twoGrid.overlap Example.twoActor q.1 q.2).1 +
                absInt (Example.twoGrid.overlap Example.twoActor q.1 q.2).2 ≤
              absInt (Example.twoGrid.overlap Example.twoActor p.1 p.2).1 +
                absInt (Example.twoGrid.overlap Example.twoActor p.1 p.2).2) ∧
      ∃ s, PositionCorrection.pass 0 Example.twoGrid { Example.twoActor with X := 0, Y := 0 } =
          Outcome.done s ∧
        s.correctX = 0 ∧ s.correctY = 0 ∧
        PositionCorrection.passes 0 5 Example.twoGrid { Example.twoActor with X := 0, Y := 0 } =
          Outcome.done (s.map, { Example.twoActor with X := 0, Y := 0 }) := by
  refine ⟨by decide, by decide, by decide, ?_, ?_⟩
  · obtain ⟨s, hs, h1, -⟩ := PositionCorrection_pass_selects_deepest 0 Example.twoActor
      Example.twoGrid Example.twoGrid_only.1 0
    obtain ⟨p, hp, hh, -, hmax, -⟩ := h1 ⟨(1, 1), by decide, by decide⟩
    exact ⟨s, hs, p, hp, hh, hmax⟩
  · obtain ⟨s, hs, -, h2⟩ := PositionCorrection_pass_selects_deepest 0
      { Example.twoActor with X := 0, Y := 0 } Example.twoGrid Example.twoGrid_only.1 4
    exact ⟨s, hs, h2 (by decide)⟩

/-! ## C17: standing on one's own bomb -/

/-- C17.  In a well-formed grid let every Wall, Soft or bomb cell that the
actor overlaps on both axes be a bomb put by the actor (no cell at all may
overlap).  Then `Map.PositionCorrection` returns after one pass with the
actor as it was, `X` and `Y` included; every slot holds what it held, bombs
put by the actor that it overlaps with their putter, except that bombs put by
the actor that it does not overlap have lost their putter. -/
theorem PositionCorrection_on_own_bomb (cp : CharPtr) (m : Map) (c : Character) (hwf : m.WF)
    (hown : ∀ (p : Int × Int) (v : Option Cell), m.slot p.1 p.2 = some v →
      (v = some Cell.Wall ∨ v = some Cell.Soft ∨ ∃ b, v = some (Cell.Bomb b)) →
      ((m.overlap c p.1 p.2).1 ≠ 0 ∧ (m.overlap c p.1 p.2).2 ≠ 0) →
      ∃ b, v = some (Cell.Bomb b) ∧ b.putter = some cp) :
    ∃ m', m.PositionCorrection cp c = Outcome.done (m', c) ∧
      PositionCorrection.starts cp 5 m c = [c] ∧ SameShape m m' ∧
      (∀ (x y : Int) (k : Nat) (b : BombCell), m.At x y = some k →
        m.Cells[k]? = some (some (Cell.Bomb b)) → b.putter = some cp →
        ((m.overlap c x y).1 ≠ 0 ∧ (m.overlap c x y).2 ≠ 0) →
        m'.Cells[k]? = some (some (Cell.Bomb b))) ∧
      ∀ (x y : Int) (k : Nat), m.At x y = some k →
        m'.Cells[k]? = (m.Cells[k]?).map (settle cp (m.overlaps c x y)) := by
  have hnone : ∀ p ∈ m.coords, m.hit cp c p = false := by
    intro p _
    by_contra hc
    obtain ⟨v, hv, hsol, hov⟩ := Map.slot_of_hit (by simpa using hc : m.hit cp c p = true)
    simp only [Map.overlaps, decide_eq_true_eq] at hov
    have hkind : v = some Cell.Wall ∨ v = some Cell.Soft ∨ ∃ b, v = some (Cell.Bomb b) := by
      cases v with
      | none => simp [IsSolidFor] at hsol
      | some cell =>
        cases cell with
        | Wall => exact Or.inl rfl
        | Soft => exact Or.inr (Or.inl rfl)
        | Bomb b => exact Or.inr (Or.inr ⟨b, rfl⟩)
        | Flame f => simp [IsSolidFor] at hsol
    obtain ⟨b, rfl, hb⟩ := hown p v hv hkind hov
    simp [IsSolidFor, hb] at hsol
  obtain ⟨s, hs, hsh, hset, hno, -⟩ := PositionCorrection.passes_step cp c m hwf 4
  obtain ⟨hl, hrun⟩ := hno hnone
  refine ⟨s.map, hrun, ?_, hsh, ?_, hset⟩
  · simp only [Pass.locals, Prod.mk.injEq] at hl
    simp only [PositionCorrection.starts, hs, hl.2.2, if_true]
  · intro x y k b hA hv _ hov
    have hov' : m.overlaps c x y = true := by
      simp only [Map.overlaps, decide_eq_true_eq]
      exact hov
    rw [hset x y k hA, hv, hov']
    simp only [Option.map_some']
    rw [settle_of_hit]

/-- Witness of C17 in `Example.ownGrid`, for the character at address 7 that
put the bomb at (2,1): a character of length 12 at (34, 18) overlaps that bomb
and nothing else; the call leaves it at (34, 18) and the grid as it was. -/
theorem PositionCorrection_on_own_bomb_witness :
    Example.ownGrid.overlap { Example.bigActor with X := 34, Y := 18, Length := 12 } 2 1 =
        (-14, -14) ∧
      Example.ownGrid.PositionCorrection 7
          { Example.bigActor with X := 34, Y := 18, Length := 12 } =
        Outcome.done (Example.ownGrid, { Example.bigActor with X := 34, Y := 18, Length := 12 }) ∧
      ∃ m', Example.ownGrid.PositionCorrection 7
          { Example.bigActor with X := 34, Y := 18, Length := 12 } =
        Outcome.done (m', { Example.bigActor with X := 34, Y := 18, Length := 12 }) := by
  refine ⟨by decide, by decide, ?_⟩
  obtain ⟨m', h, -⟩ := PositionCorrection_on_own_bomb 7 Example.ownGrid
    { Example.bigActor with X := 34, Y := 18, Length := 12 } Example.ownGrid_single.1 (by
      intro p v hv hkind hov
      obtain ⟨x, y⟩ := p
      obtain ⟨k, hA, hk⟩ := Map.slot_eq_some.1 hv
      rw [Map.At_eq_some] at hA
      obtain ⟨h1, h2, h3, h4, rfl⟩ := hA
      simp only [Example.ownGrid] at h2 h4 hk
      interval_cases x <;> interval_cases y <;>
        first
          | (exfalso; revert hov; decide)
          | (simp at hk; subst hk; exact ⟨_, rfl, rfl⟩))
  exact ⟨m', h⟩

/-! ## C18: the blast in the open -/

/-- A loop of `Map.Explosion` on a grid without live bombs, all of whose
steps are in the grid on slots holding neither a Wall nor a Soft cell: it
returns, having set the slots of its steps aflame and left the others alone. -/
theorem Explosion.walk_clear (rec : Map → BombCell → Int → Int → Outcome Map)
    (coord : Int → Int × Int) (n : Nat) :
    ∀ (i : Int) (m : Map), NoLive m →
      (∀ j : Nat, j < n → ∃ k s, m.At (coord (i + j)).1 (coord (i + j)).2 = some k ∧
        m.Cells[k]? = some s ∧ IsBlock s = false) →
      ∃ m', Explosion.walk rec coord n i m = Outcome.done m' ∧ NoLive m' ∧ SameShape m m' ∧
        ∀ k : Nat,
          ((∃ j : Nat, j < n ∧ m.At (coord (i + j)).1 (coord (i + j)).2 = some k) →
            m'.Cells[k]? = some (some NewFlameCell)) ∧
          ((¬ ∃ j : Nat, j < n ∧ m.At (coord (i + j)).1 (coord (i + j)).2 = some k) →
            m'.Cells[k]? = m.Cells[k]?) := by
  induction n with
  | zero =>
    intro i m hn _
    refine ⟨m, rfl, hn, SameShape.srefl m, fun k => ⟨?_, fun _ => rfl⟩⟩
    rintro ⟨j, hj, -⟩
    omega
  | succ n ih =>
    intro i m hn hsteps
    obtain ⟨k0, s0, hA0, hs0, hb0⟩ := hsteps 0 (by omega)
    simp only [Nat.cast_zero, add_zero] at hA0
    have hf := Explosion.f_pass rec m (coord i).1 (coord i).2 k0 s0 hA0 hs0 hb0 (hn k0 s0 hs0)
    have hstep := Explosion.walk_succ_true (n := n) hf
    have hsteps1 : ∀ j : Nat, j < n → ∃ k s,
        (m.store k0 (some NewFlameCell)).At (coord (i + 1 + j)).1 (coord (i + 1 + j)).2 =
          some k ∧
        (m.store k0 (some NewFlameCell)).Cells[k]? = some s ∧ IsBlock s = false := by
      intro j hj
      obtain ⟨k, s, hA, hs, hb⟩ := hsteps (j + 1) (by omega)
      have e : i + ((j + 1 : Nat) : Int) = i + 1 + j := by push_cast; ring
      rw [e] at hA
      by_cases hk : k0 = k
      · subst hk
        exact ⟨k0, _, hA, Map.store_get_self_of_some m k0 _ _ hs, rfl⟩
      · exact ⟨k, s, hA, by rw [Map.store_get_other m k0 k _ hk]; exact hs, hb⟩
    obtain ⟨m', hw, hn', hsh, hspec⟩ := ih (i + 1) (m.store k0 (some NewFlameCell))
      (hn.nl_store_flame k0) hsteps1
    refine ⟨m', by rw [hstep]; exact hw, hn', (SameShape.sstore m k0 _).strans hsh, ?_⟩
    intro k
    constructor
    · rintro ⟨j, hj, hA⟩
      by_cases hlater : ∃ j : Nat, j < n ∧
          (m.store k0 (some NewFlameCell)).At (coord (i + 1 + j)).1 (coord (i + 1 + j)).2 =
            some k
      · exact (hspec k).1 hlater
      · rw [(hspec k).2 hlater]
        cases j with
        | zero =>
          simp only [Nat.cast_zero, add_zero] at hA
          rw [hA0] at hA
          injection hA with hA
          subst hA
          exact Map.store_get_self_of_some m k0 _ _ hs0
        | succ j =>
          exfalso
          apply hlater
          refine ⟨j, by omega, ?_⟩
          have e : i + ((j + 1 : Nat) : Int) = i + 1 + j := by push_cast; ring
          rw [e] at hA
          exact hA
    · intro hnot
      have hlater : ¬ ∃ j : Nat, j < n ∧
          (m.store k0 (some NewFlameCell)).At (coord (i + 1 + j)).1 (coord (i + 1 + j)).2 =
            some k := by
        rintro ⟨j, hj, hA⟩
        apply hnot
        refine ⟨j + 1, by omega, ?_⟩
        have e : i + ((j + 1 : Nat) : Int) = i + 1 + j := by push_cast; ring
        rw [e]
        exact hA
      have hk : k0 ≠ k := by
        intro e
        subst e
        apply hnot
        refine ⟨0, by omega, ?_⟩
        simp only [Nat.cast_zero, add_zero]
        exact hA0
      rw [(hspec k).2 hlater, Map.store_get_other m k0 k _ hk]

/-- One loop of the explosion of a bomb in the open, from a state `mi` in
which every slot is as after the marking of the bomb or aflame. -/
theorem Explosion.walk_open (rec : Map → BombCell → Int → Int → Outcome Map) (m m0 : Map)
    (x y p : Int) (i0 : Nat) (b0 : BombCell)
    (hA0 : m.At x y = some i0) (hm0 : m0 = m.store i0 (some (Cell.Bomb b0)))
    (hin : ∃ v, m.Cells[i0]? = some v)
    (hempty : ∀ (d : Dir) (j : Int), 1 ≤ j → j < p →
      ∃ k, k ≠ i0 ∧ m.At (d.coord x y j).1 (d.coord x y j).2 = some k ∧ m.Cells[k]? = some none)
    (d : Dir) (mi : Map) (hn : NoLive mi) (hsh : SameShape m mi)
    (hinv : ∀ k : Nat, mi.Cells[k]? = m0.Cells[k]? ∨ mi.Cells[k]? = some (some NewFlameCell)) :
    ∃ mi', Explosion.walk rec (d.coord x y) p.toNat 0 mi = Outcome.done mi' ∧ NoLive mi' ∧
      SameShape m mi' ∧
      (∀ k : Nat, mi'.Cells[k]? = m0.Cells[k]? ∨ mi'.Cells[k]? = some (some NewFlameCell)) ∧
      (∀ k : Nat, mi.Cells[k]? = some (some NewFlameCell) →
        mi'.Cells[k]? = some (some NewFlameCell)) ∧
      (∀ (k : Nat) (j : Int), 0 ≤ j → j < p →
        m.At (d.coord x y j).1 (d.coord x y j).2 = some k →
        mi'.Cells[k]? = some (some NewFlameCell)) ∧
      ∀ k : Nat, ¬ OnCross m x y p k → mi'.Cells[k]? = mi.Cells[k]? := by
  have hsteps : ∀ j : Nat, j < p.toNat → ∃ k s,
      mi.At (d.coord x y (0 + j)).1 (d.coord x y (0 + j)).2 = some k ∧
      mi.Cells[k]? = some s ∧ IsBlock s = false := by
    intro j hj
    rw [zero_add, hsh.At]
    by_cases hj0 : j = 0
    · subst hj0
      simp only [Nat.cast_zero, Dir.coord_zero]
      refine ⟨i0, ?_⟩
      obtain ⟨v, hv⟩ := hin
      rcases hinv i0 with h | h
      · rw [hm0, Map.store_get_self_of_some m i0 _ _ hv] at h
        exact ⟨_, hA0, h, rfl⟩
      · exact ⟨_, hA0, h, rfl⟩
    · obtain ⟨k, hk, hA, hs⟩ := hempty d j (by omega) (by omega)
      refine ⟨k, ?_⟩
      rcases hinv k with h | h
      · rw [hm0, Map.store_get_other m i0 k _ (fun e => hk e.symm), hs] at h
        exact ⟨_, hA, h, rfl⟩
      · exact ⟨_, hA, h, rfl⟩
  obtain ⟨mi', hw, hn', hsh', hspec⟩ := Explosion.walk_clear rec (d.coord x y) p.toNat 0 mi hn
    hsteps
  refine ⟨mi', hw, hn', hsh.strans hsh', ?_, ?_, ?_, ?_⟩
  · intro k
    by_cases hr : ∃ j : Nat, j < p.toNat ∧
        mi.At (d.coord x y (0 + j)).1 (d.coord x y (0 + j)).2 = some k
    · exact Or.inr ((hspec k).1 hr)
    · rw [(hspec k).2 hr]
      exact hinv k
  · intro k hk
    by_cases hr : ∃ j : Nat, j < p.toNat ∧
        mi.At (d.coord x y (0 + j)).1 (d.coord x y (0 + j)).2 = some k
    · exact (hspec k).1 hr
    · rw [(hspec k).2 hr]
      exact hk
  · intro k j hj0 hjp hA
    apply (hspec k).1
    refine ⟨j.toNat, by omega, ?_⟩
    rw [zero_add, hsh.At, Int.toNat_of_nonneg hj0]
    exact hA
  · intro k hk
    apply (hspec k).2
    rintro ⟨j, hj, hA⟩
    apply hk
    rw [zero_add, hsh.At] at hA
    exact ⟨d, j, by omega, by omega, hA⟩

/-- The explosion of the only bomb of a grid, of power at least 1, with every
step from 1 on below its power on the four rays in the grid on an empty slot:
it returns, the slots of the cross hold a new Flame and every other slot is
as it was. -/
theorem Explosion.run_open (fuel : Nat) (m : Map) (c : BombCell) (x y : Int) (i0 : Nat)
    (hA0 : m.At x y = some i0) (hs0 : m.Cells[i0]? = some (some (Cell.Bomb c)))
    (honly : ∀ (i : Nat) (b : BombCell), m.Cells[i]? = some (some (Cell.Bomb b)) → i = i0)
    (hp : 1 ≤ c.power)
    (hempty : ∀ (d : Dir) (j : Int), 1 ≤ j → j < c.power →
      m.slot (d.coord x y j).1 (d.coord x y j).2 = some none) :
    ∃ m', Explosion.run (fuel + 1) m c x y = Outcome.done m' ∧ SameShape m m' ∧
      ∀ k : Nat, (OnCross m x y c.power k → m'.Cells[k]? = some (some NewFlameCell)) ∧
        (¬ OnCross m x y c.power k → m'.Cells[k]? = m.Cells[k]?) := by
  have hmark : m.markExpired x y =
      m.store i0 (some (Cell.Bomb { c with framesToExplosion := 0 })) := by
    unfold Map.markExpired
    rw [hA0]
    simp only
    rw [hs0]
  have hempty' : ∀ (d : Dir) (j : Int), 1 ≤ j → j < c.power →
      ∃ k, k ≠ i0 ∧ m.At (d.coord x y j).1 (d.coord x y j).2 = some k ∧
        m.Cells[k]? = some none := by
    intro d j h1 h2
    obtain ⟨k, hk, hv⟩ := Map.slot_eq_some.1 (hempty d j h1 h2)
    refine ⟨k, ?_, hk, hv⟩
    intro e
    subst e
    rw [hs0] at hv
    simp at hv
  have hn0 : NoLive (m.markExpired x y) := by
    intro j s hs
    rw [hmark, Map.store_getElem?] at hs
    split_ifs at hs with h1 h2
    · injection hs with hs
      rw [← hs]
      rfl
    · cases s with
      | none => rfl
      | some cell =>
        cases cell with
        | Bomb b => exact absurd (honly j b hs).symm h1
        | _ => rfl
  have hcross0 : OnCross m x y c.power i0 :=
    ⟨Dir.negX, 0, le_refl _, by omega, by rw [Dir.coord_zero]; exact hA0⟩
  -- the four loops
  obtain ⟨m1, hw1, hn1, hsh1, hinv1, -, hr1, hu1⟩ := Explosion.walk_open (Explosion.run fuel) m
    (m.markExpired x y) x y c.power i0 _ hA0 hmark ⟨_, hs0⟩ hempty' Dir.negX
    (m.markExpired x y) hn0 (by rw [hmark]; exact SameShape.sstore m i0 _) (fun _ => Or.inl rfl)
  obtain ⟨m2, hw2, hn2, hsh2, hinv2, hk2, hr2, hu2⟩ := Explosion.walk_open (Explosion.run fuel) m
    (m.markExpired x y) x y c.power i0 _ hA0 hmark ⟨_, hs0⟩ hempty' Dir.posX m1 hn1 hsh1
    hinv1
  obtain ⟨m3, hw3, hn3, hsh3, hinv3, hk3, hr3, hu3⟩ := Explosion.walk_open (Explosion.run fuel) m
    (m.markExpired x y) x y c.power i0 _ hA0 hmark ⟨_, hs0⟩ hempty' Dir.negY m2 hn2 hsh2
    hinv2
  obtain ⟨m4, hw4, -, hsh4, -, hk4, hr4, hu4⟩ := Explosion.walk_open (Explosion.run fuel) m
    (m.markExpired x y) x y c.power i0 _ hA0 hmark ⟨_, hs0⟩ hempty' Dir.posY m3 hn3 hsh3
    hinv3
  refine ⟨m4, ?_, hsh4, ?_⟩
  · show Explosion.body (Explosion.run fuel) m c x y = Outcome.done m4
    unfold Explosion.body
    have e1 : Explosion.walk (Explosion.run fuel) (fun i => (x - i, y)) c.power.toNat 0
        (m.markExpired x y) = Outcome.done m1 := hw1
    have e2 : Explosion.walk (Explosion.run fuel) (fun i => (x + i, y)) c.power.toNat 0 m1 =
        Outcome.done m2 := hw2
    have e3 : Explosion.walk (Explosion.run fuel) (fun i => (x, y - i)) c.power.toNat 0 m2 =
        Outcome.done m3 := hw3
    have e4 : Explosion.walk (Explosion.run fuel) (fun i => (x, y + i)) c.power.toNat 0 m3 =
        Outcome.done m4 := hw4
    rw [e1]
    simp only [Outcome.bind]
    rw [e2]
    simp only [Outcome.bind]
    rw [e3]
    simp only [Outcome.bind]
    exact e4
  · intro k
    constructor
    · rintro ⟨d, j, hj0, hjp, hA⟩
      cases d with
      | negX => exact hk4 k (hk3 k (hk2 k (hr1 k j hj0 hjp hA)))
      | posX => exact hk4 k (hk3 k (hr2 k j hj0 hjp hA))
      | negY => exact hk4 k (hr3 k j hj0 hjp hA)
      | posY => exact hr4 k j hj0 hjp hA
    · intro hk
      have hne : i0 ≠ k := by
        intro e
        subst e
        exact hk hcross0
      rw [hu4 k hk, hu3 k hk, hu2 k hk, hu1 k hk, hmark, Map.store_get_other m i0 k _ hne]

/-- C18: in a grid whose only bomb is the detonating one, of power `p ≥ 1`,
at `(x, y)`, with every step `j`, `1 ≤ j < p`, of the four rays inside the
grid on an empty slot, `Map.Explosion` returns; the grid keeps its shape; the
slots of the steps `0 ≤ j < p` of the four rays, origin included, hold a new
Flame with 60 frames; every other slot is as it was, in particular the slot at
step `p` of each ray: the blast reaches `p - 1` cells from the origin. -/
theorem Explosion_open_cross (m : Map) (c : BombCell) (x y : Int)
    (horigin : m.slot x y = some (some (Cell.Bomb c)))
    (honly : ∀ (i : Nat) (b : BombCell), m.Cells[i]? = some (some (Cell.Bomb b)) →
      m.At x y = some i)
    (hp : 1 ≤ c.power)
    (hempty : ∀ (d : Dir) (j : Int), 1 ≤ j → j < c.power →
      m.slot (d.coord x y j).1 (d.coord x y j).2 = some none) :
    ∃ m', m.Explosion c x y = Outcome.done m' ∧ SameShape m m' ∧
      (∀ (d : Dir) (j : Int), 0 ≤ j → j < c.power →
        m'.slot (d.coord x y j).1 (d.coord x y j).2 =
          some (some (Cell.Flame { frames := 60 }))) ∧
      (∀ px py : Int, (¬ ∃ (d : Dir) (j : Int), 0 ≤ j ∧ j < c.power ∧ d.coord x y j = (px, py)) →
        m'.slot px py = m.slot px py) ∧
      (∀ k : Nat, ¬ OnCross m x y c.power k → m'.Cells[k]? = m.Cells[k]?) ∧
      ∀ d : Dir, m'.slot (d.coord x y c.power).1 (d.coord x y c.power).2 =
        m.slot (d.coord x y c.power).1 (d.coord x y c.power).2 := by
  obtain ⟨i0, hA0, hs0⟩ := Map.slot_eq_some.1 horigin
  have honly' : ∀ (i : Nat) (b : BombCell), m.Cells[i]? = some (some (Cell.Bomb b)) → i = i0 := by
    intro i b hb
    have := honly i b hb
    rw [hA0] at this
    injection this with this
    exact this.symm
  obtain ⟨m', hrun, hsh, hspec⟩ := Explosion.run_open (liveBombs m.Cells) m c x y i0 hA0 hs0
    honly' hp hempty
  have hoff : ∀ px py : Int,
      (¬ ∃ (d : Dir) (j : Int), 0 ≤ j ∧ j < c.power ∧ d.coord x y j = (px, py)) →
      m'.slot px py = m.slot px py := by
    intro px py hno
    refine Map.slot_congr hsh px py (fun k hk => (hspec k).2 ?_)
    rintro ⟨d, j, hj0, hjp, hA⟩
    have e := Map.At_inj hA hk
    exact hno ⟨d, j, hj0, hjp, Prod.ext e.1 e.2⟩
  refine ⟨m', hrun, hsh, ?_, hoff, fun k => (hspec k).2, ?_⟩
  · intro d j hj0 hjp
    have hin : ∃ k, m.At (d.coord x y j).1 (d.coord x y j).2 = some k := by
      by_cases hj : j = 0
      · subst hj
        rw [Dir.coord_zero]
        exact ⟨i0, hA0⟩
      · obtain ⟨k, hk, -⟩ := Map.slot_eq_some.1 (hempty d j (by omega) hjp)
        exact ⟨k, hk⟩
    obtain ⟨k, hk⟩ := hin
    rw [Map.slot_eq_some]
    exact ⟨k, by rw [hsh.At]; exact hk, (hspec k).1 ⟨d, j, hj0, hjp, hk⟩⟩
  · intro d
    apply hoff
    rintro ⟨d', j, hj0, hjp, he⟩
    by_cases hd : d' = d
    · subst hd
      have := Dir.coord_inj d' x y j c.power he
      omega
    · exact Dir.coord_ne hd x y c.power j hp hj0 he

/-- Witness of C18 in `Example.openGrid`: the bomb of power 3 at (3,3) leaves
a Flame on (1,3) .. (5,3) and (3,1) .. (3,5); the slots three steps away, such
as (0,3) and (6,3), stay empty. -/
theorem Explosion_open_cross_witness :
    Example.openGrid.Explosion { framesToExplosion := 0, power := 3, putter := none } 3 3 =
        Outcome.done Example.openGridAfter ∧
      Example.openGridAfter.slot 5 3 = some (some (Cell.Flame { frames := 60 })) ∧
      Example.openGridAfter.slot 6 3 = some none ∧
      ∃ m', Example.openGrid.Explosion { framesToExplosion := 0, power := 3, putter := none }
          3 3 = Outcome.done m' ∧
        (∀ (d : Dir) (j : Int), 0 ≤ j → j < 3 →
          m'.slot (d.coord 3 3 j).1 (d.coord 3 3 j).2 =
            some (some (Cell.Flame { frames := 60 }))) ∧
        ∀ d : Dir, m'.slot (d.coord 3 3 3).1 (d.coord 3 3 3).2 =
          Example.openGrid.slot (d.coord 3 3 3).1 (d.coord 3 3 3).2 := by
  refine ⟨by decide, by decide, by decide, ?_⟩
  obtain ⟨m', h1, -, h3, -, -, h6⟩ := Explosion_open_cross Example.openGrid
    { framesToExplosion := 0, power := 3, putter := none } 3 3 (by decide)
    (by
      intro i b h
      have hi : i < 49 := by
        by_contra hc
        rw [List.getElem?_eq_none (by simpa [Example.openGrid] using hc)] at h
        cases h
      interval_cases i <;>
        first
          | rfl
          | (exfalso; simp [Example.openGrid] at h))
    (by decide)
    (by
      intro d j h1 h2
      cases d <;> interval_cases j <;> decide)
  exact ⟨m', h1, h3, h6⟩

/-! ## C19: the depth of the recursion -/

/-- The closure `f` calls `rec` only on the grid it is given, at its own
coordinates, with the live bomb that the slot holds. -/
theorem Explosion.f_congr_live (rec rec' : Map → BombCell → Int → Int → Outcome Map) (m : Map)
    (x y : Int)
    (h : ∀ (i : Nat) (bc : BombCell), m.At x y = some i →
      m.Cells[i]? = some (some (Cell.Bomb bc)) → bc.HasExpired = false →
      rec m bc x y = rec' m bc x y) :
    Explosion.f rec m x y = Explosion.f rec' m x y := by
  unfold Explosion.f
  cases hA : m.At x y with
  | none => rfl
  | some i =>
    simp only
    cases hC : m.Cells[i]? with
    | none => rfl
    | some v =>
      cases v with
      | none => rfl
      | some cell =>
        cases cell with
        | Wall => rfl
        | Soft => rfl
        | Flame fl => rfl
        | Bomb bc =>
          simp only
          by_cases hl : bc.HasExpired = true
          · simp [hl]
          · have hl' : bc.HasExpired = false := by simpa using hl
            simp only [hl', Bool.not_false, if_true]
            rw [h i bc hA hC hl']

theorem Explosion.f_stable {rec rec' : Map → BombCell → Int → Int → Outcome Map}
    (hrec : ∀ m c x y, rec m c x y ≠ Outcome.outOfFuel → rec' m c x y = rec m c x y)
    (m : Map) (x y : Int) (h : Explosion.f rec m x y ≠ Outcome.outOfFuel) :
    Explosion.f rec' m x y = Explosion.f rec m x y := by
  apply Explosion.f_congr_live
  intro i bc hA hC hl
  apply hrec
  intro hoof
  apply h
  rw [Explosion.f_live rec m x y i bc hA hC hl, hoof]
  rfl

theorem Explosion.walk_stable {rec rec' : Map → BombCell → Int → Int → Outcome Map}
    (hrec : ∀ m c x y, rec m c x y ≠ Outcome.outOfFuel → rec' m c x y = rec m c x y)
    (coord : Int → Int × Int) (n : Nat) :
    ∀ (i : Int) (m : Map), Explosion.walk rec coord n i m ≠ Outcome.outOfFuel →
      Explosion.walk rec' coord n i m = Explosion.walk rec coord n i m := by
  induction n with
  | zero =>
    intro i m _
    rfl
  | succ n ih =>
    intro i m h
    have hf : Explosion.f rec m (coord i).1 (coord i).2 ≠ Outcome.outOfFuel := by
      intro hoof
      apply h
      unfold Explosion.walk
      rw [hoof]
    have hf' := Explosion.f_stable hrec m (coord i).1 (coord i).2 hf
    unfold Explosion.walk
    rw [hf']
    cases hr : Explosion.f rec m (coord i).1 (coord i).2 with
    | crash => rfl
    | outOfFuel => rfl
    | done r =>
      obtain ⟨m1, b⟩ := r
      cases b with
      | false => rfl
      | true =>
        simp only
        apply ih
        intro hoof
        apply h
        unfold Explosion.walk
        rw [hr]
        exact hoof

theorem Outcome.bind_stable {α β : Type} {o : Outcome α} {k k' : α → Outcome β}
    (h : o.bind k ≠ Outcome.outOfFuel)
    (hk : ∀ a, o = Outcome.done a → k a ≠ Outcome.outOfFuel → k' a = k a) :
    o.bind k' = o.bind k := by
  cases o with
  | crash => rfl
  | outOfFuel => rfl
  | done a => exact hk a rfl h

theorem Explosion.body_stable {rec rec' : Map → BombCell → Int → Int → Outcome Map}
    (hrec : ∀ m c x y, rec m c x y ≠ Outcome.outOfFuel → rec' m c x y = rec m c x y)
    (m : Map) (c : BombCell) (x y : Int)
    (h : Explosion.body rec m c x y ≠ Outcome.outOfFuel) :
    Explosion.body rec' m c x y = Explosion.body rec m c x y := by
  unfold Explosion.body at h ⊢
  have h1 : Explosion.walk rec (fun i => (x - i, y)) c.power.toNat 0 (m.markExpired x y) ≠
      Outcome.outOfFuel := by
    intro hoof
    apply h
    rw [hoof]
    rfl
  rw [Explosion.walk_stable hrec _ _ _ _ h1]
  refine Outcome.bind_stable h ?_
  intro m1 _ h
  have h2 : Explosion.walk rec (fun i => (x + i, y)) c.power.toNat 0 m1 ≠
      Outcome.outOfFuel := by
    intro hoof
    apply h
    rw [hoof]
    rfl
  rw [Explosion.walk_stable hrec _ _ _ _ h2]
  refine Outcome.bind_stable h ?_
  intro m2 _ h
  have h3 : Explosion.walk rec (fun i => (x, y - i)) c.power.toNat 0 m2 ≠
      Outcome.outOfFuel := by
    intro hoof
    apply h
    rw [hoof]
    rfl
  rw [Explosion.walk_stable hrec _ _ _ _ h3]
  refine Outcome.bind_stable h ?_
  intro m3 _ h
  exact Explosion.walk_stable hrec _ _ _ _ h

/-- A budget that was not used up can be raised without changing the result. -/
theorem Explosion.run_stable (fuel : Nat) :
    ∀ (m : Map) (c : BombCell) (x y : Int), Explosion.run fuel m c x y ≠ Outcome.outOfFuel →
      Explosion.run (fuel + 1) m c x y = Explosion.run fuel m c x y := by
  induction fuel with
  | zero =>
    intro m c x y h
    exact absurd rfl h
  | succ fuel ih =>
    intro m c x y h
    exact Explosion.body_stable ih m c x y h

/-- Every budget above the number of bombs that are live once the exploding
bomb is marked gives the same result, which is not `outOfFuel`. -/
theorem Explosion.run_budget (m : Map) (c : BombCell) (x y : Int) (extra : Nat) :
    Explosion.run (liveBombs (m.markExpired x y).Cells + 1 + extra) m c x y =
        Explosion.run (liveBombs (m.markExpired x y).Cells + 1) m c x y ∧
      Explosion.run (liveBombs (m.markExpired x y).Cells + 1) m c x y ≠ Outcome.outOfFuel := by
  have h0 := Explosion.run_ne_outOfFuel (liveBombs (m.markExpired x y).Cells) m c x y (le_refl _)
  refine ⟨?_, h0⟩
  induction extra with
  | zero => rfl
  | succ extra ih =>
    have := Explosion.run_stable (liveBombs (m.markExpired x y).Cells + 1 + extra) m c x y
      (by rw [ih]; exact h0)
    rw [← ih, ← this]
    rfl

theorem liveBombs_le_bombs (l : List (Option Cell)) : liveBombs l ≤ bombs l := by
  induction l with
  | nil => exact le_refl _
  | cons a l ih =>
    cases a with
    | none => exact ih
    | some cell =>
      cases cell with
      | Bomb b =>
        simp only [liveBombs, bombs]
        split_ifs <;> omega
      | Wall => exact ih
      | Soft => exact ih
      | Flame f => exact ih

theorem bombs_set_bomb (l : List (Option Cell)) :
    ∀ (i : Nat) (b b' : BombCell), l[i]? = some (some (Cell.Bomb b)) →
      bombs (l.set i (some (Cell.Bomb b'))) = bombs l := by
  induction l with
  | nil =>
    intro i b b' h
    simp at h
  | cons a l ih =>
    intro i b b' h
    cases i with
    | zero =>
      simp only [List.getElem?_cons_zero, Option.some.injEq] at h
      subst h
      simp [bombs]
    | succ i =>
      simp only [List.getElem?_cons_succ] at h
      simp only [List.set_cons_succ]
      cases a with
      | none => exact ih i b b' h
      | some cell =>
        cases cell with
        | Bomb b0 =>
          simp only [bombs]
          rw [ih i b b' h]
        | Wall => exact ih i b b' h
        | Soft => exact ih i b b' h
        | Flame f => exact ih i b b' h

/-- A list that holds an expired bomb holds more bombs than live bombs. -/
theorem liveBombs_lt_bombs (l : List (Option Cell)) :
    ∀ (i : Nat) (b : BombCell), l[i]? = some (some (Cell.Bomb b)) → b.HasExpired = true →
      liveBombs l + 1 ≤ bombs l := by
  induction l with
  | nil =>
    intro i b h
    simp at h
  | cons a l ih =>
    intro i b h hb
    cases i with
    | zero =>
      simp only [List.getElem?_cons_zero, Option.some.injEq] at h
      subst h
      have := liveBombs_le_bombs l
      simp only [liveBombs, bombs, hb, if_true]
      omega
    | succ i =>
      simp only [List.getElem?_cons_succ] at h
      have := ih i b h hb
      cases a with
      | none => exact this
      | some cell =>
        cases cell with
        | Bomb b0 =>
          simp only [liveBombs, bombs]
          split_ifs <;> omega
        | Wall => exact this
        | Soft => exact this
        | Flame f => exact this

theorem bombs_le_length (l : List (Option Cell)) : bombs l ≤ l.length := by
  induction l with
  | nil => exact le_refl _
  | cons a l ih =>
    cases a with
    | none => simp only [bombs, List.length_cons]; omega
    | some cell =>
      cases cell <;> simp only [bombs, List.length_cons] <;> omega

/-- With the exploding bomb in the slot of the origin, the budget that
suffices is at most the number of bombs of the grid. -/
theorem liveBombs_markExpired_lt_bombs (m : Map) (x y : Int) (c : BombCell)
    (h : m.slot x y = some (some (Cell.Bomb c))) :
    liveBombs (m.markExpired x y).Cells + 1 ≤ bombs m.Cells := by
  obtain ⟨i, hA, hs⟩ := Map.slot_eq_some.1 h
  have hmark : m.markExpired x y =
      m.store i (some (Cell.Bomb { c with framesToExplosion := 0 })) := by
    unfold Map.markExpired
    rw [hA]
    simp only
    rw [hs]
  rw [hmark]
  have hb := bombs_set_bomb m.Cells i c { c with framesToExplosion := 0 } hs
  have hlt : i < m.Cells.length := by
    by_contra hc
    rw [List.getElem?_eq_none (by omega)] at hs
    cases hs
  have := liveBombs_lt_bombs (m.Cells.set i (some (Cell.Bomb { c with framesToExplosion := 0 })))
    i { c with framesToExplosion := 0 } (by rw [List.getElem?_set_self hlt]) rfl
  rw [hb] at this
  exact this

/-- C19.  `Map.Explosion` never runs out of its budget, for any grid, origin
and bomb: the recursion is never deeper than one plus the number `N` of bombs
that are live once the exploding bomb is marked expired, and every larger
budget gives the same result as the budget `N + 1`, which is also the result
of `Map.Explosion`.  The closure `f` makes the recursive call only on the live
bomb held by the slot it looks at; marking such a bomb expired, which the call
does first, takes exactly one off the number of live bombs, and an explosion
that returns has not raised that number.  When the slot of the origin holds a
bomb, `N + 1` is at most the number of bombs of the grid, which is at most
the number of its slots. -/
theorem Explosion_terminates (m : Map) (c : BombCell) (x y : Int) :
    m.Explosion c x y ≠ Outcome.outOfFuel ∧
    (∀ extra : Nat,
      Explosion.run (liveBombs (m.markExpired x y).Cells + 1 + extra) m c x y =
        Explosion.run (liveBombs (m.markExpired x y).Cells + 1) m c x y) ∧
    m.Explosion c x y = Explosion.run (liveBombs (m.markExpired x y).Cells + 1) m c x y ∧
    (∀ (rec rec' : Map → BombCell → Int → Int → Outcome Map) (m1 : Map) (px py : Int),
      (∀ (i : Nat) (bc : BombCell), m1.At px py = some i →
        m1.Cells[i]? = some (some (Cell.Bomb bc)) → bc.HasExpired = false →
        rec m1 bc px py = rec' m1 bc px py) →
      Explosion.f rec m1 px py = Explosion.f rec' m1 px py) ∧
    (∀ (m1 : Map) (px py : Int) (i : Nat) (bc : BombCell), m1.At px py = some i →
      m1.Cells[i]? = some (some (Cell.Bomb bc)) → bc.HasExpired = false →
      liveBombs (m1.markExpired px py).Cells + 1 = liveBombs m1.Cells) ∧
    (∀ (fuel : Nat) (m1 : Map) (c1 : BombCell) (px py : Int) (m' : Map),
      Explosion.run fuel m1 c1 px py = Outcome.done m' →
      liveBombs m'.Cells ≤ liveBombs m1.Cells) ∧
    ((∃ b, m.slot x y = some (some (Cell.Bomb b))) →
      liveBombs (m.markExpired x y).Cells + 1 ≤ bombs m.Cells ∧
        bombs m.Cells ≤ m.Cells.length) := by
  refine ⟨Map.Explosion_ne_outOfFuel m c x y,
    fun extra => (Explosion.run_budget m c x y extra).1, ?_,
    fun rec rec' m1 px py h => Explosion.f_congr_live rec rec' m1 px py h,
    fun m1 px py i bc hA hs hl => liveBombs_markExpired_live m1 px py i bc hA hs hl,
    fun fuel m1 c1 px py m' h => Explosion.run_liveBombs_le fuel m1 c1 px py m' h, ?_⟩
  · have hle := liveBombs_markExpired_le m x y
    have e : liveBombs m.Cells + 1 = liveBombs (m.markExpired x y).Cells + 1 +
        (liveBombs m.Cells - liveBombs (m.markExpired x y).Cells) := by omega
    unfold Map.Explosion
    rw [e]
    exact (Explosion.run_budget m c x y _).1
  · rintro ⟨b, hb⟩
    exact ⟨liveBombs_markExpired_lt_bombs m x y b hb, bombs_le_length m.Cells⟩

/-- Witness of C19 in `Example.pairGrid`, whose two bombs of power 2 at (1,1)
and (2,1) each reach the other: the explosion rooted at (1,1) returns; one
bomb is live once the first is marked, the grid holds 2 bombs in 12 slots. -/
theorem Explosion_terminates_witness :
    Example.pairGrid.Explosion { framesToExplosion := 0, power := 2, putter := none } 1 1 =
        Outcome.done Example.pairGridAfter ∧
      liveBombs (Example.pairGrid.markExpired 1 1).Cells = 1 ∧
      bombs Example.pairGrid.Cells = 2 ∧
      (liveBombs (Example.pairGrid.markExpired 1 1).Cells + 1 ≤ bombs Example.pairGrid.Cells ∧
        bombs Example.pairGrid.Cells ≤ Example.pairGrid.Cells.length) :=
  ⟨by decide, by decide, by decide,
    (Explosion_terminates Example.pairGrid
      { framesToExplosion := 0, power := 2, putter := none } 1 1).2.2.2.2.2.2
      ⟨{ framesToExplosion := 0, power := 2, putter := none }, by decide⟩⟩

/-! ## C20: no lookup outside the grid inside a border of walls -/

/-- Every reachable grid is well-formed and has a border of walls. -/
theorem Reachable.wf_bordered {m : Map} (h : Reachable m) : m.WF ∧ m.Bordered := by
  induction h with
  | init m hm =>
    rw [NewMap_eq_grid] at hm
    injection hm with hm
    rw [← hm]
    exact ⟨NewMap.grid_WF, NewMap.grid_bordered⟩
  | update m m' _ hu ih =>
    have hf := Map.Update_frame m m' hu
    exact ⟨hf.1.WF ih.1, hf.bordered ih.2⟩
  | putBomb g g' p b _ hp ih =>
    have hf := Game.PutBomb_frame g p g' b hp
    exact ⟨hf.1.WF ih.1, hf.bordered ih.2⟩
  | correct m m' cp c c' _ hc ih =>
    have hf := Map.PositionCorrection_frame m cp c m' c' hc
    exact ⟨hf.1.WF ih.1, hf.bordered ih.2⟩

/-- C20.  On a well-formed grid whose border slots all hold a Wall,
`Map.Explosion` rooted at a coordinate of the grid returns, whatever the power
and whatever it chains, and so does `Map.Update`; the grid returned is again
well-formed with a border of walls.  Since every call of the closure `f` at a
coordinate outside the grid is a crash (the dereference of the nil pointer
that `Map.At` returns), no such call is made.  The grid built by `NewMap` is
well-formed with a border of walls, and so is every grid reachable from it by
`Map.Update`, `Game.PutBomb` and `Map.PositionCorrection`: on each of them
`Map.Explosion` and `Map.Update` return. -/
theorem Explosion_safe_inside_border :
    (∀ m : Map, m.WF → m.Bordered →
      (∀ (c : BombCell) (x y : Int) (k : Nat), m.At x y = some k →
        ∃ m', m.Explosion c x y = Outcome.done m' ∧ m'.WF ∧ m'.Bordered) ∧
      ∃ m', m.Update = Outcome.done m' ∧ m'.WF ∧ m'.Bordered) ∧
    (∀ (rec : Map → BombCell → Int → Int → Outcome Map) (m : Map) (x y : Int),
      m.At x y = none → Explosion.f rec m x y = Outcome.crash) ∧
    (∃ m0, NewMap = Outcome.done m0 ∧ m0.WF ∧ m0.Bordered) ∧
    (∀ m : Map, Reachable m →
      m.WF ∧ m.Bordered ∧
      (∀ (c : BombCell) (x y : Int) (k : Nat), m.At x y = some k →
        ∃ m', m.Explosion c x y = Outcome.done m') ∧
      ∃ m', m.Update = Outcome.done m' ∧ Reachable m') := by
  refine ⟨?_, fun rec m x y h => Explosion.f_oob rec m x y h,
    ⟨NewMap.grid, NewMap_eq_grid, NewMap.grid_WF, NewMap.grid_bordered⟩, ?_⟩
  · intro m hwf hb
    constructor
    · intro c x y k hA
      obtain ⟨m', h⟩ := Map.Explosion_total m c x y k hwf hb hA
      have hf := Map.Explosion_frame m c x y m' h
      exact ⟨m', h, hf.1.WF hwf, hf.bordered hb⟩
    · obtain ⟨m', h, hf⟩ := Map.Update_total m hwf hb
      exact ⟨m', h, hf.1.WF hwf, hf.bordered hb⟩
  · intro m hr
    obtain ⟨hwf, hb⟩ := hr.wf_bordered
    refine ⟨hwf, hb, ?_, ?_⟩
    · intro c x y k hA
      exact Map.Explosion_total m c x y k hwf hb hA
    · obtain ⟨m', h, -⟩ := Map.Update_total m hwf hb
      exact ⟨m', h, Reachable.update m m' hr h⟩

/-- Witness of C20 in the wall-bordered `Example.chainGrid`: the explosion of
the bomb of power 3 at (1,1), which chains the bomb at (2,1), returns, and so
does `Map.Update`. -/
theorem Explosion_safe_inside_border_witness :
    Example.chainGrid.Explosion { framesToExplosion := 1, power := 3, putter := none } 1 1 =
        Outcome.done Example.chainGridAfter ∧
      (∃ m', Example.chainGrid.Explosion { framesToExplosion := 1, power := 3, putter := none }
          1 1 = Outcome.done m' ∧ m'.WF ∧ m'.Bordered) ∧
      ∃ m', Example.chainGrid.Update = Outcome.done m' ∧ m'.WF ∧ m'.Bordered :=
  ⟨by decide,
    (Explosion_safe_inside_border.1 Example.chainGrid Example.chainGrid_bordered.1
      Example.chainGrid_bordered.2).1 { framesToExplosion := 1, power := 3, putter := none }
      1 1 6 (by decide),
    (Explosion_safe_inside_border.1 Example.chainGrid Example.chainGrid_bordered.1
      Example.chainGrid_bordered.2).2⟩

/-! ## C8: a walk that leaves the grid, in general -/

theorem Map.blockAt_store_of_not_block (m : Map) (i : Nat) (v : Option Cell)
    (hv : IsBlock v = false) (p : Int × Int) (hb : m.blockAt p = false) :
    (m.store i v).blockAt p = false := by
  unfold Map.blockAt Map.slot at *
  rw [Map.At_store]
  cases hA : m.At p.1 p.2 with
  | none => rfl
  | some k =>
    rw [hA] at hb
    simp only at hb ⊢
    rw [Map.store_getElem?]
    by_cases hik : i = k
    · subst hik
      simp only [if_true]
      split_ifs
      · exact hv
      · rfl
    · simp only [hik, if_false]
      exact hb

theorem LeavesGrid.store {coord : Int → Int × Int} {j : Int} {m : Map}
    (h : LeavesGrid coord j m) (i : Nat) (v : Option Cell) (hv : IsBlock v = false) :
    LeavesGrid coord j (m.store i v) :=
  ⟨fun j' h0 h1 => Map.blockAt_store_of_not_block m i v hv _ (h.1 j' h0 h1), by
    rw [Map.At_store]
    exact h.2⟩

theorem LeavesGrid.lg_markExpired {coord : Int → Int × Int} {j : Int} {m : Map}
    (h : LeavesGrid coord j m) (x y : Int) : LeavesGrid coord j (m.markExpired x y) := by
  rcases Map.markExpired_cases m x y with e | ⟨i, b, -, -, e⟩
  · rw [e]
    exact h
  · rw [e]
    exact h.store i _ rfl

/-- A loop of more than `t` iterations entered `t` steps before the step at
which its ray leaves the grid does not return: it crashes at that step, if
not before. -/
theorem Explosion.walk_leavesGrid {rec : Map → BombCell → Int → Int → Outcome Map}
    (coord : Int → Int × Int) (j : Int)
    (hrec : ∀ m c x y m', LeavesGrid coord j m → rec m c x y = Outcome.done m' →
      LeavesGrid coord j m') :
    ∀ (t n : Nat) (i : Int) (m : Map), LeavesGrid coord j m → 0 ≤ i → i + t = j → t < n →
      ∀ m', Explosion.walk rec coord n i m ≠ Outcome.done m' := by
  intro t
  induction t with
  | zero =>
    intro n i m hL _ hi hn m' h
    obtain ⟨n, rfl⟩ : ∃ k, n = k + 1 := ⟨n - 1, by omega⟩
    have hij : i = j := by omega
    subst hij
    rw [Explosion.walk_oob rec coord n i m hL.2] at h
    cases h
  | succ t ih =>
    intro n i m hL h0 hi hn m' h
    obtain ⟨n, rfl⟩ : ∃ k, n = k + 1 := ⟨n - 1, by omega⟩
    obtain ⟨m1, b, hf, hc⟩ := Explosion.walk_done h
    have hL1 : LeavesGrid coord j m1 :=
      Explosion.f_invariant (LeavesGrid coord j) (fun m i hI => hI.store i _ rfl) hrec hL hf
    have hfree := hL.1 i h0 (by omega)
    obtain ⟨k, s, hA, hs, hcase⟩ := Explosion.f_done hf
    rw [Map.blockAt_true_of hA hs] at hfree
    have hb : b = true := by
      rcases hcase with ⟨rfl, -, -⟩ | ⟨rfl, -, -⟩ | ⟨_, _, -, -, -, -, hb⟩ | ⟨-, -, -, hb⟩
      · cases hfree
      · cases hfree
      · exact hb
      · exact hb
    rcases hc with ⟨hb', -⟩ | ⟨-, hw⟩
    · rw [hb] at hb'
      cases hb'
    · exact ih n (i + 1) m1 hL1 (by omega) (by omega) (by omega) m' hw

theorem Explosion.body_leavesGrid {rec : Map → BombCell → Int → Int → Outcome Map}
    (m : Map) (c : BombCell) (x y : Int) (d : Dir) (j : Int)
    (hrec : ∀ m c u v m', LeavesGrid (d.coord x y) j m → rec m c u v = Outcome.done m' →
      LeavesGrid (d.coord x y) j m')
    (hj0 : 0 ≤ j) (hjp : j < c.power) (hL : LeavesGrid (d.coord x y) j m) :
    ∀ m', Explosion.body rec m c x y ≠ Outcome.done m' := by
  intro m' h
  obtain ⟨m1, m2, m3, h1, h2, h3, h4⟩ := Explosion.body_done h
  have hst : ∀ (m : Map) (i : Nat), LeavesGrid (d.coord x y) j m →
      LeavesGrid (d.coord x y) j (m.store i (some NewFlameCell)) :=
    fun m i hI => hI.store i _ rfl
  have i0 := hL.lg_markExpired x y
  have hn : j.toNat < c.power.toNat := by omega
  have hk : (0 : Int) + j.toNat = j := by omega
  have i1 := Explosion.walk_invariant _ hst hrec _ _ _ _ _ i0 h1
  have i2 := Explosion.walk_invariant _ hst hrec _ _ _ _ _ i1 h2
  have i3 := Explosion.walk_invariant _ hst hrec _ _ _ _ _ i2 h3
  cases d with
  | negX => exact Explosion.walk_leavesGrid _ j hrec _ _ 0 _ i0 (le_refl _) hk hn _ h1
  | posX => exact Explosion.walk_leavesGrid _ j hrec _ _ 0 _ i1 (le_refl _) hk hn _ h2
  | negY => exact Explosion.walk_leavesGrid _ j hrec _ _ 0 _ i2 (le_refl _) hk hn _ h3
  | posY => exact Explosion.walk_leavesGrid _ j hrec _ _ 0 _ i3 (le_refl _) hk hn _ h4

theorem Explosion.run_leavesGrid (fuel : Nat) (m : Map) (c : BombCell) (x y : Int) (d : Dir)
    (j : Int) (hj0 : 0 ≤ j) (hjp : j < c.power) (hL : LeavesGrid (d.coord x y) j m) :
    ∀ m', Explosion.run fuel m c x y ≠ Outcome.done m' := by
  cases fuel with
  | zero =>
    intro m' h
    cases h
  | succ fuel =>
    exact Explosion.body_leavesGrid m c x y d j
      (Explosion.run_invariant (LeavesGrid (d.coord x y) j) (fun m i hI => hI.store i _ rfl)
        (fun m u v hI => hI.lg_markExpired u v) fuel) hj0 hjp hL

/-- C8, amended: for every grid, every origin `(x, y)` and every bomb `c`
exploding there, when the walk in a direction `d` steps to a coordinate
outside the grid (step `j` below the power of `c` is outside the grid and no
step before it on that ray lies on a Wall or a Soft cell, which would stop the
walk earlier), `Map.Explosion` fails: it ends in the run-time panic of the nil
dereference in `f`, whatever bombs it chains on the way, so that direction
does not stop quietly and the call returns no grid. -/
theorem Explosion_leaves_grid_crashes (m : Map) (c : BombCell) (x y : Int) (d : Dir) (j : Int)
    (hj0 : 0 ≤ j) (hjp : j < c.power)
    (hfree : ∀ j' : Int, 0 ≤ j' → j' < j → m.blockAt (d.coord x y j') = false)
    (hout : m.At (d.coord x y j).1 (d.coord x y j).2 = none) :
    m.Explosion c x y = Outcome.crash := by
  have h1 := Map.Explosion_ne_outOfFuel m c x y
  have h2 := Explosion.run_leavesGrid (liveBombs m.Cells + 1) m c x y d j hj0 hjp ⟨hfree, hout⟩
  unfold Map.Explosion at *
  cases h : Explosion.run (liveBombs m.Cells + 1) m c x y with
  | done m' => exact absurd h (h2 m')
  | crash => rfl
  | outOfFuel => exact absurd h h1

/-- Witness of the amended C8 in `Example.rowGrid`: the walk in direction -x
from (2,0) chains the bomb at (1,0), whose explosion of power 1 returns, goes
on over the empty slot (0,0) and crashes at step 3, the coordinate (-1,0). -/
theorem Explosion_leaves_grid_crashes_witness :
    Example.rowGrid.At (Dir.negX.coord 2 0 3).1 (Dir.negX.coord 2 0 3).2 = none ∧
    Example.rowGrid.Explosion { framesToExplosion := 0, power := 4, putter := none } 2 0 =
      Outcome.crash :=
  ⟨by decide,
   Explosion_leaves_grid_crashes Example.rowGrid
    { framesToExplosion := 0, power := 4, putter := none } 2 0 Dir.negX 3 (by decide) (by decide)
    (by
      intro j' h0 h1
      interval_cases j' <;> decide)
    (by decide)⟩

/-! ## Dropping the record of the writes gives the program back -/

theorem Explosion.fS_erase (u : Int × Int) {recS : Seen → BombCell → Int → Int → Outcome Seen}
    {rec : Map → BombCell → Int → Int → Outcome Map}
    (hrec : ∀ s c x y, (recS s c x y).map Prod.fst = rec s.1 c x y) (s : Seen) (x y : Int) :
    (Explosion.fS u recS s x y).map (fun r => (r.1.1, r.2)) = Explosion.f rec s.1 x y := by
  unfold Explosion.fS Explosion.f
  cases hA : s.1.At x y with
  | none => rfl
  | some i =>
    simp only
    cases hC : s.1.Cells[i]? with
    | none => rfl
    | some v =>
      cases v with
      | none => rfl
      | some cell =>
        cases cell with
        | Wall => rfl
        | Soft => rfl
        | Flame c => rfl
        | Bomb bc =>
          simp only
          split_ifs with hl
          · rw [← hrec s bc x y]
            cases recS s bc x y <;> rfl
          · rfl

theorem Explosion.walkS_erase (u : Int × Int)
    {recS : Seen → BombCell → Int → Int → Outcome Seen}
    {rec : Map → BombCell → Int → Int → Outcome Map}
    (hrec : ∀ s c x y, (recS s c x y).map Prod.fst = rec s.1 c x y)
    (coord : Int → Int × Int) (n : Nat) :
    ∀ (i : Int) (s : Seen),
      (Explosion.walkS u recS coord n i s).map Prod.fst = Explosion.walk rec coord n i s.1 := by
  induction n with
  | zero => intro i s; rfl
  | succ n ih =>
    intro i s
    have hf := Explosion.fS_erase u hrec s (coord i).1 (coord i).2
    unfold Explosion.walkS Explosion.walk
    rw [← hf]
    cases hr : Explosion.fS u recS s (coord i).1 (coord i).2 with
    | crash => rfl
    | outOfFuel => rfl
    | done r =>
      obtain ⟨s1, b⟩ := r
      cases b with
      | false => rfl
      | true => exact ih (i + 1) s1

theorem Explosion.bodyS_erase (u : Int × Int)
    {recS : Seen → BombCell → Int → Int → Outcome Seen}
    {rec : Map → BombCell → Int → Int → Outcome Map}
    (hrec : ∀ s c x y, (recS s c x y).map Prod.fst = rec s.1 c x y) (s : Seen) (c : BombCell)
    (x y : Int) :
    (Explosion.bodyS u recS s c x y).map Prod.fst = Explosion.body rec s.1 c x y := by
  unfold Explosion.bodyS Explosion.body
  rw [Outcome.map_bind, ← Explosion.walkS_erase u hrec _ _ 0 (s.1.markExpired x y, _)]
  cases Explosion.walkS u recS (fun i => (x - i, y)) c.power.toNat 0
      (s.1.markExpired x y, s.2) with
  | crash => rfl
  | outOfFuel => rfl
  | done s1 =>
    simp only [Outcome.bind_done, Outcome.map_done]
    rw [Outcome.map_bind, ← Explosion.walkS_erase u hrec _ _ 0 s1]
    cases Explosion.walkS u recS (fun i => (x + i, y)) c.power.toNat 0 s1 with
    | crash => rfl
    | outOfFuel => rfl
    | done s2 =>
      simp only [Outcome.bind_done, Outcome.map_done]
      rw [Outcome.map_bind, ← Explosion.walkS_erase u hrec _ _ 0 s2]
      cases Explosion.walkS u recS (fun i => (x, y - i)) c.power.toNat 0 s2 with
      | crash => rfl
      | outOfFuel => rfl
      | done s3 =>
        simp only [Outcome.bind_done, Outcome.map_done]
        exact Explosion.walkS_erase u hrec _ _ 0 s3

/-- The grid that the explosion recording its writes returns is the grid that
the explosion returns. -/
theorem Explosion.runS_erase (u : Int × Int) (fuel : Nat) :
    ∀ (s : Seen) (c : BombCell) (x y : Int),
      (Explosion.runS u fuel s c x y).map Prod.fst = Explosion.run fuel s.1 c x y := by
  induction fuel with
  | zero => intro s c x y; rfl
  | succ fuel ih =>
    intro s c x y
    exact Explosion.bodyS_erase u ih s c x y

theorem Cell.tickS_erase (cell : Cell) (x y : Int) (i : Nat) (s : Seen) :
    (cell.UpdateS x y i s).map Prod.fst = cell.Update x y i s.1 := by
  cases cell with
  | Wall => rfl
  | Soft => rfl
  | Flame c => rfl
  | Bomb c =>
    simp only [Cell.UpdateS, Cell.Update]
    split_ifs
    · exact Explosion.runS_erase _ _ _ _ x y
    · rfl

theorem ForEach_erase_fst {α : Type} (fnS : Int → Int → Nat → Cell → Map × α → Outcome (Map × α))
    (fn : Int → Int → Nat → Cell → Map → Outcome Map)
    (hfn : ∀ x y i cell s, (fnS x y i cell s).map Prod.fst = fn x y i cell s.1)
    (cs : List (Int × Int)) :
    ∀ s : Map × α, (ForEach (fun s : Map × α => s.1) fnS cs s).map Prod.fst =
      ForEach (fun s => s) fn cs s.1 := by
  induction cs with
  | nil => intro s; rfl
  | cons p cs ih =>
    intro s
    obtain ⟨x, y⟩ := p
    unfold ForEach
    cases hA : s.1.At x y with
    | none => rfl
    | some i =>
      simp only
      cases hC : s.1.Cells[i]? with
      | none => rfl
      | some v =>
        cases v with
        | none => exact ih s
        | some cell =>
          simp only
          rw [Outcome.map_bind, ← hfn x y i cell s]
          cases fnS x y i cell s with
          | crash => rfl
          | outOfFuel => rfl
          | done s1 => exact ih s1

theorem Map.updateLoopS_erase (cs : List (Int × Int)) (s : Seen) :
    (Map.updateLoopS cs s).map Prod.fst = Map.updateLoop cs s.1 :=
  ForEach_erase_fst (fun x y i cell s => cell.UpdateS x y i s)
    (fun x y i cell s => cell.Update x y i s)
    (fun x y i cell s => Cell.tickS_erase cell x y i s) cs s

/-- Dropping the record from `Map.UpdateS` gives `Map.Update`. -/
theorem Map.UpdateS_erase (m : Map) : m.UpdateS.map Prod.fst = m.Update := by
  unfold Map.UpdateS Map.Update
  rw [Outcome.map_bind, ← Map.updateLoopS_erase m.coords (m, [])]
  cases Map.updateLoopS m.coords (m, []) with
  | crash => rfl
  | outOfFuel => rfl
  | done s =>
    simp only [Outcome.bind_done, Outcome.map_done]
    cases Map.Cleanup s.1 <;> rfl

/-- Dropping the record from `Map.updateNS` gives `Map.updateN`. -/
theorem Map.updateNS_erase (n : Nat) :
    ∀ s : Seen, (Map.updateNS n s).map Prod.fst = Map.updateN n s.1 := by
  induction n with
  | zero => intro s; rfl
  | succ n ih =>
    intro s
    unfold Map.updateNS Map.updateN
    rw [Outcome.map_bind, ← Map.UpdateS_erase s.1]
    cases Map.UpdateS s.1 with
    | crash => rfl
    | outOfFuel => rfl
    | done s1 =>
      simp only [Outcome.bind_done, Outcome.map_done]
      exact ih (s1.1, s.2 ++ s1.2)

/-- When `Map.Update` returns a grid, the recording `Map.UpdateS` returns that
grid and a record. -/
theorem Map.UpdateS_of_Update {m m1 : Map} (h : m.Update = Outcome.done m1) :
    ∃ l, m.UpdateS = Outcome.done (m1, l) := by
  have he := Map.UpdateS_erase m
  rw [h, Outcome.map_eq_done] at he
  obtain ⟨⟨m1', l⟩, hS, e⟩ := he
  simp only at e
  subst e
  exact ⟨l, hS⟩

theorem Map.Update_of_UpdateS {m m1 : Map} {l : List Scorch}
    (h : m.UpdateS = Outcome.done (m1, l)) : m.Update = Outcome.done m1 := by
  rw [← Map.UpdateS_erase m, h]
  rfl

/-! ## The Flames written to one slot -/

theorem scorched_append (p : Int × Int) (l1 l2 : List Scorch) :
    scorched p (l1 ++ l2) = scorched p l1 ++ scorched p l2 := by
  simp [scorched, List.filter_append]

theorem scorched_append_self (p u : Int × Int) (l : List Scorch) :
    scorched p (l ++ [⟨u, p⟩]) = scorched p l ++ [⟨u, p⟩] := by
  simp [scorched, List.filter_append]

theorem scorched_append_other (p u t : Int × Int) (l : List Scorch) (h : t ≠ p) :
    scorched p (l ++ [⟨u, t⟩]) = scorched p l := by
  simp [scorched, List.filter_append, h]

theorem scorched_getLast_self (p u : Int × Int) (l : List Scorch) :
    (scorched p (l ++ [⟨u, p⟩])).getLast? = some ⟨u, p⟩ := by
  rw [scorched_append_self]
  simp

/-- Every normal return of the recording `f` found a Wall and changed nothing,
or wrote a new Flame and recorded it, after the chained explosion if the slot
held a live bomb. -/
theorem Explosion.fS_done {u : Int × Int} {rec : Seen → BombCell → Int → Int → Outcome Seen}
    {s : Seen} {x y : Int} {s' : Seen} {b : Bool}
    (h : Explosion.fS u rec s x y = Outcome.done (s', b)) :
    ∃ i w, s.1.At x y = some i ∧ s.1.Cells[i]? = some w ∧
      ((w = some Cell.Wall ∧ s' = s) ∨
       (∃ s1, (s1 = s ∨ ∃ bc, w = some (Cell.Bomb bc) ∧ bc.HasExpired = false ∧
            rec s bc x y = Outcome.done s1) ∧
          (∀ bc, w = some (Cell.Bomb bc) → bc.HasExpired = true → s1 = s) ∧
          s' = (s1.1.store i (some NewFlameCell), s1.2 ++ [⟨u, (x, y)⟩]))) := by
  unfold Explosion.fS at h
  cases hA : s.1.At x y with
  | none => rw [hA] at h; cases h
  | some i =>
    rw [hA] at h
    simp only at h
    cases hC : s.1.Cells[i]? with
    | none => rw [hC] at h; cases h
    | some w =>
      rw [hC] at h
      refine ⟨i, w, rfl, hC, ?_⟩
      cases w with
      | none =>
        simp only at h
        injection h with h
        injection h with h1 h2
        exact Or.inr ⟨s, Or.inl rfl, fun _ _ _ => rfl, h1.symm⟩
      | some cell =>
        cases cell with
        | Wall =>
          simp only at h
          injection h with h
          injection h with h1 h2
          exact Or.inl ⟨rfl, h1.symm⟩
        | Soft =>
          simp only at h
          injection h with h
          injection h with h1 h2
          exact Or.inr ⟨s, Or.inl rfl, fun _ _ _ => rfl, h1.symm⟩
        | Flame c =>
          simp only at h
          injection h with h
          injection h with h1 h2
          exact Or.inr ⟨s, Or.inl rfl, fun _ _ _ => rfl, h1.symm⟩
        | Bomb bc =>
          simp only at h
          split_ifs at h with hl
          · rw [Outcome.bind_eq_done] at h
            obtain ⟨s1, hr, h⟩ := h
            injection h with h
            injection h with h1 h2
            refine Or.inr ⟨s1, Or.inr ⟨bc, rfl, by simpa using hl, hr⟩, ?_, h1.symm⟩
            intro bc' hbc' he
            injection hbc' with hbc'
            injection hbc' with hbc'
            subst hbc'
            simp [he] at hl
          · injection h with h
            injection h with h1 h2
            exact Or.inr ⟨s, Or.inl rfl, fun _ _ _ => rfl, h1.symm⟩

theorem Explosion.walkS_done {u : Int × Int} {rec : Seen → BombCell → Int → Int → Outcome Seen}
    {coord : Int → Int × Int} {n : Nat} {i : Int} {s s' : Seen}
    (h : Explosion.walkS u rec coord (n + 1) i s = Outcome.done s') :
    ∃ s1 b, Explosion.fS u rec s (coord i).1 (coord i).2 = Outcome.done (s1, b) ∧
      ((b = false ∧ s' = s1) ∨
       (b = true ∧ Explosion.walkS u rec coord n (i + 1) s1 = Outcome.done s')) := by
  unfold Explosion.walkS at h
  cases hf : Explosion.fS u rec s (coord i).1 (coord i).2 with
  | crash => rw [hf] at h; cases h
  | outOfFuel => rw [hf] at h; cases h
  | done r =>
    obtain ⟨s1, b⟩ := r
    rw [hf] at h
    cases b with
    | false =>
      simp only at h
      injection h with h
      exact ⟨s1, false, rfl, Or.inl ⟨rfl, h.symm⟩⟩
    | true =>
      simp only at h
      exact ⟨s1, true, rfl, Or.inr ⟨rfl, h⟩⟩

/-- One call of the recording `f` keeps the account of slot `k`. -/
theorem Explosion.fS_kept {p : Int × Int} {k : Nat} {u : Int × Int} {W : List Scorch}
    {v : Option Cell} {rec : Seen → BombCell → Int → Int → Outcome Seen}
    (hrec : KeepsSlot p k u W v rec) {s : Seen} {fx fy : Int} {s' : Seen} {b : Bool}
    (hA : s.1.At p.1 p.2 = some k)
    (h : Explosion.fS u rec s fx fy = Outcome.done (s', b)) :
    SameShape s.1 s'.1 ∧ (Kept p k u W v s → Kept p k u W v s') := by
  obtain ⟨i, w, hAi, hw, hcase⟩ := Explosion.fS_done h
  rcases hcase with ⟨-, rfl⟩ | ⟨s1, hs1, -, rfl⟩
  · exact ⟨SameShape.srefl _, fun h => h⟩
  · have hsh1 : SameShape s.1 s1.1 := by
      rcases hs1 with rfl | ⟨bc, -, -, hr⟩
      · exact SameShape.srefl _
      · exact (hrec s bc fx fy s1 hr).1
    refine ⟨hsh1.strans (SameShape.sstore _ _ _), ?_⟩
    by_cases hp : (fx, fy) = p
    · subst hp
      simp only at hA
      rw [hAi] at hA
      injection hA with hA
      subst hA
      intro _
      right
      refine ⟨scorched_getLast_self _ _ _, ?_⟩
      apply Map.store_get_self
      rw [hsh1.2.2.2]
      by_contra hc
      rw [List.getElem?_eq_none (by omega)] at hw
      cases hw
    · have hik : i ≠ k := by
        intro hik
        subst hik
        have e := Map.At_inj hAi hA
        exact hp (Prod.ext e.1 e.2)
      have hK1 : Kept p k u W v s → Kept p k u W v s1 := by
        rcases hs1 with rfl | ⟨bc, -, -, hr⟩
        · exact fun h => h
        · exact (hrec s bc fx fy s1 hr).2 hp hA
      intro hK
      rcases hK1 hK with ⟨h1, h2⟩ | ⟨h1, h2⟩
      · left
        refine ⟨?_, ?_⟩
        · simp only
          rw [scorched_append_other p u (fx, fy) _ hp]
          exact h1
        · simp only
          rw [Map.store_get_other _ i k _ hik]
          exact h2
      · right
        refine ⟨?_, ?_⟩
        · simp only
          rw [scorched_append_other p u (fx, fy) _ hp]
          exact h1
        · simp only
          rw [Map.store_get_other _ i k _ hik]
          exact h2

theorem Explosion.walkS_kept {p : Int × Int} {k : Nat} {u : Int × Int} {W : List Scorch}
    {v : Option Cell} {rec : Seen → BombCell → Int → Int → Outcome Seen}
    (hrec : KeepsSlot p k u W v rec) (coord : Int → Int × Int) (n : Nat) :
    ∀ (i : Int) (s s' : Seen), s.1.At p.1 p.2 = some k →
      Explosion.walkS u rec coord n i s = Outcome.done s' →
      SameShape s.1 s'.1 ∧ (Kept p k u W v s → Kept p k u W v s') := by
  induction n with
  | zero =>
    intro i s s' _ h
    unfold Explosion.walkS at h
    injection h with h
    rw [← h]
    exact ⟨SameShape.srefl _, fun h => h⟩
  | succ n ih =>
    intro i s s' hA h
    obtain ⟨s1, bb, hf, hc⟩ := Explosion.walkS_done h
    obtain ⟨hsh1, h1⟩ := Explosion.fS_kept hrec hA hf
    rcases hc with ⟨-, rfl⟩ | ⟨-, hw⟩
    · exact ⟨hsh1, h1⟩
    · obtain ⟨hsh2, h2⟩ := ih (i + 1) s1 s' (by rw [hsh1.At]; exact hA) hw
      exact ⟨hsh1.strans hsh2, fun h => h2 (h1 h)⟩

theorem Map.markExpired_get_other (m : Map) (x y : Int) (p : Int × Int) (k : Nat)
    (hp : (x, y) ≠ p) (hA : m.At p.1 p.2 = some k) :
    (m.markExpired x y).Cells[k]? = m.Cells[k]? := by
  rcases Map.markExpired_cases m x y with e | ⟨i, b, hi, -, e⟩
  · rw [e]
  · rw [e]
    apply Map.store_get_other
    intro hik
    subst hik
    have e' := Map.At_inj hi hA
    exact hp (Prod.ext e'.1 e'.2)

theorem Explosion.walkS_four {u : Int × Int} {rec : Seen → BombCell → Int → Int → Outcome Seen}
    {s : Seen} {c : BombCell} {x y : Int} {s' : Seen}
    (h : Explosion.bodyS u rec s c x y = Outcome.done s') :
    ∃ s1 s2 s3,
      Explosion.walkS u rec (fun i => (x - i, y)) c.power.toNat 0 (s.1.markExpired x y, s.2) =
        Outcome.done s1 ∧
      Explosion.walkS u rec (fun i => (x + i, y)) c.power.toNat 0 s1 = Outcome.done s2 ∧
      Explosion.walkS u rec (fun i => (x, y - i)) c.power.toNat 0 s2 = Outcome.done s3 ∧
      Explosion.walkS u rec (fun i => (x, y + i)) c.power.toNat 0 s3 = Outcome.done s' := by
  unfold Explosion.bodyS at h
  rw [Outcome.bind_eq_done] at h
  obtain ⟨s1, h1, h⟩ := h
  rw [Outcome.bind_eq_done] at h
  obtain ⟨s2, h2, h⟩ := h
  rw [Outcome.bind_eq_done] at h
  obtain ⟨s3, h3, h4⟩ := h
  exact ⟨s1, s2, s3, h1, h2, h3, h4⟩

theorem Explosion.bodyS_kept {p : Int × Int} {k : Nat} {u : Int × Int} {W : List Scorch}
    {v : Option Cell} {rec : Seen → BombCell → Int → Int → Outcome Seen}
    (hrec : KeepsSlot p k u W v rec) : KeepsSlot p k u W v (Explosion.bodyS u rec) := by
  intro s c x y s' h
  obtain ⟨s1, s2, s3, h1, h2, h3, h4⟩ := Explosion.walkS_four h
  have hsh0 : SameShape s.1 (s.1.markExpired x y) := (Frame.markExpired s.1 x y).1
  have hshA : ∀ {a : Map}, SameShape s.1 a → s.1.At p.1 p.2 = some k → a.At p.1 p.2 = some k := by
    intro a ha hA
    rw [ha.At]
    exact hA
  -- the shape is kept whatever the root is
  have shape : SameShape s.1 s'.1 ∧
      (s.1.At p.1 p.2 = some k → Kept p k u W v (s.1.markExpired x y, s.2) →
        Kept p k u W v s') := by
    by_cases hA : s.1.At p.1 p.2 = some k
    · obtain ⟨e1, k1⟩ := Explosion.walkS_kept hrec _ _ 0 _ s1 (hshA hsh0 hA) h1
      have a1 := hsh0.strans e1
      obtain ⟨e2, k2⟩ := Explosion.walkS_kept hrec _ _ 0 _ s2 (hshA a1 hA) h2
      have a2 := a1.strans e2
      obtain ⟨e3, k3⟩ := Explosion.walkS_kept hrec _ _ 0 _ s3 (hshA a2 hA) h3
      have a3 := a2.strans e3
      obtain ⟨e4, k4⟩ := Explosion.walkS_kept hrec _ _ 0 _ s' (hshA a3 hA) h4
      exact ⟨a3.strans e4, fun _ hK => k4 (k3 (k2 (k1 hK)))⟩
    · refine ⟨?_, fun hA' => absurd hA' hA⟩
      have hr : ∀ s c x y s', rec s c x y = Outcome.done s' → SameShape s.1 s'.1 :=
        fun s c x y s' h => (hrec s c x y s' h).1
      have hf : ∀ {s : Seen} {fx fy : Int} {s' : Seen} {b : Bool},
          Explosion.fS u rec s fx fy = Outcome.done (s', b) → SameShape s.1 s'.1 := by
        intro s fx fy s' b h
        obtain ⟨i, w, -, -, hcase⟩ := Explosion.fS_done h
        rcases hcase with ⟨-, rfl⟩ | ⟨s1, hs1, -, rfl⟩
        · exact SameShape.srefl _
        · rcases hs1 with rfl | ⟨bc, -, -, hr1⟩
          · exact SameShape.sstore _ _ _
          · exact (hr s bc fx fy s1 hr1).strans (SameShape.sstore _ _ _)
      have hw : ∀ (coord : Int → Int × Int) (n : Nat) (i : Int) (s s' : Seen),
          Explosion.walkS u rec coord n i s = Outcome.done s' → SameShape s.1 s'.1 := by
        intro coord n
        induction n with
        | zero =>
          intro i s s' h
          unfold Explosion.walkS at h
          injection h with h
          rw [← h]
          exact SameShape.srefl _
        | succ n ih =>
          intro i s s' h
          obtain ⟨s1, bb, hf1, hc⟩ := Explosion.walkS_done h
          rcases hc with ⟨-, rfl⟩ | ⟨-, hw⟩
          · exact hf hf1
          · exact (hf hf1).strans (ih _ _ _ hw)
      exact hsh0.strans ((hw _ _ _ _ _ h1).strans ((hw _ _ _ _ _ h2).strans
        ((hw _ _ _ _ _ h3).strans (hw _ _ _ _ _ h4))))
  refine ⟨shape.1, ?_⟩
  intro hne hA hK
  apply shape.2 hA
  rcases hK with ⟨h1, h2⟩ | ⟨h1, h2⟩
  · left
    refine ⟨h1, ?_⟩
    simp only
    rw [Map.markExpired_get_other s.1 x y p k hne hA]
    exact h2
  · right
    refine ⟨h1, ?_⟩
    simp only
    rw [Map.markExpired_get_other s.1 x y p k hne hA]
    exact h2

/-- The recording `Map.Explosion` keeps the account of slot `k` when it is
rooted at another coordinate. -/
theorem Explosion.runS_kept (p : Int × Int) (k : Nat) (u : Int × Int) (W : List Scorch)
    (v : Option Cell) (fuel : Nat) : KeepsSlot p k u W v (Explosion.runS u fuel) := by
  induction fuel with
  | zero =>
    intro s c x y s' h
    cases h
  | succ fuel ih => exact Explosion.bodyS_kept ih

theorem Explosion.walkS_zero (u : Int × Int) (rec : Seen → BombCell → Int → Int → Outcome Seen)
    (coord : Int → Int × Int) (i : Int) (s : Seen) :
    Explosion.walkS u rec coord 0 i s = Outcome.done s := rfl

/-- The `Update` of a cell at another coordinate than `p`, recording: slot `k`
holds what it held and no write to `p` is added, or the explosion started by
this `Update` wrote a new Flame to it, and that Flame is in the slot. -/
theorem Cell.tickS_other (cell : Cell) (x y : Int) (i : Nat) (s s' : Seen) (p : Int × Int)
    (k : Nat) (v : Option Cell) (hp : (x, y) ≠ p) (hA : s.1.At p.1 p.2 = some k)
    (hi : s.1.At x y = some i) (hv : s.1.Cells[k]? = some v)
    (h : cell.UpdateS x y i s = Outcome.done s') :
    SameShape s.1 s'.1 ∧ Kept p k (x, y) (scorched p s.2) v s' := by
  have hik : i ≠ k := by
    intro hik
    subst hik
    have e := Map.At_inj hi hA
    exact hp (Prod.ext e.1 e.2)
  cases cell with
  | Wall =>
    simp only [Cell.UpdateS] at h
    injection h with h
    subst h
    exact ⟨SameShape.srefl _, Or.inl ⟨rfl, hv⟩⟩
  | Soft =>
    simp only [Cell.UpdateS] at h
    injection h with h
    subst h
    exact ⟨SameShape.srefl _, Or.inl ⟨rfl, hv⟩⟩
  | Flame c =>
    simp only [Cell.UpdateS] at h
    injection h with h
    subst h
    refine ⟨SameShape.sstore _ _ _, Or.inl ⟨rfl, ?_⟩⟩
    simp only
    rw [Map.store_get_other _ i k _ hik]
    exact hv
  | Bomb c =>
    simp only [Cell.UpdateS] at h
    split_ifs at h with hz
    · obtain ⟨hsh, hK⟩ := Explosion.runS_kept p k (x, y) (scorched p s.2) v _ _ _ x y s' h
      refine ⟨(SameShape.sstore _ _ _).strans hsh, hK hp ?_ (Or.inl ⟨rfl, ?_⟩)⟩
      · simp only
        rw [Map.At_store]
        exact hA
      · simp only
        rw [Map.store_get_other _ i k _ hik]
        exact hv
    · injection h with h
      subst h
      refine ⟨SameShape.sstore _ _ _, Or.inl ⟨rfl, ?_⟩⟩
      simp only
      rw [Map.store_get_other _ i k _ hik]
      exact hv

theorem Kept.last {p : Int × Int} {k : Nat} {u : Int × Int} {l : List Scorch} {s : Seen}
    (h : Kept p k u (scorched p (l ++ [⟨u, p⟩])) (some NewFlameCell) s) :
    (scorched p s.2).getLast? = some ⟨u, p⟩ ∧ s.1.Cells[k]? = some (some NewFlameCell) := by
  rcases h with ⟨h1, h2⟩ | h
  · rw [h1]
    exact ⟨scorched_getLast_self _ _ _, h2⟩
  · exact h

/-- The `Update` of the cell at `p` itself, recording: the slot holds the cell
ticked once and no write to `p` is added, or the cell was a bomb whose counter
reached 0, its explosion wrote a new Flame to its own slot, and that Flame is
in the slot. -/
theorem Cell.tickS_self (cell : Cell) (p : Int × Int) (k : Nat) (s s' : Seen)
    (hA : s.1.At p.1 p.2 = some k) (hc : s.1.Cells[k]? = some (some cell))
    (h : cell.UpdateS p.1 p.2 k s = Outcome.done s') :
    SameShape s.1 s'.1 ∧
      ((scorched p s'.2 = scorched p s.2 ∧ s'.1.Cells[k]? = some (tickSlot (some cell))) ∨
       ((scorched p s'.2).getLast? = some ⟨p, p⟩ ∧
          s'.1.Cells[k]? = some (some NewFlameCell))) := by
  obtain ⟨px, py⟩ := p
  simp only at hA h
  cases cell with
  | Wall =>
    simp only [Cell.UpdateS] at h
    injection h with h
    subst h
    exact ⟨SameShape.srefl _, Or.inl ⟨rfl, hc⟩⟩
  | Soft =>
    simp only [Cell.UpdateS] at h
    injection h with h
    subst h
    exact ⟨SameShape.srefl _, Or.inl ⟨rfl, hc⟩⟩
  | Flame c =>
    simp only [Cell.UpdateS] at h
    injection h with h
    subst h
    refine ⟨SameShape.sstore _ _ _, Or.inl ⟨rfl, ?_⟩⟩
    simp only [tickSlot]
    exact Map.store_get_self_of_some _ k _ _ hc
  | Bomb c =>
    simp only [Cell.UpdateS] at h
    split_ifs at h with hz
    · -- the counter reached 0: the explosion rooted at `p`
      have hm1k : (s.1.store k (some (Cell.Bomb
          { c with framesToExplosion := c.framesToExplosion - 1 }))).Cells[k]? =
          some (some (Cell.Bomb { c with framesToExplosion := c.framesToExplosion - 1 })) :=
        Map.store_get_self_of_some _ k _ _ hc
      have hm1A : (s.1.store k (some (Cell.Bomb
          { c with framesToExplosion := c.framesToExplosion - 1 }))).At px py = some k := by
        rw [Map.At_store]
        exact hA
      have hmark : ((s.1.store k (some (Cell.Bomb
          { c with framesToExplosion := c.framesToExplosion - 1 }))).markExpired px py).Cells[k]? =
          some (some (Cell.Bomb { c with framesToExplosion := c.framesToExplosion - 1 })) := by
        unfold Map.markExpired
        rw [hm1A]
        simp only
        rw [hm1k]
        simp only
        rw [Map.store_get_self_of_some _ k _ _ hm1k]
        simp only at hz
        rw [hz]
      have hshm := (Frame.markExpired (s.1.store k (some (Cell.Bomb
          { c with framesToExplosion := c.framesToExplosion - 1 }))) px py).1
      have hsh0 : SameShape s.1 ((s.1.store k (some (Cell.Bomb
          { c with framesToExplosion := c.framesToExplosion - 1 }))).markExpired px py) :=
        (SameShape.sstore _ _ _).strans hshm
      have hrun : ∀ n, Explosion.runS (px, py) (n + 1) = Explosion.bodyS (px, py)
          (Explosion.runS (px, py) n) := fun _ => rfl
      rw [hrun] at h
      obtain ⟨s1, s2, s3, h1, h2, h3, h4⟩ := Explosion.walkS_four h
      simp only at h1 h2 h3 h4
      cases hn : c.power.toNat with
      | zero =>
        rw [hn, Explosion.walkS_zero] at h1 h2 h3 h4
        injection h1 with h1
        injection h2 with h2
        injection h3 with h3
        injection h4 with h4
        subst h1
        subst h2
        subst h3
        subst h4
        refine ⟨hsh0, Or.inl ⟨rfl, ?_⟩⟩
        simp only [tickSlot]
        exact hmark
      | succ n =>
        rw [hn] at h1 h2 h3 h4
        obtain ⟨sa, bb, hf, hcont⟩ := Explosion.walkS_done h1
        simp only [sub_zero] at hf
        obtain ⟨i, w, hAi, hw, hcase⟩ := Explosion.fS_done hf
        simp only at hAi hw
        rw [hshm.At, hm1A] at hAi
        injection hAi with hAi
        subst hAi
        rw [hmark] at hw
        injection hw with hw
        subst hw
        have hexp : ({ c with framesToExplosion := c.framesToExplosion - 1 } :
            BombCell).HasExpired = true := by
          simp only at hz
          simp [BombCell.HasExpired, hz]
        rcases hcase with ⟨hwall, -⟩ | ⟨s0, -, hs0, hsa⟩
        · cases hwall
        · have hs0' := hs0 _ rfl hexp
          subst hs0'
          simp only at hsa
          have hsha : SameShape s.1 sa.1 := by
            rw [hsa]
            exact hsh0.strans (SameShape.sstore _ _ _)
          have hAa : sa.1.At px py = some k := by
            rw [hsha.At]
            exact hA
          have hKa : Kept (px, py) k (px, py) (scorched (px, py) (s.2 ++ [⟨(px, py), (px, py)⟩]))
              (some NewFlameCell) sa := by
            left
            rw [hsa]
            exact ⟨rfl, Map.store_get_self_of_some _ k _ _ hmark⟩
          have hrec := Explosion.runS_kept (px, py) k (px, py)
            (scorched (px, py) (s.2 ++ [⟨(px, py), (px, py)⟩])) (some NewFlameCell)
            (liveBombs (s.1.store k (some (Cell.Bomb
              { c with framesToExplosion := c.framesToExplosion - 1 }))).Cells)
          -- the rest of the first loop
          obtain ⟨hsh1, hK1⟩ : SameShape s.1 s1.1 ∧ Kept (px, py) k (px, py)
              (scorched (px, py) (s.2 ++ [⟨(px, py), (px, py)⟩])) (some NewFlameCell) s1 := by
            rcases hcont with ⟨-, rfl⟩ | ⟨-, hw1⟩
            · exact ⟨hsha, hKa⟩
            · obtain ⟨e, kk⟩ := Explosion.walkS_kept hrec _ _ _ _ s1 hAa hw1
              exact ⟨hsha.strans e, kk hKa⟩
          obtain ⟨e2, k2⟩ := Explosion.walkS_kept hrec _ _ 0 _ s2
            (by rw [hsh1.At]; exact hA) h2
          have hsh2 := hsh1.strans e2
          obtain ⟨e3, k3⟩ := Explosion.walkS_kept hrec _ _ 0 _ s3
            (by rw [hsh2.At]; exact hA) h3
          have hsh3 := hsh2.strans e3
          obtain ⟨e4, k4⟩ := Explosion.walkS_kept hrec _ _ 0 _ s'
            (by rw [hsh3.At]; exact hA) h4
          exact ⟨hsh3.strans e4, Or.inr (k4 (k3 (k2 hK1))).last⟩
    · injection h with h
      subst h
      refine ⟨SameShape.sstore _ _ _, Or.inl ⟨rfl, ?_⟩⟩
      simp only [tickSlot]
      exact Map.store_get_self_of_some _ k _ _ hc

theorem Before.irrefl (p : Int × Int) : ¬ Before p p := fun h => h.ne rfl

/-- One visit of the loop of `Map.Update` keeps the account of slot `k`. -/
theorem SlotAfter.step {m : Map} {p : Int × Int} {k : Nat} {v : Option Cell}
    {pre : List (Int × Int)} {s s' : Seen} (hR : SlotAfter m p k v pre s) (hA : m.At p.1 p.2 = some k)
    (hv : m.Cells[k]? = some v) (q : Int × Int) (hq : ∀ a ∈ pre, Before a q) (i : Nat)
    (hi : s.1.At q.1 q.2 = some i)
    (hstep : (s.1.Cells[i]? = some none ∧ s' = s) ∨
      ∃ cell, s.1.Cells[i]? = some (some cell) ∧ cell.UpdateS q.1 q.2 i s = Outcome.done s') :
    SlotAfter m p k v (pre ++ [q]) s' := by
  obtain ⟨hsh, hnone, hsome⟩ := hR
  have hAs : s.1.At p.1 p.2 = some k := by rw [hsh.At]; exact hA
  obtain ⟨vs, hvs⟩ : ∃ vs, s.1.Cells[k]? = some vs := by
    have hlt : k < s.1.Cells.length := by
      rw [hsh.2.2.2]
      by_contra hc
      rw [List.getElem?_eq_none (by omega)] at hv
      cases hv
    exact ⟨_, List.getElem?_eq_getElem hlt⟩
  by_cases hqp : q = p
  · -- the visit of `p` itself
    subst hqp
    rw [hAs] at hi
    injection hi with hi
    subst hi
    have hnot : q ∉ pre := fun hm => Before.irrefl q (hq q hm)
    have hmem : q ∈ pre ++ [q] := by simp
    rcases hstep with ⟨hc, rfl⟩ | ⟨cell, hc, hu⟩
    · refine ⟨hsh, ?_, ?_⟩
      · intro h0
        refine ⟨fun _ => ?_, fun h => absurd hmem h⟩
        have := (hnone h0).2 hnot
        rw [hc] at this
        injection this with this
        rw [hc, ← this]
        rfl
      · intro e he
        have h60 := (hsome e he).2.2 (fun h => hnot h.2)
        rw [hc] at h60
        cases h60
    · obtain ⟨hsh', hcase⟩ := Cell.tickS_self cell q k s s' hAs hc hu
      refine ⟨hsh.strans hsh', ?_, ?_⟩
      · intro h0
        refine ⟨fun _ => ?_, fun h => absurd hmem h⟩
        rcases hcase with ⟨h1, h2⟩ | ⟨h1, -⟩
        · rw [h1] at h0
          have := (hnone h0).2 hnot
          rw [hc] at this
          injection this with this
          rw [h2, this]
        · rw [h0] at h1
          cases h1
      · intro e he
        rcases hcase with ⟨h1, h2⟩ | ⟨h1, h2⟩
        · rw [h1] at he
          obtain ⟨hvis, -, h60⟩ := hsome e he
          have hcell := h60 (fun h => hnot h.2)
          rw [hc] at hcell
          injection hcell with hcell
          injection hcell with hcell
          subst hcell
          refine ⟨List.mem_append_left _ hvis, fun _ => ?_, fun hn => ?_⟩
          · rw [h2]
            rfl
          · exact absurd ⟨hq _ hvis, hmem⟩ hn
        · rw [h1] at he
          injection he with he
          subst he
          refine ⟨hmem, fun h => absurd h.1 (Before.irrefl q), fun _ => h2⟩
  · -- the visit of another coordinate
    have hmem : q ∈ pre ++ [q] := by simp
    have hpre : p ∈ pre ++ [q] ↔ p ∈ pre := by
      simp only [List.mem_append, List.mem_singleton]
      constructor
      · rintro (h | h)
        · exact h
        · exact absurd h.symm hqp
      · exact fun h => Or.inl h
    have hkeep : SameShape s.1 s'.1 ∧ Kept p k q (scorched p s.2) vs s' := by
      rcases hstep with ⟨-, rfl⟩ | ⟨cell, -, hu⟩
      · exact ⟨SameShape.srefl _, Or.inl ⟨rfl, hvs⟩⟩
      · obtain ⟨qx, qy⟩ := q
        exact Cell.tickS_other cell qx qy i s s' p k vs hqp hAs hi hvs hu
    obtain ⟨hsh', hK⟩ := hkeep
    refine ⟨hsh.strans hsh', ?_, ?_⟩
    · intro h0
      rcases hK with ⟨h1, h2⟩ | ⟨h1, -⟩
      · rw [h1] at h0
        rw [h2, ← hvs, hpre]
        exact hnone h0
      · rw [h0] at h1
        cases h1
    · intro e he
      rcases hK with ⟨h1, h2⟩ | ⟨h1, h2⟩
      · rw [h1] at he
        obtain ⟨hvis, h59, h60⟩ := hsome e he
        rw [h2, ← hvs, hpre]
        exact ⟨List.mem_append_left _ hvis, h59, h60⟩
      · rw [h1] at he
        injection he with he
        subst he
        refine ⟨hmem, fun h => ?_, fun _ => h2⟩
        exact absurd h.1 (fun hb => (hq p (hpre.1 h.2)).asymm hb)

/-- The loop of `Map.Update`, recording, keeps the account of slot `k` over
the coordinates it visits. -/
theorem Map.updateLoopS_slot (m : Map) (p : Int × Int) (k : Nat) (v : Option Cell)
    (hA : m.At p.1 p.2 = some k) (hv : m.Cells[k]? = some v) :
    ∀ (rest pre : List (Int × Int)) (s s' : Seen),
      (∀ a ∈ pre, ∀ b ∈ rest, Before a b) → rest.Pairwise Before →
      SlotAfter m p k v pre s → Map.updateLoopS rest s = Outcome.done s' →
      SlotAfter m p k v (pre ++ rest) s' := by
  intro rest
  induction rest with
  | nil =>
    intro pre s s' _ _ hR h
    unfold Map.updateLoopS ForEach at h
    injection h with h
    subst h
    rw [List.append_nil]
    exact hR
  | cons q rest ih =>
    intro pre s s' hpre hpw hR h
    rw [List.pairwise_cons] at hpw
    obtain ⟨hfirst, hpw⟩ := hpw
    have hq : ∀ a ∈ pre, Before a q := fun a ha => hpre a ha q (List.mem_cons_self _ _)
    have hnext : ∀ a ∈ pre ++ [q], ∀ b ∈ rest, Before a b := by
      intro a ha b hb
      rcases List.mem_append.1 ha with ha | ha
      · exact hpre a ha b (List.mem_cons_of_mem _ hb)
      · rw [List.mem_singleton] at ha
        subst ha
        exact hfirst b hb
    have happ : pre ++ q :: rest = (pre ++ [q]) ++ rest := by simp
    rw [happ]
    obtain ⟨qx, qy⟩ := q
    unfold Map.updateLoopS ForEach at h
    cases hAq : s.1.At qx qy with
    | none =>
      rw [hAq] at h
      cases h
    | some i =>
      rw [hAq] at h
      simp only at h
      cases hC : s.1.Cells[i]? with
      | none =>
        rw [hC] at h
        cases h
      | some w =>
        rw [hC] at h
        cases w with
        | none =>
          simp only at h
          exact ih (pre ++ [(qx, qy)]) s s' hnext hpw
            (hR.step hA hv (qx, qy) hq i hAq (Or.inl ⟨hC, rfl⟩)) h
        | some cell =>
          simp only at h
          rw [Outcome.bind_eq_done] at h
          obtain ⟨s1, hu, h⟩ := h
          exact ih (pre ++ [(qx, qy)]) s1 s' hnext hpw
            (hR.step hA hv (qx, qy) hq i hAq (Or.inr ⟨cell, hC, hu⟩)) h

theorem cleanSlot_flame (f : Int) (hf : 0 ≤ f) :
    cleanSlot (some (Cell.Flame { frames := f })) = some (Cell.Flame { frames := f }) := by
  simp only [cleanSlot, Cell.HasExpired, FlameCell.HasExpired, decide_eq_true_eq]
  rw [if_neg (by omega)]

/-- What one `Map.Update` of a well-formed grid leaves in the slot `k` of the
coordinate `p`, by the Flames that the explosions of this `Update` wrote to
`p`: with no such write, the slot has aged by one tick; otherwise it holds the
Flame of the last write, with 59 frames when `p` is visited after the cell
whose `Update` made that write, with 60 frames when `p` is that cell or is
visited before it. -/
theorem Map.UpdateS_slot (m : Map) (hwf : m.WF) (p : Int × Int) (k : Nat) (v : Option Cell)
    (hA : m.At p.1 p.2 = some k) (hv : m.Cells[k]? = some v) (m1 : Map) (l : List Scorch)
    (h : m.UpdateS = Outcome.done (m1, l)) :
    SameShape m m1 ∧
    (scorched p l = [] → m1.Cells[k]? = some (ageSlot v)) ∧
    (∀ e, (scorched p l).getLast? = some e →
      (Before e.visit p → m1.Cells[k]? = some (some (Cell.Flame { frames := 59 }))) ∧
      (¬ Before e.visit p → m1.Cells[k]? = some (some (Cell.Flame { frames := 60 })))) := by
  unfold Map.UpdateS at h
  rw [Outcome.bind_eq_done] at h
  obtain ⟨s, hloop, hclean⟩ := h
  rw [Outcome.map_eq_done] at hclean
  obtain ⟨m1', hclean, he⟩ := hclean
  injection he with e1 e2
  subst e1
  subst e2
  have h0 : SlotAfter m p k v [] (m, []) := by
    refine ⟨SameShape.srefl m, fun _ => ⟨fun h => absurd h (List.not_mem_nil _), fun _ => hv⟩, ?_⟩
    intro e he
    simp [scorched] at he
  obtain ⟨hsh, hnone, hsome⟩ := Map.updateLoopS_slot m p k v hA hv m.coords [] (m, []) s
    (fun a ha => absurd ha (List.not_mem_nil _)) m.coords_pairwise h0 hloop
  rw [List.nil_append] at hnone hsome
  have hmem : p ∈ m.coords := Map.mem_coords_of_At hA
  obtain ⟨m2, hc2, hsh2, hspec⟩ := Map.Cleanup_spec s.1 (hsh.WF hwf)
  rw [hclean] at hc2
  injection hc2 with hc2
  subst hc2
  have hk := hspec p.1 p.2 k (by rw [hsh.At]; exact hA)
  refine ⟨hsh.strans hsh2, ?_, ?_⟩
  · intro h0
    rw [hk, (hnone h0).1 hmem]
    rfl
  · intro e he
    obtain ⟨-, h59, h60⟩ := hsome e he
    constructor
    · intro hb
      rw [hk, h59 ⟨hb, hmem⟩]
      simp only [Option.map_some', cleanSlot_flame 59 (by decide)]
    · intro hb
      rw [hk, h60 (fun h => hb h.1)]
      simp only [Option.map_some', cleanSlot_flame 60 (by decide)]

/-! ## Successive calls of `Map.Update` -/

theorem ageSlot_flame (f : Int) :
    ageSlot (some (Cell.Flame { frames := f })) =
      if f - 1 < 0 then none else some (Cell.Flame { frames := f - 1 }) := by
  simp only [ageSlot, tickSlot, cleanSlot, Cell.HasExpired, FlameCell.HasExpired,
    decide_eq_true_eq]

/-- A Flame with `f ≥ 0` frames that ages `n ≤ f` times has `f - n` frames; it
is gone when it has aged `f + 1` times. -/
theorem ageSlot_iterate_flame (n : Nat) : ∀ f : Int, 0 ≤ f →
    ((n : Int) ≤ f →
      ageSlot^[n] (some (Cell.Flame { frames := f })) = some (Cell.Flame { frames := f - n })) ∧
    ((n : Int) = f + 1 → ageSlot^[n] (some (Cell.Flame { frames := f })) = none) := by
  induction n with
  | zero =>
    intro f hf
    refine ⟨fun _ => ?_, fun h => ?_⟩
    · simp
    · push_cast at h
      omega
  | succ n ih =>
    intro f hf
    rw [Function.iterate_succ_apply, ageSlot_flame]
    by_cases h0 : f = 0
    · subst h0
      refine ⟨fun h => ?_, fun h => ?_⟩
      · push_cast at h
        omega
      · have hn : n = 0 := by
          push_cast at h
          omega
        subst hn
        rfl
    · rw [if_neg (by omega)]
      obtain ⟨h1, h2⟩ := ih (f - 1) (by omega)
      refine ⟨fun h => ?_, fun h => ?_⟩
      · have e : f - 1 - (n : Int) = f - ((n + 1 : Nat) : Int) := by
          push_cast
          omega
        rw [h1 (by push_cast at h; omega), e]
      · exact h2 (by push_cast at h; omega)

/-- Over `n` calls of `Map.Update` whose explosions write no Flame to `p`, the
slot of `p` ages `n` times. -/
theorem Map.updateNS_quiet (p : Int × Int) (k : Nat) (n : Nat) :
    ∀ (m : Map) (l0 : List Scorch) (v : Option Cell) (m' : Map) (l' : List Scorch), m.WF →
      m.At p.1 p.2 = some k → m.Cells[k]? = some v →
      Map.updateNS n (m, l0) = Outcome.done (m', l') →
      ∃ ext, l' = l0 ++ ext ∧ SameShape m m' ∧
        (scorched p ext = [] → m'.Cells[k]? = some (ageSlot^[n] v)) := by
  induction n with
  | zero =>
    intro m l0 v m' l' _ _ hv h
    unfold Map.updateNS at h
    injection h with h
    injection h with h1 h2
    subst h1
    subst h2
    exact ⟨[], by simp, SameShape.srefl m, fun _ => hv⟩
  | succ n ih =>
    intro m l0 v m' l' hwf hA hv h
    unfold Map.updateNS at h
    rw [Outcome.bind_eq_done] at h
    obtain ⟨⟨m1, l1⟩, hu, h⟩ := h
    simp only at hu h
    obtain ⟨hsh1, hq1, -⟩ := Map.UpdateS_slot m hwf p k v hA hv m1 l1 hu
    obtain ⟨v1, hv1⟩ : ∃ v1, m1.Cells[k]? = some v1 := by
      have hlt : k < m1.Cells.length := by
        rw [hsh1.2.2.2]
        by_contra hc
        rw [List.getElem?_eq_none (by omega)] at hv
        cases hv
      exact ⟨_, List.getElem?_eq_getElem hlt⟩
    obtain ⟨ext, he, hsh, hq⟩ := ih m1 (l0 ++ l1) v1 m' l' (hsh1.WF hwf)
      (by rw [hsh1.At]; exact hA) hv1 h
    refine ⟨l1 ++ ext, by rw [he, List.append_assoc], hsh1.strans hsh, ?_⟩
    intro h0
    rw [scorched_append, List.append_eq_nil] at h0
    have e1 := hq1 h0.1
    rw [hv1] at e1
    injection e1 with e1
    rw [hq h0.2, e1, Function.iterate_succ_apply]

/-- Inside a border of walls any number of calls of `Map.Update` return, and
the recording calls return the same grid. -/
theorem Map.updateNS_total (n : Nat) :
    ∀ (m : Map) (l0 : List Scorch), m.WF → m.Bordered →
      ∃ m' l', Map.updateNS n (m, l0) = Outcome.done (m', l') ∧
        m.updateN n = Outcome.done m' := by
  induction n with
  | zero =>
    intro m l0 _ _
    exact ⟨m, l0, rfl, rfl⟩
  | succ n ih =>
    intro m l0 hwf hb
    obtain ⟨m1, hu, hfr⟩ := Map.Update_total m hwf hb
    obtain ⟨l1, hS⟩ := Map.UpdateS_of_Update hu
    obtain ⟨m', l', h1, h2⟩ := ih m1 (l0 ++ l1) (hfr.1.WF hwf) (hfr.bordered hb)
    refine ⟨m', l', ?_, ?_⟩
    · unfold Map.updateNS
      rw [hS]
      exact h1
    · unfold Map.updateN
      rw [hu]
      exact h2

/-- A slot holding a Flame with `f ≥ 0` frames, over `n` calls of `Map.Update`
whose explosions write no Flame to it: it holds the Flame with `f - n` frames
while `n ≤ f`, and is empty after `f + 1` calls. -/
theorem Map.updateNS_flame (m : Map) (hwf : m.WF) (x y : Int) (k : Nat) (f : Int) (hf : 0 ≤ f)
    (hA : m.At x y = some k) (hv : m.Cells[k]? = some (some (Cell.Flame { frames := f })))
    (n : Nat) (mn : Map) (ln : List Scorch)
    (h : Map.updateNS n (m, []) = Outcome.done (mn, ln)) (hq : scorched (x, y) ln = []) :
    ((n : Int) ≤ f → mn.slot x y = some (some (Cell.Flame { frames := f - n }))) ∧
    ((n : Int) = f + 1 → mn.slot x y = some none) := by
  obtain ⟨ext, he, hsh, hcell⟩ := Map.updateNS_quiet (x, y) k n m [] _ mn ln hwf hA hv h
  rw [List.nil_append] at he
  subst he
  have hc := hcell hq
  obtain ⟨h1, h2⟩ := ageSlot_iterate_flame n f hf
  constructor
  · intro hn
    rw [h1 hn] at hc
    exact Map.slot_of_get hsh hA hc
  · intro hn
    rw [h2 hn] at hc
    exact Map.slot_of_get hsh hA hc

theorem Before.total (p q : Int × Int) : Before p q ∨ p = q ∨ Before q p := by
  obtain ⟨a, b⟩ := p
  obtain ⟨c, d⟩ := q
  unfold Before
  simp only [Prod.mk.injEq]
  omega

/-- C9, amended: in a well-formed grid inside a border of walls `Map.Update`
returns, and so does every later call.  Take a slot `(x, y)` that an explosion
of this `Update` (tick T) turned to Flame, that is, to which the closure `f`
wrote a new Flame of 60 frames, in a chain reaction or not; let `e` be the last
such write and `e.visit` the coordinate of the bomb whose `Update` started the
explosion that made it.  If `(x, y)` is that coordinate or is visited before it
in the order of the loop, the slot holds the Flame with 60 frames after tick
T, and over later calls that write no Flame to it, it holds the Flame with
`60 - n` frames after `n ≤ 60` calls (so it is still there after tick T+60) and
is empty after 61 calls.  If `(x, y)` is visited after that coordinate, the
Flame is ticked in tick T already: it has 59 frames after tick T, `59 - n`
frames after `n ≤ 59` later calls, and the slot is empty after 60 calls, that
is, after tick T+60. -/
theorem Update_flame_lifetime (m : Map) (hwf : m.WF) (hb : m.Bordered) :
    (∃ m1 l, m.UpdateS = Outcome.done (m1, l)) ∧
    ∀ (m1 : Map) (l : List Scorch), m.UpdateS = Outcome.done (m1, l) →
      m.Update = Outcome.done m1 ∧
      (∀ n : Nat, ∃ mn ln, Map.updateNS n (m1, []) = Outcome.done (mn, ln) ∧
        m1.updateN n = Outcome.done mn) ∧
      ∀ (x y : Int) (k : Nat) (e : Scorch), m.At x y = some k →
        (scorched (x, y) l).getLast? = some e →
        (Before e.visit (x, y) ∨ e.visit = (x, y) ∨ Before (x, y) e.visit) ∧
        ((e.visit = (x, y) ∨ Before (x, y) e.visit) →
          m1.slot x y = some (some (Cell.Flame { frames := 60 })) ∧
          ∀ (n : Nat) (mn : Map) (ln : List Scorch),
            Map.updateNS n (m1, []) = Outcome.done (mn, ln) → scorched (x, y) ln = [] →
            ((n : Int) ≤ 60 → mn.slot x y = some (some (Cell.Flame { frames := 60 - n }))) ∧
            ((n : Int) = 61 → mn.slot x y = some none)) ∧
        (Before e.visit (x, y) →
          m1.slot x y = some (some (Cell.Flame { frames := 59 })) ∧
          ∀ (n : Nat) (mn : Map) (ln : List Scorch),
            Map.updateNS n (m1, []) = Outcome.done (mn, ln) → scorched (x, y) ln = [] →
            ((n : Int) ≤ 59 → mn.slot x y = some (some (Cell.Flame { frames := 59 - n }))) ∧
            ((n : Int) = 60 → mn.slot x y = some none)) := by
  obtain ⟨m0, hu0, hfr0⟩ := Map.Update_total m hwf hb
  obtain ⟨l0, hS0⟩ := Map.UpdateS_of_Update hu0
  refine ⟨⟨m0, l0, hS0⟩, ?_⟩
  intro m1 l hS
  have hu := Map.Update_of_UpdateS hS
  have hfr : Frame m m1 := by
    rw [hu0] at hu
    injection hu with hu
    rw [← hu]
    exact hfr0
  have hwf1 : m1.WF := hfr.1.WF hwf
  refine ⟨hu, fun n => Map.updateNS_total n m1 [] hwf1 (hfr.bordered hb), ?_⟩
  intro x y k e hA he
  obtain ⟨v, hv⟩ := Map.get_of_At hwf hA
  obtain ⟨hsh, -, hlast⟩ := Map.UpdateS_slot m hwf (x, y) k v hA hv m1 l hS
  obtain ⟨h59, h60⟩ := hlast e he
  have hA1 : m1.At x y = some k := by rw [hsh.At]; exact hA
  refine ⟨Before.total _ _, ?_, ?_⟩
  · intro hpos
    have hnb : ¬ Before e.visit (x, y) := by
      rcases hpos with h | h
      · rw [h]
        exact Before.irrefl _
      · exact fun hb' => h.asymm hb'
    have hc := h60 hnb
    refine ⟨Map.slot_of_get (SameShape.srefl m1) hA1 hc, ?_⟩
    intro n mn ln hn hq
    exact Map.updateNS_flame m1 hwf1 x y k 60 (by decide) hA1 hc n mn ln hn hq
  · intro hpos
    have hc := h59 hpos
    refine ⟨Map.slot_of_get (SameShape.srefl m1) hA1 hc, ?_⟩
    intro n mn ln hn hq
    exact Map.updateNS_flame m1 hwf1 x y k 59 (by decide) hA1 hc n mn ln hn hq

/-- The well-formed grid `Example.fuseGrid` has a border of walls. -/
theorem Example.fuseGrid_bordered : Example.fuseGrid.WF ∧ Example.fuseGrid.Bordered := by
  refine ⟨⟨by decide, by decide, by decide⟩, ?_⟩
  intro x y i hA hb
  rw [Map.At_eq_some] at hA
  obtain ⟨h1, h2, h3, h4, rfl⟩ := hA
  simp only [Example.fuseGrid] at h2 h4 hb ⊢
  interval_cases x <;> interval_cases y <;> first | omega | rfl

/-- Witness of the amended C9 in `Example.fuseGrid`, where the explosion of the
bomb at (2,1) chains the bomb at (1,1).  The slot (1,1), turned to Flame in
that chain reaction and visited before (2,1), holds the Flame with 60 frames
after the `Update` and with 0 frames after 60 more calls; the slot (3,1),
visited after (2,1), holds it with 59 frames after the `Update` and is empty
after 60 more calls. -/
theorem Update_flame_lifetime_witness :
    Example.fuseGrid.UpdateS = Outcome.done (Example.fuseGridAfter1, Example.fuseLog) ∧
    Map.updateNS 60 (Example.fuseGridAfter1, []) = Outcome.done (Example.fuseGridAfter61, []) ∧
    (Example.fuseGridAfter1.slot 1 1 = some (some (Cell.Flame { frames := 60 })) ∧
      Example.fuseGridAfter61.slot 1 1 = some (some (Cell.Flame { frames := 60 - (60 : Nat) }))) ∧
    (Example.fuseGridAfter1.slot 3 1 = some (some (Cell.Flame { frames := 59 })) ∧
      Example.fuseGridAfter61.slot 3 1 = some none) :=
  ⟨by decide, by decide,
    ⟨((((Update_flame_lifetime Example.fuseGrid Example.fuseGrid_bordered.1
        Example.fuseGrid_bordered.2).2 Example.fuseGridAfter1 Example.fuseLog (by decide)).2.2
        1 1 6 ⟨(2, 1), (1, 1)⟩ (by decide) (by decide)).2.1 (Or.inr (by decide))).1,
      (((((Update_flame_lifetime Example.fuseGrid Example.fuseGrid_bordered.1
        Example.fuseGrid_bordered.2).2 Example.fuseGridAfter1 Example.fuseLog (by decide)).2.2
        1 1 6 ⟨(2, 1), (1, 1)⟩ (by decide) (by decide)).2.1 (Or.inr (by decide))).2
        60 Example.fuseGridAfter61 [] (by decide) (by decide)).1 (by decide)⟩,
    ⟨((((Update_flame_lifetime Example.fuseGrid Example.fuseGrid_bordered.1
        Example.fuseGrid_bordered.2).2 Example.fuseGridAfter1 Example.fuseLog (by decide)).2.2
        3 1 8 ⟨(2, 1), (3, 1)⟩ (by decide) (by decide)).2.2 (by decide)).1,
      (((((Update_flame_lifetime Example.fuseGrid Example.fuseGrid_bordered.1
        Example.fuseGrid_bordered.2).2 Example.fuseGridAfter1 Example.fuseLog (by decide)).2.2
        3 1 8 ⟨(2, 1), (3, 1)⟩ (by decide) (by decide)).2.2 (by decide)).2
        60 Example.fuseGridAfter61 [] (by decide) (by decide)).2 (by decide)⟩⟩

/-! ## C10: the bomb that is not reached -/

/-- C10: in a well-formed wall-bordered grid, for a bomb `b` at `(x, y)` with
one frame left and power at least 1: its `Update` decrements it to 0 and
applies the explosion rooted at `(x, y)` with its power; one `Map.Update`
returns, the calls of `Map.Explosion` it made include exactly one rooted at
`(x, y)`, with the power of `b`, and after the `Cleanup` that ends it the slot
`(x, y)` holds no bomb.  For a bomb with more than one frame left: its
`Update` only decrements it; `Map.Update` returns, and when no explosion of
this `Update` reached the slot, wherever else explosions took place, the slot
holds the bomb with its counter one less.  An explosion reaches a slot when
its walk calls `f` on it, and `f` then writes a new Flame there, the slot
holding no Wall: so the slot is reached exactly when a write to `(x, y)` is
recorded, and then it holds a Flame of this frame instead (60 frames left, or
59 when it was written before the slot was visited).  In particular the slot
holds the decremented bomb when no bomb of the grid is about to explode. -/
theorem Update_detonates_once :
    (∀ (m : Map) (b : BombCell) (x y : Int), m.WF → m.Bordered →
      m.slot x y = some (some (Cell.Bomb b)) → b.framesToExplosion = 1 → 1 ≤ b.power →
      (∀ (i : Nat) (s : Map), (Cell.Bomb b).Update x y i s =
        (s.store i (some (Cell.Bomb { b with framesToExplosion := 0 }))).Explosion
          { b with framesToExplosion := 0 } x y) ∧
      ∃ m1 l, m.UpdateT = Outcome.done (m1, l) ∧ m.Update = Outcome.done m1 ∧
        hitsAt x y l = [(x, y, b.power)] ∧
        ∀ c, m1.slot x y ≠ some (some (Cell.Bomb c))) ∧
    (∀ (m : Map) (b : BombCell) (x y : Int), m.WF → m.Bordered →
      m.slot x y = some (some (Cell.Bomb b)) → 1 < b.framesToExplosion →
      (∀ (i : Nat) (s : Map), (Cell.Bomb b).Update x y i s =
        Outcome.done (s.store i (some (Cell.Bomb
          { b with framesToExplosion := b.framesToExplosion - 1 })))) ∧
      ∃ m1 l, m.UpdateS = Outcome.done (m1, l) ∧ m.Update = Outcome.done m1 ∧
        (scorched (x, y) l = [] →
          m1.slot x y = some (some (Cell.Bomb
            { b with framesToExplosion := b.framesToExplosion - 1 }))) ∧
        (scorched (x, y) l ≠ [] →
          m1.slot x y = some (some (Cell.Flame { frames := 59 })) ∨
          m1.slot x y = some (some (Cell.Flame { frames := 60 }))) ∧
        (m1.slot x y = some (some (Cell.Bomb
            { b with framesToExplosion := b.framesToExplosion - 1 })) ∨
          m1.slot x y = some (some (Cell.Flame { frames := 59 })) ∨
          m1.slot x y = some (some (Cell.Flame { frames := 60 }))) ∧
        ((∀ (i : Nat) (c : BombCell), m.Cells[i]? = some (some (Cell.Bomb c)) →
            c.framesToExplosion ≠ 1) →
          m1.slot x y = some (some (Cell.Bomb
            { b with framesToExplosion := b.framesToExplosion - 1 })))) := by
  constructor
  · intro m b x y hwf hbord hslot hframes _
    rw [Map.slot_eq_some] at hslot
    obtain ⟨i0, hA0, hs0⟩ := hslot
    constructor
    · intro i s
      have hz : b.framesToExplosion - 1 = 0 := by omega
      simp only [Cell.Update, hz, eq_self_iff_true, if_true]
    · obtain ⟨m1, hu, hfr⟩ := Map.Update_total m hwf hbord
      have herase := Map.UpdateT_erase m
      rw [hu, Outcome.map_eq_done] at herase
      obtain ⟨⟨m1', l⟩, hT, he⟩ := herase
      simp only at he
      subst he
      refine ⟨m1', l, hT, hu, ?_, ?_⟩
      · unfold Map.UpdateT at hT
        rw [Outcome.bind_eq_done] at hT
        obtain ⟨s2, hloop, hc⟩ := hT
        rw [Outcome.map_eq_done] at hc
        obtain ⟨m1'', -, he⟩ := hc
        injection he with _ he
        rw [← he]
        exact Map.UpdateT_counts m b x y i0 hA0 hs0 hframes s2 hloop
      · intro c hc
        rw [Map.slot_eq_some] at hc
        obtain ⟨k, hk, hkc⟩ := hc
        rw [hfr.1.At, hA0] at hk
        injection hk with hk
        subst hk
        rcases Map.Update_bomb_slot m b x y i0 hwf hA0 hs0 m1' hu with ⟨h1, -⟩ | h2
        · omega
        · exact h2 c hkc
  · intro m b x y hwf hbord hslot hframes
    rw [Map.slot_eq_some] at hslot
    obtain ⟨i0, hA0, hs0⟩ := hslot
    constructor
    · intro i s
      simp only [Cell.Update]
      rw [if_neg (by omega)]
    · obtain ⟨m1, hu, hfr⟩ := Map.Update_total m hwf hbord
      have hA1 : m1.At x y = some i0 := by rw [hfr.1.At]; exact hA0
      obtain ⟨l, hS⟩ := Map.UpdateS_of_Update hu
      obtain ⟨-, hquiet, hlast⟩ := Map.UpdateS_slot m hwf (x, y) i0 _ hA0 hs0 m1 l hS
      refine ⟨m1, l, hS, hu, ?_, ?_, ?_, ?_⟩
      · intro hq
        rw [Map.slot_eq_some]
        refine ⟨i0, hA1, ?_⟩
        rw [hquiet hq]
        simp only [ageSlot, tickSlot, cleanSlot, Cell.HasExpired, BombCell.HasExpired,
          decide_eq_true_eq]
        rw [if_neg (by omega)]
      · intro hq
        cases he : (scorched (x, y) l).getLast? with
        | none =>
          rw [List.getLast?_eq_none_iff] at he
          exact absurd he hq
        | some e =>
          obtain ⟨h59, h60⟩ := hlast e he
          by_cases hb : Before e.visit (x, y)
          · left
            rw [Map.slot_eq_some]
            exact ⟨i0, hA1, h59 hb⟩
          · right
            rw [Map.slot_eq_some]
            exact ⟨i0, hA1, h60 hb⟩
      · rcases Map.Update_bomb_kept m b x y i0 hwf hA0 hs0 hframes m1 hu with h1 | h1 | h1
        · left
          rw [Map.slot_eq_some]
          exact ⟨i0, hA1, h1⟩
        · right
          left
          rw [Map.slot_eq_some]
          exact ⟨i0, hA1, h1⟩
        · right
          right
          rw [Map.slot_eq_some]
          exact ⟨i0, hA1, h1⟩
      · intro hcalm
        obtain ⟨m1', hu', -, hs'⟩ := Map.Update_calm m hwf (fun i cell hc => by
          cases cell with
          | Bomb c => exact hcalm i c hc
          | _ => trivial)
        rw [hu] at hu'
        injection hu' with hu'
        subst hu'
        rw [Map.slot_eq_some]
        refine ⟨i0, hA1, ?_⟩
        rw [hs' i0, hs0]
        simp only [Option.map_some', ageSlot, tickSlot, cleanSlot, Cell.HasExpired,
          BombCell.HasExpired, decide_eq_true_eq]
        rw [if_neg (by omega)]

/-- The well-formed grid `Example.shieldGrid` has a border of walls. -/
theorem Example.shieldGrid_bordered : Example.shieldGrid.WF ∧ Example.shieldGrid.Bordered := by
  refine ⟨⟨by decide, by decide, by decide⟩, ?_⟩
  intro x y i hA hb
  rw [Map.At_eq_some] at hA
  obtain ⟨h1, h2, h3, h4, rfl⟩ := hA
  simp only [Example.shieldGrid] at h2 h4 hb ⊢
  interval_cases x <;> interval_cases y <;> first | omega | rfl

/-- Witness of C10.  In `Example.tickGrid` one `Map.Update` returns
`Example.tickGridAfter1` after exactly one call of `Map.Explosion`, rooted at
(1,1) with power 2, and the slot (1,1) holds a Flame, not a bomb.  In
`Example.shieldGrid` the bomb at (1,1) explodes, the Soft cell at (2,1) stops
its blast, no Flame is written to (3,1), and the bomb there, with 5 frames
left, stays in its slot with 4.  In `Example.chainGrid` the bomb at (2,1), with
5 frames left, is reached by the explosion of the bomb at (1,1): after the
`Map.Update` its slot holds a Flame with 59 frames left. -/
theorem Update_detonates_once_witness :
    Example.tickGrid.UpdateT = Outcome.done (Example.tickGridAfter1, [(1, 1, 2)]) ∧
      Example.tickGrid.Update = Outcome.done Example.tickGridAfter1 ∧
      hitsAt 1 1 [((1 : Int), (1 : Int), (2 : Int))] = [(1, 1, 2)] ∧
      Example.tickGridAfter1.slot 1 1 = some (some (Cell.Flame { frames := 60 })) ∧
      (Example.shieldGrid.UpdateS = Outcome.done (Example.shieldGridAfter1, Example.shieldLog) ∧
        scorched (3, 1) Example.shieldLog = [] ∧
        Example.shieldGridAfter1.slot 3 1 = some (some (Cell.Bomb
          { framesToExplosion := 5 - 1, power := 1, putter := none }))) ∧
      (Example.chainGrid.UpdateS = Outcome.done (Example.chainGridAfter1, Example.chainLog) ∧
        scorched (2, 1) Example.chainLog ≠ [] ∧
        Example.chainGridAfter1.slot 2 1 = some (some (Cell.Flame { frames := 59 }))) ∧
      (∃ m1 l, Example.tickGrid.UpdateT = Outcome.done (m1, l) ∧
        Example.tickGrid.Update = Outcome.done m1 ∧ hitsAt 1 1 l = [(1, 1, 2)] ∧
        ∀ c, m1.slot 1 1 ≠ some (some (Cell.Bomb c))) ∧
      (∃ m1 l, Example.shieldGrid.UpdateS = Outcome.done (m1, l) ∧
        Example.shieldGrid.Update = Outcome.done m1 ∧
        (scorched (3, 1) l = [] →
          m1.slot 3 1 = some (some (Cell.Bomb
            { framesToExplosion := 5 - 1, power := 1, putter := none }))) ∧
        (scorched (3, 1) l ≠ [] →
          m1.slot 3 1 = some (some (Cell.Flame { frames := 59 })) ∨
          m1.slot 3 1 = some (some (Cell.Flame { frames := 60 }))) ∧
        (m1.slot 3 1 = some (some (Cell.Bomb
            { framesToExplosion := 5 - 1, power := 1, putter := none })) ∨
          m1.slot 3 1 = some (some (Cell.Flame { frames := 59 })) ∨
          m1.slot 3 1 = some (some (Cell.Flame { frames := 60 }))) ∧
        ((∀ (i : Nat) (c : BombCell),
            Example.shieldGrid.Cells[i]? = some (some (Cell.Bomb c)) →
              c.framesToExplosion ≠ 1) →
          m1.slot 3 1 = some (some (Cell.Bomb
            { framesToExplosion := 5 - 1, power := 1, putter := none })))) :=
  ⟨by decide, by decide, by decide, by decide,
    ⟨by decide, by decide, by decide⟩, ⟨by decide, by decide, by decide⟩,
    (Update_detonates_once.1 Example.tickGrid
      { framesToExplosion := 1, power := 2, putter := none } 1 1 Example.tickGrid_bordered.1
      Example.tickGrid_bordered.2 (by decide) rfl (by decide)).2,
    (Update_detonates_once.2 Example.shieldGrid
      { framesToExplosion := 5, power := 1, putter := none } 3 1 Example.shieldGrid_bordered.1
      Example.shieldGrid_bordered.2 (by decide) (by decide)).2⟩

end Bakuo
